import Mathlib

/-!
# hadesmem patch engine: `PatchRaw` and `PatchDetour`

A shallow embedding of `include/memory/hadesmem/patcher.hpp`.

The target process is a record `World` (byte memory, page protections, threads,
live allocations, an event trace).  The C++ methods are state transformers over a
pair `(World × patch object)` in a small state-and-exception monad `Exec`; a thrown
C++ exception keeps every side effect that happened before the `throw`.

Addresses and bytes are natural numbers.  A one-past-the-end pointer `p + n` of a
region is the natural-number sum; arithmetic the source performs on `intptr_t`,
`uintptr_t` or fixed-width integers is reduced modulo `2^w` explicitly.
-/

namespace hadesmem

/-! ## Errors and the execution monad -/

/-- Failures of the patch engine.  All but the last two are C++ exceptions
(`hadesmem::Error`); `undefinedBehaviour` stands for a null dereference or an
out-of-bounds read and `diverge` for a loop that does not end: neither is caught by
a `catch` clause. -/
inductive Error where
  | readFailure
  | writeFailure
  | allocFailure
  | threadInTarget
  | disassemblyFailed
  | unknownInstructionSize
  | noTrampolineBlock
  | fallbackDisabled
  | unexpectedStubSize
  | unexpectedRealStubSize
  | undefinedBehaviour
  | diverge
  deriving DecidableEq, Repr

/-- Whether the failure is a C++ exception, the only kind a `catch` clause sees. -/
def Error.isException : Error → Bool
  | .undefinedBehaviour => false
  | .diverge => false
  | _ => true

/-- Result of running a computation: a value or an error, and in both cases the
state reached. -/
inductive Res (σ α : Type) where
  | ok (a : α) (s : σ)
  | fail (e : Error) (s : σ)

/-- The state a result ends in. -/
def Res.state {σ α : Type} : Res σ α → σ
  | .ok _ s => s
  | .fail _ s => s

/-- Whether the result is a normal return. -/
def Res.isOk {σ α : Type} : Res σ α → Bool
  | .ok _ _ => true
  | .fail _ _ => false

/-- The error of a result, if it is one. -/
def Res.error? {σ α : Type} : Res σ α → Option Error
  | .ok _ _ => none
  | .fail e _ => some e

/-- State-and-exception computations. -/
def Exec (σ α : Type) : Type := σ → Res σ α

/-- Normal return. -/
def Exec.pure {σ α : Type} (a : α) : Exec σ α := fun s => .ok a s

/-- Sequencing: an exception in the first part skips the second. -/
def Exec.bind {σ α β : Type} (m : Exec σ α) (f : α → Exec σ β) : Exec σ β :=
  fun s => match m s with
    | .ok a s1 => f a s1
    | .fail e s1 => .fail e s1

instance {σ : Type} : Monad (Exec σ) where
  pure := Exec.pure
  bind := Exec.bind

/-- The C++ `throw`. -/
def Exec.throw {σ α : Type} (e : Error) : Exec σ α := fun s => .fail e s

/-- Read the whole state. -/
def Exec.get {σ : Type} : Exec σ σ := fun s => .ok s s

/-- Update the state. -/
def Exec.modify {σ : Type} (f : σ → σ) : Exec σ Unit := fun s => .ok () (f s)

/-- The C++ `try { m } catch (...) { h }`: only C++ exceptions are caught. -/
def Exec.tryCatch {σ α : Type} (m : Exec σ α) (h : Error → Exec σ α) : Exec σ α :=
  fun s => match m s with
    | .ok a s1 => .ok a s1
    | .fail e s1 => if e.isException then h e s1 else .fail e s1

/-- A scope with a destructor: `fin` runs when `m` leaves the scope, normally or by
an exception. -/
def Exec.scope {σ α : Type} (m : Exec σ α) (fin : σ → σ) : Exec σ α :=
  fun s => match m s with
    | .ok a s1 => .ok a (fin s1)
    | .fail e s1 => .fail e (fin s1)

/-! ## The target process -/

/-- Target architecture (`_M_IX86` / `_M_AMD64`). -/
inductive Arch where
  | x86
  | x64
  deriving DecidableEq, Repr

/-- Pointer width in bits. -/
def Arch.bits : Arch → Nat
  | .x86 => 32
  | .x64 => 64

/-- Protection state of a page of the target process. -/
inductive Prot where
  | free
  | noAccess
  | readOnly
  | readWrite
  deriving DecidableEq, Repr

/-- Whether a page with this protection can be read. -/
def Prot.canRead : Prot → Bool
  | .readOnly => true
  | .readWrite => true
  | _ => false

/-- Whether a page with this protection can be written. -/
def Prot.canWrite : Prot → Bool
  | .readWrite => true
  | _ => false

/-- An `Allocator` object: a block of memory allocated in the target process. -/
structure Block where
  base : Nat
  size : Nat
  deriving DecidableEq, Repr

/-- Observable actions on the target process, in the order they happen. -/
inductive Event where
  | suspend (pid : Nat)
  | resume (pid : Nat)
  | write (addr : Nat) (bytes : List Nat)
  | flush (addr : Nat) (len : Nat)
  | alloc (b : Block)
  | release (b : Block)
  deriving DecidableEq, Repr

/-- Modelled from the spec: the target process behind the Memory Access Port, the
Thread Census and the Trampoline Allocator backend (`hadesmem/read.hpp`,
`write.hpp`, `flush.hpp`, `alloc.hpp`, `thread_helpers.hpp` are not part of the
sources at hand).  `prot` gives the protection of each page (indexed by page
number), `threads` the identifier and saved instruction pointer of every thread,
`self` the calling thread, `live` the blocks currently allocated, `allocPlan` the
page numbers the operating system will pick for the coming allocations that do not
name an address (`none`: the allocation fails). -/
structure World where
  mem : Nat → Nat
  prot : Nat → Prot
  threads : List (Nat × Nat)
  self : Nat
  live : List Block
  allocPlan : List (Option Nat)
  suspendDepth : Nat
  trace : List Event

/-- The third-party decoder's view of an operand type or register
(`enum ud_type`), as far as the patcher looks at it. -/
inductive ud_type where
  | UD_NONE
  | UD_R_RIP
  | UD_OP_MEM
  | UD_OP_JIMM
  | UD_other
  deriving DecidableEq, Repr

/-- The decoder's mnemonic (`enum ud_mnemonic_code`), as far as the patcher looks
at it. -/
inductive ud_mnemonic_code where
  | UD_Ijmp
  | UD_Icall
  | UD_Iinvalid
  | UD_Iother
  deriving DecidableEq, Repr

/-- An instruction operand as reported by the decoder (`ud_operand_t`); `lval` is
the raw 64-bit value of the union the signed views are read from. -/
structure ud_operand where
  type : ud_type
  base : ud_type
  index : ud_type
  scale : Nat
  size : Nat
  offset : Nat
  lval : Nat
  deriving DecidableEq, Repr

/-- One decoded instruction: the value of `ud_disassemble` (its length, `0` at the
end of the input), `ud_obj.mnemonic` and `ud_insn_opr(&ud_obj, 0)`. -/
structure Insn where
  len : Nat
  mnemonic : ud_mnemonic_code
  opr0 : Option ud_operand
  deriving DecidableEq, Repr

/-- The instruction sequences the patcher asks the assembler for. -/
inductive Stub where
  | jmp (target : Nat)
  | jmpMem (disp : Int)
  | call (target : Nat)
  | callMem (disp : Int)
  | pushRet (low : Nat)
  | pushMovRet (low : Nat) (high : Nat)
  deriving DecidableEq, Repr

/-- The build configuration and the third-party services: the architecture, the
system information (`GetSystemInfo`), the decoder (udis86: what it reports for the
bytes still in its input buffer) and the assembler (AsmJit: `getCodeSize` and
`relocCode`, the latter giving the relocated code and its return value). -/
structure Env where
  arch : Arch
  pageSize : Nat
  minAppAddr : Nat
  maxAppAddr : Nat
  decode : List Nat → Insn
  getCodeSize : Stub → Nat
  relocCode : Stub → Nat → List Nat × Nat

/-! ## Memory Access Port, Thread Census, allocator -/

/-- Page number of an address. -/
def pageOf (env : Env) (a : Nat) : Nat := a / env.pageSize

/-- Whether every byte of `[a, a+n)` lies on a readable page. -/
def World.canReadRange (env : Env) (w : World) (a n : Nat) : Bool :=
  (List.range n).all fun i => (w.prot (pageOf env (a + i))).canRead

/-- Whether every byte of `[a, a+n)` lies on a writable page. -/
def World.canWriteRange (env : Env) (w : World) (a n : Nat) : Bool :=
  (List.range n).all fun i => (w.prot (pageOf env (a + i))).canWrite

/-- The `n` bytes stored at `[a, a+n)`. -/
def World.bytesAt (w : World) (a n : Nat) : List Nat :=
  (List.range n).map fun i => w.mem (a + i)

/-- Memory after storing `bytes` at `a`. -/
def World.store (w : World) (a : Nat) (bytes : List Nat) : Nat → Nat :=
  fun x => if a ≤ x ∧ x < a + bytes.length then bytes.getD (x - a) 0 else w.mem x

/-- Append an event to the trace. -/
def World.log (w : World) (e : Event) : World :=
  { w with trace := w.trace ++ [e] }

/-- Modelled from the spec: `ReadBytes(addr, len) -> bytes | Fail(ReadFailure)`
(`ReadVector<BYTE>` of `hadesmem/read.hpp`, not part of the sources at hand). -/
def ReadVector {π : Type} (env : Env) (a n : Nat) : Exec (World × π) (List Nat) :=
  fun s =>
    if s.1.canReadRange env a n then .ok (s.1.bytesAt a n) s
    else .fail .readFailure s

/-- Modelled from the spec: `WriteBytes(addr, bytes) -> Fail(WriteFailure)`
(`WriteVector` / `Write` of `hadesmem/write.hpp`, not part of the sources at hand):
all of the bytes are stored, or none is and the write fails. -/
def WriteVector {π : Type} (env : Env) (a : Nat) (bytes : List Nat) :
    Exec (World × π) Unit :=
  fun s =>
    if s.1.canWriteRange env a bytes.length then
      .ok () ({ s.1 with mem := s.1.store a bytes,
                         trace := s.1.trace ++ [Event.write a bytes] }, s.2)
    else .fail .writeFailure s

/-- Modelled from the spec: `FlushInstructionCache(addr, len)` (`hadesmem/flush.hpp`,
not part of the sources at hand). -/
def FlushInstructionCache {π : Type} (a n : Nat) : Exec (World × π) Unit :=
  Exec.modify fun s => (s.1.log (Event.flush a n), s.2)

/-- Little-endian encoding of `v` in `n` bytes. -/
def leBytes : Nat → Nat → List Nat
  | 0, _ => []
  | n + 1, v => (v % 256) :: leBytes n (v / 256)

/-- Value of a little-endian byte string. -/
def leValue : List Nat → Nat
  | [] => 0
  | b :: bs => b % 256 + 256 * leValue bs

/-- Modelled from the spec: a pointer-sized `Write` of the Memory Access Port
(`Write(process, address, value)` of `hadesmem/write.hpp`). -/
def WritePtr {π : Type} (env : Env) (a v : Nat) : Exec (World × π) Unit :=
  WriteVector env a (leBytes (env.arch.bits / 8) (v % 2 ^ env.arch.bits))

/-- Modelled from the spec: a pointer-sized `Read` of the Memory Access Port
(`Read<void*>(process, address)` of `hadesmem/read.hpp`). -/
def ReadPtr {π : Type} (env : Env) (a : Nat) : Exec (World × π) Nat :=
  fun s => match ReadVector env a (env.arch.bits / 8) s with
    | .ok bs s1 => .ok (leValue bs) s1
    | .fail e s1 => .fail e s1

/-- Modelled from the spec: `SuspendAllExcept(pid, self_thread_id) -> scoped guard
(auto-resume on drop)` (`SuspendedProcess` of `hadesmem/thread_helpers.hpp`): the
constructor. -/
def World.suspend (w : World) (pid : Nat) : World :=
  { w with suspendDepth := w.suspendDepth + 1, trace := w.trace ++ [Event.suspend pid] }

/-- Modelled from the spec: the destructor of the `SuspendedProcess` guard. -/
def World.resume (w : World) (pid : Nat) : World :=
  { w with suspendDepth := w.suspendDepth - 1, trace := w.trace ++ [Event.resume pid] }

/-- The body of a method that declares
`SuspendedProcess const suspended_process(pid);` and then runs `body`. -/
def withSuspendedProcess {π α : Type} (pid : Nat) (body : Exec (World × π) α) :
    Exec (World × π) α :=
  fun s => Exec.scope body (fun s1 => (s1.1.resume pid, s1.2)) (s.1.suspend pid, s.2)

/-- Value of `process_->GetId()`: dereferencing a null `process_` is undefined. -/
def processId {σ : Type} (process_ : Option Nat) : Exec σ Nat :=
  match process_ with
  | some pid => Exec.pure pid
  | none => Exec.throw .undefinedBehaviour

/-- Number of pages an allocation of `size` bytes takes. -/
def pagesFor (env : Env) (size : Nat) : Nat :=
  (size + env.pageSize - 1) / env.pageSize

/-- Whether the `n` pages from page `k` on are all free. -/
def World.pagesFree (w : World) (k n : Nat) : Bool :=
  (List.range n).all fun i => decide (w.prot (k + i) = Prot.free)

/-- Protections after giving the `n` pages from page `k` on the protection `pr`. -/
def World.setPages (w : World) (k n : Nat) (pr : Prot) : Nat → Prot :=
  fun q => if k ≤ q ∧ q < k + n then pr else w.prot q

/-- The world after committing the block of `size` bytes at page `k`. -/
def World.commit (env : Env) (w : World) (k size : Nat) : World :=
  { w with prot := w.setPages k (pagesFor env size) Prot.readWrite,
           live := { base := k * env.pageSize, size := size } :: w.live,
           trace := w.trace ++ [Event.alloc { base := k * env.pageSize, size := size }] }

/-- Modelled from the spec: the Trampoline Allocator backend for a request that
names no address (`Allocator(process, size)` of `hadesmem/alloc.hpp`, not part of
the sources at hand): the system picks the pages; they must be free. -/
def allocate {π : Type} (env : Env) (size : Nat) : Exec (World × π) Block :=
  fun s =>
    match s.1.allocPlan with
    | [] => .fail .allocFailure s
    | none :: plan => .fail .allocFailure ({ s.1 with allocPlan := plan }, s.2)
    | some k :: plan =>
      if 0 < pagesFor env size ∧ s.1.pagesFree k (pagesFor env size) then
        .ok { base := k * env.pageSize, size := size }
          ({ s.1.commit env k size with allocPlan := plan }, s.2)
      else .fail .allocFailure ({ s.1 with allocPlan := plan }, s.2)

/-- Modelled from the spec: `AllocateExecutableNear(hint_addr, size) -> addr | None`
for one candidate address (`Allocator(process, size, addr)` of `hadesmem/alloc.hpp`,
not part of the sources at hand): the pages holding `[addr, addr+size)` from the
start of the page of `addr` must be free. -/
def allocateAt {π : Type} (env : Env) (size addr : Nat) : Exec (World × π) Block :=
  fun s =>
    if 0 < pagesFor env size ∧ s.1.pagesFree (pageOf env addr) (pagesFor env size) then
      .ok { base := pageOf env addr * env.pageSize, size := size }
        (s.1.commit env (pageOf env addr) size, s.2)
    else .fail .allocFailure s

/-- The world after the destructor of an `Allocator` object ran: its pages are free
again. -/
def World.release (env : Env) (w : World) (b : Block) : World :=
  { w with prot := w.setPages (pageOf env b.base) (pagesFor env b.size) Prot.free,
           live := w.live.erase b,
           trace := w.trace ++ [Event.release b] }

/-- Destroy an optional `Allocator` (`std::unique_ptr<Allocator>::reset`). -/
def World.releaseOpt (env : Env) (w : World) : Option Block → World
  | none => w
  | some b => w.release env b

/-- Destroy a vector of `Allocator` objects, first element first. -/
def World.releaseAll (env : Env) (w : World) : List Block → World
  | [] => w
  | b :: bs => (w.release env b).releaseAll env bs

/-! ## `detail::VerifyPatchThreads` (patcher.hpp, lines 85-110) -/

/-- The loop over the thread list: `true` when the exception is thrown.  The end
`target + len` of the range is taken as a number, which is the pointer sum of line
104 for a range that ends inside the address space; `VerifyPatchThreads.loopPtr`
below is the loop with the sum on pointers. -/
def VerifyPatchThreads.loop (self target len : Nat) : List (Nat × Nat) → Bool
  | [] => false
  | (tid, ip) :: rest =>
    if tid = self then VerifyPatchThreads.loop self target len rest
    else if target ≤ ip ∧ ip < target + len then true
    else VerifyPatchThreads.loop self target len rest

/-- The function `detail::VerifyPatchThreads(pid, target, len)`: throws if a thread
of the process other than the caller has its instruction pointer in
`[target, target+len)`.  The world is the process named by `pid`, and
`ThreadList threads(pid)` its thread list. -/
def VerifyPatchThreads {π : Type} (_pid : Nat) (target len : Nat) : Exec (World × π) Unit :=
  fun s =>
    if VerifyPatchThreads.loop s.1.self target len s.1.threads then
      .fail .threadInTarget s
    else .ok () s

/-- The data members of `PatchRaw`; a null pointer is `none` for `process_` and `0`
for `target_`. -/
structure PatchRaw where
  process_ : Option Nat
  applied_ : Bool
  target_ : Nat
  data_ : List Nat
  orig_ : List Nat
  deriving DecidableEq, Repr

namespace PatchRaw

/-- The constructor `PatchRaw(process, target, data)`. -/
def new (process : Nat) (target : Nat) (data : List Nat) : PatchRaw :=
  { process_ := some process, applied_ := false, target_ := target, data_ := data,
    orig_ := [] }

/-- The move constructor `PatchRaw(PatchRaw&& other)`: the new object and what is
left of `other`. -/
def moveCtor (other : PatchRaw) : PatchRaw × PatchRaw :=
  ({ process_ := other.process_, applied_ := other.applied_, target_ := other.target_,
     data_ := other.data_, orig_ := other.orig_ },
   { process_ := none, applied_ := false, target_ := 0, data_ := [], orig_ := [] })

/-- The accessor `IsApplied()`. -/
def IsApplied (p : PatchRaw) : Bool := p.applied_

/-- The method `Apply()`. -/
def Apply (env : Env) : Exec (World × PatchRaw) Unit := do
  let s ← Exec.get
  if s.2.applied_ then
    pure ()
  else do
    let pid ← processId s.2.process_
    withSuspendedProcess pid do
      VerifyPatchThreads pid s.2.target_ s.2.data_.length
      let orig ← ReadVector env s.2.target_ s.2.data_.length
      Exec.modify fun s1 => (s1.1, { s1.2 with orig_ := orig })
      WriteVector env s.2.target_ s.2.data_
      FlushInstructionCache s.2.target_ s.2.data_.length
      Exec.modify fun s1 => (s1.1, { s1.2 with applied_ := true })

/-- The method `Remove()`. -/
def Remove (env : Env) : Exec (World × PatchRaw) Unit := do
  let s ← Exec.get
  if !s.2.applied_ then
    pure ()
  else do
    let pid ← processId s.2.process_
    withSuspendedProcess pid do
      VerifyPatchThreads pid s.2.target_ s.2.data_.length
      WriteVector env s.2.target_ s.2.orig_
      FlushInstructionCache s.2.target_ s.2.orig_.length
      Exec.modify fun s1 => (s1.1, { s1.2 with applied_ := false })

/-- The method `RemoveUnchecked()`; the trace output and the assertion macro in the
handler have no effect on the state. -/
def RemoveUnchecked (env : Env) : Exec (World × PatchRaw) Unit :=
  Exec.tryCatch (Remove env) fun _ =>
    Exec.modify fun s => (s.1, { process_ := none, applied_ := false, target_ := 0,
                                 data_ := [], orig_ := [] })

/-- The move assignment `operator=(PatchRaw&& other)`, run on `*this` in the state:
the value is what is left of `other`. -/
def moveAssign (env : Env) (other : PatchRaw) : Exec (World × PatchRaw) PatchRaw := do
  RemoveUnchecked env
  Exec.modify fun s =>
    (s.1, { process_ := other.process_, applied_ := other.applied_,
            target_ := other.target_, data_ := other.data_, orig_ := other.orig_ })
  pure { process_ := none, applied_ := false, target_ := 0, data_ := [], orig_ := [] }

/-- The destructor `~PatchRaw()`. -/
def destroy (env : Env) : Exec (World × PatchRaw) Unit := RemoveUnchecked env

end PatchRaw


/-! ## `PatchDetour` (patcher.hpp, lines 237-846) -/

/-- The data members of `PatchDetour`; a null pointer is `none` for `process_` and
for the owning `trampoline_`, and `0` for `target_` and `detour_`. -/
structure PatchDetour where
  process_ : Option Nat
  applied_ : Bool
  target_ : Nat
  detour_ : Nat
  trampoline_ : Option Block
  orig_ : List Nat
  trampolines_ : List Block
  deriving DecidableEq, Repr

/-- Two's-complement reading of the low `bits` bits of `v`. -/
def sext (bits : Nat) (v : Nat) : Int :=
  if v % 2 ^ bits < 2 ^ (bits - 1) then ((v % 2 ^ bits : Nat) : Int)
  else ((v % 2 ^ bits : Nat) : Int) - ((2 ^ bits : Nat) : Int)

/-- The bit pattern of an integer in `bits` bits. -/
def wrap (bits : Nat) (x : Int) : Nat := (x % ((2 ^ bits : Nat) : Int)).toNat

/-- Contents of a buffer of `n` zero bytes after `code` was copied to its start. -/
def fitBuf (n : Nat) (code : List Nat) : List Nat :=
  (code ++ List.replicate n 0).take n

namespace PatchDetour

/-- The constant `kJumpSize32`. -/
def kJumpSize32 : Nat := 5

/-- The constant `kCallSize32`. -/
def kCallSize32 : Nat := 5

/-- The constant `kJumpSize64`. -/
def kJumpSize64 : Arch → Nat
  | .x64 => 6
  | .x86 => kJumpSize32

/-- The constant `kCallSize64`. -/
def kCallSize64 : Arch → Nat
  | .x64 => 6
  | .x86 => kCallSize32

/-- The constant `kPushRetSizeBig64`. -/
def kPushRetSizeBig64 : Nat := 14

/-- The constant `kPushRetSizeSmall64`. -/
def kPushRetSizeSmall64 : Nat := 6

/-- The constructor `PatchDetour(process, target, detour)`. -/
def new (process : Nat) (target detour : Nat) : PatchDetour :=
  { process_ := some process, applied_ := false, target_ := target, detour_ := detour,
    trampoline_ := none, orig_ := [], trampolines_ := [] }

/-- The move constructor `PatchDetour(PatchDetour&& other)`: the new object and
what is left of `other`. -/
def moveCtor (other : PatchDetour) : PatchDetour × PatchDetour :=
  ({ process_ := other.process_, applied_ := other.applied_, target_ := other.target_,
     detour_ := other.detour_, trampoline_ := other.trampoline_, orig_ := other.orig_,
     trampolines_ := other.trampolines_ },
   { process_ := none, applied_ := false, target_ := 0, detour_ := 0,
     trampoline_ := none, orig_ := [], trampolines_ := [] })

/-- The method `IsNear(address, target)`: `rel` is computed in `intptr_t` and
compared, as a 64-bit signed value, with the limits of `std::uint32_t`. -/
def IsNear (env : Env) (address target : Nat) : Bool :=
  match env.arch with
  | .x64 =>
    let rel := sext 64 (wrap 64 (sext 64 target - sext 64 address - 5))
    decide (rel > 0) && decide (rel < 4294967295)
  | .x86 => true

/-- The lambda `allocate_tramp` of `AllocatePageNear`: a failed allocation gives a
null pointer. -/
def allocate_tramp (env : Env) (addr size : Nat) :
    Exec (World × PatchDetour) (Option Block) :=
  Exec.tryCatch (allocateAt env size addr >>= fun b => pure (some b)) (fun _ => pure none)

/-- The search loop of `AllocatePageNear` (lines 556-579); `fuel` bounds the number
of iterations. -/
def AllocatePageNear.search (env : Env) (base search_beg search_end : Int) :
    Nat → Int → Exec (World × PatchDetour) (Option Block)
  | 0, _ => Exec.throw .diverge
  | fuel + 1, index =>
    if base + index < search_end ∨ base - index > search_beg then do
      let higher := base + index
      let up ← (if higher < search_end then
                  allocate_tramp env (wrap 64 higher) env.pageSize
                else pure none)
      match up with
      | some b => pure (some b)
      | none => do
        let lower := base - index
        let down ← (if lower > search_beg then
                      allocate_tramp env (wrap 64 lower) env.pageSize
                    else pure none)
        match down with
        | some b => pure (some b)
        | none => AllocatePageNear.search env base search_beg search_end fuel
                    (index + env.pageSize)
    else pure none

/-- The method `AllocatePageNear(address)`. -/
def AllocatePageNear (env : Env) (address : Nat) : Exec (World × PatchDetour) Block :=
  match env.arch with
  | .x64 => do
    let search_beg := max (sext 64 address - 0x7FFFFF00) (sext 64 env.minAppAddr)
    let search_end := min (sext 64 address + 0x7FFFFF00) (sext 64 env.maxAppAddr)
    let trampoline ← AllocatePageNear.search env (sext 64 address) search_beg search_end
      (0x7FFFFF00 / env.pageSize + 2) 0
    match trampoline with
    | none => Exec.throw .noTrampolineBlock
    | some b => pure b
  | .x86 => allocate env env.pageSize

/-- A local `std::unique_ptr<Allocator>` going out of scope by an exception: the
block is released and the exception travels on. -/
def releasingOnFailure {α : Type} (env : Env) (b : Block)
    (m : Exec (World × PatchDetour) α) : Exec (World × PatchDetour) α :=
  fun s => match m s with
    | .ok a s1 => .ok a s1
    | .fail e s1 => .fail e (s1.1.release env b, s1.2)

/-- `trampolines_.emplace_back(std::move(trampoline))`. -/
def pushTrampoline (b : Block) : Exec (World × PatchDetour) Unit :=
  Exec.modify fun s => (s.1, { s.2 with trampolines_ := s.2.trampolines_ ++ [b] })

/-- The displacement handed to the assembler for a memory-indirect jump or call:
`tramp_addr - address - sizeof(std::int32_t)`, cut to `std::int32_t`. -/
def memDisp (tramp_addr address : Nat) : Int :=
  sext 32 (wrap 64 ((tramp_addr : Int) - (address : Int) - 4))

/-- The first part of `WriteJump` (lines 621-732): which stub is assembled, its
expected size, and whether the assembler's own trampoline must be dropped. -/
def WriteJump.plan (env : Env) (address target : Nat) (push_ret_fallback : Bool) :
    Exec (World × PatchDetour) (Stub × Nat × Bool) :=
  match env.arch with
  | .x64 =>
    if IsNear env address target then
      pure (Stub.jmp target, 0x13, true)
    else do
      let trampoline ← Exec.tryCatch (AllocatePageNear env address >>= fun b => pure (some b))
        (fun _ => pure none)
      match trampoline with
      | some tr => do
        releasingOnFailure env tr (WritePtr env tr.base target)
        pushTrampoline tr
        pure (Stub.jmpMem (memDisp tr.base address), kJumpSize64 env.arch, false)
      | none =>
        if !push_ret_fallback then
          Exec.throw .fallbackDisabled
        else
          let target_uint := target % 2 ^ 64
          let target_high := (target_uint / 2 ^ 32) % 2 ^ 32
          let target_low := target_uint % 2 ^ 32
          if target_high ≠ 0 then
            pure (Stub.pushMovRet target_low target_high, kPushRetSizeBig64, false)
          else
            pure (Stub.pushRet target_low, kPushRetSizeSmall64, false)
  | .x86 => pure (Stub.jmp target, kJumpSize32, false)

/-- The method `WriteJump(address, target, push_ret_fallback)`; the value returned
is `jump_buf.size()`. -/
def WriteJump (env : Env) (address target : Nat) (push_ret_fallback : Bool) :
    Exec (World × PatchDetour) Nat := do
  let (stub, expected_stub_size, asmjit_trampoline) ←
    WriteJump.plan env address target push_ret_fallback
  let stub_size := env.getCodeSize stub
  if stub_size ≠ expected_stub_size then
    Exec.throw .unexpectedStubSize
  else do
    let stub_size_real := (env.relocCode stub address).2
    let jump_buf := fitBuf stub_size (env.relocCode stub address).1
    if asmjit_trampoline then
      if stub_size_real ≠ kJumpSize32 then
        Exec.throw .unexpectedRealStubSize
      else do
        WriteVector env address (jump_buf.take stub_size_real)
        pure (jump_buf.take stub_size_real).length
    else do
      WriteVector env address jump_buf
      pure jump_buf.length

/-- The first part of `WriteCall` (lines 774-802): the stub assembled and its
expected size. -/
def WriteCall.plan (env : Env) (address target : Nat) :
    Exec (World × PatchDetour) (Stub × Nat) :=
  match env.arch with
  | .x64 => do
    let tr ← AllocatePageNear env address
    releasingOnFailure env tr (WritePtr env tr.base target)
    pushTrampoline tr
    pure (Stub.callMem (memDisp tr.base address), kCallSize64 env.arch)
  | .x86 => pure (Stub.call target, kCallSize32)

/-- The method `WriteCall(address, target)`; the value returned is `stub_size`. -/
def WriteCall (env : Env) (address target : Nat) : Exec (World × PatchDetour) Nat := do
  let (stub, expected_stub_size) ← WriteCall.plan env address target
  let stub_size := env.getCodeSize stub
  if stub_size ≠ expected_stub_size then
    Exec.throw .unexpectedStubSize
  else do
    WriteVector env address (fitBuf stub_size (env.relocCode stub address).1)
    pure stub_size

/-- The lambda `resolve_rel(base, target, insn_len)`: pointer arithmetic on
`reinterpret_cast<std::uint8_t*>(static_cast<std::uintptr_t>(base))`. -/
def resolve_rel (env : Env) (base : Nat) (target : Int) (insn_len : Nat) : Nat :=
  wrap env.arch.bits (((base % 2 ^ env.arch.bits : Nat) : Int) + target + (insn_len : Int))

/-- The test `is_jimm` of the decode loop. -/
def is_jimm (op : Option ud_operand) : Bool :=
  match op with
  | some o => decide (o.type = ud_type.UD_OP_JIMM)
  | none => false

/-- The test `is_jmem` of the decode loop (`JMP QWORD PTR [RIP+Rel32]`). -/
def is_jmem (op : Option ud_operand) : Bool :=
  match op with
  | some o => decide (o.type = ud_type.UD_OP_MEM) && decide (o.base = ud_type.UD_R_RIP) &&
      decide (o.index = ud_type.UD_NONE) && decide (o.scale = 0) && decide (o.size = 0x40)
  | none => false

/-- The `switch (size)` of the decode loop: the signed displacement, or the
exception of the `default` label. -/
def insnTarget (size : Nat) (lval : Nat) : Exec (World × PatchDetour) Int :=
  if size = 8 then pure (sext 8 lval)
  else if size = 16 then pure (sext 16 lval)
  else if size = 32 then pure (sext 32 lval)
  else if size = 64 then pure (sext 64 lval)
  else Exec.throw .unknownInstructionSize

/-- One pass through the body of the `do ... while` loop of `Apply` (lines
351-440), for the instruction `insn` decoded from the input `rest`: the new value of
`tramp_cur`. -/
def Apply.step (env : Env) (target instr_size tramp_cur : Nat) (rest : List Nat)
    (insn : Insn) : Exec (World × PatchDetour) Nat :=
  if insn.len = 0 then
    Exec.throw .disassemblyFailed
  else
    match insn.opr0 with
    | some op =>
      if (insn.mnemonic = ud_mnemonic_code.UD_Ijmp ∨ insn.mnemonic = ud_mnemonic_code.UD_Icall)
          ∧ (is_jimm insn.opr0 ∨ is_jmem insn.opr0) then do
        let size := if is_jimm insn.opr0 then op.size else op.offset
        let insn_target ← insnTarget size op.lval
        let insn_base := (target + instr_size) % 2 ^ 64
        let insn_len := insn.len
        let resolved_target := resolve_rel env insn_base insn_target insn_len
        let jump_target ← (if is_jimm insn.opr0 then pure resolved_target
                           else ReadPtr env resolved_target)
        if insn.mnemonic = ud_mnemonic_code.UD_Ijmp then do
          let n ← WriteJump env tramp_cur jump_target true
          pure (tramp_cur + n)
        else do
          let n ← WriteCall env tramp_cur jump_target
          pure (tramp_cur + n)
      else if insn.len ≤ rest.length then do
        WriteVector env tramp_cur (rest.take insn.len)
        pure (tramp_cur + insn.len)
      else Exec.throw .undefinedBehaviour
    | none =>
      if insn.len ≤ rest.length then do
        WriteVector env tramp_cur (rest.take insn.len)
        pure (tramp_cur + insn.len)
      else Exec.throw .undefinedBehaviour

/-- The `do ... while (instr_size < jump_size)` loop of `Apply` (lines 348-441),
started with the decoder input `rest`, `tramp_cur` and `instr_size`: the final
`tramp_cur` and `instr_size`.  `fuel` bounds the number of passes. -/
def Apply.decodeLoop (env : Env) (target jump_size : Nat) :
    Nat → List Nat → Nat → Nat → Exec (World × PatchDetour) (Nat × Nat)
  | 0, _, _, _ => Exec.throw .diverge
  | fuel + 1, rest, tramp_cur, instr_size => do
    let insn := env.decode rest
    let tramp_cur1 ← Apply.step env target instr_size tramp_cur rest insn
    let instr_size1 := instr_size + insn.len
    if instr_size1 < jump_size then
      Apply.decodeLoop env target jump_size fuel (rest.drop insn.len) tramp_cur1 instr_size1
    else pure (tramp_cur1, instr_size1)

/-- The constant `kTrampSize` of `Apply`: three times `kMaxInstructionLen`. -/
def kTrampSize : Nat := 15 * 3

/-- The value of `jump_size` in `Apply`. -/
def jumpSize (env : Env) (p : PatchDetour) : Nat :=
  if IsNear env p.target_ p.detour_ then kJumpSize32 else kJumpSize64 env.arch

/-- `trampoline_ = std::make_unique<Allocator>(*process_, kTrampSize)`: the new
block is allocated first, then the assignment destroys the `Allocator` held so
far. -/
def Apply.newTrampoline (env : Env) : Exec (World × PatchDetour) Block := do
  let tr ← allocate env kTrampSize
  Exec.modify fun s => (s.1.releaseOpt env s.2.trampoline_, { s.2 with trampoline_ := some tr })
  pure tr

/-- The part of `Apply` that builds the trampoline and takes the snapshot (lines
316-449), inside the suspension: the value of `instr_size`. -/
def Apply.build (env : Env) (p : PatchDetour) : Exec (World × PatchDetour) Nat := do
  let tr ← Apply.newTrampoline env
  let buffer ← ReadVector env p.target_ kTrampSize
  let jump_size := jumpSize env p
  let (tramp_cur, instr_size) ←
    Apply.decodeLoop env p.target_ jump_size jump_size buffer tr.base 0
  let _ ← WriteJump env tramp_cur (p.target_ + instr_size) true
  FlushInstructionCache tr.base tr.size
  let orig ← ReadVector env p.target_ jump_size
  Exec.modify fun s => (s.1, { s.2 with orig_ := orig })
  pure instr_size

/-- The part of `Apply` that checks the threads and writes the stub at the target
(lines 453-459), inside the suspension. -/
def Apply.install (env : Env) (pid : Nat) (p : PatchDetour) (instr_size : Nat) :
    Exec (World × PatchDetour) Unit := do
  let s ← Exec.get
  VerifyPatchThreads pid p.target_ s.2.orig_.length
  let _ ← WriteJump env p.target_ p.detour_ false
  FlushInstructionCache p.target_ instr_size
  Exec.modify fun s1 => (s1.1, { s1.2 with applied_ := true })

/-- The method `Apply()`. -/
def Apply (env : Env) : Exec (World × PatchDetour) Unit := do
  let s ← Exec.get
  if s.2.applied_ then
    pure ()
  else do
    let pid ← processId s.2.process_
    withSuspendedProcess pid do
      let instr_size ← Apply.build env s.2
      Apply.install env pid s.2 instr_size

/-- Value of `trampoline_->GetBase()` / `trampoline_->GetSize()`: dereferencing a
null `trampoline_` is undefined. -/
def derefTrampoline (t : Option Block) : Exec (World × PatchDetour) Block :=
  match t with
  | some b => Exec.pure b
  | none => Exec.throw .undefinedBehaviour

/-- The method `Remove()`. -/
def Remove (env : Env) : Exec (World × PatchDetour) Unit := do
  let s ← Exec.get
  if !s.2.applied_ then
    pure ()
  else do
    let pid ← processId s.2.process_
    withSuspendedProcess pid do
      VerifyPatchThreads pid s.2.target_ s.2.orig_.length
      let tr ← derefTrampoline s.2.trampoline_
      VerifyPatchThreads pid tr.base tr.size
      WriteVector env s.2.target_ s.2.orig_
      Exec.modify fun s1 =>
        (s1.1.releaseOpt env s1.2.trampoline_, { s1.2 with trampoline_ := none })
      Exec.modify fun s1 =>
        (s1.1.releaseAll env s1.2.trampolines_, { s1.2 with trampolines_ := [] })
      Exec.modify fun s1 => (s1.1, { s1.2 with applied_ := false })

/-- The method `RemoveUnchecked()`; the trace output and the assertion macro in the
handler have no effect on the state. -/
def RemoveUnchecked (env : Env) : Exec (World × PatchDetour) Unit :=
  Exec.tryCatch (Remove env) fun _ =>
    Exec.modify fun s =>
      ((s.1.releaseOpt env s.2.trampoline_).releaseAll env s.2.trampolines_,
       { process_ := none, applied_ := false, target_ := 0, detour_ := 0,
         trampoline_ := none, orig_ := [], trampolines_ := [] })

/-- The move assignment `operator=(PatchDetour&& other)`, run on `*this` in the
state: the value is what is left of `other`.  Assigning to `trampoline_` and to
`trampolines_` destroys the blocks they held. -/
def moveAssign (env : Env) (other : PatchDetour) :
    Exec (World × PatchDetour) PatchDetour := do
  RemoveUnchecked env
  Exec.modify fun s =>
    ((s.1.releaseOpt env s.2.trampoline_).releaseAll env s.2.trampolines_,
     { process_ := other.process_, applied_ := other.applied_, target_ := other.target_,
       detour_ := other.detour_, trampoline_ := other.trampoline_, orig_ := other.orig_,
       trampolines_ := other.trampolines_ })
  pure { process_ := none, applied_ := false, target_ := 0, detour_ := 0,
         trampoline_ := none, orig_ := [], trampolines_ := [] }

/-- The destructor `~PatchDetour()`: `RemoveUnchecked()`, then the members are
destroyed in reverse order of declaration. -/
def destroy (env : Env) : Exec (World × PatchDetour) Unit := do
  RemoveUnchecked env
  Exec.modify fun s =>
    ((s.1.releaseAll env s.2.trampolines_).releaseOpt env s.2.trampoline_,
     { s.2 with trampoline_ := none, trampolines_ := [] })

/-- The accessor `GetTrampoline()`. -/
def GetTrampoline (p : PatchDetour) : Option Nat := p.trampoline_.map Block.base

end PatchDetour

/-! ## `Section` (pelib/section.hpp) -/

/-- The Windows type `IMAGE_SECTION_HEADER` (winnt.h): `BYTE Name[8]`, then the
`DWORD` and `WORD` fields in the order of their declaration; `VirtualSize` is
`Misc.VirtualSize`. -/
structure IMAGE_SECTION_HEADER where
  Name : Fin 8 → Nat
  VirtualSize : Nat
  VirtualAddress : Nat
  SizeOfRawData : Nat
  PointerToRawData : Nat
  PointerToRelocations : Nat
  PointerToLinenumbers : Nat
  NumberOfRelocations : Nat
  NumberOfLinenumbers : Nat
  Characteristics : Nat

/-- The value of `sizeof(IMAGE_SECTION_HEADER)`. -/
def IMAGE_SIZEOF_SECTION_HEADER : Nat := 40

/-- The bytes of an `IMAGE_SECTION_HEADER` in memory: the name, then the fields in
little-endian order. -/
def IMAGE_SECTION_HEADER.toBytes (h : IMAGE_SECTION_HEADER) : List Nat :=
  List.ofFn h.Name ++ leBytes 4 h.VirtualSize ++ leBytes 4 h.VirtualAddress ++
    leBytes 4 h.SizeOfRawData ++ leBytes 4 h.PointerToRawData ++
    leBytes 4 h.PointerToRelocations ++ leBytes 4 h.PointerToLinenumbers ++
    leBytes 2 h.NumberOfRelocations ++ leBytes 2 h.NumberOfLinenumbers ++
    leBytes 4 h.Characteristics

/-- The `IMAGE_SECTION_HEADER` that 40 bytes of memory hold. -/
def IMAGE_SECTION_HEADER.ofBytes (bs : List Nat) : IMAGE_SECTION_HEADER :=
  { Name := fun i => bs.getD i.val 0,
    VirtualSize := leValue ((bs.drop 8).take 4),
    VirtualAddress := leValue ((bs.drop 12).take 4),
    SizeOfRawData := leValue ((bs.drop 16).take 4),
    PointerToRawData := leValue ((bs.drop 20).take 4),
    PointerToRelocations := leValue ((bs.drop 24).take 4),
    PointerToLinenumbers := leValue ((bs.drop 28).take 4),
    NumberOfRelocations := leValue ((bs.drop 32).take 2),
    NumberOfLinenumbers := leValue ((bs.drop 34).take 2),
    Characteristics := leValue ((bs.drop 36).take 4) }

/-- The data members of `Section`; `process_` and `pe_file_` are handles. -/
structure Section where
  process_ : Nat
  pe_file_ : Nat
  base_ : Nat
  data_ : IMAGE_SECTION_HEADER
  is_virtual_ : Bool

/-- The exception of `Section::SetName`. -/
inductive SectionError where
  | nameTooLarge
  deriving DecidableEq, Repr

namespace Section

/-- The method `UpdateRead()`: `data_ = Read<IMAGE_SECTION_HEADER>(*process_, base_)`. -/
def UpdateRead (env : Env) : Exec (World × Section) Unit := do
  let s ← Exec.get
  let bytes ← ReadVector env s.2.base_ IMAGE_SIZEOF_SECTION_HEADER
  Exec.modify fun s1 => (s1.1, { s1.2 with data_ := IMAGE_SECTION_HEADER.ofBytes bytes })

/-- The method `UpdateWrite()`: `Write(*process_, base_, data_)`. -/
def UpdateWrite (env : Env) : Exec (World × Section) Unit := do
  let s ← Exec.get
  WriteVector env s.2.base_ s.2.data_.toBytes

/-- The loop of `GetName()` over the characters of `Name` still to visit: it stops at
the first zero. -/
def GetName.loop : List Nat → List Nat
  | [] => []
  | c :: rest => if c ≠ 0 then c :: GetName.loop rest else []

/-- The method `GetName()`. -/
def GetName (s : Section) : List Nat := GetName.loop (List.ofFn s.data_.Name)

/-- The method `GetVirtualAddress()`. -/
def GetVirtualAddress (s : Section) : Nat := s.data_.VirtualAddress

/-- The method `GetVirtualSize()`. -/
def GetVirtualSize (s : Section) : Nat := s.data_.VirtualSize

/-- The method `GetSizeOfRawData()`. -/
def GetSizeOfRawData (s : Section) : Nat := s.data_.SizeOfRawData

/-- The method `GetPointerToRawData()`. -/
def GetPointerToRawData (s : Section) : Nat := s.data_.PointerToRawData

/-- The method `GetPointerToRelocations()`. -/
def GetPointerToRelocations (s : Section) : Nat := s.data_.PointerToRelocations

/-- The method `GetPointerToLinenumbers()`. -/
def GetPointerToLinenumbers (s : Section) : Nat := s.data_.PointerToLinenumbers

/-- The method `GetNumberOfRelocations()`. -/
def GetNumberOfRelocations (s : Section) : Nat := s.data_.NumberOfRelocations

/-- The method `GetNumberOfLinenumbers()`. -/
def GetNumberOfLinenumbers (s : Section) : Nat := s.data_.NumberOfLinenumbers

/-- The method `GetCharacteristics()`. -/
def GetCharacteristics (s : Section) : Nat := s.data_.Characteristics

/-- The method `SetName(name)`: the exception for more than 8 characters, else the
characters are copied to the start of `Name`, and `Name[name.size()]` is set to zero
when `name.size() != 8`. -/
def SetName (s : Section) (name : List Nat) : Except SectionError Section :=
  if name.length > 8 then
    .error .nameTooLarge
  else
    let copied : Fin 8 → Nat :=
      fun i => if i.val < name.length then name.getD i.val 0 else s.data_.Name i
    let terminated : Fin 8 → Nat :=
      if name.length ≠ 8 then fun i => if i.val = name.length then 0 else copied i
      else copied
    .ok { s with data_ := { s.data_ with Name := terminated } }

/-- The method `SetVirtualAddress(virtual_address)`. -/
def SetVirtualAddress (s : Section) (virtual_address : Nat) : Section :=
  { s with data_ := { s.data_ with VirtualAddress := virtual_address } }

/-- The method `SetVirtualSize(virtual_size)`. -/
def SetVirtualSize (s : Section) (virtual_size : Nat) : Section :=
  { s with data_ := { s.data_ with VirtualSize := virtual_size } }

/-- The method `SetSizeOfRawData(size_of_raw_data)`. -/
def SetSizeOfRawData (s : Section) (size_of_raw_data : Nat) : Section :=
  { s with data_ := { s.data_ with SizeOfRawData := size_of_raw_data } }

/-- The method `SetPointerToRawData(pointer_to_raw_data)`. -/
def SetPointerToRawData (s : Section) (pointer_to_raw_data : Nat) : Section :=
  { s with data_ := { s.data_ with PointerToRawData := pointer_to_raw_data } }

/-- The method `SetPointerToRelocations(pointer_to_relocations)`. -/
def SetPointerToRelocations (s : Section) (pointer_to_relocations : Nat) : Section :=
  { s with data_ := { s.data_ with PointerToRelocations := pointer_to_relocations } }

/-- The method `SetPointerToLinenumbers(pointer_to_linenumbers)`. -/
def SetPointerToLinenumbers (s : Section) (pointer_to_linenumbers : Nat) : Section :=
  { s with data_ := { s.data_ with PointerToLinenumbers := pointer_to_linenumbers } }

/-- The method `SetNumberOfRelocations(number_of_relocations)`. -/
def SetNumberOfRelocations (s : Section) (number_of_relocations : Nat) : Section :=
  { s with data_ := { s.data_ with NumberOfRelocations := number_of_relocations } }

/-- The method `SetNumberOfLinenumbers(number_of_linenumbers)`. -/
def SetNumberOfLinenumbers (s : Section) (number_of_linenumbers : Nat) : Section :=
  { s with data_ := { s.data_ with NumberOfLinenumbers := number_of_linenumbers } }

/-- The method `SetCharacteristics(characteristics)`. -/
def SetCharacteristics (s : Section) (characteristics : Nat) : Section :=
  { s with data_ := { s.data_ with Characteristics := characteristics } }

/-- The calls of the test on `cur_section` (tests/pelib/section.cpp, lines 59-68):
every setter with the value of its getter. -/
def setEachFromGetter (s : Section) : Except SectionError Section := do
  let s ← s.SetName s.GetName
  let s := s.SetVirtualAddress s.GetVirtualAddress
  let s := s.SetVirtualSize s.GetVirtualSize
  let s := s.SetSizeOfRawData s.GetSizeOfRawData
  let s := s.SetPointerToRawData s.GetPointerToRawData
  let s := s.SetPointerToRelocations s.GetPointerToRelocations
  let s := s.SetPointerToLinenumbers s.GetPointerToLinenumbers
  let s := s.SetNumberOfRelocations s.GetNumberOfRelocations
  let s := s.SetNumberOfLinenumbers s.GetNumberOfLinenumbers
  let s := s.SetCharacteristics s.GetCharacteristics
  pure s

end Section

/-! ## `Export` (pelib/export.hpp): the classification of the function RVA -/

/-- The exceptions of the part of the `Export` constructor modelled here:
"Invalid forwarder string format.", and a failure inside `RvaToVa` or
`CheckedReadString`. -/
inductive ExportError where
  | invalidForwarderStringFormat
  | serviceFailure
  deriving DecidableEq, Repr

/-- The members of `Export` that lines 97-126 of the constructor assign. -/
structure Export where
  rva_ : Nat
  va_ : Nat
  forwarder_ : List Char
  forwarder_split_ : List Char × List Char
  forwarded_ : Bool
  virtual_va_ : Bool
  deriving DecidableEq, Repr

/-- The call `s.rfind(c)` of `std::string`: the index of the last `c` in `s`, and
`none` for `std::string::npos`. -/
def rfind : List Char → Char → Option Nat
  | [], _ => none
  | x :: xs, c =>
    match rfind xs c with
    | some i => some (i + 1)
    | none => if x = c then some 0 else none

namespace Export

/-- Lines 97-126 of the constructor `Export::Export`, from the function RVA read from
the table of functions on.  `export_dir_start` and `export_dir_size` are what
`NtHeaders` returns for the export data directory; `readString rva` is
`CheckedReadString(process, pe_file, RvaToVa(process, pe_file, rva))` and
`rvaToVa rva` is `RvaToVa(process, pe_file, rva, &virtual_va_)`, with `none` for a
failure of either (neither function is part of the sources at hand).  The values
are `DWORD`s, and so is the sum `export_dir_end`. -/
def new (func_rva export_dir_start export_dir_size : Nat)
    (readString : Nat → Option (List Char)) (rvaToVa : Nat → Option (Nat × Bool)) :
    Except ExportError Export :=
  let func_rva := func_rva % 2 ^ 32
  let export_dir_start := export_dir_start % 2 ^ 32
  let export_dir_end := (export_dir_start + export_dir_size % 2 ^ 32) % 2 ^ 32
  if func_rva > export_dir_start ∧ func_rva < export_dir_end then
    match readString func_rva with
    | none => .error .serviceFailure
    | some forwarder =>
      match rfind forwarder '.' with
      | some split_pos =>
        .ok { rva_ := 0, va_ := 0, forwarder_ := forwarder,
              forwarder_split_ := (forwarder.take split_pos, forwarder.drop (split_pos + 1)),
              forwarded_ := true, virtual_va_ := false }
      | none => .error .invalidForwarderStringFormat
  else
    match rvaToVa func_rva with
    | none => .error .serviceFailure
    | some (va, virtual_va) =>
      .ok { rva_ := func_rva, va_ := va, forwarder_ := [], forwarder_split_ := ([], []),
            forwarded_ := false, virtual_va_ := virtual_va }

/-- The getter `IsForwarded`. -/
def IsForwarded (e : Export) : Bool := e.forwarded_

/-- The getter `GetForwarder`. -/
def GetForwarder (e : Export) : List Char := e.forwarder_

/-- The getter `GetForwarderModule`. -/
def GetForwarderModule (e : Export) : List Char := e.forwarder_split_.1

/-- The getter `GetForwarderFunction`. -/
def GetForwarderFunction (e : Export) : List Char := e.forwarder_split_.2

end Export

/-! ## Pre- and postconditions for `Exec` -/

/-- Run from `s`, the computation `m` ends in a state with `Q` (and its value) when
it returns and with `E` (and its error) when it fails. -/
def Exec.Ensures {σ α : Type} (m : Exec σ α) (s : σ) (Q : α → σ → Prop)
    (E : Error → σ → Prop) : Prop :=
  match m s with
  | .ok a s1 => Q a s1
  | .fail e s1 => E e s1


/-! ## What the detour leaves alone

`Q` is a set of pages (those that held memory before the call), `X` a set of
addresses the call may overwrite.  `Inv` says that so far nothing outside `X` on a
page of `Q` was written, that no page of `Q` was released, that the thread
list, the suspension depth and the members of the patch other than `trampolines_`
are what they were, and that the events added to the trace are quiet. -/

/-- An address the call may write: on a page outside `Q`, or in `X`. -/
def Spare (env : Env) (Q : Nat → Prop) (X : Nat → Prop) (a : Nat) : Prop :=
  ¬ Q (pageOf env a) ∨ X a

/-- An event the body of a patch call may add to the trace: no suspension and no
resumption of the process, and writes only to addresses the call may write. -/
def Event.Quiet (env : Env) (Q : Nat → Prop) (X : Nat → Prop) : Event → Prop
  | .write a bs => ∀ i, i < bs.length → Spare env Q X (a + i)
  | .suspend _ => False
  | .resume _ => False
  | .flush _ _ => True
  | .alloc _ => True
  | .release _ => True

/-- The frame invariant of `PatchDetour::Apply`. -/
structure Inv (env : Env) (Q : Nat → Prop) (X : Nat → Prop) (w0 : World) (p0 : PatchDetour)
    (s : World × PatchDetour) : Prop where
  mem : ∀ a, Q (pageOf env a) → ¬ X a → s.1.mem a = w0.mem a
  prot : ∀ k, Q k → s.1.prot k ≠ Prot.free
  threads : s.1.threads = w0.threads
  self : s.1.self = w0.self
  process : s.2.process_ = p0.process_
  applied : s.2.applied_ = p0.applied_
  target : s.2.target_ = p0.target_
  detour : s.2.detour_ = p0.detour_
  orig : s.2.orig_ = p0.orig_
  trampoline : s.2.trampoline_ = p0.trampoline_
  depth : s.1.suspendDepth = w0.suspendDepth
  trace : ∃ evs, s.1.trace = w0.trace ++ evs ∧ ∀ e ∈ evs, Event.Quiet env Q X e

/-- A block none of whose pages is in `Q`, starting on a page boundary. -/
def Fresh (env : Env) (Q : Nat → Prop) (b : Block) : Prop :=
  0 < pagesFor env b.size ∧ b.base = pageOf env b.base * env.pageSize ∧
  ∀ i, i < pagesFor env b.size → ¬ Q (pageOf env b.base + i)


/-- The first `n` bytes of every fresh block may be written. -/
def Room (env : Env) (Q : Nat → Prop) (X : Nat → Prop) (n : Nat) : Prop :=
  ∀ b, Fresh env Q b → ∀ i, i < n → Spare env Q X (b.base + i)

/-- Number of bytes `WriteJump` stores at `address` for a plan: the relocated code
cut to `kJumpSize32` when the assembler's own trampoline is dropped, the measured
code otherwise. -/
def PatchDetour.planLen (r : Stub × Nat × Bool) : Nat :=
  if r.2.2 then min PatchDetour.kJumpSize32 r.2.1 else r.2.1

/-- Size of the stub `WriteJump(address, target)` writes without the push/return
fallback. -/
def PatchDetour.jumpLen (env : Env) (address target : Nat) : Nat :=
  if PatchDetour.IsNear env address target then PatchDetour.kJumpSize32
  else PatchDetour.kJumpSize64 env.arch

/-- Whether page `k` holds memory of the process, other than the block the patch may
still own through `trampoline_` from an earlier `Apply` that failed. -/
def PatchDetour.mapped (env : Env) (w : World) (p : PatchDetour) (k : Nat) : Bool :=
  decide (w.prot k ≠ Prot.free) &&
  match p.trampoline_ with
  | none => true
  | some b =>
    !(decide (pageOf env b.base ≤ k) && decide (k < pageOf env b.base + pagesFor env b.size))

/-- Whether `a` is one of the `jump_size` bytes at the target. -/
def PatchDetour.inTarget (env : Env) (p : PatchDetour) (a : Nat) : Prop :=
  p.target_ ≤ a ∧ a < p.target_ + PatchDetour.jumpSize env p

/-- Whether some thread other than the caller has its instruction pointer in
`[target, target+len)`. -/
def World.threadIn (w : World) (target len : Nat) : Prop :=
  ∃ t ∈ w.threads, t.1 ≠ w.self ∧ target ≤ t.2 ∧ t.2 < target + len

instance (w : World) (target len : Nat) : Decidable (w.threadIn target len) := by
  unfold World.threadIn
  infer_instance

/-- The class invariant of `PatchRaw`: an applied patch has its process set. -/
def PatchRaw.WellFormed (p : PatchRaw) : Prop :=
  p.applied_ = true → p.process_ ≠ none

/-- The class invariant of `PatchDetour`: an applied patch has its process and its
trampoline set. -/
def PatchDetour.WellFormed (p : PatchDetour) : Prop :=
  p.applied_ = true → p.process_ ≠ none ∧ p.trampoline_ ≠ none

instance (p : PatchRaw) : Decidable p.WellFormed := by
  unfold PatchRaw.WellFormed
  infer_instance

instance (p : PatchDetour) : Decidable p.WellFormed := by
  unfold PatchDetour.WellFormed
  infer_instance

/-! ## The near-branch range as the specification states it -/

/-- The range of a near branch in the words of the specification: on 64-bit the
relative displacement `target - address - 5` fits a signed 32-bit offset; on 32-bit
every pair is near. -/
def PatchDetour.IsNear_spec (arch : Arch) (address target : Nat) : Bool :=
  match arch with
  | .x64 =>
    let rel := sext 64 (wrap 64 (sext 64 target - sext 64 address - 5))
    decide (-2147483648 ≤ rel) && decide (rel ≤ 2147483647)
  | .x86 => true

/-! ## Instructions the decode loop comes to -/

/-- The decode loop of `Apply`, started with the decoder input `rest`, `tramp_cur`,
`instr_size` and the state `s`, comes to the top of a pass with the input `rest2`,
`tramp_cur2`, `instr_size2` and the state `s2`: either at once, or after a pass
that returned and left `instr_size` below `jump_size`. -/
inductive PatchDetour.Apply.Reaches (env : Env) (target jump_size : Nat) :
    List Nat → Nat → Nat → World × PatchDetour →
    List Nat → Nat → Nat → World × PatchDetour → Prop
  | here (rest : List Nat) (tramp_cur instr_size : Nat) (s : World × PatchDetour) :
      Reaches env target jump_size rest tramp_cur instr_size s rest tramp_cur instr_size s
  | pass {rest : List Nat} {tramp_cur instr_size : Nat} {s : World × PatchDetour}
      {tramp_cur1 : Nat} {s1 : World × PatchDetour}
      {rest2 : List Nat} {tramp_cur2 instr_size2 : Nat} {s2 : World × PatchDetour} :
      PatchDetour.Apply.step env target instr_size tramp_cur rest (env.decode rest) s =
        .ok tramp_cur1 s1 →
      instr_size + (env.decode rest).len < jump_size →
      Reaches env target jump_size (rest.drop (env.decode rest).len) tramp_cur1
        (instr_size + (env.decode rest).len) s1 rest2 tramp_cur2 instr_size2 s2 →
      Reaches env target jump_size rest tramp_cur instr_size s rest2 tramp_cur2 instr_size2 s2

/-! ## Suspension and resumption in the trace -/

/-- The world `w1` stands to `w` as after a call that has resumed what it suspended:
the suspension depth is the same, and the trace is that of `w`, followed, if the
call suspended the process, by the suspension, by events that are neither a
suspension nor a resumption, and by the resumption of the same process as the last
event. -/
def World.Balanced (w w1 : World) : Prop :=
  w1.suspendDepth = w.suspendDepth ∧
  (w1.trace = w.trace ∨
    ∃ pid evs, w1.trace = w.trace ++ Event.suspend pid :: (evs ++ [Event.resume pid]) ∧
      ∀ e ∈ evs, ∀ q, e ≠ Event.suspend q ∧ e ≠ Event.resume q)

/-- The event is a write that stores at least one byte at an address of `X`. -/
def Event.WritesTo (X : Nat → Prop) : Event → Prop
  | .write a bs => ∃ i, i < bs.length ∧ X (a + i)
  | _ => False

/-! ## Candidate allocations -/

/-- What a candidate allocation leaves: the state is unchanged when no block is
returned, and no block is returned when no page is free. -/
def PatchDetour.NoneKeeps (s : World × PatchDetour) (ob : Option Block)
    (s1 : World × PatchDetour) : Prop :=
  (ob = none → s1 = s) ∧ ((∀ k, s.1.prot k ≠ Prot.free) → ob = none)

/-! ## Straight-line code at the target -/

/-- The error is a failure of one of the services `Apply` consumes: the allocator,
the Memory Access Port, the thread check, or the cross-check of the assembler's
stub sizes. -/
def PatchDetour.ServiceError (e : Error) : Prop :=
  e = Error.allocFailure ∨ e = Error.readFailure ∨ e = Error.writeFailure ∨
  e = Error.threadInTarget ∨ e = Error.unexpectedStubSize ∨
  e = Error.unexpectedRealStubSize

/-- Whether the decode loop rebuilds the instruction as a relative jump or call (the
condition of lines 373-378). -/
def PatchDetour.Apply.isRelative (insn : Insn) : Bool :=
  (decide (insn.mnemonic = ud_mnemonic_code.UD_Ijmp) ||
    decide (insn.mnemonic = ud_mnemonic_code.UD_Icall)) &&
  (PatchDetour.is_jimm insn.opr0 || PatchDetour.is_jmem insn.opr0)

/-- The lengths the decode loop adds up over straight-line code: `some` of the final
`instr_size` when every instruction decoded has a length that is not zero, lies
inside the decoder input and is no relative jump or call; `none` otherwise, or when
the `fuel` passes do not reach `jump_size`. -/
def PatchDetour.Apply.straight (env : Env) (jump_size : Nat) :
    Nat → List Nat → Nat → Option Nat
  | 0, _, _ => none
  | fuel + 1, rest, instr_size =>
    if (env.decode rest).len = 0 ∨ rest.length < (env.decode rest).len ∨
        PatchDetour.Apply.isRelative (env.decode rest) = true then none
    else if instr_size + (env.decode rest).len < jump_size then
      PatchDetour.Apply.straight env jump_size fuel (rest.drop (env.decode rest).len)
        (instr_size + (env.decode rest).len)
    else some (instr_size + (env.decode rest).len)

/-! ## Definitions for the claims about stubs and the decode loop -/
/-- The contents of `jump_buf` when `WriteJump` stores it at `address`, for the plan
`r`: the relocated code in a buffer of the measured size, cut to the relocated size
when the assembler's own trampoline is dropped. -/
def PatchDetour.WriteJump.buf (env : Env) (r : Stub × Nat × Bool) (address : Nat) : List Nat :=
  if r.2.2 = true then
    (fitBuf (env.getCodeSize r.1) (env.relocCode r.1 address).1).take
      (env.relocCode r.1 address).2
  else fitBuf (env.getCodeSize r.1) (env.relocCode r.1 address).1

/-- The state after `bytes` were stored at `a`. -/
def World.written (w : World) (a : Nat) (bytes : List Nat) : World :=
  { w with mem := w.store a bytes, trace := w.trace ++ [Event.write a bytes] }

/-- The lengths of the first `k` instructions decoded one after the other from the
decoder input `rest`. -/
def PatchDetour.Apply.decodedLens (env : Env) : Nat → List Nat → List Nat
  | 0, _ => []
  | k + 1, rest =>
    (env.decode rest).len ::
      PatchDetour.Apply.decodedLens env k (rest.drop (env.decode rest).len)

/-! ## The processor on the push/return stub -/

/-- Modelled from the spec: the instruction `PUSH imm32` in 64-bit mode, "sign-extended
by the CPU": the 8 bytes at the top of the stack after it. -/
def Cpu.push (imm32 : Nat) : List Nat := leBytes 8 (wrap 64 (sext 32 imm32))

/-- Modelled from the spec: the instruction `MOV DWORD PTR [RSP+4], imm32`: bytes 4
to 7 from the top of the stack are replaced by the immediate. -/
def Cpu.movDwordAtRsp4 (stack : List Nat) (imm32 : Nat) : List Nat :=
  stack.take 4 ++ leBytes 4 (imm32 % 2 ^ 32) ++ stack.drop 8

/-- Modelled from the spec: the instruction `RET` in 64-bit mode: the 8 bytes at the
top of the stack become the instruction pointer. -/
def Cpu.ret (stack : List Nat) : Nat := leValue (stack.take 8)

/-- Where control is after the processor has executed a push/return stub. -/
def Stub.destination : Stub → Option Nat
  | .pushRet low => some (Cpu.ret (Cpu.push low))
  | .pushMovRet low high => some (Cpu.ret (Cpu.movDwordAtRsp4 (Cpu.push low) high))
  | _ => none

/-! ## Concrete processes for the examples -/

/-- A decoder for the examples: every instruction is two bytes long and is neither a
jump nor a call; at the end of the input the length is `0`. -/
def exDecode (rest : List Nat) : Insn :=
  match rest with
  | [] => { len := 0, mnemonic := ud_mnemonic_code.UD_Iinvalid, opr0 := none }
  | _ :: _ => { len := 2, mnemonic := ud_mnemonic_code.UD_Iother, opr0 := none }

/-- Code sizes of an assembler for the examples (64-bit). -/
def exCodeSize : Stub → Nat
  | .jmp _ => 0x13
  | .jmpMem _ => 6
  | .call _ => 0x13
  | .callMem _ => 6
  | .pushRet _ => 6
  | .pushMovRet _ _ => 14

/-- Relocated code of an assembler for the examples (64-bit). -/
def exRelocCode (stub : Stub) (address : Nat) : List Nat × Nat :=
  match stub with
  | .jmp target => (0xE9 :: leBytes 4 (wrap 32 ((target : Int) - (address : Int) - 5)), 5)
  | .jmpMem disp => (0xFF :: 0x25 :: leBytes 4 (wrap 32 disp), 6)
  | .call target => (0xE8 :: leBytes 4 (wrap 32 ((target : Int) - (address : Int) - 5)), 5)
  | .callMem disp => (0xFF :: 0x15 :: leBytes 4 (wrap 32 disp), 6)
  | .pushRet low => (0x68 :: leBytes 4 low ++ [0xC3], 6)
  | .pushMovRet low high =>
    (0x68 :: leBytes 4 low ++ [0xC7, 0x44, 0x24, 0x04] ++ leBytes 4 high ++ [0xC3], 14)

/-- A 64-bit configuration with 4096-byte pages. -/
def exEnv : Env :=
  { arch := Arch.x64, pageSize := 4096, minAppAddr := 0x10000,
    maxAppAddr := 0x7FFFFFFEFFFF, decode := exDecode, getCodeSize := exCodeSize,
    relocCode := exRelocCode }

/-- A process whose pages 16 to 31 are writable code or data and whose other
pages are free; the caller is thread 1, thread 2 runs at `0x10010` and thread 3
at `0x30000`; the next allocation will land on page 8. -/
def exWorld : World :=
  { mem := fun a => a % 7 + 1,
    prot := fun k => if 16 ≤ k ∧ k < 32 then Prot.readWrite else Prot.free,
    threads := [(1, 0x10002), (2, 0x10010), (3, 0x30000)],
    self := 1,
    live := [],
    allocPlan := [some 8],
    suspendDepth := 0,
    trace := [] }

/-- The same process with thread 2 inside the bytes at `0x10000`. -/
def exWorldBusy : World :=
  { exWorld with threads := [(1, 0x10002), (2, 0x10003), (3, 0x30000)] }

/-- The same process with its pages 16 to 31 read-only. -/
def exWorldReadOnly : World :=
  { exWorld with prot := fun k => if 16 ≤ k ∧ k < 32 then Prot.readOnly else Prot.free }

/-- A raw patch of five `0x90` bytes at `0x10000`. -/
def exRaw : PatchRaw := PatchRaw.new 77 0x10000 [0x90, 0x90, 0x90, 0x90, 0x90]

/-- A detour of the function at `0x10000` to the routine at `0x10800`. -/
def exDetour : PatchDetour := PatchDetour.new 77 0x10000 0x10800

/-- A detour of a function at `0x50000`, an address on a free page of the example
process. -/
def exDetourUnreadable : PatchDetour := PatchDetour.new 77 0x50000 0x50800

/-- The busy process when the next allocation will land on page 40, above the
target. -/
def exWorldBusyHigh : World := { exWorldBusy with allocPlan := [some 40] }

/-- The raw patch after `Apply()` in the example process. -/
def exRawApplied : PatchRaw := (PatchRaw.Apply exEnv (exWorld, exRaw)).state.2

/-- The example process after `Apply()` of the raw patch, when later thread 2 has
moved into the patched bytes. -/
def exWorldRawBusy : World :=
  { (PatchRaw.Apply exEnv (exWorld, exRaw)).state.1 with threads := exWorldBusy.threads }

/-- The detour after `Apply()` in the example process. -/
def exDetourApplied : PatchDetour := (PatchDetour.Apply exEnv (exWorld, exDetour)).state.2

/-- The example process after `Apply()` of the detour. -/
def exWorldDetoured : World := (PatchDetour.Apply exEnv (exWorld, exDetour)).state.1

/-- The example process after `Apply()` of the detour, when later thread 3 runs
inside the trampoline at `0x8000`. -/
def exWorldDetouredBusy : World :=
  { exWorldDetoured with threads := [(1, 0x10002), (2, 0x10010), (3, 0x8004)] }

/-! ## More concrete processes for the examples -/

/-- A decoder for the examples that reports the opcode `0x06` (invalid in 64-bit
mode) as one byte with mnemonic `UD_Iinvalid`, and every other instruction as two
bytes that are neither a jump nor a call. -/
def exDecodeInvalid (rest : List Nat) : Insn :=
  match rest with
  | [] => { len := 0, mnemonic := ud_mnemonic_code.UD_Iinvalid, opr0 := none }
  | b :: _ =>
    if b = 0x06 then { len := 1, mnemonic := ud_mnemonic_code.UD_Iinvalid, opr0 := none }
    else { len := 2, mnemonic := ud_mnemonic_code.UD_Iother, opr0 := none }

/-- The 64-bit configuration with the decoder that reports invalid opcodes. -/
def exEnvInvalid : Env := { exEnv with decode := exDecodeInvalid }

/-- The example process with the byte `0x06` at `0x10000` and `0x90` everywhere
else. -/
def exWorldInvalid : World :=
  { exWorld with mem := fun a => if a = 0x10000 then 0x06 else 0x90 }

/-- The instruction `jmp rel32` with displacement `0x10`, five bytes long. -/
def exJmpRel32 : Insn :=
  { len := 5, mnemonic := ud_mnemonic_code.UD_Ijmp,
    opr0 := some { type := ud_type.UD_OP_JIMM, base := ud_type.UD_NONE,
                   index := ud_type.UD_NONE, scale := 0, size := 32, offset := 0,
                   lval := 0x10 } }

/-- A decoder for the examples that reports every instruction as a two-byte `jmp`
with a relative immediate operand of 48 bits. -/
def exDecodeOdd (rest : List Nat) : Insn :=
  match rest with
  | [] => { len := 0, mnemonic := ud_mnemonic_code.UD_Iinvalid, opr0 := none }
  | _ :: _ =>
    { len := 2, mnemonic := ud_mnemonic_code.UD_Ijmp,
      opr0 := some { type := ud_type.UD_OP_JIMM, base := ud_type.UD_NONE,
                     index := ud_type.UD_NONE, scale := 0, size := 48, offset := 0,
                     lval := 0 } }

/-- The 64-bit configuration with the decoder that reports 48-bit operands. -/
def exEnvOdd : Env := { exEnv with decode := exDecodeOdd }

/-- An example section header at `0x10000`, not yet read. -/
def exSection : Section :=
  { process_ := 77, pe_file_ := 0, base_ := 0x10000,
    data_ := IMAGE_SECTION_HEADER.ofBytes [], is_virtual_ := false }

/-- The example process when page 8 is the only free page of its address space. -/
def exWorldFull : World :=
  { exWorld with prot := fun k => if k = 8 then Prot.free else Prot.readWrite }

/-- A detour of the function at `0x10000` to a routine 8 GiB away. -/
def exDetourFar : PatchDetour := PatchDetour.new 77 0x10000 0x200000000

/-! ## Concrete processes for the claims about stubs -/

/-- The 64-bit configuration with an assembler that measures every stub as 7 bytes. -/
def exEnvMismatch : Env := { exEnv with getCodeSize := fun _ => 7 }

/-- The example process when every page of its address space holds writable memory. -/
def exWorldNoFree : World := { exWorld with prot := fun _ => Prot.readWrite }

/-- A string table for the examples: at RVA `0x1100` the forwarder
`NTDLL.RtlAllocateHeap`, at `0x1120` a forwarder with two dots, at `0x1140` a string
without a dot. -/
def exStrings (rva : Nat) : Option (List Char) :=
  if rva = 0x1100 then some "NTDLL.RtlAllocateHeap".toList
  else if rva = 0x1120 then some "api-ms-win.core.HeapAlloc".toList
  else if rva = 0x1140 then some "NTDLL".toList
  else none

/-- An address translation for the examples: the image is mapped at `0x400000`. -/
def exRvaToVa (rva : Nat) : Option (Nat × Bool) := some (0x400000 + rva, false)

/-- A decoder for the examples that knows the two-byte `jmp rel8` (`EB d`): it reports
it with its 8-bit relative immediate operand, every other byte as a one-byte
instruction that is neither a jump nor a call, and fails with less than two bytes
of input. -/
def exDecodeJmp8 (rest : List Nat) : Insn :=
  match rest with
  | b :: d :: _ =>
    if b = 0xEB then
      { len := 2, mnemonic := ud_mnemonic_code.UD_Ijmp,
        opr0 := some { type := ud_type.UD_OP_JIMM, base := ud_type.UD_NONE,
                       index := ud_type.UD_NONE, scale := 0, size := 8, offset := 0,
                       lval := d } }
    else { len := 1, mnemonic := ud_mnemonic_code.UD_Iother, opr0 := none }
  | _ => { len := 0, mnemonic := ud_mnemonic_code.UD_Iinvalid, opr0 := none }

/-- The 64-bit configuration with the decoder that knows `jmp rel8`. -/
def exEnvJumps : Env := { exEnv with decode := exDecodeJmp8 }

/-- The process whose only free page is page 8 and whose memory holds `EB 10`
(`jmp $+0x12`) at every even address. -/
def exWorldJumps : World :=
  { exWorldFull with mem := fun a => if a % 2 = 0 then 0xEB else 0x10 }

/-- A detour of the function at `0x300000000` (12 GiB) to a routine 2 KiB behind
it. -/
def exDetourHigh : PatchDetour := PatchDetour.new 77 0x300000000 0x300000800

/-- The example with the jumps when `Apply` has suspended the process and allocated
its trampoline at `0x8000`. -/
def exJumps0 : World × PatchDetour :=
  (PatchDetour.Apply.newTrampoline exEnvJumps (exWorldJumps.suspend 77, exDetourHigh)).state

/-- The big push/return stub to the address `0x300000000 + low`. -/
def exPushMovRet (low : Nat) : List Nat :=
  [0x68, low, 0, 0, 0, 0xC7, 0x44, 0x24, 4, 3, 0, 0, 0, 0xC3]

/-- The example with the jumps after the first `jmp rel8` was rebuilt. -/
def exJumps1 : World × PatchDetour :=
  (exJumps0.1.written 0x8000 (exPushMovRet 0x12), exJumps0.2)

/-- The example with the jumps after the second `jmp rel8` was rebuilt. -/
def exJumps2 : World × PatchDetour :=
  (exJumps1.1.written 0x800E (exPushMovRet 0x14), exJumps1.2)

/-- The example with the jumps after the third `jmp rel8` was rebuilt. -/
def exJumps3 : World × PatchDetour :=
  (exJumps2.1.written 0x801C (exPushMovRet 0x16), exJumps2.2)

/-- The example with the jumps after the jump back was written. -/
def exJumps4 : World × PatchDetour :=
  (exJumps3.1.written 0x802A (exPushMovRet 0x06), exJumps3.2)

/-- The example with the jumps when the building part of `Apply` has returned: the
trampoline is flushed and the snapshot taken. -/
def exJumps5 : World × PatchDetour :=
  (exJumps4.1.log (Event.flush 0x8000 45),
    { exJumps4.2 with orig_ := exJumps4.1.bytesAt 0x300000000 5 })

/-- The process whose only free page is the one at `0x200000000` (8 GiB), where the
next allocation will land. -/
def exWorldTop : World :=
  { exWorld with prot := fun k => if k = 0x200000 then Prot.free else Prot.readWrite,
                 allocPlan := [some 0x200000] }

/-- A detour of the function at `0x80000000` (2 GiB) to a routine 2 KiB behind it. -/
def exDetourTop : PatchDetour := PatchDetour.new 77 0x80000000 0x80000800

/-- The example at 2 GiB when `Apply` has suspended the process and allocated its
trampoline at `0x200000000`. -/
def exTop0 : World × PatchDetour :=
  (PatchDetour.Apply.newTrampoline exEnv (exWorldTop.suspend 77, exDetourTop)).state

/-- The example at 2 GiB after the decode loop has copied three two-byte
instructions to the trampoline. -/
def exTop1 : World × PatchDetour :=
  (PatchDetour.Apply.decodeLoop exEnv 0x80000000 5 5 (exTop0.1.bytesAt 0x80000000 45)
    0x200000000 0 exTop0).state

/-- The example at 2 GiB after the jump back was written behind the copy. -/
def exTop2 : World × PatchDetour :=
  (exTop1.1.written 0x200000006 [0x68, 0x06, 0, 0, 0x80, 0xC3], exTop1.2)

/-- The example at 2 GiB when the building part of `Apply` has returned. -/
def exTop3 : World × PatchDetour :=
  (exTop2.1.log (Event.flush 0x200000000 45),
    { exTop2.2 with orig_ := exTop2.1.bytesAt 0x80000000 5 })

/-! ## Reasoning about `Exec` -/

section ExecLemmas

variable {σ α β : Type}

@[simp] theorem Exec.pure_run (a : α) (s : σ) : (Pure.pure a : Exec σ α) s = .ok a s := rfl

@[simp] theorem Exec.pure_run2 (a : α) (s : σ) : (Exec.pure a : Exec σ α) s = .ok a s := rfl

@[simp] theorem Exec.throw_run (e : Error) (s : σ) :
    (Exec.throw e : Exec σ α) s = .fail e s := rfl

@[simp] theorem Exec.get_run (s : σ) : (Exec.get : Exec σ σ) s = .ok s s := rfl

@[simp] theorem Exec.modify_run (f : σ → σ) (s : σ) :
    (Exec.modify f) s = .ok () (f s) := rfl

theorem Exec.bind_run (m : Exec σ α) (f : α → Exec σ β) (s : σ) :
    (m >>= f) s = match m s with
      | .ok a s1 => f a s1
      | .fail e s1 => .fail e s1 := rfl

@[simp] theorem Exec.bind_run_ok (m : Exec σ α) (f : α → Exec σ β) (s s1 : σ) (a : α)
    (h : m s = .ok a s1) : (m >>= f) s = f a s1 := by
  simp [Exec.bind_run, h]

@[simp] theorem Exec.bind_run_fail (m : Exec σ α) (f : α → Exec σ β) (s s1 : σ) (e : Error)
    (h : m s = .fail e s1) : (m >>= f) s = .fail e s1 := by
  simp [Exec.bind_run, h]

theorem Exec.ite_run (c : Prop) [Decidable c] (m1 m2 : Exec σ α) (s : σ) :
    (if c then m1 else m2) s = if c then m1 s else m2 s := by
  split <;> rfl

end ExecLemmas

/-! ## Suspension, logging and the fields they leave alone -/

section WorldLemmas

variable (env : Env) (w : World) (pid a n : Nat) (e : Event)

@[simp] theorem World.suspend_mem : (w.suspend pid).mem = w.mem := rfl
@[simp] theorem World.suspend_prot : (w.suspend pid).prot = w.prot := rfl
@[simp] theorem World.suspend_threads : (w.suspend pid).threads = w.threads := rfl
@[simp] theorem World.suspend_self : (w.suspend pid).self = w.self := rfl
@[simp] theorem World.suspend_live : (w.suspend pid).live = w.live := rfl
@[simp] theorem World.suspend_allocPlan : (w.suspend pid).allocPlan = w.allocPlan := rfl
@[simp] theorem World.resume_mem : (w.resume pid).mem = w.mem := rfl
@[simp] theorem World.resume_prot : (w.resume pid).prot = w.prot := rfl
@[simp] theorem World.resume_threads : (w.resume pid).threads = w.threads := rfl
@[simp] theorem World.resume_self : (w.resume pid).self = w.self := rfl
@[simp] theorem World.resume_live : (w.resume pid).live = w.live := rfl
@[simp] theorem World.resume_allocPlan : (w.resume pid).allocPlan = w.allocPlan := rfl
@[simp] theorem World.log_mem : (w.log e).mem = w.mem := rfl
@[simp] theorem World.log_prot : (w.log e).prot = w.prot := rfl
@[simp] theorem World.log_threads : (w.log e).threads = w.threads := rfl
@[simp] theorem World.log_self : (w.log e).self = w.self := rfl
@[simp] theorem World.log_live : (w.log e).live = w.live := rfl
@[simp] theorem World.log_allocPlan : (w.log e).allocPlan = w.allocPlan := rfl
@[simp] theorem World.log_suspendDepth : (w.log e).suspendDepth = w.suspendDepth := rfl

@[simp] theorem World.canReadRange_suspend :
    (w.suspend pid).canReadRange env a n = w.canReadRange env a n := rfl
@[simp] theorem World.canWriteRange_suspend :
    (w.suspend pid).canWriteRange env a n = w.canWriteRange env a n := rfl
@[simp] theorem World.bytesAt_suspend : (w.suspend pid).bytesAt a n = w.bytesAt a n := rfl
@[simp] theorem World.store_suspend (bs : List Nat) :
    (w.suspend pid).store a bs = w.store a bs := rfl

end WorldLemmas

/-! ## The primitives, applied to a state -/

section PrimLemmas

variable {π α : Type}

theorem withSuspendedProcess_run (pid : Nat) (body : Exec (World × π) α) (s : World × π) :
    withSuspendedProcess pid body s =
      match body (s.1.suspend pid, s.2) with
      | .ok a s1 => .ok a (s1.1.resume pid, s1.2)
      | .fail e s1 => .fail e (s1.1.resume pid, s1.2) := by
  unfold withSuspendedProcess Exec.scope
  cases body (s.1.suspend pid, s.2) <;> rfl

theorem VerifyPatchThreads_run (pid target len : Nat) (s : World × π) :
    VerifyPatchThreads pid target len s =
      if VerifyPatchThreads.loop s.1.self target len s.1.threads then .fail .threadInTarget s
      else .ok () s := rfl

theorem ReadVector_run (env : Env) (a n : Nat) (s : World × π) :
    ReadVector env a n s =
      if s.1.canReadRange env a n then .ok (s.1.bytesAt a n) s else .fail .readFailure s := rfl

theorem WriteVector_run (env : Env) (a : Nat) (bytes : List Nat) (s : World × π) :
    WriteVector env a bytes s =
      if s.1.canWriteRange env a bytes.length then
        .ok () ({ s.1 with mem := s.1.store a bytes,
                           trace := s.1.trace ++ [Event.write a bytes] }, s.2)
      else .fail .writeFailure s := rfl

theorem FlushInstructionCache_run (a n : Nat) (s : World × π) :
    (FlushInstructionCache a n : Exec (World × π) Unit) s =
      .ok () (s.1.log (Event.flush a n), s.2) := rfl

theorem processId_some {σ : Type} (pid : Nat) (s : σ) :
    (processId (some pid) : Exec σ Nat) s = .ok pid s := rfl

theorem processId_none {σ : Type} (s : σ) :
    (processId none : Exec σ Nat) s = .fail .undefinedBehaviour s := rfl

end PrimLemmas

/-! ## `PatchRaw`: closed forms -/

/-- What `PatchRaw::Apply` does, case by case. -/
theorem PatchRaw.Apply_run_raw (env : Env) (w : World) (p : PatchRaw) :
    PatchRaw.Apply env (w, p) =
      if p.applied_ then .ok () (w, p)
      else match p.process_ with
        | none => .fail .undefinedBehaviour (w, p)
        | some pid =>
          if VerifyPatchThreads.loop w.self p.target_ p.data_.length w.threads then
            .fail .threadInTarget ((w.suspend pid).resume pid, p)
          else if w.canReadRange env p.target_ p.data_.length then
            if w.canWriteRange env p.target_ p.data_.length then
              .ok () (((({ (w.suspend pid) with
                            mem := w.store p.target_ p.data_,
                            trace := (w.suspend pid).trace ++ [Event.write p.target_ p.data_] }
                          : World).log (Event.flush p.target_ p.data_.length)).resume pid),
                      { p with orig_ := w.bytesAt p.target_ p.data_.length,
                               applied_ := true })
            else
              .fail .writeFailure ((w.suspend pid).resume pid,
                { p with orig_ := w.bytesAt p.target_ p.data_.length })
          else .fail .readFailure ((w.suspend pid).resume pid, p) := by
  unfold PatchRaw.Apply
  simp only [Exec.bind_run, Exec.get_run, Exec.ite_run]
  by_cases ha : p.applied_ = true
  · simp [ha]
  · cases hp : p.process_ with
    | none => simp [ha, processId_none, Exec.bind_run]
    | some pid =>
      simp only [processId_some, withSuspendedProcess_run, Exec.bind_run,
        VerifyPatchThreads_run, ReadVector_run, WriteVector_run, FlushInstructionCache_run,
        Exec.modify_run]
      split_ifs <;> simp_all

/-- What `PatchRaw::Remove` does, case by case. -/
theorem PatchRaw.Remove_run_raw (env : Env) (w : World) (p : PatchRaw) :
    PatchRaw.Remove env (w, p) =
      if p.applied_ then
        match p.process_ with
        | none => .fail .undefinedBehaviour (w, p)
        | some pid =>
          if VerifyPatchThreads.loop w.self p.target_ p.data_.length w.threads then
            .fail .threadInTarget ((w.suspend pid).resume pid, p)
          else if w.canWriteRange env p.target_ p.orig_.length then
            .ok () (((({ (w.suspend pid) with
                          mem := w.store p.target_ p.orig_,
                          trace := (w.suspend pid).trace ++ [Event.write p.target_ p.orig_] }
                        : World).log (Event.flush p.target_ p.orig_.length)).resume pid),
                    { p with applied_ := false })
          else .fail .writeFailure ((w.suspend pid).resume pid, p)
      else .ok () (w, p) := by
  unfold PatchRaw.Remove
  simp only [Exec.bind_run, Exec.get_run, Exec.ite_run]
  by_cases ha : p.applied_ = true
  · cases hp : p.process_ with
    | none => simp [ha, processId_none, Exec.bind_run]
    | some pid =>
      simp only [processId_some, withSuspendedProcess_run, Exec.bind_run,
        VerifyPatchThreads_run, WriteVector_run, FlushInstructionCache_run,
        Exec.modify_run]
      split_ifs <;> simp_all
  · simp [ha]

/-! ## Memory lemmas -/

theorem World.bytesAt_length (w : World) (a n : Nat) : (w.bytesAt a n).length = n := by
  simp [World.bytesAt]

theorem World.bytesAt_getD (w : World) (a n i : Nat) (h : i < n) :
    (w.bytesAt a n).getD i 0 = w.mem (a + i) := by
  simp [World.bytesAt, List.getD_eq_getElem?_getD, List.getElem?_map, List.getElem?_range h]

theorem World.store_inside (w : World) (a : Nat) (bs : List Nat) (i : Nat)
    (h : i < bs.length) : w.store a bs (a + i) = bs.getD i 0 := by
  simp [World.store, h]

theorem World.store_outside (w : World) (a : Nat) (bs : List Nat) (x : Nat)
    (h : ¬ (a ≤ x ∧ x < a + bs.length)) : w.store a bs x = w.mem x := by
  simp only [World.store, if_neg h]

theorem List.ext_getD_zero {l1 l2 : List Nat} (hl : l1.length = l2.length)
    (h : ∀ i, i < l1.length → l1.getD i 0 = l2.getD i 0) : l1 = l2 := by
  apply List.ext_getElem hl
  intro i h1 h2
  have := h i h1
  simpa [List.getD_eq_getElem?_getD, List.getElem?_eq_getElem h1,
    List.getElem?_eq_getElem h2] using this

/-- The thread loop throws exactly when some thread other than the caller has its
instruction pointer in `[target, target+len)`. -/
theorem VerifyPatchThreads.loop_eq_true_iff (self target len : Nat) (ts : List (Nat × Nat)) :
    VerifyPatchThreads.loop self target len ts = true ↔
      ∃ t ∈ ts, t.1 ≠ self ∧ target ≤ t.2 ∧ t.2 < target + len := by
  induction ts with
  | nil => simp [VerifyPatchThreads.loop]
  | cons t rest ih =>
    obtain ⟨tid, ip⟩ := t
    unfold VerifyPatchThreads.loop
    by_cases h1 : tid = self
    · simp [h1, ih]
    · by_cases h2 : target ≤ ip ∧ ip < target + len
      · simp [h1, h2]
      · simp only [h1, h2, if_false, ih, List.mem_cons]
        constructor
        · rintro ⟨t, ht, h⟩
          exact ⟨t, Or.inr ht, h⟩
        · rintro ⟨t, ht | ht, h⟩
          · subst ht
            exact absurd ⟨h.2.1, h.2.2⟩ h2
          · exact ⟨t, ht, h⟩

/-! ## `PatchRaw`: what a successful or failed call leaves behind -/

/-- A successful `PatchRaw::Apply` on a patch that is not applied. -/
theorem PatchRaw.Apply_ok (env : Env) (w w1 : World) (p p1 : PatchRaw)
    (hna : p.applied_ = false) (hA : PatchRaw.Apply env (w, p) = Res.ok () (w1, p1)) :
    ∃ pid, p.process_ = some pid ∧
      VerifyPatchThreads.loop w.self p.target_ p.data_.length w.threads = false ∧
      w.canReadRange env p.target_ p.data_.length = true ∧
      w.canWriteRange env p.target_ p.data_.length = true ∧
      w1 = ((({ (w.suspend pid) with
                  mem := w.store p.target_ p.data_,
                  trace := (w.suspend pid).trace ++ [Event.write p.target_ p.data_] }
                : World).log (Event.flush p.target_ p.data_.length)).resume pid) ∧
      p1 = { p with orig_ := w.bytesAt p.target_ p.data_.length, applied_ := true } := by
  rw [PatchRaw.Apply_run_raw] at hA
  simp only [hna, Bool.false_eq_true, if_false] at hA
  cases hp : p.process_ with
  | none => simp [hp] at hA
  | some pid =>
    simp only [hp] at hA
    by_cases h1 : VerifyPatchThreads.loop w.self p.target_ p.data_.length w.threads = true
    · simp [h1] at hA
    · by_cases h2 : w.canReadRange env p.target_ p.data_.length = true
      · by_cases h3 : w.canWriteRange env p.target_ p.data_.length = true
        · simp only [h1, h2, h3, if_true, if_false, Res.ok.injEq, Prod.mk.injEq, true_and] at hA
          obtain ⟨rfl, rfl⟩ := hA
          exact ⟨pid, rfl, by simpa using h1, h2, h3, rfl, by simp [hp]⟩
        · simp [h1, h2, h3] at hA
      · simp [h1, h2] at hA

/-- A failed `PatchRaw::Apply`: which failure it is and what it left behind. -/
theorem PatchRaw.Apply_fail (env : Env) (w w1 : World) (p p1 : PatchRaw) (e : Error)
    (hA : PatchRaw.Apply env (w, p) = Res.fail e (w1, p1)) :
    p.applied_ = false ∧ w1.mem = w.mem ∧
    ((e = Error.undefinedBehaviour ∧ p.process_ = none ∧ p1 = p) ∨
     (e = Error.threadInTarget ∧ p1 = p ∧
        VerifyPatchThreads.loop w.self p.target_ p.data_.length w.threads = true) ∨
     (e = Error.readFailure ∧ p1 = p ∧
        VerifyPatchThreads.loop w.self p.target_ p.data_.length w.threads = false) ∨
     (e = Error.writeFailure ∧
        VerifyPatchThreads.loop w.self p.target_ p.data_.length w.threads = false ∧
        p1 = { p with orig_ := w.bytesAt p.target_ p.data_.length })) := by
  rw [PatchRaw.Apply_run_raw] at hA
  by_cases hna : p.applied_ = true
  · simp [hna] at hA
  · simp only [hna, if_false] at hA
    refine ⟨by simpa using hna, ?_⟩
    cases hp : p.process_ with
    | none =>
      simp only [hp, Res.fail.injEq, Prod.mk.injEq] at hA
      obtain ⟨rfl, rfl, rfl⟩ := hA
      exact ⟨rfl, Or.inl ⟨rfl, rfl, rfl⟩⟩
    | some pid =>
      simp only [hp] at hA
      by_cases h1 : VerifyPatchThreads.loop w.self p.target_ p.data_.length w.threads = true
      · simp only [h1, if_true, Res.fail.injEq, Prod.mk.injEq] at hA
        obtain ⟨rfl, rfl, rfl⟩ := hA
        exact ⟨rfl, Or.inr (Or.inl ⟨rfl, rfl, h1⟩)⟩
      · have h1f : VerifyPatchThreads.loop w.self p.target_ p.data_.length w.threads = false := by
          simpa using h1
        by_cases h2 : w.canReadRange env p.target_ p.data_.length = true
        · by_cases h3 : w.canWriteRange env p.target_ p.data_.length = true
          · simp [h1, h2, h3] at hA
          · simp only [h1, h2, h3, if_true, if_false, Res.fail.injEq, Prod.mk.injEq] at hA
            obtain ⟨rfl, rfl, rfl⟩ := hA
            exact ⟨rfl, Or.inr (Or.inr (Or.inr ⟨rfl, h1f, by simp [hp, hna]⟩))⟩
        · simp only [h1, h2, if_false, Res.fail.injEq, Prod.mk.injEq] at hA
          obtain ⟨rfl, rfl, rfl⟩ := hA
          exact ⟨rfl, Or.inr (Or.inr (Or.inl ⟨rfl, rfl, h1f⟩))⟩

/-- A successful `PatchRaw::Remove` on an applied patch. -/
theorem PatchRaw.Remove_ok (env : Env) (w w1 : World) (p p1 : PatchRaw)
    (ha : p.applied_ = true) (hR : PatchRaw.Remove env (w, p) = Res.ok () (w1, p1)) :
    ∃ pid, p.process_ = some pid ∧
      VerifyPatchThreads.loop w.self p.target_ p.data_.length w.threads = false ∧
      w.canWriteRange env p.target_ p.orig_.length = true ∧
      w1 = ((({ (w.suspend pid) with
                  mem := w.store p.target_ p.orig_,
                  trace := (w.suspend pid).trace ++ [Event.write p.target_ p.orig_] }
                : World).log (Event.flush p.target_ p.orig_.length)).resume pid) ∧
      p1 = { p with applied_ := false } := by
  rw [PatchRaw.Remove_run_raw] at hR
  simp only [ha, if_true] at hR
  cases hp : p.process_ with
  | none => simp [hp] at hR
  | some pid =>
    simp only [hp] at hR
    by_cases h1 : VerifyPatchThreads.loop w.self p.target_ p.data_.length w.threads = true
    · simp [h1] at hR
    · by_cases h3 : w.canWriteRange env p.target_ p.orig_.length = true
      · simp only [h1, h3, if_true, if_false, Res.ok.injEq, Prod.mk.injEq, true_and] at hR
        obtain ⟨rfl, rfl⟩ := hR
        exact ⟨pid, rfl, by simpa using h1, h3, rfl, by simp [hp]⟩
      · simp [h1, h3] at hR

/-- A failed `PatchRaw::Remove` leaves memory and the patch object as they were. -/
theorem PatchRaw.Remove_fail_raw (env : Env) (w w1 : World) (p p1 : PatchRaw) (e : Error)
    (hR : PatchRaw.Remove env (w, p) = Res.fail e (w1, p1)) :
    p.applied_ = true ∧ w1.mem = w.mem ∧ p1 = p ∧
    (e = Error.undefinedBehaviour ∧ p.process_ = none ∨
     e = Error.threadInTarget ∨ e = Error.writeFailure) := by
  rw [PatchRaw.Remove_run_raw] at hR
  by_cases ha : p.applied_ = true
  · simp only [ha, if_true] at hR
    refine ⟨ha, ?_⟩
    cases hp : p.process_ with
    | none =>
      simp only [hp, Res.fail.injEq, Prod.mk.injEq] at hR
      obtain ⟨rfl, rfl, rfl⟩ := hR
      exact ⟨rfl, rfl, Or.inl ⟨rfl, rfl⟩⟩
    | some pid =>
      simp only [hp] at hR
      by_cases h1 : VerifyPatchThreads.loop w.self p.target_ p.data_.length w.threads = true
      · simp only [h1, if_true, Res.fail.injEq, Prod.mk.injEq] at hR
        obtain ⟨rfl, rfl, rfl⟩ := hR
        exact ⟨rfl, rfl, Or.inr (Or.inl rfl)⟩
      · by_cases h3 : w.canWriteRange env p.target_ p.orig_.length = true
        · simp [h1, h3] at hR
        · simp only [h1, h3, if_false, Res.fail.injEq, Prod.mk.injEq] at hR
          obtain ⟨rfl, rfl, rfl⟩ := hR
          exact ⟨rfl, rfl, Or.inr (Or.inr rfl)⟩
  · simp [ha] at hR

/-- Calling `PatchRaw::Apply` on an applied patch changes nothing. -/
theorem PatchRaw.Apply_applied_raw (env : Env) (w : World) (p : PatchRaw)
    (ha : p.applied_ = true) : PatchRaw.Apply env (w, p) = Res.ok () (w, p) := by
  rw [PatchRaw.Apply_run_raw]
  simp [ha]

/-- Calling `PatchRaw::Remove` on a patch that is not applied changes nothing. -/
theorem PatchRaw.Remove_not_applied_raw (env : Env) (w : World) (p : PatchRaw)
    (ha : p.applied_ = false) : PatchRaw.Remove env (w, p) = Res.ok () (w, p) := by
  rw [PatchRaw.Remove_run_raw]
  simp [ha]

/-! ## Rules for `Exec.Ensures` -/

section EnsuresLemmas

variable {σ α β : Type}

theorem Exec.Ensures.of_ok {m : Exec σ α} {s s1 : σ} {a : α} {Q : α → σ → Prop}
    {E : Error → σ → Prop} (h : m.Ensures s Q E) (hr : m s = .ok a s1) : Q a s1 := by
  unfold Exec.Ensures at h
  rw [hr] at h
  exact h

theorem Exec.Ensures.of_fail {m : Exec σ α} {s s1 : σ} {e : Error} {Q : α → σ → Prop}
    {E : Error → σ → Prop} (h : m.Ensures s Q E) (hr : m s = .fail e s1) : E e s1 := by
  unfold Exec.Ensures at h
  rw [hr] at h
  exact h

theorem Exec.Ensures.mono {m : Exec σ α} {s : σ} {Q Q2 : α → σ → Prop}
    {E E2 : Error → σ → Prop} (h : m.Ensures s Q E)
    (hQ : ∀ a s1, Q a s1 → Q2 a s1) (hE : ∀ e s1, E e s1 → E2 e s1) :
    m.Ensures s Q2 E2 := by
  unfold Exec.Ensures at h ⊢
  cases hm : m s with
  | ok a s1 => rw [hm] at h; exact hQ a s1 h
  | fail e s1 => rw [hm] at h; exact hE e s1 h

theorem Exec.Ensures.pure {a : α} {s : σ} {Q : α → σ → Prop} {E : Error → σ → Prop}
    (h : Q a s) : (Pure.pure a : Exec σ α).Ensures s Q E := h

theorem Exec.Ensures.pure2 {a : α} {s : σ} {Q : α → σ → Prop} {E : Error → σ → Prop}
    (h : Q a s) : (Exec.pure a : Exec σ α).Ensures s Q E := h

theorem Exec.Ensures.throw {e : Error} {s : σ} {Q : α → σ → Prop} {E : Error → σ → Prop}
    (h : E e s) : (Exec.throw e : Exec σ α).Ensures s Q E := h

theorem Exec.Ensures.get {s : σ} {Q : σ → σ → Prop} {E : Error → σ → Prop}
    (h : Q s s) : (Exec.get : Exec σ σ).Ensures s Q E := h

theorem Exec.Ensures.modify {f : σ → σ} {s : σ} {Q : Unit → σ → Prop}
    {E : Error → σ → Prop} (h : Q () (f s)) : (Exec.modify f).Ensures s Q E := h

theorem Exec.Ensures.bind {m : Exec σ α} {f : α → Exec σ β} {s : σ} {Q : β → σ → Prop}
    {E : Error → σ → Prop} (h : m.Ensures s (fun a s1 => (f a).Ensures s1 Q E) E) :
    (m >>= f).Ensures s Q E := by
  unfold Exec.Ensures at h ⊢
  rw [Exec.bind_run]
  cases hm : m s with
  | ok a s1 => rw [hm] at h; exact h
  | fail e s1 => rw [hm] at h; exact h

theorem Exec.Ensures.ite {c : Prop} [Decidable c] {m1 m2 : Exec σ α} {s : σ}
    {Q : α → σ → Prop} {E : Error → σ → Prop}
    (h1 : c → m1.Ensures s Q E) (h2 : ¬ c → m2.Ensures s Q E) :
    (if c then m1 else m2).Ensures s Q E := by
  split
  · exact h1 ‹_›
  · exact h2 ‹_›

theorem Exec.Ensures.tryCatch {m : Exec σ α} {h : Error → Exec σ α} {s : σ}
    {Q : α → σ → Prop} {E : Error → σ → Prop}
    (hm : m.Ensures s Q
      (fun e s1 => (e.isException = true → (h e).Ensures s1 Q E) ∧
                   (e.isException = false → E e s1))) :
    (Exec.tryCatch m h).Ensures s Q E := by
  unfold Exec.Ensures at hm ⊢
  unfold Exec.tryCatch
  cases hr : m s with
  | ok a s1 => rw [hr] at hm; exact hm
  | fail e s1 =>
    rw [hr] at hm
    simp only at hm ⊢
    cases hx : e.isException with
    | true => simpa using hm.1 hx
    | false => simpa using hm.2 hx

end EnsuresLemmas

/-! ## Frame lemmas for the primitives -/

section Frame

variable {env : Env} {Q X : Nat → Prop} {w0 : World} {p0 : PatchDetour}

theorem pagesFor_pos_pageSize {size : Nat} (h : 0 < pagesFor env size) : 0 < env.pageSize := by
  unfold pagesFor at h
  by_contra h0
  have : env.pageSize = 0 := by omega
  simp [this] at h

theorem pageOf_mul_add {k i : Nat} (hi : i < env.pageSize) :
    pageOf env (k * env.pageSize + i) = k := by
  unfold pageOf
  have hps : 0 < env.pageSize := by omega
  rw [Nat.add_comm, Nat.add_mul_div_right _ _ hps, Nat.div_eq_of_lt hi]
  simp

theorem pageOf_mul {k : Nat} (hps : 0 < env.pageSize) : pageOf env (k * env.pageSize) = k := by
  have := @pageOf_mul_add env k 0 hps
  simpa using this

/-- Every byte of the first page of a fresh block may be written. -/
theorem Fresh.spare {b : Block} (hb : Fresh env Q b) {off : Nat} (h : off < env.pageSize) :
    Spare env Q X (b.base + off) := by
  left
  obtain ⟨hpos, hbase, hq⟩ := hb
  rw [hbase, pageOf_mul_add h]
  simpa using hq 0 hpos

/-- A page is room for as many bytes as it holds. -/
theorem Room.of_pageSize {n : Nat} (h : n ≤ env.pageSize) : Room env Q X n :=
  fun _ hb _ hi => hb.spare (by omega)

/-- With no page to protect, every byte may be written. -/
theorem Room.of_empty (n : Nat) : Room env (fun _ => False) X n :=
  fun _ _ _ _ => Or.inl (fun hf => hf)

theorem Room.shrink {n m : Nat} (h : Room env Q X n) (hm : m ≤ n) : Room env Q X m :=
  fun b hb i hi => h b hb i (by omega)

theorem World.pagesFree_iff (w : World) (k n : Nat) :
    w.pagesFree k n = true ↔ ∀ i, i < n → w.prot (k + i) = Prot.free := by
  simp [World.pagesFree, List.all_eq_true]

/-- One more quiet event keeps the trace part of the invariant. -/
theorem Inv.trace_snoc {s : World × PatchDetour} (h : Inv env Q X w0 p0 s) {e : Event}
    (he : Event.Quiet env Q X e) :
    ∃ evs, s.1.trace ++ [e] = w0.trace ++ evs ∧ ∀ x ∈ evs, Event.Quiet env Q X x := by
  obtain ⟨evs, h1, h2⟩ := h.trace
  refine ⟨evs ++ [e], by rw [h1, List.append_assoc], ?_⟩
  intro x hx
  rcases List.mem_append.1 hx with hx | hx
  · exact h2 x hx
  · rw [List.mem_singleton.1 hx]; exact he

theorem Inv.log {s : World × PatchDetour} (h : Inv env Q X w0 p0 s) (e : Event)
    (he : Event.Quiet env Q X e) :
    Inv env Q X w0 p0 (s.1.log e, s.2) :=
  ⟨h.mem, h.prot, h.threads, h.self, h.process, h.applied, h.target, h.detour, h.orig,
    h.trampoline, h.depth, h.trace_snoc he⟩

/-- Committing pages that were free keeps the invariant and gives a fresh block. -/
theorem Inv.commit {s : World × PatchDetour} (h : Inv env Q X w0 p0 s) {k size : Nat}
    (hpos : 0 < pagesFor env size) (hfree : s.1.pagesFree k (pagesFor env size) = true) :
    Inv env Q X w0 p0 (s.1.commit env k size, s.2) ∧
      Fresh env Q { base := k * env.pageSize, size := size } := by
  have hps := pagesFor_pos_pageSize hpos
  rw [World.pagesFree_iff] at hfree
  refine ⟨⟨h.mem, ?_, h.threads, h.self, h.process, h.applied, h.target, h.detour, h.orig,
    h.trampoline, h.depth, h.trace_snoc (e := Event.alloc _) trivial⟩, hpos, ?_, ?_⟩
  · intro q hq
    show s.1.setPages k (pagesFor env size) Prot.readWrite q ≠ Prot.free
    unfold World.setPages
    split
    · simp
    · exact h.prot q hq
  · simp [pageOf_mul hps]
  · intro i hi hq
    simp only [pageOf_mul hps] at hq
    exact h.prot _ hq (hfree i hi)

/-- Releasing a fresh block keeps the invariant. -/
theorem Inv.release {s : World × PatchDetour} (h : Inv env Q X w0 p0 s) {b : Block}
    (hb : ∀ i, i < pagesFor env b.size → ¬ Q (pageOf env b.base + i)) :
    Inv env Q X w0 p0 (s.1.release env b, s.2) := by
  refine ⟨h.mem, ?_, h.threads, h.self, h.process, h.applied, h.target, h.detour, h.orig,
    h.trampoline, h.depth, h.trace_snoc (e := Event.release b) trivial⟩
  intro q hq
  show s.1.setPages (pageOf env b.base) (pagesFor env b.size) Prot.free q ≠ Prot.free
  unfold World.setPages
  split
  · rename_i hr
    exfalso
    have := hb (q - pageOf env b.base) (by omega)
    rw [Nat.add_sub_cancel' hr.1] at this
    exact this hq
  · exact h.prot q hq

/-- Releasing a list of fresh blocks keeps the invariant. -/
theorem Inv.releaseAll {bs : List Block} :
    ∀ {s : World × PatchDetour}, Inv env Q X w0 p0 s →
      (∀ b ∈ bs, ∀ i, i < pagesFor env b.size → ¬ Q (pageOf env b.base + i)) →
      Inv env Q X w0 p0 (s.1.releaseAll env bs, s.2) := by
  induction bs with
  | nil => intro s h _; exact h
  | cons b rest ih =>
    intro s h hb
    have h1 := h.release (b := b) (hb b (List.mem_cons_self _ _))
    exact ih (s := (s.1.release env b, s.2)) h1
      (fun b2 hb2 => hb b2 (List.mem_cons_of_mem _ hb2))

theorem Inv.allocPlan {s : World × PatchDetour} (h : Inv env Q X w0 p0 s)
    (plan : List (Option Nat)) : Inv env Q X w0 p0 ({ s.1 with allocPlan := plan }, s.2) :=
  ⟨h.mem, h.prot, h.threads, h.self, h.process, h.applied, h.target, h.detour, h.orig,
    h.trampoline, h.depth, h.trace⟩

theorem allocate_frame (size : Nat) {s : World × PatchDetour} (h : Inv env Q X w0 p0 s) :
    (allocate env size).Ensures s (fun b s1 => Inv env Q X w0 p0 s1 ∧ Fresh env Q b)
      (fun e s1 => Inv env Q X w0 p0 s1 ∧ e = Error.allocFailure) := by
  unfold Exec.Ensures
  cases hplan : s.1.allocPlan with
  | nil =>
    have hr : allocate env size s = .fail .allocFailure s := by simp [allocate, hplan]
    rw [hr]
    exact ⟨h, rfl⟩
  | cons c plan =>
    cases c with
    | none =>
      have hr : allocate env size s =
          .fail .allocFailure ({ s.1 with allocPlan := plan }, s.2) := by
        simp [allocate, hplan]
      rw [hr]
      exact ⟨h.allocPlan plan, rfl⟩
    | some k =>
      by_cases hc : 0 < pagesFor env size ∧ s.1.pagesFree k (pagesFor env size) = true
      · have hr : allocate env size s = .ok { base := k * env.pageSize, size := size }
            ({ s.1.commit env k size with allocPlan := plan }, s.2) := by
          simp only [allocate, hplan, if_pos hc]
        rw [hr]
        obtain ⟨h1, h2⟩ := h.commit hc.1 hc.2
        exact ⟨h1.allocPlan plan, h2⟩
      · have hr : allocate env size s =
            .fail .allocFailure ({ s.1 with allocPlan := plan }, s.2) := by
          simp only [allocate, hplan, if_neg hc]
        rw [hr]
        exact ⟨h.allocPlan plan, rfl⟩

theorem allocateAt_frame (size addr : Nat) {s : World × PatchDetour}
    (h : Inv env Q X w0 p0 s) :
    (allocateAt env size addr).Ensures s (fun b s1 => Inv env Q X w0 p0 s1 ∧ Fresh env Q b)
      (fun e s1 => s1 = s ∧ e = Error.allocFailure) := by
  unfold Exec.Ensures
  by_cases hc : 0 < pagesFor env size ∧
      s.1.pagesFree (pageOf env addr) (pagesFor env size) = true
  · have hr : allocateAt env size addr s =
        .ok { base := pageOf env addr * env.pageSize, size := size }
          (s.1.commit env (pageOf env addr) size, s.2) := by
      simp only [allocateAt, if_pos hc]
    rw [hr]
    exact h.commit hc.1 hc.2
  · have hr : allocateAt env size addr s = .fail .allocFailure s := by
      simp only [allocateAt, if_neg hc]
    rw [hr]
    exact ⟨rfl, rfl⟩

theorem ReadVector_frame (a n : Nat) (s : World × PatchDetour) :
    (ReadVector env a n).Ensures s (fun bs s1 => s1 = s ∧ bs = s.1.bytesAt a n)
      (fun e s1 => s1 = s ∧ e = Error.readFailure) := by
  unfold Exec.Ensures
  rw [ReadVector_run]
  by_cases hc : s.1.canReadRange env a n = true
  · rw [if_pos hc]
    exact ⟨rfl, rfl⟩
  · rw [if_neg hc]
    exact ⟨rfl, rfl⟩

theorem ReadPtr_frame (a : Nat) (s : World × PatchDetour) :
    (ReadPtr env a).Ensures s (fun _ s1 => s1 = s) (fun _ s1 => s1 = s) := by
  unfold Exec.Ensures ReadPtr
  have := @ReadVector_frame env a (env.arch.bits / 8) s
  unfold Exec.Ensures at this
  cases hr : ReadVector env a (env.arch.bits / 8) s with
  | ok bs s1 => rw [hr] at this; exact this.1
  | fail e s1 => rw [hr] at this; exact this.1

theorem WriteVector_frame (a : Nat) (bs : List Nat) {s : World × PatchDetour}
    (h : Inv env Q X w0 p0 s) (hsp : ∀ i, i < bs.length → Spare env Q X (a + i)) :
    (WriteVector env a bs).Ensures s (fun _ s1 => Inv env Q X w0 p0 s1)
      (fun e s1 => s1 = s ∧ e = Error.writeFailure) := by
  unfold Exec.Ensures
  rw [WriteVector_run]
  by_cases hc : s.1.canWriteRange env a bs.length = true
  · rw [if_pos hc]
    refine ⟨?_, h.prot, h.threads, h.self, h.process, h.applied, h.target, h.detour, h.orig,
      h.trampoline, h.depth, h.trace_snoc (e := Event.write a bs) hsp⟩
    intro x hq hx
    show s.1.store a bs x = w0.mem x
    rw [World.store_outside, h.mem x hq hx]
    rintro ⟨h1, h2⟩
    have := hsp (x - a) (by omega)
    rw [Nat.add_sub_cancel' h1] at this
    rcases this with h3 | h3
    · exact h3 hq
    · exact hx h3
  · rw [if_neg hc]
    exact ⟨rfl, rfl⟩

theorem leBytes_length (n v : Nat) : (leBytes n v).length = n := by
  induction n generalizing v with
  | zero => rfl
  | succ n ih => simp [leBytes, ih]

theorem Arch.bits_div_le (a : Arch) : a.bits / 8 ≤ 8 := by
  cases a <;> decide

theorem WritePtr_frame (a v : Nat) {s : World × PatchDetour}
    (h : Inv env Q X w0 p0 s) (hsp : ∀ i, i < 8 → Spare env Q X (a + i)) :
    (WritePtr env a v).Ensures s (fun _ s1 => Inv env Q X w0 p0 s1)
      (fun e s1 => s1 = s ∧ e = Error.writeFailure) := by
  unfold WritePtr
  apply WriteVector_frame a _ h
  intro i hi
  rw [leBytes_length] at hi
  exact hsp i (lt_of_lt_of_le hi (Arch.bits_div_le _))

end Frame

/-! ## Frame lemmas for the private methods of `PatchDetour` -/

section DetourFrame

variable {env : Env} {Q X : Nat → Prop} {w0 : World} {p0 : PatchDetour}

/-- The invariant does not depend on which reference patch is used, as long as the
members it speaks of agree. -/
theorem Inv.rebase {p1 : PatchDetour} {s : World × PatchDetour} (h : Inv env Q X w0 p0 s)
    (h1 : p0.process_ = p1.process_) (h2 : p0.applied_ = p1.applied_)
    (h3 : p0.target_ = p1.target_) (h4 : p0.detour_ = p1.detour_)
    (h5 : p0.orig_ = p1.orig_) (h6 : p0.trampoline_ = p1.trampoline_) :
    Inv env Q X w0 p1 s :=
  ⟨h.mem, h.prot, h.threads, h.self, h.process.trans h1, h.applied.trans h2,
    h.target.trans h3, h.detour.trans h4, h.orig.trans h5, h.trampoline.trans h6,
    h.depth, h.trace⟩

/-- A quiet event stays quiet when more addresses may be overwritten. -/
theorem Event.Quiet.relax {X2 : Nat → Prop} (hX : ∀ a, X a → X2 a) {e : Event}
    (h : Event.Quiet env Q X e) : Event.Quiet env Q X2 e := by
  cases e with
  | write a bs => exact fun i hi => (h i hi).imp id (hX _)
  | suspend _ => exact h
  | resume _ => exact h
  | flush _ _ => trivial
  | alloc _ => trivial
  | release _ => trivial

/-- Allowing more addresses to be overwritten weakens the invariant. -/
theorem Inv.weaken {X2 : Nat → Prop} {s : World × PatchDetour} (h : Inv env Q X w0 p0 s)
    (hX : ∀ a, X a → X2 a) : Inv env Q X2 w0 p0 s :=
  ⟨fun a hq hx => h.mem a hq (fun hxa => hx (hX a hxa)), h.prot, h.threads, h.self,
    h.process, h.applied, h.target, h.detour, h.orig, h.trampoline, h.depth,
    h.trace.imp (fun _ ht => ⟨ht.1, fun e he => Event.Quiet.relax hX (ht.2 e he)⟩)⟩


theorem PatchDetour.allocate_tramp_frame (addr size : Nat) {s : World × PatchDetour}
    (h : Inv env Q X w0 p0 s) :
    (PatchDetour.allocate_tramp env addr size).Ensures s
      (fun ob s1 => Inv env Q X w0 p0 s1 ∧ ∀ b, ob = some b → Fresh env Q b)
      (fun _ _ => False) := by
  unfold PatchDetour.allocate_tramp
  apply Exec.Ensures.tryCatch
  apply Exec.Ensures.bind
  apply (allocateAt_frame size addr h).mono
  · intro b s1 hb
    apply Exec.Ensures.pure
    exact ⟨hb.1, fun b2 hb2 => by cases hb2; exact hb.2⟩
  · rintro e s1 ⟨rfl, rfl⟩
    refine ⟨fun _ => ?_, fun hx => by cases hx⟩
    apply Exec.Ensures.pure
    exact ⟨h, fun b hb => by cases hb⟩

/-- The search of `AllocatePageNear` keeps the invariant; a block it finds is fresh,
and its only failure is running out of fuel. -/
theorem PatchDetour.AllocatePageNear.search_frame (base search_beg search_end : Int)
    (fuel : Nat) :
    ∀ (index : Int) {s : World × PatchDetour}, Inv env Q X w0 p0 s →
      (PatchDetour.AllocatePageNear.search env base search_beg search_end fuel index).Ensures s
        (fun ob s1 => Inv env Q X w0 p0 s1 ∧ ∀ b, ob = some b → Fresh env Q b)
        (fun e s1 => Inv env Q X w0 p0 s1 ∧ e = Error.diverge) := by
  induction fuel with
  | zero =>
    intro index s h
    exact ⟨h, rfl⟩
  | succ fuel ih =>
    intro index s h
    unfold PatchDetour.AllocatePageNear.search
    apply Exec.Ensures.ite
    · intro _
      apply Exec.Ensures.bind
      have hup : (if base + index < search_end then
            PatchDetour.allocate_tramp env (wrap 64 (base + index)) env.pageSize
          else (Pure.pure none : Exec (World × PatchDetour) (Option Block))).Ensures s
          (fun ob s1 => Inv env Q X w0 p0 s1 ∧ ∀ b, ob = some b → Fresh env Q b)
          (fun _ _ => False) := by
        apply Exec.Ensures.ite
        · intro _; exact PatchDetour.allocate_tramp_frame _ _ h
        · intro _; exact Exec.Ensures.pure ⟨h, fun b hb => by cases hb⟩
      apply hup.mono
      · intro up s1 hs1
        cases up with
        | some b => exact Exec.Ensures.pure ⟨hs1.1, fun b2 hb2 => by cases hb2; exact hs1.2 b rfl⟩
        | none =>
          simp only
          apply Exec.Ensures.bind
          have hdown : (if base - index > search_beg then
                PatchDetour.allocate_tramp env (wrap 64 (base - index)) env.pageSize
              else (Pure.pure none : Exec (World × PatchDetour) (Option Block))).Ensures s1
              (fun ob s2 => Inv env Q X w0 p0 s2 ∧ ∀ b, ob = some b → Fresh env Q b)
              (fun _ _ => False) := by
            apply Exec.Ensures.ite
            · intro _; exact PatchDetour.allocate_tramp_frame _ _ hs1.1
            · intro _; exact Exec.Ensures.pure ⟨hs1.1, fun b hb => by cases hb⟩
          apply hdown.mono
          · intro down s2 hs2
            cases down with
            | some b =>
              exact Exec.Ensures.pure ⟨hs2.1, fun b2 hb2 => by cases hb2; exact hs2.2 b rfl⟩
            | none => exact ih _ hs2.1
          · intro e s2 hf; exact hf.elim
      · intro e s1 hf; exact hf.elim
    · intro _
      exact Exec.Ensures.pure ⟨h, fun b hb => by cases hb⟩

/-- `AllocatePageNear` keeps the invariant and returns a fresh block. -/
theorem PatchDetour.AllocatePageNear_frame (address : Nat) {s : World × PatchDetour}
    (h : Inv env Q X w0 p0 s) :
    (PatchDetour.AllocatePageNear env address).Ensures s
      (fun b s1 => Inv env Q X w0 p0 s1 ∧ Fresh env Q b)
      (fun _ s1 => Inv env Q X w0 p0 s1) := by
  unfold PatchDetour.AllocatePageNear
  cases env.arch with
  | x64 =>
    simp only
    apply Exec.Ensures.bind
    apply (PatchDetour.AllocatePageNear.search_frame _ _ _ _ _ h).mono
    · intro ob s1 hs1
      cases ob with
      | none => exact Exec.Ensures.throw hs1.1
      | some b => exact Exec.Ensures.pure ⟨hs1.1, hs1.2 b rfl⟩
    · intro e s1 hs1; exact hs1.1
  | x86 =>
    simp only
    exact (allocate_frame env.pageSize h).mono (fun _ _ hh => hh) (fun _ _ hh => hh.1)

theorem PatchDetour.releasingOnFailure_frame {α : Type} {b : Block}
    {m : Exec (World × PatchDetour) α} {s : World × PatchDetour} (hb : Fresh env Q b)
    (hm : m.Ensures s (fun _ s1 => Inv env Q X w0 p0 s1)
      (fun _ s1 => Inv env Q X w0 p0 s1)) :
    (PatchDetour.releasingOnFailure env b m).Ensures s (fun _ s1 => Inv env Q X w0 p0 s1)
      (fun _ s1 => Inv env Q X w0 p0 s1) := by
  unfold Exec.Ensures at hm ⊢
  unfold PatchDetour.releasingOnFailure
  cases hr : m s with
  | ok a s1 => rw [hr] at hm; exact hm
  | fail e s1 => rw [hr] at hm; exact hm.release hb.2.2

theorem Inv.pushTrampoline {s : World × PatchDetour} (h : Inv env Q X w0 p0 s) (b : Block) :
    Inv env Q X w0 p0 (s.1, { s.2 with trampolines_ := s.2.trampolines_ ++ [b] }) :=
  ⟨h.mem, h.prot, h.threads, h.self, h.process, h.applied, h.target, h.detour, h.orig,
    h.trampoline, h.depth, h.trace⟩

/-- Storing the address cell in a fresh block keeps the invariant, also when the
store fails and the block is released. -/
theorem PatchDetour.cell_frame (hps : Room env Q X 8) {tr : Block} (v : Nat)
    {s : World × PatchDetour} (h : Inv env Q X w0 p0 s) (htr : Fresh env Q tr) :
    (PatchDetour.releasingOnFailure env tr (WritePtr env tr.base v)).Ensures s
      (fun _ s1 => Inv env Q X w0 p0 s1) (fun _ s1 => Inv env Q X w0 p0 s1) := by
  have hw : (WritePtr env tr.base v).Ensures s (fun _ s1 => Inv env Q X w0 p0 s1)
      (fun _ s1 => Inv env Q X w0 p0 s1) := by
    apply (WritePtr_frame tr.base v h ?_).mono (fun _ _ hh => hh)
    · rintro e s1 ⟨rfl, -⟩; exact h
    · intro i hi
      exact hps tr htr i hi
  exact PatchDetour.releasingOnFailure_frame htr hw

/-- The planning part of `WriteJump` keeps the invariant; the stub it plans is at
most 14 bytes long, and without the fallback it has the size of a near or far
jump. -/
theorem PatchDetour.WriteJump.plan_frame (hps : Room env Q X 8) (address target : Nat)
    (fb : Bool) {s : World × PatchDetour} (h : Inv env Q X w0 p0 s) :
    (PatchDetour.WriteJump.plan env address target fb).Ensures s
      (fun r s1 => Inv env Q X w0 p0 s1 ∧ PatchDetour.planLen r ≤ 14 ∧
        (fb = false → PatchDetour.planLen r = PatchDetour.jumpLen env address target))
      (fun _ s1 => Inv env Q X w0 p0 s1) := by
  unfold PatchDetour.WriteJump.plan
  cases harch : env.arch with
  | x86 =>
    simp only
    apply Exec.Ensures.pure
    refine ⟨h, by simp [PatchDetour.planLen, PatchDetour.kJumpSize32], fun _ => ?_⟩
    simp [PatchDetour.planLen, PatchDetour.jumpLen, PatchDetour.IsNear, harch]
  | x64 =>
    simp only
    apply Exec.Ensures.ite
    · intro hnear
      apply Exec.Ensures.pure
      refine ⟨h, by simp [PatchDetour.planLen, PatchDetour.kJumpSize32], fun _ => ?_⟩
      simp [PatchDetour.planLen, PatchDetour.jumpLen, hnear, PatchDetour.kJumpSize32]
    · intro hfar
      apply Exec.Ensures.bind
      apply Exec.Ensures.tryCatch
      apply Exec.Ensures.bind
      apply (PatchDetour.AllocatePageNear_frame address h).mono
      · intro b s1 hs1
        apply Exec.Ensures.pure
        apply Exec.Ensures.bind
        apply (PatchDetour.cell_frame hps target hs1.1 hs1.2).mono
        · intro _ s2 hs2
          apply Exec.Ensures.bind
          apply Exec.Ensures.modify
          apply Exec.Ensures.pure
          refine ⟨hs2.pushTrampoline b, ?_, fun _ => ?_⟩
          · simp [PatchDetour.planLen, PatchDetour.kJumpSize64]
          · simp [PatchDetour.planLen, PatchDetour.jumpLen, hfar, harch]
        · intro _ _ hh; exact hh
      · intro e s1 hs1
        refine ⟨fun _ => ?_, fun _ => hs1⟩
        apply Exec.Ensures.pure
        simp only
        apply Exec.Ensures.ite
        · intro _
          exact Exec.Ensures.throw hs1
        · intro hfb
          have hfb2 : fb = true := by simpa using hfb
          apply Exec.Ensures.ite
          · intro _
            apply Exec.Ensures.pure
            exact ⟨hs1, by simp [PatchDetour.planLen, PatchDetour.kPushRetSizeBig64],
              fun hc => by rw [hfb2] at hc; cases hc⟩
          · intro _
            apply Exec.Ensures.pure
            exact ⟨hs1, by simp [PatchDetour.planLen, PatchDetour.kPushRetSizeSmall64],
              fun hc => by rw [hfb2] at hc; cases hc⟩

theorem fitBuf_length (n : Nat) (code : List Nat) : (fitBuf n code).length = n := by
  simp [fitBuf]

/-- `WriteJump` changes, outside fresh pages, only the bytes of its stub; the value
it returns is at most 14, and without the fallback it is the size of a near or far
jump.  When it fails it has changed nothing outside fresh pages. -/
theorem PatchDetour.WriteJump_frame2 {X0 : Nat → Prop} (hps : Room env Q X0 8)
    (address target : Nat) (fb : Bool) {s : World × PatchDetour}
    (h : Inv env Q X0 w0 p0 s) (hX : ∀ a, X0 a → X a)
    (hsp : ∀ i, i < (if fb = true then 14 else PatchDetour.jumpLen env address target) →
      Spare env Q X (address + i)) :
    (PatchDetour.WriteJump env address target fb).Ensures s
      (fun n s1 => Inv env Q X w0 p0 s1 ∧ n ≤ 14 ∧
        (fb = false → n = PatchDetour.jumpLen env address target))
      (fun _ s1 => Inv env Q X0 w0 p0 s1) := by
  unfold PatchDetour.WriteJump
  apply Exec.Ensures.bind
  apply (PatchDetour.WriteJump.plan_frame hps address target fb h).mono
  · rintro ⟨stub, expected, asmjit⟩ s1 ⟨hs1, hle, hfb⟩
    simp only
    have hlen : ∀ n, n = PatchDetour.planLen (stub, expected, asmjit) →
        ∀ i, i < n → Spare env Q X (address + i) := by
      intro n hn i hi
      apply hsp
      by_cases hc : fb = true
      · rw [if_pos hc]; omega
      · rw [if_neg hc, ← hfb (by simpa using hc)]; omega
    apply Exec.Ensures.ite
    · intro _; exact Exec.Ensures.throw hs1
    · intro hsz
      have hsz2 : env.getCodeSize stub = expected := by simpa using hsz
      cases asmjit with
      | true =>
        simp only [if_true]
        apply Exec.Ensures.ite
        · intro _; exact Exec.Ensures.throw hs1
        · intro hreal
          have hreal2 : (env.relocCode stub address).2 = PatchDetour.kJumpSize32 := by
            simpa using hreal
          have hl : ((fitBuf (env.getCodeSize stub) (env.relocCode stub address).1).take
              (env.relocCode stub address).2).length
                = PatchDetour.planLen (stub, expected, true) := by
            simp [PatchDetour.planLen, fitBuf_length, hsz2, hreal2]
          apply Exec.Ensures.bind
          apply (WriteVector_frame address _ (hs1.weaken hX) (hlen _ hl)).mono
          · intro _ s2 hs2
            apply Exec.Ensures.pure
            rw [hl]
            exact ⟨hs2, hle, hfb⟩
          · rintro e s2 ⟨rfl, -⟩; exact hs1
      | false =>
        simp only [Bool.false_eq_true, if_false]
        have hl : (fitBuf (env.getCodeSize stub) (env.relocCode stub address).1).length
              = PatchDetour.planLen (stub, expected, false) := by
          simp [PatchDetour.planLen, fitBuf_length, hsz2]
        apply Exec.Ensures.bind
        apply (WriteVector_frame address _ (hs1.weaken hX) (hlen _ hl)).mono
        · intro _ s2 hs2
          apply Exec.Ensures.pure
          rw [hl]
          exact ⟨hs2, hle, hfb⟩
        · rintro e s2 ⟨rfl, -⟩; exact hs1
  · intro _ _ hh; exact hh

/-- `WriteJump` keeps the invariant when the bytes of its stub may be written. -/
theorem PatchDetour.WriteJump_frame (hps : Room env Q X 8) (address target : Nat)
    (fb : Bool) {s : World × PatchDetour} (h : Inv env Q X w0 p0 s)
    (hsp : ∀ i, i < (if fb = true then 14 else PatchDetour.jumpLen env address target) →
      Spare env Q X (address + i)) :
    (PatchDetour.WriteJump env address target fb).Ensures s
      (fun n s1 => Inv env Q X w0 p0 s1 ∧ n ≤ 14 ∧
        (fb = false → n = PatchDetour.jumpLen env address target))
      (fun _ s1 => Inv env Q X w0 p0 s1) :=
  PatchDetour.WriteJump_frame2 hps address target fb h (fun _ hx => hx) hsp

/-- `WriteCall` keeps the invariant when the six bytes at `address` may be written;
the value it returns is at most 6. -/
theorem PatchDetour.WriteCall_frame (hps : Room env Q X 8) (address target : Nat)
    {s : World × PatchDetour} (h : Inv env Q X w0 p0 s)
    (hsp : ∀ i, i < 6 → Spare env Q X (address + i)) :
    (PatchDetour.WriteCall env address target).Ensures s
      (fun n s1 => Inv env Q X w0 p0 s1 ∧ n ≤ 6)
      (fun _ s1 => Inv env Q X w0 p0 s1) := by
  unfold PatchDetour.WriteCall
  apply Exec.Ensures.bind
  have hplan : (PatchDetour.WriteCall.plan env address target).Ensures s
      (fun r s1 => Inv env Q X w0 p0 s1 ∧ r.2 ≤ 6) (fun _ s1 => Inv env Q X w0 p0 s1) := by
    unfold PatchDetour.WriteCall.plan
    cases harch : env.arch with
    | x86 =>
      simp only
      exact Exec.Ensures.pure ⟨h, by simp [PatchDetour.kCallSize32]⟩
    | x64 =>
      simp only
      apply Exec.Ensures.bind
      apply (PatchDetour.AllocatePageNear_frame address h).mono
      · intro b s1 hs1
        apply Exec.Ensures.bind
        apply (PatchDetour.cell_frame hps target hs1.1 hs1.2).mono
        · intro _ s2 hs2
          apply Exec.Ensures.bind
          apply Exec.Ensures.modify
          apply Exec.Ensures.pure
          exact ⟨hs2.pushTrampoline b, by simp [PatchDetour.kCallSize64]⟩
        · intro _ _ hh; exact hh
      · intro _ _ hh; exact hh
  apply hplan.mono
  · rintro ⟨stub, expected⟩ s1 ⟨hs1, hle⟩
    simp only at hle ⊢
    apply Exec.Ensures.ite
    · intro _; exact Exec.Ensures.throw hs1
    · intro hsz
      have hsz2 : env.getCodeSize stub = expected := by simpa using hsz
      apply Exec.Ensures.bind
      apply (WriteVector_frame address _ hs1 ?_).mono
      · intro _ s2 hs2
        apply Exec.Ensures.pure
        exact ⟨hs2, by omega⟩
      · rintro e s2 ⟨rfl, -⟩; exact hs1
      · intro i hi
        rw [fitBuf_length] at hi
        exact hsp i (by omega)
  · intro _ _ hh; exact hh

theorem PatchDetour.insnTarget_frame (size lval : Nat) (s : World × PatchDetour) :
    (PatchDetour.insnTarget size lval).Ensures s (fun _ s1 => s1 = s) (fun _ s1 => s1 = s) := by
  unfold PatchDetour.insnTarget
  repeat' apply Exec.Ensures.ite <;> intro _
  all_goals first | exact Exec.Ensures.pure rfl | exact Exec.Ensures.throw rfl

/-- Copying one instruction into the trampoline keeps the invariant. -/
theorem PatchDetour.Apply.copy_frame (tramp_cur : Nat) (rest : List Nat) (len : Nat)
    {s : World × PatchDetour} (h : Inv env Q X w0 p0 s)
    (hsp : ∀ i, i < rest.length + 14 → Spare env Q X (tramp_cur + i)) :
    (if len ≤ rest.length then
        (WriteVector env tramp_cur (rest.take len) >>= fun _ =>
          (Pure.pure (tramp_cur + len) : Exec (World × PatchDetour) Nat))
      else Exec.throw .undefinedBehaviour).Ensures s
      (fun tc s1 => Inv env Q X w0 p0 s1 ∧ tramp_cur ≤ tc ∧
        tc + (rest.drop len).length ≤ tramp_cur + rest.length + 14)
      (fun _ s1 => Inv env Q X w0 p0 s1) := by
  apply Exec.Ensures.ite
  · intro hlen
    apply Exec.Ensures.bind
    apply (WriteVector_frame tramp_cur _ h ?_).mono
    · intro _ s1 hs1
      apply Exec.Ensures.pure
      refine ⟨hs1, by omega, ?_⟩
      rw [List.length_drop]
      omega
    · rintro e s1 ⟨rfl, -⟩; exact h
    · intro i hi
      rw [List.length_take] at hi
      exact hsp i (by omega)
  · intro _
    exact Exec.Ensures.throw h

/-- One pass of the decode loop keeps the invariant; `tramp_cur` only grows, and by
at most 14 bytes more than the input shrinks. -/
theorem PatchDetour.Apply.step_frame (hps : Room env Q X 8) (target instr_size : Nat)
    (tramp_cur : Nat) (rest : List Nat) (insn : Insn) {s : World × PatchDetour}
    (h : Inv env Q X w0 p0 s)
    (hsp : ∀ i, i < rest.length + 14 → Spare env Q X (tramp_cur + i)) :
    (PatchDetour.Apply.step env target instr_size tramp_cur rest insn).Ensures s
      (fun tc s1 => Inv env Q X w0 p0 s1 ∧ tramp_cur ≤ tc ∧
        tc + (rest.drop insn.len).length ≤ tramp_cur + rest.length + 14)
      (fun _ s1 => Inv env Q X w0 p0 s1) := by
  unfold PatchDetour.Apply.step
  apply Exec.Ensures.ite
  · intro _; exact Exec.Ensures.throw h
  · intro _
    cases hop : insn.opr0 with
    | none =>
      simp only
      exact PatchDetour.Apply.copy_frame tramp_cur rest insn.len h hsp
    | some op =>
      simp only
      apply Exec.Ensures.ite
      · intro _
        apply Exec.Ensures.bind
        apply (PatchDetour.insnTarget_frame _ _ s).mono
        · rintro insn_target s1 rfl
          apply Exec.Ensures.bind
          have hjt : (if PatchDetour.is_jimm (some op) = true then
                (Pure.pure (PatchDetour.resolve_rel env ((target + instr_size) % 2 ^ 64)
                  insn_target insn.len) : Exec (World × PatchDetour) Nat)
              else ReadPtr env (PatchDetour.resolve_rel env ((target + instr_size) % 2 ^ 64)
                  insn_target insn.len)).Ensures s1
              (fun _ s2 => s2 = s1) (fun _ s2 => s2 = s1) := by
            apply Exec.Ensures.ite
            · intro _; exact Exec.Ensures.pure rfl
            · intro _; exact ReadPtr_frame _ _
          apply hjt.mono
          · rintro jump_target s2 rfl
            have hdrop : (rest.drop insn.len).length ≤ rest.length := by
              rw [List.length_drop]; omega
            apply Exec.Ensures.ite
            · intro _
              apply Exec.Ensures.bind
              apply (PatchDetour.WriteJump_frame hps tramp_cur jump_target true h ?_).mono
              · rintro n s3 ⟨hs3, hn, -⟩
                apply Exec.Ensures.pure
                exact ⟨hs3, by omega, by omega⟩
              · intro _ _ hh; exact hh
              · intro i hi
                simp only [if_true] at hi
                exact hsp i (by omega)
            · intro _
              apply Exec.Ensures.bind
              apply (PatchDetour.WriteCall_frame hps tramp_cur jump_target h ?_).mono
              · rintro n s3 ⟨hs3, hn⟩
                apply Exec.Ensures.pure
                exact ⟨hs3, by omega, by omega⟩
              · intro _ _ hh; exact hh
              · intro i hi
                exact hsp i (by omega)
          · rintro e s2 rfl; exact h
        · rintro e s1 rfl; exact h
      · intro _
        exact PatchDetour.Apply.copy_frame tramp_cur rest insn.len h hsp

/-- The decode loop keeps the invariant, and leaves room for 14 more bytes at the
final `tramp_cur`. -/
theorem PatchDetour.Apply.decodeLoop_frame (hps : Room env Q X 8) (target jump_size : Nat)
    (fuel : Nat) :
    ∀ (rest : List Nat) (tramp_cur instr_size : Nat) {s : World × PatchDetour},
      Inv env Q X w0 p0 s →
      (∀ i, i < rest.length + 14 * fuel + 14 → Spare env Q X (tramp_cur + i)) →
      (PatchDetour.Apply.decodeLoop env target jump_size fuel rest tramp_cur instr_size).Ensures s
        (fun r s1 => Inv env Q X w0 p0 s1 ∧ ∀ i, i < 14 → Spare env Q X (r.1 + i))
        (fun _ s1 => Inv env Q X w0 p0 s1) := by
  induction fuel with
  | zero =>
    intro rest tramp_cur instr_size s h _
    exact h
  | succ fuel ih =>
    intro rest tramp_cur instr_size s h hsp
    unfold PatchDetour.Apply.decodeLoop
    simp only
    apply Exec.Ensures.bind
    apply (PatchDetour.Apply.step_frame hps target instr_size tramp_cur rest (env.decode rest) h
      (fun i hi => hsp i (by omega))).mono
    · rintro tc s1 ⟨hs1, hge, hle⟩
      apply Exec.Ensures.ite
      · intro _
        apply ih _ _ _ hs1
        intro i hi
        have := hsp (tc - tramp_cur + i) (by omega)
        rwa [← Nat.add_assoc, Nat.add_sub_cancel' hge] at this
      · intro _
        apply Exec.Ensures.pure
        refine ⟨hs1, fun i hi => ?_⟩
        have := hsp (tc - tramp_cur + i) (by omega)
        rwa [← Nat.add_assoc, Nat.add_sub_cancel' hge] at this
    · intro _ _ hh; exact hh

/-- Replacing `trampoline_` by a freshly allocated block keeps the invariant, when
the block held so far is no part of `Q`. -/
theorem PatchDetour.Apply.newTrampoline_frame {s : World × PatchDetour}
    (h : Inv env Q X w0 p0 s)
    (hstale : ∀ b, p0.trampoline_ = some b →
      ∀ i, i < pagesFor env b.size → ¬ Q (pageOf env b.base + i)) :
    (PatchDetour.Apply.newTrampoline env).Ensures s
      (fun tr s1 => Inv env Q X w0 { p0 with trampoline_ := some tr } s1 ∧ Fresh env Q tr)
      (fun _ s1 => Inv env Q X w0 p0 s1) := by
  unfold PatchDetour.Apply.newTrampoline
  apply Exec.Ensures.bind
  apply (allocate_frame PatchDetour.kTrampSize h).mono
  · rintro tr s1 ⟨hs1, hfresh⟩
    apply Exec.Ensures.bind
    apply Exec.Ensures.modify
    apply Exec.Ensures.pure
    refine ⟨?_, hfresh⟩
    have hrel : Inv env Q X w0 p0 (s1.1.releaseOpt env s1.2.trampoline_, s1.2) := by
      cases ht : s1.2.trampoline_ with
      | none => exact hs1
      | some b => exact hs1.release (hstale b (by rw [← hs1.trampoline, ht]))
    exact ⟨hrel.mem, hrel.prot, hrel.threads, hrel.self, hrel.process, hrel.applied,
      hrel.target, hrel.detour, hrel.orig, rfl, hrel.depth, hrel.trace⟩
  · intro _ _ hh; exact hh.1

theorem PatchDetour.jumpSize_le (env : Env) (p : PatchDetour) : PatchDetour.jumpSize env p ≤ 6 := by
  unfold PatchDetour.jumpSize
  split
  · decide
  · cases env.arch <;> decide

/-- The building part of `Apply` keeps the invariant: whether it returns or fails,
no byte outside `X` on a page of `Q` has changed and no page of `Q` was released.
When it returns, `trampoline_` holds a fresh block, `orig_` the bytes now at the
target, and the last event is the flush of the trampoline. -/
theorem PatchDetour.Apply.build_frame (hps : Room env Q X 143) {s : World × PatchDetour}
    (h : Inv env Q X w0 p0 s)
    (hstale : ∀ b, p0.trampoline_ = some b →
      ∀ i, i < pagesFor env b.size → ¬ Q (pageOf env b.base + i)) :
    (PatchDetour.Apply.build env p0).Ensures s
      (fun _ s1 => ∃ tr, Fresh env Q tr ∧
        Inv env Q X w0 { p0 with
          trampoline_ := some tr
          orig_ := s1.1.bytesAt p0.target_ (PatchDetour.jumpSize env p0) } s1 ∧
        ∃ t, s1.1.trace = t ++ [Event.flush tr.base tr.size])
      (fun _ s1 => ∃ t, Inv env Q X w0 { p0 with trampoline_ := t } s1) := by
  unfold PatchDetour.Apply.build
  apply Exec.Ensures.bind
  apply (PatchDetour.Apply.newTrampoline_frame h hstale).mono
  · rintro tr s1 ⟨hs1, hfresh⟩
    apply Exec.Ensures.bind
    apply (ReadVector_frame p0.target_ PatchDetour.kTrampSize s1).mono
    · rintro buffer s2 ⟨rfl, hbuf⟩
      have hblen : buffer.length = 45 := by
        rw [hbuf, World.bytesAt_length]; rfl
      simp only
      apply Exec.Ensures.bind
      have hj := PatchDetour.jumpSize_le env p0
      apply (PatchDetour.Apply.decodeLoop_frame (hps.shrink (by omega)) p0.target_
        (PatchDetour.jumpSize env p0) (PatchDetour.jumpSize env p0) buffer tr.base 0 hs1
        ?_).mono
      · rintro ⟨tramp_cur, instr_size⟩ s3 ⟨hs3, hroom⟩
        simp only
        apply Exec.Ensures.bind
        apply (PatchDetour.WriteJump_frame (hps.shrink (by omega)) tramp_cur
          (p0.target_ + instr_size) true
          hs3 ?_).mono
        · rintro n s4 ⟨hs4, -, -⟩
          apply Exec.Ensures.bind
          apply Exec.Ensures.modify
          apply Exec.Ensures.bind
          have hs5 := hs4.log (Event.flush tr.base tr.size) trivial
          apply (ReadVector_frame p0.target_ (PatchDetour.jumpSize env p0) _).mono
          · rintro orig s6 ⟨rfl, horig⟩
            apply Exec.Ensures.bind
            apply Exec.Ensures.modify
            apply Exec.Ensures.pure
            refine ⟨tr, hfresh, ?_, _, rfl⟩
            exact ⟨hs5.mem, hs5.prot, hs5.threads, hs5.self, hs5.process, hs5.applied,
              hs5.target, hs5.detour, horig, hs5.trampoline, hs5.depth, hs5.trace⟩
          · rintro e s6 ⟨rfl, -⟩
            exact ⟨some tr, hs5⟩
        · intro _ s4 hs4; exact ⟨some tr, hs4⟩
        · intro i hi
          simp only [if_true] at hi
          exact hroom i hi
      · intro _ s3 hs3; exact ⟨some tr, hs3⟩
      · intro i hi
        exact hps tr hfresh i (by omega)
    · rintro e s2 ⟨rfl, -⟩
      exact ⟨some tr, hs1⟩
  · intro _ s1 hs1
    exact ⟨p0.trampoline_, hs1⟩

end DetourFrame

/-! ## `PatchDetour`: closed forms -/

/-- What the installing part of `Apply` does, case by case. -/
theorem PatchDetour.Apply.install_run (env : Env) (pid : Nat) (p : PatchDetour)
    (instr_size : Nat) (s : World × PatchDetour) :
    PatchDetour.Apply.install env pid p instr_size s =
      if VerifyPatchThreads.loop s.1.self p.target_ s.2.orig_.length s.1.threads then
        .fail .threadInTarget s
      else match PatchDetour.WriteJump env p.target_ p.detour_ false s with
        | .ok _ s2 =>
          .ok () (s2.1.log (Event.flush p.target_ instr_size), { s2.2 with applied_ := true })
        | .fail e s2 => .fail e s2 := by
  unfold PatchDetour.Apply.install
  simp only [Exec.bind_run, Exec.get_run, VerifyPatchThreads_run]
  by_cases h1 : VerifyPatchThreads.loop s.1.self p.target_ s.2.orig_.length s.1.threads = true
  · simp [h1]
  · simp only [h1, if_false, Bool.false_eq_true]
    cases hw : PatchDetour.WriteJump env p.target_ p.detour_ false s with
    | ok n s2 => simp [FlushInstructionCache_run, Exec.modify_run]
    | fail e s2 => simp

/-- What `PatchDetour::Apply` does, in terms of its two parts. -/
theorem PatchDetour.Apply_run_detour (env : Env) (w : World) (p : PatchDetour) :
    PatchDetour.Apply env (w, p) =
      if p.applied_ then .ok () (w, p)
      else match p.process_ with
        | none => .fail .undefinedBehaviour (w, p)
        | some pid =>
          match PatchDetour.Apply.build env p (w.suspend pid, p) with
          | .fail e s1 => .fail e (s1.1.resume pid, s1.2)
          | .ok instr_size s1 =>
            match PatchDetour.Apply.install env pid p instr_size s1 with
            | .ok _ s2 => .ok () (s2.1.resume pid, s2.2)
            | .fail e s2 => .fail e (s2.1.resume pid, s2.2) := by
  unfold PatchDetour.Apply
  simp only [Exec.bind_run, Exec.get_run, Exec.ite_run]
  by_cases ha : p.applied_ = true
  · simp [ha]
  · cases hp : p.process_ with
    | none => simp [ha, processId_none, Exec.bind_run]
    | some pid =>
      simp only [ha, if_false, Bool.false_eq_true, processId_some, withSuspendedProcess_run,
        Exec.bind_run]
      cases hb : PatchDetour.Apply.build env p (w.suspend pid, p) with
      | fail e s1 => simp
      | ok instr_size s1 =>
        simp only
        cases hi : PatchDetour.Apply.install env pid p instr_size s1 with
        | ok u s2 => simp
        | fail e s2 => simp

/-- What `PatchDetour::Remove` does, case by case. -/
theorem PatchDetour.Remove_run_detour (env : Env) (w : World) (p : PatchDetour) :
    PatchDetour.Remove env (w, p) =
      if p.applied_ then
        match p.process_ with
        | none => .fail .undefinedBehaviour (w, p)
        | some pid =>
          if VerifyPatchThreads.loop w.self p.target_ p.orig_.length w.threads then
            .fail .threadInTarget ((w.suspend pid).resume pid, p)
          else match p.trampoline_ with
            | none => .fail .undefinedBehaviour ((w.suspend pid).resume pid, p)
            | some tr =>
              if VerifyPatchThreads.loop w.self tr.base tr.size w.threads then
                .fail .threadInTarget ((w.suspend pid).resume pid, p)
              else if w.canWriteRange env p.target_ p.orig_.length then
                .ok () ((((({ (w.suspend pid) with
                              mem := w.store p.target_ p.orig_,
                              trace := (w.suspend pid).trace ++ [Event.write p.target_ p.orig_] }
                            : World).release env tr).releaseAll env p.trampolines_).resume pid),
                        { p with trampoline_ := none, trampolines_ := [], applied_ := false })
              else .fail .writeFailure ((w.suspend pid).resume pid, p)
      else .ok () (w, p) := by
  unfold PatchDetour.Remove
  simp only [Exec.bind_run, Exec.get_run, Exec.ite_run]
  by_cases ha : p.applied_ = true
  · cases hp : p.process_ with
    | none => simp [ha, processId_none, Exec.bind_run]
    | some pid =>
      simp only [ha, processId_some, withSuspendedProcess_run, Exec.bind_run,
        VerifyPatchThreads_run]
      by_cases h1 : VerifyPatchThreads.loop w.self p.target_ p.orig_.length w.threads = true
      · simp [h1]
      · cases ht : p.trampoline_ with
        | none => simp [h1, PatchDetour.derefTrampoline]
        | some tr =>
          by_cases h2 : VerifyPatchThreads.loop w.self tr.base tr.size w.threads = true
          · simp [h1, h2, PatchDetour.derefTrampoline]
          · by_cases h3 : w.canWriteRange env p.target_ p.orig_.length = true
            · simp [h1, h2, h3, PatchDetour.derefTrampoline, WriteVector_run, ht,
                World.releaseOpt, hp]
            · simp [h1, h2, h3, PatchDetour.derefTrampoline, WriteVector_run]
  · simp [ha]

/-- Calling `PatchDetour::Apply` on an applied patch changes nothing. -/
theorem PatchDetour.Apply_applied_detour (env : Env) (w : World) (p : PatchDetour)
    (ha : p.applied_ = true) : PatchDetour.Apply env (w, p) = Res.ok () (w, p) := by
  rw [PatchDetour.Apply_run_detour]
  simp [ha]

/-- Calling `PatchDetour::Remove` on a patch that is not applied changes nothing. -/
theorem PatchDetour.Remove_not_applied_detour (env : Env) (w : World) (p : PatchDetour)
    (ha : p.applied_ = false) : PatchDetour.Remove env (w, p) = Res.ok () (w, p) := by
  rw [PatchDetour.Remove_run_detour]
  simp [ha]

/-! ## `PatchDetour::Apply`: what a call leaves behind -/

theorem World.releaseAll_mem (env : Env) (bs : List Block) :
    ∀ w : World, (w.releaseAll env bs).mem = w.mem := by
  induction bs with
  | nil => intro w; rfl
  | cons b rest ih => intro w; exact ih (w.release env b)

theorem World.releaseAll_threads (env : Env) (bs : List Block) :
    ∀ w : World, (w.releaseAll env bs).threads = w.threads ∧
      (w.releaseAll env bs).self = w.self := by
  induction bs with
  | nil => intro w; exact ⟨rfl, rfl⟩
  | cons b rest ih => intro w; exact ih (w.release env b)

/-- The invariant at the start of `Apply`, for the pages that held memory. -/
theorem PatchDetour.Inv_start (env : Env) (w : World) (p : PatchDetour) (pid : Nat) :
    Inv env (fun k => PatchDetour.mapped env w p k = true) (fun _ => False)
      (w.suspend pid) p (w.suspend pid, p) := by
  refine ⟨fun _ _ _ => rfl, ?_, rfl, rfl, rfl, rfl, rfl, rfl, rfl, rfl, rfl,
    [], (List.append_nil _).symm, fun _ h => nomatch h⟩
  intro k hk
  simp only [PatchDetour.mapped, Bool.and_eq_true, decide_eq_true_eq] at hk
  exact hk.1

/-- The block left in `trampoline_` is no part of the pages that held memory. -/
theorem PatchDetour.mapped_stale (env : Env) (w : World) (p : PatchDetour) :
    ∀ b, p.trampoline_ = some b → ∀ i, i < pagesFor env b.size →
      ¬ (PatchDetour.mapped env w p (pageOf env b.base + i) = true) := by
  intro b hb i hi hk
  simp only [PatchDetour.mapped, hb, Bool.and_eq_true, decide_eq_true_eq,
    Bool.not_eq_true', Bool.and_eq_false_iff, decide_eq_false_iff_not] at hk
  omega

/-- What `PatchDetour::Apply` leaves behind when called on a patch that is not
applied.  When it returns: of the memory the process had, only the `jump_size`
bytes at the target have changed; the patch is applied; `orig_` holds `jump_size`
bytes, those the target had before the call; `trampoline_` is set.  When it fails:
none of the memory the process had has changed and the patch is not applied. -/
theorem PatchDetour.Apply_spec (env : Env) (hps : 143 ≤ env.pageSize) (w : World)
    (p : PatchDetour) (hna : p.applied_ = false) :
    (PatchDetour.Apply env).Ensures (w, p)
      (fun _ s1 =>
        (∀ a, PatchDetour.mapped env w p (pageOf env a) = true →
          ¬ PatchDetour.inTarget env p a → s1.1.mem a = w.mem a) ∧
        s1.2.applied_ = true ∧ s1.2.target_ = p.target_ ∧ s1.2.detour_ = p.detour_ ∧
        s1.2.process_ = p.process_ ∧
        s1.2.orig_.length = PatchDetour.jumpSize env p ∧
        (∀ i, i < PatchDetour.jumpSize env p →
          PatchDetour.mapped env w p (pageOf env (p.target_ + i)) = true →
          s1.2.orig_.getD i 0 = w.mem (p.target_ + i)) ∧
        (∃ tr, s1.2.trampoline_ = some tr) ∧
        s1.1.threads = w.threads ∧ s1.1.self = w.self)
      (fun _ s1 =>
        (∀ a, PatchDetour.mapped env w p (pageOf env a) = true → s1.1.mem a = w.mem a) ∧
        s1.2.applied_ = false ∧ s1.2.target_ = p.target_ ∧ s1.2.detour_ = p.detour_ ∧
        s1.2.process_ = p.process_ ∧
        s1.1.threads = w.threads ∧ s1.1.self = w.self) := by
  unfold Exec.Ensures
  rw [PatchDetour.Apply_run_detour]
  simp only [hna, Bool.false_eq_true, if_false]
  cases hp : p.process_ with
  | none => exact ⟨fun _ _ => rfl, hna, rfl, rfl, hp, rfl, rfl⟩
  | some pid =>
    simp only
    have hb := PatchDetour.Apply.build_frame (Room.of_pageSize hps)
      (PatchDetour.Inv_start env w p pid) (PatchDetour.mapped_stale env w p)
    cases hbr : PatchDetour.Apply.build env p (w.suspend pid, p) with
    | fail e s1 =>
      obtain ⟨t, hI⟩ := hb.of_fail hbr
      exact ⟨fun a ha => hI.mem a ha (fun hx => hx), hI.applied.trans hna, hI.target,
        hI.detour, hI.process.trans hp, hI.threads, hI.self⟩
    | ok instr_size s1 =>
      obtain ⟨tr, hfresh, hI, -⟩ := hb.of_ok hbr
      simp only
      rw [PatchDetour.Apply.install_run]
      by_cases hv : VerifyPatchThreads.loop s1.1.self p.target_ s1.2.orig_.length
          s1.1.threads = true
      · simp only [hv, if_true]
        exact ⟨fun a ha => hI.mem a ha (fun hx => hx), hI.applied.trans hna, hI.target,
          hI.detour, hI.process.trans hp, hI.threads, hI.self⟩
      · simp only [hv, if_false, Bool.false_eq_true]
        have hw := PatchDetour.WriteJump_frame2 (X := PatchDetour.inTarget env p)
          (Room.of_pageSize (by omega)) p.target_ p.detour_ false hI (fun _ hx => hx.elim)
          (fun i hi => Or.inr ⟨by omega, by
            simp only [Bool.false_eq_true, if_false, PatchDetour.jumpLen] at hi
            unfold PatchDetour.jumpSize
            omega⟩)
        cases hwr : PatchDetour.WriteJump env p.target_ p.detour_ false s1 with
        | fail e s2 =>
          have hI2 := hw.of_fail hwr
          exact ⟨fun a ha => hI2.mem a ha (fun hx => hx), hI2.applied.trans hna, hI2.target,
            hI2.detour, hI2.process.trans hp, hI2.threads, hI2.self⟩
        | ok n s2 =>
          obtain ⟨hI2, -, -⟩ := hw.of_ok hwr
          refine ⟨fun a ha hx => hI2.mem a ha hx, rfl, hI2.target, hI2.detour,
            hI2.process.trans hp, ?_, ?_, ⟨tr, hI2.trampoline⟩, hI2.threads, hI2.self⟩
          · show s2.2.orig_.length = _
            rw [hI2.orig]
            exact World.bytesAt_length _ _ _
          · intro i hi hm
            show s2.2.orig_.getD i 0 = _
            rw [hI2.orig]
            show (s1.1.bytesAt p.target_ (PatchDetour.jumpSize env p)).getD i 0 = _
            rw [World.bytesAt_getD _ _ _ _ hi]
            exact hI.mem _ hm (fun hx => hx)

/-- A successful `PatchDetour::Apply` leaves the patch applied. -/
theorem PatchDetour.Apply_ok_applied_detour (env : Env) (w w1 : World) (p p1 : PatchDetour)
    (hA : PatchDetour.Apply env (w, p) = Res.ok () (w1, p1)) : p1.applied_ = true := by
  rw [PatchDetour.Apply_run_detour] at hA
  by_cases ha : p.applied_ = true
  · simp only [ha, if_true, Res.ok.injEq, Prod.mk.injEq, true_and] at hA
    rw [← hA.2]; exact ha
  · simp only [ha, if_false] at hA
    cases hp : p.process_ with
    | none => simp [hp] at hA
    | some pid =>
      simp only [hp] at hA
      cases hb : PatchDetour.Apply.build env p (w.suspend pid, p) with
      | fail e s1 => simp [hb] at hA
      | ok instr_size s1 =>
        simp only [hb] at hA
        rw [PatchDetour.Apply.install_run] at hA
        by_cases hv : VerifyPatchThreads.loop s1.1.self p.target_ s1.2.orig_.length
            s1.1.threads = true
        · simp [hv] at hA
        · simp only [hv, if_false, Bool.false_eq_true] at hA
          cases hw : PatchDetour.WriteJump env p.target_ p.detour_ false s1 with
          | fail e s2 => simp [hw] at hA
          | ok n s2 =>
            simp only [hw, Res.ok.injEq, Prod.mk.injEq, true_and] at hA
            rw [← hA.2]

/-- A successful `PatchDetour::Remove` leaves the patch not applied. -/
theorem PatchDetour.Remove_ok_applied_detour (env : Env) (w w1 : World) (p p1 : PatchDetour)
    (hR : PatchDetour.Remove env (w, p) = Res.ok () (w1, p1)) : p1.applied_ = false := by
  rw [PatchDetour.Remove_run_detour] at hR
  by_cases ha : p.applied_ = true
  · simp only [ha, if_true] at hR
    cases hp : p.process_ with
    | none => simp [hp] at hR
    | some pid =>
      simp only [hp] at hR
      by_cases h1 : VerifyPatchThreads.loop w.self p.target_ p.orig_.length w.threads = true
      · simp [h1] at hR
      · simp only [h1, if_false, Bool.false_eq_true] at hR
        cases ht : p.trampoline_ with
        | none => simp [ht] at hR
        | some tr =>
          simp only [ht] at hR
          by_cases h2 : VerifyPatchThreads.loop w.self tr.base tr.size w.threads = true
          · simp [h2] at hR
          · by_cases h3 : w.canWriteRange env p.target_ p.orig_.length = true
            · simp only [h2, h3, if_true, if_false, Bool.false_eq_true, Res.ok.injEq,
                Prod.mk.injEq, true_and] at hR
              rw [← hR.2]
            · simp [h2, h3] at hR
  · have ha2 : p.applied_ = false := by simpa using ha
    simp only [ha2, if_false, Bool.false_eq_true, Res.ok.injEq, Prod.mk.injEq, true_and] at hR
    rw [← hR.2]; exact ha2

/-- A successful `PatchDetour::Remove` on an applied patch has stored `orig_` at the
target. -/
theorem PatchDetour.Remove_ok_mem (env : Env) (w w1 : World) (p p1 : PatchDetour)
    (ha : p.applied_ = true)
    (hR : PatchDetour.Remove env (w, p) = Res.ok () (w1, p1)) :
    w1.mem = w.store p.target_ p.orig_ := by
  rw [PatchDetour.Remove_run_detour] at hR
  simp only [ha, if_true] at hR
  cases hp : p.process_ with
  | none => simp [hp] at hR
  | some pid =>
    simp only [hp] at hR
    by_cases h1 : VerifyPatchThreads.loop w.self p.target_ p.orig_.length w.threads = true
    · simp [h1] at hR
    · simp only [h1, if_false, Bool.false_eq_true] at hR
      cases ht : p.trampoline_ with
      | none => simp [ht] at hR
      | some tr =>
        simp only [ht] at hR
        by_cases h2 : VerifyPatchThreads.loop w.self tr.base tr.size w.threads = true
        · simp [h2] at hR
        · by_cases h3 : w.canWriteRange env p.target_ p.orig_.length = true
          · simp only [h2, h3, if_true, if_false, Bool.false_eq_true, Res.ok.injEq,
              Prod.mk.injEq, true_and] at hR
            rw [← hR.1]
            simp only [World.resume_mem, World.releaseAll_mem]
            rfl
          · simp [h2, h3] at hR

/-- A successful `PatchRaw::Apply` leaves the patch applied. -/
theorem PatchRaw.Apply_ok_applied_raw (env : Env) (w w1 : World) (p p1 : PatchRaw)
    (hA : PatchRaw.Apply env (w, p) = Res.ok () (w1, p1)) : p1.applied_ = true := by
  by_cases ha : p.applied_ = true
  · rw [PatchRaw.Apply_applied_raw env w p ha] at hA
    simp only [Res.ok.injEq, Prod.mk.injEq, true_and] at hA
    rw [← hA.2]; exact ha
  · obtain ⟨pid, -, -, -, -, -, hp1⟩ := PatchRaw.Apply_ok env w w1 p p1 (by simpa using ha) hA
    rw [hp1]

/-- A successful `PatchRaw::Remove` leaves the patch not applied. -/
theorem PatchRaw.Remove_ok_applied_raw (env : Env) (w w1 : World) (p p1 : PatchRaw)
    (hR : PatchRaw.Remove env (w, p) = Res.ok () (w1, p1)) : p1.applied_ = false := by
  by_cases ha : p.applied_ = true
  · obtain ⟨pid, -, -, -, -, hp1⟩ := PatchRaw.Remove_ok env w w1 p p1 ha hR
    rw [hp1]
  · have ha2 : p.applied_ = false := by simpa using ha
    rw [PatchRaw.Remove_not_applied_raw env w p ha2] at hR
    simp only [Res.ok.injEq, Prod.mk.injEq, true_and] at hR
    rw [← hR.2]; exact ha2

/-- Running a method twice in a row is running it once, when a successful run
leaves a state in which the method does nothing. -/
theorem Exec.twice_eq {σ : Type} (m : Exec σ Unit)
    (h : ∀ s s1, m s = Res.ok () s1 → m s1 = Res.ok () s1) (s : σ) :
    (m >>= fun _ => m) s = m s := by
  rw [Exec.bind_run]
  cases hm : m s with
  | ok u s1 => exact h s s1 hm
  | fail e s1 => rfl

/-- With a thread of another caller in the target region, `PatchRaw::Apply` on a
patch that is not applied fails in the thread check, having only suspended and
resumed the process. -/
theorem PatchRaw.Apply_thread_raw (env : Env) (w : World) (p : PatchRaw) (pid : Nat)
    (hna : p.applied_ = false) (hp : p.process_ = some pid)
    (ht : w.threadIn p.target_ p.data_.length) :
    PatchRaw.Apply env (w, p) = Res.fail Error.threadInTarget ((w.suspend pid).resume pid, p) := by
  have hl : VerifyPatchThreads.loop w.self p.target_ p.data_.length w.threads = true :=
    (VerifyPatchThreads.loop_eq_true_iff _ _ _ _).2 ht
  rw [PatchRaw.Apply_run_raw]
  simp [hna, hp, hl]

/-- With a thread of another caller in the target region, `PatchDetour::Apply` on a
patch that is not applied fails; if the steps before the thread check succeed, the
failure is that of the thread check, and the state is the one those steps left. -/
theorem PatchDetour.Apply_thread_detour (env : Env) (hps : 143 ≤ env.pageSize) (w : World)
    (p : PatchDetour) (pid : Nat) (hna : p.applied_ = false) (hp : p.process_ = some pid)
    (ht : w.threadIn p.target_ (PatchDetour.jumpSize env p)) :
    ∃ e s2, PatchDetour.Apply env (w, p) = Res.fail e s2 ∧
      ∀ n s1, PatchDetour.Apply.build env p (w.suspend pid, p) = Res.ok n s1 →
        e = Error.threadInTarget ∧ s2 = (s1.1.resume pid, s1.2) := by
  rw [PatchDetour.Apply_run_detour]
  simp only [hna, Bool.false_eq_true, if_false, hp]
  have hb := PatchDetour.Apply.build_frame (Room.of_pageSize hps)
    (PatchDetour.Inv_start env w p pid) (PatchDetour.mapped_stale env w p)
  cases hbr : PatchDetour.Apply.build env p (w.suspend pid, p) with
  | fail e s1 => exact ⟨e, _, rfl, fun n s1 hc => by cases hc⟩
  | ok instr_size s1 =>
    obtain ⟨tr, -, hI, -⟩ := hb.of_ok hbr
    have hl : VerifyPatchThreads.loop s1.1.self p.target_ s1.2.orig_.length s1.1.threads
        = true := by
      rw [hI.self, hI.threads, hI.orig]
      show VerifyPatchThreads.loop w.self p.target_
        (s1.1.bytesAt p.target_ (PatchDetour.jumpSize env p)).length w.threads = true
      rw [World.bytesAt_length]
      exact (VerifyPatchThreads.loop_eq_true_iff _ _ _ _).2 ht
    simp only
    rw [PatchDetour.Apply.install_run]
    simp only [hl, if_true]
    refine ⟨_, _, rfl, fun n s hc => ?_⟩
    cases hc
    exact ⟨rfl, rfl⟩

/-! ## Releasing blocks -/

theorem World.release_prot_free (env : Env) (w : World) (b : Block) (k : Nat)
    (h : w.prot k = Prot.free) : (w.release env b).prot k = Prot.free := by
  show w.setPages (pageOf env b.base) (pagesFor env b.size) Prot.free k = Prot.free
  unfold World.setPages
  split
  · rfl
  · exact h

theorem World.release_prot_block (env : Env) (w : World) (b : Block) (i : Nat)
    (hi : i < pagesFor env b.size) :
    (w.release env b).prot (pageOf env b.base + i) = Prot.free := by
  show w.setPages (pageOf env b.base) (pagesFor env b.size) Prot.free _ = Prot.free
  unfold World.setPages
  rw [if_pos ⟨by omega, by omega⟩]

theorem World.releaseAll_prot_free (env : Env) (bs : List Block) :
    ∀ (w : World) (k : Nat), w.prot k = Prot.free → (w.releaseAll env bs).prot k = Prot.free := by
  induction bs with
  | nil => intro w k h; exact h
  | cons b rest ih =>
    intro w k h
    exact ih _ k (World.release_prot_free env w b k h)

/-- After a vector of blocks is destroyed, every page of every block in it is
free. -/
theorem World.releaseAll_prot_block (env : Env) (bs : List Block) :
    ∀ (w : World) (b : Block), b ∈ bs → ∀ i, i < pagesFor env b.size →
      (w.releaseAll env bs).prot (pageOf env b.base + i) = Prot.free := by
  induction bs with
  | nil => intro w b hb; cases hb
  | cons b0 rest ih =>
    intro w b hb i hi
    rcases List.mem_cons.1 hb with rfl | hb
    · exact World.releaseAll_prot_free env rest _ _ (World.release_prot_block env w b i hi)
    · exact ih _ b hb i hi

theorem VerifyPatchThreads.loop_eq_false_iff (w : World) (target len : Nat) :
    VerifyPatchThreads.loop w.self target len w.threads = false ↔ ¬ w.threadIn target len := by
  rw [← Bool.not_eq_true, VerifyPatchThreads.loop_eq_true_iff]
  rfl

/-- A failed `PatchDetour::Remove` leaves memory and the patch object as they were;
its failure is a C++ exception unless `process_` or `trampoline_` is null. -/
theorem PatchDetour.Remove_fail_detour (env : Env) (w w1 : World) (p p1 : PatchDetour) (e : Error)
    (hR : PatchDetour.Remove env (w, p) = Res.fail e (w1, p1)) :
    p.applied_ = true ∧ w1.mem = w.mem ∧ p1 = p ∧
    (e = Error.undefinedBehaviour ∧ (p.process_ = none ∨ p.trampoline_ = none) ∨
     e = Error.threadInTarget ∨ e = Error.writeFailure) := by
  rw [PatchDetour.Remove_run_detour] at hR
  by_cases ha : p.applied_ = true
  · simp only [ha, if_true] at hR
    refine ⟨ha, ?_⟩
    cases hp : p.process_ with
    | none =>
      simp only [hp, Res.fail.injEq, Prod.mk.injEq] at hR
      obtain ⟨rfl, rfl, rfl⟩ := hR
      exact ⟨rfl, rfl, Or.inl ⟨rfl, Or.inl rfl⟩⟩
    | some pid =>
      simp only [hp] at hR
      by_cases h1 : VerifyPatchThreads.loop w.self p.target_ p.orig_.length w.threads = true
      · simp only [h1, if_true, Res.fail.injEq, Prod.mk.injEq] at hR
        obtain ⟨rfl, rfl, rfl⟩ := hR
        exact ⟨rfl, rfl, Or.inr (Or.inl rfl)⟩
      · simp only [h1, if_false, Bool.false_eq_true] at hR
        cases ht : p.trampoline_ with
        | none =>
          simp only [ht, Res.fail.injEq, Prod.mk.injEq] at hR
          obtain ⟨rfl, rfl, rfl⟩ := hR
          exact ⟨rfl, rfl, Or.inl ⟨rfl, Or.inr rfl⟩⟩
        | some tr =>
          simp only [ht] at hR
          by_cases h2 : VerifyPatchThreads.loop w.self tr.base tr.size w.threads = true
          · simp only [h2, if_true, Res.fail.injEq, Prod.mk.injEq] at hR
            obtain ⟨rfl, rfl, rfl⟩ := hR
            exact ⟨rfl, rfl, Or.inr (Or.inl rfl)⟩
          · by_cases h3 : w.canWriteRange env p.target_ p.orig_.length = true
            · simp [h2, h3] at hR
            · simp only [h2, h3, if_false, Bool.false_eq_true, Res.fail.injEq,
                Prod.mk.injEq] at hR
              obtain ⟨rfl, rfl, rfl⟩ := hR
              exact ⟨rfl, rfl, Or.inr (Or.inr rfl)⟩
  · simp [ha] at hR

/-- `PatchRaw::RemoveUnchecked` returns, with the patch not applied; after a failed
inner `Remove()` the object is reset. -/
theorem PatchRaw.RemoveUnchecked_spec_raw (env : Env) (w : World) (p : PatchRaw)
    (hinv : p.applied_ = true → p.process_ ≠ none) :
    ∃ w1 p1, PatchRaw.RemoveUnchecked env (w, p) = Res.ok () (w1, p1) ∧
      p1.applied_ = false ∧
      ∀ e s1, PatchRaw.Remove env (w, p) = Res.fail e s1 →
        p1 = { process_ := none, applied_ := false, target_ := 0, data_ := [], orig_ := [] } ∧
        w1 = s1.1 := by
  unfold PatchRaw.RemoveUnchecked Exec.tryCatch
  cases hr : PatchRaw.Remove env (w, p) with
  | ok u s1 =>
    obtain ⟨w1, p1⟩ := s1
    exact ⟨w1, p1, rfl, PatchRaw.Remove_ok_applied_raw env w w1 p p1 hr,
      fun e s hc => by cases hc⟩
  | fail e s1 =>
    obtain ⟨w1, p1⟩ := s1
    obtain ⟨ha, -, -, he⟩ := PatchRaw.Remove_fail_raw env w w1 p p1 e hr
    have hx : e.isException = true := by
      rcases he with ⟨-, hn⟩ | rfl | rfl
      · exact absurd hn (hinv ha)
      · rfl
      · rfl
    simp only [hx, if_true, Exec.modify_run]
    refine ⟨_, _, rfl, rfl, fun e2 s2 hc => ?_⟩
    cases hc
    exact ⟨rfl, rfl⟩

/-- `PatchDetour::RemoveUnchecked` returns, with the patch not applied; after a
failed inner `Remove()` the object is reset and its blocks are destroyed. -/
theorem PatchDetour.RemoveUnchecked_spec_detour (env : Env) (w : World) (p : PatchDetour)
    (hinv : p.applied_ = true → p.process_ ≠ none ∧ p.trampoline_ ≠ none) :
    ∃ w1 p1, PatchDetour.RemoveUnchecked env (w, p) = Res.ok () (w1, p1) ∧
      p1.applied_ = false ∧
      ∀ e s1, PatchDetour.Remove env (w, p) = Res.fail e s1 →
        p1 = { process_ := none, applied_ := false, target_ := 0, detour_ := 0,
               trampoline_ := none, orig_ := [], trampolines_ := [] } ∧
        w1 = (s1.1.releaseOpt env s1.2.trampoline_).releaseAll env s1.2.trampolines_ := by
  unfold PatchDetour.RemoveUnchecked Exec.tryCatch
  cases hr : PatchDetour.Remove env (w, p) with
  | ok u s1 =>
    obtain ⟨w1, p1⟩ := s1
    exact ⟨w1, p1, rfl, PatchDetour.Remove_ok_applied_detour env w w1 p p1 hr,
      fun e s hc => by cases hc⟩
  | fail e s1 =>
    obtain ⟨w1, p1⟩ := s1
    obtain ⟨ha, -, -, he⟩ := PatchDetour.Remove_fail_detour env w w1 p p1 e hr
    have hx : e.isException = true := by
      rcases he with ⟨-, hn | hn⟩ | rfl | rfl
      · exact absurd hn (hinv ha).1
      · exact absurd hn (hinv ha).2
      · rfl
      · rfl
    simp only [hx, if_true, Exec.modify_run]
    refine ⟨_, _, rfl, rfl, fun e2 s2 hc => ?_⟩
    cases hc
    exact ⟨rfl, rfl⟩

/-! ## The class invariants -/

/-- The members of the patch after `PatchDetour::Apply` on a patch that is not
applied, whatever the page size: after a return the patch is applied and has its
process and trampoline set; after a failure it is not applied. -/
theorem PatchDetour.Apply_members (env : Env) (w : World) (p : PatchDetour)
    (hna : p.applied_ = false) :
    (PatchDetour.Apply env).Ensures (w, p)
      (fun _ s1 => s1.2.applied_ = true ∧ s1.2.process_ ≠ none ∧ s1.2.trampoline_ ≠ none ∧
        s1.2.target_ = p.target_ ∧ s1.2.detour_ = p.detour_)
      (fun _ s1 => s1.2.applied_ = false ∧ s1.2.process_ = p.process_ ∧
        s1.2.target_ = p.target_ ∧ s1.2.detour_ = p.detour_) := by
  unfold Exec.Ensures
  rw [PatchDetour.Apply_run_detour]
  simp only [hna, Bool.false_eq_true, if_false]
  cases hp : p.process_ with
  | none => exact ⟨hna, hp, rfl, rfl⟩
  | some pid =>
    simp only
    have h0 : Inv env (fun _ => False) (fun _ => True) (w.suspend pid) p (w.suspend pid, p) :=
      ⟨fun _ hf => hf.elim, fun _ hf => hf.elim, rfl, rfl, rfl, rfl, rfl, rfl, rfl, rfl, rfl,
        [], (List.append_nil _).symm, fun _ h => nomatch h⟩
    have hb := PatchDetour.Apply.build_frame (Room.of_empty 143) h0
      (fun _ _ _ _ hf => hf)
    cases hbr : PatchDetour.Apply.build env p (w.suspend pid, p) with
    | fail e s1 =>
      obtain ⟨t, hI⟩ := hb.of_fail hbr
      exact ⟨hI.applied.trans hna, hI.process.trans hp, hI.target, hI.detour⟩
    | ok instr_size s1 =>
      obtain ⟨tr, -, hI, -⟩ := hb.of_ok hbr
      simp only
      rw [PatchDetour.Apply.install_run]
      by_cases hv : VerifyPatchThreads.loop s1.1.self p.target_ s1.2.orig_.length
          s1.1.threads = true
      · simp only [hv, if_true]
        exact ⟨hI.applied.trans hna, hI.process.trans hp, hI.target, hI.detour⟩
      · simp only [hv, if_false, Bool.false_eq_true]
        have hw := PatchDetour.WriteJump_frame (Room.of_empty 8) p.target_ p.detour_ false hI
          (fun _ _ => Or.inl (fun hf => hf))
        cases hwr : PatchDetour.WriteJump env p.target_ p.detour_ false s1 with
        | fail e s2 =>
          have hI2 := hw.of_fail hwr
          exact ⟨hI2.applied.trans hna, hI2.process.trans hp, hI2.target, hI2.detour⟩
        | ok n s2 =>
          obtain ⟨hI2, -, -⟩ := hw.of_ok hwr
          refine ⟨rfl, ?_, ?_, hI2.target, hI2.detour⟩
          · show s2.2.process_ ≠ none
            rw [hI2.process, hp]; simp
          · show s2.2.trampoline_ ≠ none
            rw [hI2.trampoline]; simp

/-- The constructors give well-formed patches, and every method of `PatchRaw` keeps
the patch well formed, whether it returns or fails. -/
theorem PatchRaw.wellFormed_kept_raw (env : Env) (w : World) (p : PatchRaw) (h : p.WellFormed) :
    (PatchRaw.moveCtor p).1.WellFormed ∧ (PatchRaw.moveCtor p).2.WellFormed ∧
    (PatchRaw.Apply env (w, p)).state.2.WellFormed ∧
    (PatchRaw.Remove env (w, p)).state.2.WellFormed ∧
    (PatchRaw.RemoveUnchecked env (w, p)).state.2.WellFormed := by
  refine ⟨h, (fun hc => by cases hc), ?_, ?_, ?_⟩
  · cases hr : PatchRaw.Apply env (w, p) with
    | ok u s1 =>
      obtain ⟨w1, p1⟩ := s1
      by_cases ha : p.applied_ = true
      · rw [PatchRaw.Apply_applied_raw env w p ha] at hr
        cases hr; exact h
      · obtain ⟨pid, hp, -, -, -, -, rfl⟩ :=
          PatchRaw.Apply_ok env w w1 p p1 (by simpa using ha) hr
        intro _
        show p.process_ ≠ none
        rw [hp]; simp
    | fail e s1 =>
      obtain ⟨w1, p1⟩ := s1
      obtain ⟨hna, -, hcase⟩ := PatchRaw.Apply_fail env w w1 p p1 e hr
      intro hc
      have hp1 : p1.applied_ = false := by
        rcases hcase with ⟨-, -, rfl⟩ | ⟨-, rfl, -⟩ | ⟨-, rfl, -⟩ | ⟨-, -, rfl⟩ <;> exact hna
      simp only [Res.state] at hc
      rw [hp1] at hc; cases hc
  · cases hr : PatchRaw.Remove env (w, p) with
    | ok u s1 =>
      obtain ⟨w1, p1⟩ := s1
      intro hc
      simp only [Res.state] at hc
      rw [PatchRaw.Remove_ok_applied_raw env w w1 p p1 hr] at hc; cases hc
    | fail e s1 =>
      obtain ⟨w1, p1⟩ := s1
      obtain ⟨-, -, rfl, -⟩ := PatchRaw.Remove_fail_raw env w w1 p p1 e hr
      exact h
  · obtain ⟨w1, p1, hr, hp1, -⟩ := PatchRaw.RemoveUnchecked_spec_raw env w p h
    rw [hr]
    intro hc
    simp only [Res.state] at hc
    rw [hp1] at hc; cases hc

/-- The constructors give well-formed patches, and every method of `PatchDetour`
keeps the patch well formed, whether it returns or fails. -/
theorem PatchDetour.wellFormed_kept_detour (env : Env) (w : World) (p : PatchDetour)
    (h : p.WellFormed) :
    (PatchDetour.moveCtor p).1.WellFormed ∧ (PatchDetour.moveCtor p).2.WellFormed ∧
    (PatchDetour.Apply env (w, p)).state.2.WellFormed ∧
    (PatchDetour.Remove env (w, p)).state.2.WellFormed ∧
    (PatchDetour.RemoveUnchecked env (w, p)).state.2.WellFormed := by
  refine ⟨h, (fun hc => by cases hc), ?_, ?_, ?_⟩
  · by_cases ha : p.applied_ = true
    · rw [PatchDetour.Apply_applied_detour env w p ha]
      exact h
    · have hm := PatchDetour.Apply_members env w p (by simpa using ha)
      cases hr : PatchDetour.Apply env (w, p) with
      | ok u s1 =>
        obtain ⟨-, h1, h2, -⟩ := hm.of_ok hr
        exact fun _ => ⟨h1, h2⟩
      | fail e s1 =>
        obtain ⟨h1, -⟩ := hm.of_fail hr
        intro hc
        simp only [Res.state] at hc
        rw [h1] at hc; cases hc
  · cases hr : PatchDetour.Remove env (w, p) with
    | ok u s1 =>
      obtain ⟨w1, p1⟩ := s1
      intro hc
      simp only [Res.state] at hc
      rw [PatchDetour.Remove_ok_applied_detour env w w1 p p1 hr] at hc; cases hc
    | fail e s1 =>
      obtain ⟨w1, p1⟩ := s1
      obtain ⟨-, -, rfl, -⟩ := PatchDetour.Remove_fail_detour env w w1 p p1 e hr
      exact h
  · obtain ⟨w1, p1, hr, hp1, -⟩ := PatchDetour.RemoveUnchecked_spec_detour env w p h
    rw [hr]
    intro hc
    simp only [Res.state] at hc
    rw [hp1] at hc; cases hc

/-- A newly constructed patch is well formed. -/
theorem PatchDetour.new_wellFormed (pid target detour : Nat) :
    (PatchDetour.new pid target detour).WellFormed ∧
    ∀ data, (PatchRaw.new pid target data).WellFormed :=
  ⟨(fun hc => by cases hc), (fun _ hc => by cases hc)⟩

/-! ## The claims -/

/-- C1. Round trip of `PatchRaw`: when `Apply()` succeeds on a patch that was not
applied and `Remove()` then succeeds, every byte of `[target, target + data.size())`
has the value it had before `Apply()`, and `IsApplied()` is false.  `Remove()` may
run in any later state `wR` of the process: it stores the snapshot whatever the
bytes in the region are by then, so the case of no write in between is included. -/
theorem C1_PatchRaw_round_trip (env : Env) (w w1 wR w2 : World) (p p1 p2 : PatchRaw)
    (hna : p.applied_ = false)
    (hA : PatchRaw.Apply env (w, p) = Res.ok () (w1, p1))
    (hR : PatchRaw.Remove env (wR, p1) = Res.ok () (w2, p2)) :
    (∀ i, i < p.data_.length → w2.mem (p.target_ + i) = w.mem (p.target_ + i)) ∧
    p2.IsApplied = false := by
  obtain ⟨pid, -, -, -, -, rfl, rfl⟩ := PatchRaw.Apply_ok env w w1 p p1 hna hA
  obtain ⟨pid2, -, -, -, rfl, rfl⟩ := PatchRaw.Remove_ok env wR w2 _ p2 rfl hR
  refine ⟨fun i hi => ?_, rfl⟩
  show wR.store p.target_ (w.bytesAt p.target_ p.data_.length) (p.target_ + i) = _
  rw [World.store_inside _ _ _ _ (by rw [World.bytesAt_length]; exact hi),
    World.bytesAt_getD _ _ _ _ hi]

/-- C1, at the example: five bytes at `0x10000` overwritten with `0x90` and restored
by `Remove()`. -/
theorem C1_PatchRaw_round_trip_witness :
    (PatchRaw.Apply exEnv (exWorld, exRaw)).state.1.bytesAt 0x10000 5
      = [0x90, 0x90, 0x90, 0x90, 0x90] ∧
    (∀ i, i < 5 →
      (PatchRaw.Remove exEnv (PatchRaw.Apply exEnv (exWorld, exRaw)).state).state.1.mem
        (0x10000 + i) = exWorld.mem (0x10000 + i)) ∧
    (PatchRaw.Remove exEnv (PatchRaw.Apply exEnv (exWorld, exRaw)).state).state.2.IsApplied
      = false :=
  ⟨by decide,
   (C1_PatchRaw_round_trip exEnv exWorld (PatchRaw.Apply exEnv (exWorld, exRaw)).state.1
      (PatchRaw.Apply exEnv (exWorld, exRaw)).state.1
      (PatchRaw.Remove exEnv (PatchRaw.Apply exEnv (exWorld, exRaw)).state).state.1
      exRaw (PatchRaw.Apply exEnv (exWorld, exRaw)).state.2
      (PatchRaw.Remove exEnv (PatchRaw.Apply exEnv (exWorld, exRaw)).state).state.2
      rfl rfl rfl).1,
   (C1_PatchRaw_round_trip exEnv exWorld (PatchRaw.Apply exEnv (exWorld, exRaw)).state.1
      (PatchRaw.Apply exEnv (exWorld, exRaw)).state.1
      (PatchRaw.Remove exEnv (PatchRaw.Apply exEnv (exWorld, exRaw)).state).state.1
      exRaw (PatchRaw.Apply exEnv (exWorld, exRaw)).state.2
      (PatchRaw.Remove exEnv (PatchRaw.Apply exEnv (exWorld, exRaw)).state).state.2
      rfl rfl rfl).2⟩

/-- C2. Round trip of `PatchDetour`: when `Apply()` succeeds on a patch that was not
applied and `Remove()` then succeeds, every byte of the target region has the value
it had before `Apply()` and the patch is not applied.  The target region is
`[target, target + jump_size)`: of the memory the process had before the call these
are the only bytes `Apply()` changed (first conjunct).  The target region is assumed
to be memory of the process (not free, and not inside a block the patch itself still
owns), and a page to hold at least 143 bytes.  `Remove()` may run in any later state
`wR` of the process, the case of no write in between included. -/
theorem C2_PatchDetour_round_trip (env : Env) (w w1 wR w2 : World) (p p1 p2 : PatchDetour)
    (hps : 143 ≤ env.pageSize)
    (hna : p.applied_ = false)
    (hT : ∀ i, i < PatchDetour.jumpSize env p →
      PatchDetour.mapped env w p (pageOf env (p.target_ + i)) = true)
    (hA : PatchDetour.Apply env (w, p) = Res.ok () (w1, p1))
    (hR : PatchDetour.Remove env (wR, p1) = Res.ok () (w2, p2)) :
    (∀ a, PatchDetour.mapped env w p (pageOf env a) = true →
      ¬ (p.target_ ≤ a ∧ a < p.target_ + PatchDetour.jumpSize env p) →
      w1.mem a = w.mem a) ∧
    (∀ i, i < PatchDetour.jumpSize env p →
      w2.mem (p.target_ + i) = w.mem (p.target_ + i)) ∧
    p2.applied_ = false := by
  obtain ⟨hmem, happ, htgt, -, -, hlen, horig, -, -, -⟩ :=
    (PatchDetour.Apply_spec env hps w p hna).of_ok hA
  refine ⟨hmem, fun i hi => ?_, PatchDetour.Remove_ok_applied_detour env wR w2 p1 p2 hR⟩
  rw [PatchDetour.Remove_ok_mem env wR w2 p1 p2 happ hR]
  simp only at htgt hlen horig
  rw [htgt, World.store_inside _ _ _ _ (by rw [hlen]; exact hi)]
  exact horig i hi (hT i hi)

/-- C2, at the example: the detour of the function at `0x10000`. -/
theorem C2_PatchDetour_round_trip_witness :
    (PatchDetour.Apply exEnv (exWorld, exDetour)).state.1.bytesAt 0x10000 5
      = [0xE9, 0xFB, 0x07, 0x00, 0x00] ∧
    (∀ i, i < PatchDetour.jumpSize exEnv exDetour →
      (PatchDetour.Remove exEnv (PatchDetour.Apply exEnv (exWorld, exDetour)).state).state.1.mem
        (exDetour.target_ + i) = exWorld.mem (exDetour.target_ + i)) ∧
    (PatchDetour.Remove exEnv
      (PatchDetour.Apply exEnv (exWorld, exDetour)).state).state.2.applied_ = false :=
  ⟨by decide,
   (C2_PatchDetour_round_trip exEnv exWorld
      (PatchDetour.Apply exEnv (exWorld, exDetour)).state.1
      (PatchDetour.Apply exEnv (exWorld, exDetour)).state.1
      (PatchDetour.Remove exEnv (PatchDetour.Apply exEnv (exWorld, exDetour)).state).state.1
      exDetour (PatchDetour.Apply exEnv (exWorld, exDetour)).state.2
      (PatchDetour.Remove exEnv (PatchDetour.Apply exEnv (exWorld, exDetour)).state).state.2
      (by decide) rfl (by decide) rfl rfl).2⟩

/-- C3. Safety invariant.  For `PatchRaw`: if a thread other than the caller has its
instruction pointer in `[target, target + data.size())`, `Apply()` on a patch that
is not applied fails with the thread-in-target-region error, memory is unchanged and
the patch object is unchanged (so it stays not applied).  For `PatchDetour`: if such
a thread is in `[target, target + jump_size)`, `Apply()` fails, no byte of the target
region is modified and the patch stays not applied; the failure is the
thread-in-target-region error whenever the verification is reached, that is whenever
the steps before it (building the trampoline, taking the snapshot) succeed.  The
target region of the detour is assumed to be memory of the process, and a page to
hold at least 143 bytes. -/
theorem C3_thread_in_target_region :
    (∀ (env : Env) (w : World) (p : PatchRaw) (pid : Nat),
      p.applied_ = false → p.process_ = some pid →
      w.threadIn p.target_ p.data_.length →
      ∃ w1, PatchRaw.Apply env (w, p) = Res.fail Error.threadInTarget (w1, p) ∧
        w1.mem = w.mem ∧ p.IsApplied = false) ∧
    (∀ (env : Env) (w : World) (p : PatchDetour) (pid : Nat),
      143 ≤ env.pageSize → p.applied_ = false → p.process_ = some pid →
      (∀ i, i < PatchDetour.jumpSize env p →
        PatchDetour.mapped env w p (pageOf env (p.target_ + i)) = true) →
      w.threadIn p.target_ (PatchDetour.jumpSize env p) →
      ∃ e w1 p1, PatchDetour.Apply env (w, p) = Res.fail e (w1, p1) ∧
        (∀ i, i < PatchDetour.jumpSize env p →
          w1.mem (p.target_ + i) = w.mem (p.target_ + i)) ∧
        p1.applied_ = false ∧
        ((PatchDetour.Apply.build env p (w.suspend pid, p)).isOk = true →
          e = Error.threadInTarget)) := by
  constructor
  · intro env w p pid hna hp ht
    exact ⟨_, PatchRaw.Apply_thread_raw env w p pid hna hp ht, rfl, hna⟩
  · intro env w p pid hps hna hp hT ht
    obtain ⟨e, ⟨w1, p1⟩, hA, hbuild⟩ := PatchDetour.Apply_thread_detour env hps w p pid hna hp ht
    obtain ⟨hmem, happ, -⟩ := (PatchDetour.Apply_spec env hps w p hna).of_fail hA
    refine ⟨e, w1, p1, hA, fun i hi => hmem _ (hT i hi), happ, fun hok => ?_⟩
    cases hb : PatchDetour.Apply.build env p (w.suspend pid, p) with
    | ok n s1 => exact (hbuild n s1 hb).1
    | fail e2 s1 => rw [hb] at hok; cases hok

/-- C3, at the example: thread 2 runs at `0x10003`, inside the five bytes at
`0x10000`; both calls fail with the thread-in-target-region error. -/
theorem C3_thread_in_target_region_witness :
    (∃ w1, PatchRaw.Apply exEnv (exWorldBusy, exRaw)
        = Res.fail Error.threadInTarget (w1, exRaw) ∧
      w1.mem = exWorldBusy.mem ∧ exRaw.IsApplied = false) ∧
    (∃ e w1 p1, PatchDetour.Apply exEnv (exWorldBusy, exDetour) = Res.fail e (w1, p1) ∧
      (∀ i, i < PatchDetour.jumpSize exEnv exDetour →
        w1.mem (exDetour.target_ + i) = exWorldBusy.mem (exDetour.target_ + i)) ∧
      p1.applied_ = false ∧
      ((PatchDetour.Apply.build exEnv exDetour (exWorldBusy.suspend 77, exDetour)).isOk = true →
        e = Error.threadInTarget)) ∧
    (PatchDetour.Apply.build exEnv exDetour (exWorldBusy.suspend 77, exDetour)).isOk = true ∧
    (PatchDetour.Apply exEnv (exWorldBusy, exDetour)).error? = some Error.threadInTarget :=
  ⟨C3_thread_in_target_region.1 exEnv exWorldBusy exRaw 77 rfl rfl (by decide),
   C3_thread_in_target_region.2 exEnv exWorldBusy exDetour 77 (by decide) rfl rfl
     (by decide) (by decide),
   by decide, by decide⟩

/-- C4. Idempotence, for `PatchRaw` and `PatchDetour`: `Apply()` on an applied patch
returns with the process (memory, suspension count, trace of actions) and the patch
object (snapshot, trampoline, applied flag) unchanged, so `Apply(); Apply()` is
`Apply()`; `Remove()` on a patch that is not applied likewise changes nothing, so
`Remove(); Remove()` is `Remove()`. -/
theorem C4_idempotence (env : Env) :
    (∀ (w : World) (p : PatchRaw), p.applied_ = true →
      PatchRaw.Apply env (w, p) = Res.ok () (w, p)) ∧
    (∀ s : World × PatchRaw,
      (PatchRaw.Apply env >>= fun _ => PatchRaw.Apply env) s = PatchRaw.Apply env s) ∧
    (∀ (w : World) (p : PatchRaw), p.applied_ = false →
      PatchRaw.Remove env (w, p) = Res.ok () (w, p)) ∧
    (∀ s : World × PatchRaw,
      (PatchRaw.Remove env >>= fun _ => PatchRaw.Remove env) s = PatchRaw.Remove env s) ∧
    (∀ (w : World) (p : PatchDetour), p.applied_ = true →
      PatchDetour.Apply env (w, p) = Res.ok () (w, p)) ∧
    (∀ s : World × PatchDetour,
      (PatchDetour.Apply env >>= fun _ => PatchDetour.Apply env) s
        = PatchDetour.Apply env s) ∧
    (∀ (w : World) (p : PatchDetour), p.applied_ = false →
      PatchDetour.Remove env (w, p) = Res.ok () (w, p)) ∧
    (∀ s : World × PatchDetour,
      (PatchDetour.Remove env >>= fun _ => PatchDetour.Remove env) s
        = PatchDetour.Remove env s) := by
  refine ⟨PatchRaw.Apply_applied_raw env, ?_, PatchRaw.Remove_not_applied_raw env, ?_,
    PatchDetour.Apply_applied_detour env, ?_, PatchDetour.Remove_not_applied_detour env, ?_⟩
  · apply Exec.twice_eq
    rintro ⟨w, p⟩ ⟨w1, p1⟩ h
    exact PatchRaw.Apply_applied_raw env w1 p1 (PatchRaw.Apply_ok_applied_raw env w w1 p p1 h)
  · apply Exec.twice_eq
    rintro ⟨w, p⟩ ⟨w1, p1⟩ h
    exact PatchRaw.Remove_not_applied_raw env w1 p1 (PatchRaw.Remove_ok_applied_raw env w w1 p p1 h)
  · apply Exec.twice_eq
    rintro ⟨w, p⟩ ⟨w1, p1⟩ h
    exact PatchDetour.Apply_applied_detour env w1 p1 (PatchDetour.Apply_ok_applied_detour env w w1 p p1 h)
  · apply Exec.twice_eq
    rintro ⟨w, p⟩ ⟨w1, p1⟩ h
    exact PatchDetour.Remove_not_applied_detour env w1 p1
      (PatchDetour.Remove_ok_applied_detour env w w1 p p1 h)

/-- C4, at the example: a second `Apply()` of the raw patch and of the detour leaves
the state of the first. -/
theorem C4_idempotence_witness :
    PatchRaw.Apply exEnv (PatchRaw.Apply exEnv (exWorld, exRaw)).state
      = Res.ok () (PatchRaw.Apply exEnv (exWorld, exRaw)).state ∧
    PatchDetour.Apply exEnv (PatchDetour.Apply exEnv (exWorld, exDetour)).state
      = Res.ok () (PatchDetour.Apply exEnv (exWorld, exDetour)).state ∧
    PatchRaw.Remove exEnv (exWorld, exRaw) = Res.ok () (exWorld, exRaw) ∧
    PatchDetour.Remove exEnv (exWorld, exDetour) = Res.ok () (exWorld, exDetour) :=
  ⟨(C4_idempotence exEnv).1 _ _ (by decide),
   (C4_idempotence exEnv).2.2.2.2.1 _ _ (by decide),
   (C4_idempotence exEnv).2.2.1 _ _ rfl,
   (C4_idempotence exEnv).2.2.2.2.2.2.1 _ _ rfl⟩

/-- C5. `PatchRaw::Apply()` on a patch that is not applied, when it succeeds: the
stored snapshot is the `data.size()` bytes that were at the target before the call,
the bytes of `[target, target + data.size())` are now `data`, every byte outside that
range is unchanged, and `IsApplied()` is true. -/
theorem C5_PatchRaw_Apply_postcondition (env : Env) (w w1 : World) (p p1 : PatchRaw)
    (hna : p.applied_ = false)
    (hA : PatchRaw.Apply env (w, p) = Res.ok () (w1, p1)) :
    p1.orig_ = w.bytesAt p.target_ p.data_.length ∧
    w1.bytesAt p.target_ p.data_.length = p.data_ ∧
    (∀ a, ¬ (p.target_ ≤ a ∧ a < p.target_ + p.data_.length) → w1.mem a = w.mem a) ∧
    p1.IsApplied = true := by
  obtain ⟨pid, -, -, -, -, rfl, rfl⟩ := PatchRaw.Apply_ok env w w1 p p1 hna hA
  refine ⟨rfl, ?_, ?_, rfl⟩
  · apply List.ext_getD_zero (by simp [World.bytesAt_length])
    intro i hi
    rw [World.bytesAt_length] at hi
    rw [World.bytesAt_getD _ _ _ _ hi]
    exact World.store_inside w p.target_ p.data_ i hi
  · intro a ha
    exact World.store_outside w p.target_ p.data_ a ha

/-- C5, at the example: five bytes `0x90` at `0x10000`. -/
theorem C5_PatchRaw_Apply_postcondition_witness :
    (PatchRaw.Apply exEnv (exWorld, exRaw)).state.2.orig_ = [3, 4, 5, 6, 7] ∧
    (PatchRaw.Apply exEnv (exWorld, exRaw)).state.1.bytesAt 0x10000 5
      = [0x90, 0x90, 0x90, 0x90, 0x90] ∧
    (PatchRaw.Apply exEnv (exWorld, exRaw)).state.2.IsApplied = true := by
  have h := C5_PatchRaw_Apply_postcondition exEnv exWorld
    (PatchRaw.Apply exEnv (exWorld, exRaw)).state.1 exRaw
    (PatchRaw.Apply exEnv (exWorld, exRaw)).state.2 rfl rfl
  exact ⟨h.1.trans (by decide), h.2.1, h.2.2.2⟩

/-- C6. Failure of `PatchDetour::Apply()`, evaluated where the claim fails: in the
example process with thread 2 inside the target bytes and the trampoline allocated
above the target, `Apply()` fails in the thread check and leaves the patch not
applied, but the patch still holds the trampoline it allocated and the auxiliary
block of the jump back, and both blocks are still allocated in the process.  With
an unreadable target, `Apply()` fails at the first read and the patch still holds
the trampoline. -/
theorem C6_Apply_failure_keeps_blocks :
    (PatchDetour.Apply exEnv (exWorldBusyHigh, exDetour)).error?
      = some Error.threadInTarget ∧
    (PatchDetour.Apply exEnv (exWorldBusyHigh, exDetour)).state.2.applied_ = false ∧
    (PatchDetour.Apply exEnv (exWorldBusyHigh, exDetour)).state.2.trampoline_
      = some { base := 0x28000, size := 45 } ∧
    (PatchDetour.Apply exEnv (exWorldBusyHigh, exDetour)).state.2.trampolines_
      = [{ base := 0x29000, size := 4096 }] ∧
    (PatchDetour.Apply exEnv (exWorldBusyHigh, exDetour)).state.1.live
      = [{ base := 0x29000, size := 4096 }, { base := 0x28000, size := 45 }] ∧
    (PatchDetour.Apply exEnv (exWorldBusyHigh, exDetour)).state.1.prot 40 = Prot.readWrite ∧
    (PatchDetour.Apply exEnv (exWorldBusyHigh, exDetour)).state.1.prot 41 = Prot.readWrite ∧
    (PatchDetour.Apply exEnv (exWorld, exDetourUnreadable)).error?
      = some Error.readFailure ∧
    (PatchDetour.Apply exEnv (exWorld, exDetourUnreadable)).state.2.applied_ = false ∧
    (PatchDetour.Apply exEnv (exWorld, exDetourUnreadable)).state.2.trampoline_
      = some { base := 0x8000, size := 45 } := by
  decide

/-- C7. Failure of `PatchRaw::Apply()`, evaluated where the claim fails: in the
example process with read-only pages at the target, `Apply()` on the new patch
(empty snapshot) fails with the write error and leaves the patch not applied, with
target and replacement bytes as they were, but with the five bytes just read in the
stored snapshot. -/
theorem C7_Apply_write_failure_changes_snapshot :
    exRaw.orig_ = [] ∧
    (PatchRaw.Apply exEnv (exWorldReadOnly, exRaw)).error? = some Error.writeFailure ∧
    (PatchRaw.Apply exEnv (exWorldReadOnly, exRaw)).state.2.orig_ = [3, 4, 5, 6, 7] ∧
    (PatchRaw.Apply exEnv (exWorldReadOnly, exRaw)).state.2.applied_ = exRaw.applied_ ∧
    (PatchRaw.Apply exEnv (exWorldReadOnly, exRaw)).state.2.target_ = exRaw.target_ ∧
    (PatchRaw.Apply exEnv (exWorldReadOnly, exRaw)).state.2.data_ = exRaw.data_ := by
  decide

/-- C8. `PatchDetour::Remove()` on an applied patch (with its process and its
trampoline set).  If a thread other than the caller has its instruction pointer in
the target region `[target, target + orig_.size())` or in the trampoline region
`[base, base + size)`, it fails with the thread-in-target-region error; the process
was only suspended and resumed (no byte written) and the patch object is unchanged.
Otherwise it stores the snapshot at the target: when the store is accepted, the
bytes of the target region are the snapshot, no other byte has changed, the
trampoline and every auxiliary block are destroyed (`trampoline_` and `trampolines_`
empty, all their pages free again) and the patch is not applied; when the store is
refused, `Remove()` fails with the write error and nothing else has happened. -/
theorem C8_PatchDetour_Remove (env : Env) (w : World) (p : PatchDetour) (pid : Nat)
    (tr : Block) (ha : p.applied_ = true) (hp : p.process_ = some pid)
    (ht : p.trampoline_ = some tr) :
    ((w.threadIn p.target_ p.orig_.length ∨ w.threadIn tr.base tr.size) →
      PatchDetour.Remove env (w, p)
        = Res.fail Error.threadInTarget ((w.suspend pid).resume pid, p) ∧
      ((w.suspend pid).resume pid).mem = w.mem ∧
      ((w.suspend pid).resume pid).trace = w.trace ++ [Event.suspend pid, Event.resume pid]) ∧
    (¬ (w.threadIn p.target_ p.orig_.length ∨ w.threadIn tr.base tr.size) →
      w.canWriteRange env p.target_ p.orig_.length = true →
      ∃ w1 p1, PatchDetour.Remove env (w, p) = Res.ok () (w1, p1) ∧
        w1.bytesAt p.target_ p.orig_.length = p.orig_ ∧
        (∀ a, ¬ (p.target_ ≤ a ∧ a < p.target_ + p.orig_.length) → w1.mem a = w.mem a) ∧
        p1.trampoline_ = none ∧ p1.trampolines_ = [] ∧ p1.applied_ = false ∧
        (∀ b, b ∈ tr :: p.trampolines_ → ∀ i, i < pagesFor env b.size →
          w1.prot (pageOf env b.base + i) = Prot.free)) ∧
    (¬ (w.threadIn p.target_ p.orig_.length ∨ w.threadIn tr.base tr.size) →
      w.canWriteRange env p.target_ p.orig_.length = false →
      PatchDetour.Remove env (w, p)
        = Res.fail Error.writeFailure ((w.suspend pid).resume pid, p)) := by
  refine ⟨fun hth => ⟨?_, rfl, ?_⟩, fun hth hw => ?_, fun hth hw => ?_⟩
  · rw [PatchDetour.Remove_run_detour]
    simp only [ha, if_true, hp, ht]
    by_cases h1 : VerifyPatchThreads.loop w.self p.target_ p.orig_.length w.threads = true
    · simp [h1]
    · have h2 : VerifyPatchThreads.loop w.self tr.base tr.size w.threads = true := by
        rcases hth with h | h
        · exact absurd ((VerifyPatchThreads.loop_eq_true_iff _ _ _ _).2 h) h1
        · exact (VerifyPatchThreads.loop_eq_true_iff _ _ _ _).2 h
      simp [h1, h2]
  · simp [World.suspend, World.resume]
  · have h1 : VerifyPatchThreads.loop w.self p.target_ p.orig_.length w.threads = false :=
      (VerifyPatchThreads.loop_eq_false_iff w _ _).2 (fun h => hth (Or.inl h))
    have h2 : VerifyPatchThreads.loop w.self tr.base tr.size w.threads = false :=
      (VerifyPatchThreads.loop_eq_false_iff w _ _).2 (fun h => hth (Or.inr h))
    refine ⟨((({ (w.suspend pid) with
                  mem := w.store p.target_ p.orig_,
                  trace := (w.suspend pid).trace ++ [Event.write p.target_ p.orig_] }
                : World).release env tr).releaseAll env p.trampolines_).resume pid,
      { p with trampoline_ := none, trampolines_ := [], applied_ := false }, ?_, ?_, ?_,
      rfl, rfl, rfl, ?_⟩
    · rw [PatchDetour.Remove_run_detour]
      simp [ha, hp, ht, h1, h2, hw]
    · apply List.ext_getD_zero (by simp [World.bytesAt_length])
      intro i hi
      rw [World.bytesAt_length] at hi
      rw [World.bytesAt_getD _ _ _ _ hi]
      simp only [World.resume_mem, World.releaseAll_mem]
      exact World.store_inside w p.target_ p.orig_ i hi
    · intro a ha2
      simp only [World.resume_mem, World.releaseAll_mem]
      exact World.store_outside w p.target_ p.orig_ a ha2
    · intro b hb i hi
      simp only [World.resume_prot]
      rcases List.mem_cons.1 hb with rfl | hb
      · exact World.releaseAll_prot_free env _ _ _ (World.release_prot_block env _ _ i hi)
      · exact World.releaseAll_prot_block env _ _ b hb i hi
  · have h1 : VerifyPatchThreads.loop w.self p.target_ p.orig_.length w.threads = false :=
      (VerifyPatchThreads.loop_eq_false_iff w _ _).2 (fun h => hth (Or.inl h))
    have h2 : VerifyPatchThreads.loop w.self tr.base tr.size w.threads = false :=
      (VerifyPatchThreads.loop_eq_false_iff w _ _).2 (fun h => hth (Or.inr h))
    rw [PatchDetour.Remove_run_detour]
    simp only [ha, if_true, hp, ht, h1, h2, hw, Bool.false_eq_true, if_false]

/-- C8, at the example: the applied detour is removed while no thread is in either
region, and is not removed while thread 3 runs inside the trampoline. -/
theorem C8_PatchDetour_Remove_witness :
    (∃ w1 p1, PatchDetour.Remove exEnv (exWorldDetoured, exDetourApplied)
        = Res.ok () (w1, p1) ∧
      w1.bytesAt exDetourApplied.target_ exDetourApplied.orig_.length
        = exDetourApplied.orig_ ∧
      (∀ a, ¬ (exDetourApplied.target_ ≤ a ∧
          a < exDetourApplied.target_ + exDetourApplied.orig_.length) →
        w1.mem a = exWorldDetoured.mem a) ∧
      p1.trampoline_ = none ∧ p1.trampolines_ = [] ∧ p1.applied_ = false ∧
      (∀ b, b ∈ ({ base := 0x8000, size := 45 } : Block) :: exDetourApplied.trampolines_ →
        ∀ i, i < pagesFor exEnv b.size → w1.prot (pageOf exEnv b.base + i) = Prot.free)) ∧
    PatchDetour.Remove exEnv (exWorldDetouredBusy, exDetourApplied)
      = Res.fail Error.threadInTarget
          ((exWorldDetouredBusy.suspend 77).resume 77, exDetourApplied) :=
  ⟨(C8_PatchDetour_Remove exEnv exWorldDetoured exDetourApplied 77
      { base := 0x8000, size := 45 } (by decide) (by decide) (by decide)).2.1
      (by decide) (by decide),
   ((C8_PatchDetour_Remove exEnv exWorldDetouredBusy exDetourApplied 77
      { base := 0x8000, size := 45 } (by decide) (by decide) (by decide)).1
      (by decide)).1⟩

/-- C9. Move semantics, for `PatchRaw` and `PatchDetour`: after move construction
the source is not applied, and `Remove()` on it returns with the process unchanged
(no write, no suspension); the destination has every member the source had: applied
flag, target, snapshot and, for the detour, trampoline and auxiliary blocks. -/
theorem C9_move_semantics :
    (∀ p : PatchRaw,
      (PatchRaw.moveCtor p).2.IsApplied = false ∧
      (∀ (env : Env) (w : World),
        PatchRaw.Remove env (w, (PatchRaw.moveCtor p).2)
          = Res.ok () (w, (PatchRaw.moveCtor p).2)) ∧
      (PatchRaw.moveCtor p).1 = p) ∧
    (∀ p : PatchDetour,
      (PatchDetour.moveCtor p).2.applied_ = false ∧
      (∀ (env : Env) (w : World),
        PatchDetour.Remove env (w, (PatchDetour.moveCtor p).2)
          = Res.ok () (w, (PatchDetour.moveCtor p).2)) ∧
      (PatchDetour.moveCtor p).1 = p) :=
  ⟨fun _ => ⟨rfl, fun env w => PatchRaw.Remove_not_applied_raw env w _ rfl, rfl⟩,
   fun _ => ⟨rfl, fun env w => PatchDetour.Remove_not_applied_detour env w _ rfl, rfl⟩⟩

/-- C10. Destruction path, for `PatchRaw` and `PatchDetour`: `RemoveUnchecked()`
returns normally and leaves the patch not applied; when the inner `Remove()` fails,
the object is reset (process and target null, byte vectors empty, `trampoline_` and
`trampolines_` empty with their blocks destroyed).  This holds in every state that
satisfies the class invariant (an applied patch has its process and, for the detour,
its trampoline set); the constructors establish the invariant and every method keeps
it (`PatchRaw.wellFormed_kept_raw`, `PatchDetour.wellFormed_kept_detour`). -/
theorem C10_RemoveUnchecked :
    (∀ (env : Env) (w : World) (p : PatchRaw), p.WellFormed →
      ∃ w1 p1, PatchRaw.RemoveUnchecked env (w, p) = Res.ok () (w1, p1) ∧
        p1.applied_ = false ∧
        ∀ e s1, PatchRaw.Remove env (w, p) = Res.fail e s1 →
          p1 = { process_ := none, applied_ := false, target_ := 0, data_ := [],
                 orig_ := [] } ∧
          w1 = s1.1) ∧
    (∀ (env : Env) (w : World) (p : PatchDetour), p.WellFormed →
      ∃ w1 p1, PatchDetour.RemoveUnchecked env (w, p) = Res.ok () (w1, p1) ∧
        p1.applied_ = false ∧
        ∀ e s1, PatchDetour.Remove env (w, p) = Res.fail e s1 →
          p1 = { process_ := none, applied_ := false, target_ := 0, detour_ := 0,
                 trampoline_ := none, orig_ := [], trampolines_ := [] } ∧
          w1 = (s1.1.releaseOpt env s1.2.trampoline_).releaseAll env s1.2.trampolines_) :=
  ⟨PatchRaw.RemoveUnchecked_spec_raw, PatchDetour.RemoveUnchecked_spec_detour⟩

/-- C10, at the example: the patches are applied and a thread has moved into the
patched bytes (into the trampoline, for the detour), so that the inner `Remove()`
fails; `RemoveUnchecked()` returns and leaves the reset objects. -/
theorem C10_RemoveUnchecked_witness :
    (PatchRaw.Remove exEnv (exWorldRawBusy, exRawApplied)).error?
      = some Error.threadInTarget ∧
    (∃ w1 p1, PatchRaw.RemoveUnchecked exEnv (exWorldRawBusy, exRawApplied)
        = Res.ok () (w1, p1) ∧ p1.applied_ = false ∧
      ∀ e s1, PatchRaw.Remove exEnv (exWorldRawBusy, exRawApplied) = Res.fail e s1 →
        p1 = { process_ := none, applied_ := false, target_ := 0, data_ := [],
               orig_ := [] } ∧
        w1 = s1.1) ∧
    (PatchDetour.Remove exEnv (exWorldDetouredBusy, exDetourApplied)).error?
      = some Error.threadInTarget ∧
    (∃ w1 p1, PatchDetour.RemoveUnchecked exEnv (exWorldDetouredBusy, exDetourApplied)
        = Res.ok () (w1, p1) ∧ p1.applied_ = false ∧
      ∀ e s1, PatchDetour.Remove exEnv (exWorldDetouredBusy, exDetourApplied)
          = Res.fail e s1 →
        p1 = { process_ := none, applied_ := false, target_ := 0, detour_ := 0,
               trampoline_ := none, orig_ := [], trampolines_ := [] } ∧
        w1 = (s1.1.releaseOpt exEnv s1.2.trampoline_).releaseAll exEnv s1.2.trampolines_) :=
  ⟨by decide,
   C10_RemoveUnchecked.1 exEnv exWorldRawBusy exRawApplied (by decide),
   by decide,
   C10_RemoveUnchecked.2 exEnv exWorldDetouredBusy exDetourApplied (by decide)⟩


/-! ## `IsNear` -/

theorem sext_of_lt (v : Nat) (h : v < 2 ^ 63) : sext 64 v = (v : Int) := by
  unfold sext
  have h1 : v % 2 ^ 64 = v := Nat.mod_eq_of_lt (by omega)
  rw [h1, if_pos (by simpa using h)]

theorem sext_wrap (x : Int) (h1 : -(2 ^ 63 : Int) ≤ x) (h2 : x < 2 ^ 63) :
    sext 64 (wrap 64 x) = x := by
  unfold sext wrap
  norm_num at h1 h2 ⊢
  split_ifs with h <;> omega

/-- What `IsNear` computes on 64-bit for addresses below `2^62`: the target lies
more than 5 and less than `2^32 + 4` bytes above the address. -/
theorem PatchDetour.IsNear_x64_iff (env : Env) (h64 : env.arch = Arch.x64)
    (address target : Nat) (ha : address < 2 ^ 62) (ht : target < 2 ^ 62) :
    PatchDetour.IsNear env address target = true ↔
      address + 5 < target ∧ target < address + 4294967300 := by
  unfold PatchDetour.IsNear
  rw [h64]
  simp only
  rw [sext_of_lt address (by omega), sext_of_lt target (by omega),
    sext_wrap _ (by omega) (by omega)]
  simp only [Bool.and_eq_true, decide_eq_true_eq]
  omega

/-- On 32-bit `IsNear` holds for every pair of addresses. -/
theorem PatchDetour.IsNear_x86 (env : Env) (h32 : env.arch = Arch.x86)
    (address target : Nat) : PatchDetour.IsNear env address target = true := by
  unfold PatchDetour.IsNear
  rw [h32]

/-! ## The trace of `PatchDetour::Remove` -/

theorem World.releaseAll_trace (env : Env) (bs : List Block) :
    ∀ w : World, (w.releaseAll env bs).trace = w.trace ++ bs.map Event.release := by
  induction bs with
  | nil => intro w; simp [World.releaseAll]
  | cons b rest ih =>
    intro w
    rw [World.releaseAll, ih]
    simp [World.release]

/-- The events a successful `PatchDetour::Remove` of an applied patch adds to the
trace: the suspension, one write at the target, the release of the blocks, the
resumption.  No flush of the instruction cache is among them. -/
theorem PatchDetour.Remove_trace (env : Env) (w w1 : World) (p p1 : PatchDetour)
    (ha : p.applied_ = true) (hR : PatchDetour.Remove env (w, p) = .ok () (w1, p1)) :
    ∃ pid tr, p.process_ = some pid ∧ p.trampoline_ = some tr ∧
      w1.trace = w.trace ++ ([Event.suspend pid, Event.write p.target_ p.orig_,
        Event.release tr] ++ p.trampolines_.map Event.release ++ [Event.resume pid]) := by
  rw [PatchDetour.Remove_run_detour] at hR
  simp only [ha, if_true] at hR
  cases hp : p.process_ with
  | none => simp [hp] at hR
  | some pid =>
    simp only [hp] at hR
    by_cases h1 : VerifyPatchThreads.loop w.self p.target_ p.orig_.length w.threads = true
    · simp [h1] at hR
    · cases ht : p.trampoline_ with
      | none => simp [h1, ht] at hR
      | some tr =>
        by_cases h2 : VerifyPatchThreads.loop w.self tr.base tr.size w.threads = true
        · simp [h1, ht, h2] at hR
        · by_cases h3 : w.canWriteRange env p.target_ p.orig_.length = true
          · simp only [h1, ht, h2, h3, if_true, if_false, Bool.false_eq_true, Res.ok.injEq,
              Prod.mk.injEq, true_and] at hR
            refine ⟨pid, tr, rfl, rfl, ?_⟩
            rw [← hR.1]
            simp [World.resume, World.releaseAll_trace, World.release, World.suspend]
          · simp [h1, ht, h2, h3] at hR

/-! ## The decode loop -/

theorem wrap_base (env : Env) (x : Nat) (y : Int) :
    wrap env.arch.bits (((x % 2 ^ 64 % 2 ^ env.arch.bits : Nat) : Int) + y) =
      wrap env.arch.bits ((x : Int) + y) := by
  unfold wrap
  cases env.arch <;> simp only [Arch.bits] <;> norm_num

theorem PatchDetour.insnTarget_run (size lval : Nat)
    (h : size = 8 ∨ size = 16 ∨ size = 32 ∨ size = 64) (s : World × PatchDetour) :
    PatchDetour.insnTarget size lval s = .ok (sext size lval) s := by
  unfold PatchDetour.insnTarget
  rcases h with h | h | h | h <;> subst h <;> rfl

theorem PatchDetour.insnTarget_bad (size lval : Nat)
    (h : ¬ (size = 8 ∨ size = 16 ∨ size = 32 ∨ size = 64)) (s : World × PatchDetour) :
    PatchDetour.insnTarget size lval s = .fail .unknownInstructionSize s := by
  unfold PatchDetour.insnTarget
  simp only [not_or] at h
  rw [if_neg h.1, if_neg h.2.1, if_neg h.2.2.1, if_neg h.2.2.2]
  rfl

/-- A pass of the decode loop fails on an instruction of length zero. -/
theorem PatchDetour.Apply.step_zero_len (env : Env) (target instr_size tramp_cur : Nat)
    (rest : List Nat) (insn : Insn) (h : insn.len = 0) (s : World × PatchDetour) :
    PatchDetour.Apply.step env target instr_size tramp_cur rest insn s =
      .fail .disassemblyFailed s := by
  unfold PatchDetour.Apply.step
  rw [if_pos h]
  rfl

/-- A pass of the decode loop that returns has decoded an instruction of non-zero
length. -/
theorem PatchDetour.Apply.step_ok_len {env : Env} {target instr_size tramp_cur : Nat}
    {rest : List Nat} {insn : Insn} {s s1 : World × PatchDetour} {tc1 : Nat}
    (h : PatchDetour.Apply.step env target instr_size tramp_cur rest insn s = .ok tc1 s1) :
    insn.len ≠ 0 := by
  intro h0
  rw [PatchDetour.Apply.step_zero_len env target instr_size tramp_cur rest insn h0] at h
  cases h

/-- A pass of the decode loop fails on a relative jump or call whose operand width
is none of 8, 16, 32 and 64, and leaves the state as it was. -/
theorem PatchDetour.Apply.step_bad_width (env : Env) (target instr_size tramp_cur : Nat)
    (rest : List Nat) (insn : Insn) (op : ud_operand)
    (hlen : insn.len ≠ 0) (hop : insn.opr0 = some op)
    (hmn : insn.mnemonic = ud_mnemonic_code.UD_Ijmp ∨ insn.mnemonic = ud_mnemonic_code.UD_Icall)
    (hrel : PatchDetour.is_jimm insn.opr0 = true ∨ PatchDetour.is_jmem insn.opr0 = true)
    (size : Nat)
    (hsize : size = if PatchDetour.is_jimm insn.opr0 = true then op.size else op.offset)
    (hwidth : ¬ (size = 8 ∨ size = 16 ∨ size = 32 ∨ size = 64)) (s : World × PatchDetour) :
    PatchDetour.Apply.step env target instr_size tramp_cur rest insn s =
      .fail .unknownInstructionSize s := by
  have hc : (insn.mnemonic = ud_mnemonic_code.UD_Ijmp ∨
      insn.mnemonic = ud_mnemonic_code.UD_Icall) ∧
      (PatchDetour.is_jimm insn.opr0 = true ∨ PatchDetour.is_jmem insn.opr0 = true) :=
    ⟨hmn, hrel⟩
  unfold PatchDetour.Apply.step
  rw [if_neg hlen]
  simp only [hop] at hc hsize ⊢
  rw [if_pos hc]
  simp only [← hsize, Exec.bind_run, PatchDetour.insnTarget_bad size op.lval hwidth]

/-- When the decode loop comes to a pass that fails, the loop fails with the same
error in the same state. -/
theorem PatchDetour.Apply.decodeLoop_fail_of_reaches {env : Env} {target jump_size : Nat}
    {rest : List Nat} {tc is : Nat} {s : World × PatchDetour}
    {rest2 : List Nat} {tc2 is2 : Nat} {s2 s3 : World × PatchDetour} {e : Error}
    (hr : PatchDetour.Apply.Reaches env target jump_size rest tc is s rest2 tc2 is2 s2)
    (hf : PatchDetour.Apply.step env target is2 tc2 rest2 (env.decode rest2) s2 = .fail e s3) :
    ∀ fuel, is < jump_size → jump_size ≤ fuel + is →
      PatchDetour.Apply.decodeLoop env target jump_size fuel rest tc is s = .fail e s3 := by
  induction hr with
  | here rest tc is s =>
    intro fuel h1 h2
    obtain ⟨f, rfl⟩ : ∃ f, fuel = f + 1 := ⟨fuel - 1, by omega⟩
    unfold PatchDetour.Apply.decodeLoop
    simp only [Exec.bind_run, hf]
  | pass hstep hlt _ ih =>
    intro fuel h1 h2
    obtain ⟨f, rfl⟩ : ∃ f, fuel = f + 1 := ⟨fuel - 1, by omega⟩
    have hl := PatchDetour.Apply.step_ok_len hstep
    unfold PatchDetour.Apply.decodeLoop
    simp only [Exec.bind_run, hstep, Exec.ite_run, if_pos hlt]
    exact ih hf f hlt (by omega)

/-- When the decode loop of `Apply` comes to a pass that fails, `Apply` fails with
the same error. -/
theorem PatchDetour.Apply_fail_of_reaches {env : Env} {w : World} {p : PatchDetour} {pid : Nat}
    (hna : p.applied_ = false) (hp : p.process_ = some pid)
    {tr : Block} {sA : World × PatchDetour}
    (hnew : PatchDetour.Apply.newTrampoline env (w.suspend pid, p) = .ok tr sA)
    (hread : sA.1.canReadRange env p.target_ PatchDetour.kTrampSize = true)
    {rest : List Nat} {tc is : Nat} {s s3 : World × PatchDetour} {e : Error}
    (hr : PatchDetour.Apply.Reaches env p.target_ (PatchDetour.jumpSize env p)
      (sA.1.bytesAt p.target_ PatchDetour.kTrampSize) tr.base 0 sA rest tc is s)
    (hf : PatchDetour.Apply.step env p.target_ is tc rest (env.decode rest) s = .fail e s3) :
    PatchDetour.Apply env (w, p) = .fail e (s3.1.resume pid, s3.2) := by
  have hjs : 0 < PatchDetour.jumpSize env p := by
    unfold PatchDetour.jumpSize PatchDetour.kJumpSize32 PatchDetour.kJumpSize64
    split_ifs
    · omega
    · cases env.arch <;> simp [PatchDetour.kJumpSize32]
  have hloop := PatchDetour.Apply.decodeLoop_fail_of_reaches hr hf
    (PatchDetour.jumpSize env p) hjs (by omega)
  have hb : PatchDetour.Apply.build env p (w.suspend pid, p) = .fail e s3 := by
    unfold PatchDetour.Apply.build
    simp only [Exec.bind_run, hnew, ReadVector_run, hread, if_true, hloop]
  rw [PatchDetour.Apply_run_detour]
  simp only [hna, Bool.false_eq_true, if_false, hp, hb]

/-- When the decode loop of `Apply` comes to an instruction of length zero, `Apply`
fails with the disassembly error. -/
theorem PatchDetour.Apply_zero_len {env : Env} {w : World} {p : PatchDetour} {pid : Nat}
    (hna : p.applied_ = false) (hp : p.process_ = some pid)
    {tr : Block} {sA : World × PatchDetour}
    (hnew : PatchDetour.Apply.newTrampoline env (w.suspend pid, p) = .ok tr sA)
    (hread : sA.1.canReadRange env p.target_ PatchDetour.kTrampSize = true)
    {rest : List Nat} {tc is : Nat} {s : World × PatchDetour}
    (hr : PatchDetour.Apply.Reaches env p.target_ (PatchDetour.jumpSize env p)
      (sA.1.bytesAt p.target_ PatchDetour.kTrampSize) tr.base 0 sA rest tc is s)
    (hz : (env.decode rest).len = 0) :
    PatchDetour.Apply env (w, p) = .fail .disassemblyFailed (s.1.resume pid, s.2) :=
  PatchDetour.Apply_fail_of_reaches hna hp hnew hread hr
    (PatchDetour.Apply.step_zero_len env p.target_ is tc rest _ hz s)

/-! ## The events of `Apply` and `Remove` -/

/-- The invariant started afresh from the state reached. -/
theorem Inv.restart {env : Env} {Q X X2 : Nat → Prop} {w0 : World} {p0 : PatchDetour}
    {s : World × PatchDetour} (h : Inv env Q X w0 p0 s) : Inv env Q X2 s.1 s.2 s :=
  ⟨fun _ _ _ => rfl, h.prot, rfl, rfl, rfl, rfl, rfl, rfl, rfl, rfl, rfl,
    [], (List.append_nil _).symm, fun _ h => nomatch h⟩

/-- The events of `PatchDetour::Apply` on a patch that is not applied, for a set `Q`
of pages that hold memory.  When it returns: the suspension, the events of the
building part (quiet, with no write on a page of `Q`, the flush of the trampoline
among them), the events of the stub written at the target (writes on pages of `Q`
only inside the target), the flush of the target, the resumption; no thread was in
the target.  When it fails: the suspension, quiet events with no write on a page of
`Q`, the resumption.  The suspension depth is what it was. -/
theorem PatchDetour.Apply_events (env : Env) (w : World) (p : PatchDetour) (pid : Nat)
    (hna : p.applied_ = false) (hp : p.process_ = some pid)
    {Q : Nat → Prop} (hroom : Room env Q (fun _ => False) 143)
    (hQ : ∀ k, Q k → w.prot k ≠ Prot.free)
    (hstale : ∀ b, p.trampoline_ = some b →
      ∀ i, i < pagesFor env b.size → ¬ Q (pageOf env b.base + i)) :
    (PatchDetour.Apply env).Ensures (w, p)
      (fun _ s1 => s1.1.suspendDepth = w.suspendDepth ∧
        ∃ evsB evsI tr n, s1.1.trace = w.trace ++ Event.suspend pid ::
            (evsB ++ evsI ++ [Event.flush p.target_ n, Event.resume pid]) ∧
          (∀ e ∈ evsB, Event.Quiet env Q (fun _ => False) e) ∧
          Event.flush tr.base tr.size ∈ evsB ∧
          (∀ e ∈ evsI, Event.Quiet env Q (PatchDetour.inTarget env p) e) ∧
          s1.2.trampoline_ = some tr ∧
          ¬ w.threadIn p.target_ (PatchDetour.jumpSize env p))
      (fun _ s1 => s1.1.suspendDepth = w.suspendDepth ∧
        ∃ evs, s1.1.trace = w.trace ++ Event.suspend pid :: (evs ++ [Event.resume pid]) ∧
          ∀ e ∈ evs, Event.Quiet env Q (fun _ => False) e) := by
  unfold Exec.Ensures
  rw [PatchDetour.Apply_run_detour]
  simp only [hna, Bool.false_eq_true, if_false, hp]
  have h0 : Inv env Q (fun _ => False) (w.suspend pid) p (w.suspend pid, p) :=
    ⟨fun _ _ _ => rfl, hQ, rfl, rfl, rfl, rfl, rfl, rfl, rfl, rfl, rfl,
      [], (List.append_nil _).symm, fun _ h => nomatch h⟩
  have hdepth : ∀ s : World × PatchDetour, s.1.suspendDepth = (w.suspend pid).suspendDepth →
      (s.1.resume pid).suspendDepth = w.suspendDepth := by
    intro s hs
    show s.1.suspendDepth - 1 = w.suspendDepth
    rw [hs]
    show w.suspendDepth + 1 - 1 = w.suspendDepth
    omega
  have htrace : ∀ (s : World × PatchDetour) (evs : List Event),
      s.1.trace = (w.suspend pid).trace ++ evs →
      (s.1.resume pid).trace = w.trace ++ Event.suspend pid :: (evs ++ [Event.resume pid]) := by
    intro s evs hs
    show s.1.trace ++ [Event.resume pid] = _
    rw [hs]
    show (w.trace ++ [Event.suspend pid]) ++ evs ++ [Event.resume pid] = _
    simp
  have hb := PatchDetour.Apply.build_frame hroom h0 hstale
  cases hbr : PatchDetour.Apply.build env p (w.suspend pid, p) with
  | fail e s1 =>
    obtain ⟨t, hI⟩ := hb.of_fail hbr
    obtain ⟨evs, he1, he2⟩ := hI.trace
    exact ⟨hdepth s1 hI.depth, evs, htrace s1 evs he1, he2⟩
  | ok instr_size s1 =>
    obtain ⟨tr, -, hI, t, hfl⟩ := hb.of_ok hbr
    obtain ⟨evsB, he1, he2⟩ := hI.trace
    have hflB : Event.flush tr.base tr.size ∈ evsB := by
      rw [he1] at hfl
      rcases List.eq_nil_or_concat evsB with hnil | ⟨l, x, hx⟩
      · rw [hnil, List.append_nil] at hfl
        have := (List.append_inj' hfl rfl).2
        cases this
      · rw [hx, List.concat_eq_append, ← List.append_assoc] at hfl
        have := (List.append_inj' hfl rfl).2
        rw [hx, List.concat_eq_append]
        simp only [List.cons.injEq, and_true] at this
        rw [this]
        simp
    simp only
    rw [PatchDetour.Apply.install_run]
    by_cases hv : VerifyPatchThreads.loop s1.1.self p.target_ s1.2.orig_.length
        s1.1.threads = true
    · simp only [hv, if_true]
      exact ⟨hdepth s1 hI.depth, evsB, htrace s1 evsB he1, he2⟩
    · simp only [hv, if_false, Bool.false_eq_true]
      have hnt : ¬ w.threadIn p.target_ (PatchDetour.jumpSize env p) := by
        have hv2 : VerifyPatchThreads.loop s1.1.self p.target_ s1.2.orig_.length
            s1.1.threads = false := by simpa using hv
        rw [hI.threads, hI.self, hI.orig] at hv2
        simp only [World.bytesAt_length] at hv2
        exact (VerifyPatchThreads.loop_eq_false_iff w p.target_ _).1 hv2
      have hI1 : Inv env Q (fun _ => False) s1.1 s1.2 s1 := hI.restart
      have hw := @PatchDetour.WriteJump_frame2 env Q (PatchDetour.inTarget env p) s1.1 s1.2
        (fun _ => False) (hroom.shrink (by omega)) p.target_ p.detour_ false s1 hI1
        (fun _ hf => hf.elim)
        (fun i hi => Or.inr ⟨Nat.le_add_right _ _, Nat.add_lt_add_left hi _⟩)
      cases hwr : PatchDetour.WriteJump env p.target_ p.detour_ false s1 with
      | fail e s2 =>
        have hI2 := hw.of_fail hwr
        obtain ⟨evsI, hi1, hi2⟩ := hI2.trace
        refine ⟨hdepth s2 (hI2.depth.trans hI.depth), evsB ++ evsI, htrace s2 _ ?_, ?_⟩
        · rw [hi1, he1, List.append_assoc]
        · intro e he
          rcases List.mem_append.1 he with he | he
          · exact he2 e he
          · exact hi2 e he
      | ok n s2 =>
        obtain ⟨hI2, -, -⟩ := hw.of_ok hwr
        obtain ⟨evsI, hi1, hi2⟩ := hI2.trace
        refine ⟨?_, evsB, evsI, tr, instr_size, ?_, he2, hflB, hi2, ?_, hnt⟩
        · exact hdepth s2 (hI2.depth.trans hI.depth)
        · show (s2.1.trace ++ [Event.flush p.target_ instr_size]) ++ [Event.resume pid] = _
          rw [hi1, he1]
          show (((w.trace ++ [Event.suspend pid]) ++ evsB) ++ evsI ++ _) ++ _ = _
          simp
        · show s2.2.trampoline_ = some tr
          rw [hI2.trampoline, hI.trampoline]

theorem Event.Quiet.not_suspension {env : Env} {Q X : Nat → Prop} {e : Event}
    (h : Event.Quiet env Q X e) : ∀ q, e ≠ Event.suspend q ∧ e ≠ Event.resume q := by
  intro q
  cases e <;> first | exact h.elim | exact ⟨(fun hc => nomatch hc), (fun hc => nomatch hc)⟩

theorem World.Balanced.refl (w : World) : w.Balanced w := ⟨rfl, Or.inl rfl⟩

theorem World.Balanced.of_events (w : World) (pid : Nat) (evs : List Event) (w1 : World)
    (hd : w1.suspendDepth = w.suspendDepth)
    (ht : w1.trace = w.trace ++ Event.suspend pid :: (evs ++ [Event.resume pid]))
    (he : ∀ e ∈ evs, ∀ q, e ≠ Event.suspend q ∧ e ≠ Event.resume q) : w.Balanced w1 :=
  ⟨hd, Or.inr ⟨pid, evs, ht, he⟩⟩

theorem PatchRaw.Apply_balanced_raw (env : Env) (w : World) (p : PatchRaw) :
    w.Balanced (PatchRaw.Apply env (w, p)).state.1 := by
  rw [PatchRaw.Apply_run_raw]
  by_cases ha : p.applied_ = true
  · simp only [ha, if_true]; exact World.Balanced.refl w
  · simp only [ha, if_false, Bool.false_eq_true]
    cases hp : p.process_ with
    | none => exact World.Balanced.refl w
    | some pid =>
      simp only
      split_ifs
      · exact World.Balanced.of_events w pid [] _ (by simp [Res.state, World.resume, World.suspend])
          (by simp [Res.state, World.resume, World.suspend]) (by simp)
      · exact World.Balanced.of_events w pid
          [Event.write p.target_ p.data_, Event.flush p.target_ p.data_.length] _
          (by simp [Res.state, World.resume, World.suspend, World.log])
          (by simp [Res.state, World.resume, World.suspend, World.log]) (by simp)
      · exact World.Balanced.of_events w pid [] _ (by simp [Res.state, World.resume, World.suspend])
          (by simp [Res.state, World.resume, World.suspend]) (by simp)
      · exact World.Balanced.of_events w pid [] _ (by simp [Res.state, World.resume, World.suspend])
          (by simp [Res.state, World.resume, World.suspend]) (by simp)

theorem PatchRaw.Remove_balanced_raw (env : Env) (w : World) (p : PatchRaw) :
    w.Balanced (PatchRaw.Remove env (w, p)).state.1 := by
  rw [PatchRaw.Remove_run_raw]
  by_cases ha : p.applied_ = true
  · simp only [ha, if_true]
    cases hp : p.process_ with
    | none => exact World.Balanced.refl w
    | some pid =>
      simp only
      split_ifs
      · exact World.Balanced.of_events w pid [] _ (by simp [Res.state, World.resume, World.suspend])
          (by simp [Res.state, World.resume, World.suspend]) (by simp)
      · exact World.Balanced.of_events w pid
          [Event.write p.target_ p.orig_, Event.flush p.target_ p.orig_.length] _
          (by simp [Res.state, World.resume, World.suspend, World.log])
          (by simp [Res.state, World.resume, World.suspend, World.log]) (by simp)
      · exact World.Balanced.of_events w pid [] _ (by simp [Res.state, World.resume, World.suspend])
          (by simp [Res.state, World.resume, World.suspend]) (by simp)
  · simp only [ha, if_false, Bool.false_eq_true]; exact World.Balanced.refl w

theorem World.releaseAll_depth (env : Env) (bs : List Block) :
    ∀ w : World, (w.releaseAll env bs).suspendDepth = w.suspendDepth := by
  induction bs with
  | nil => intro w; rfl
  | cons b rest ih => intro w; rw [World.releaseAll, ih]; rfl

theorem PatchDetour.Remove_balanced_detour (env : Env) (w : World) (p : PatchDetour) :
    w.Balanced (PatchDetour.Remove env (w, p)).state.1 := by
  rw [PatchDetour.Remove_run_detour]
  by_cases ha : p.applied_ = true
  · simp only [ha, if_true]
    cases hp : p.process_ with
    | none => exact World.Balanced.refl w
    | some pid =>
      simp only
      have hnil : w.Balanced ((w.suspend pid).resume pid) :=
        World.Balanced.of_events w pid [] _ (by simp [World.resume, World.suspend])
          (by simp [World.resume, World.suspend]) (by simp)
      by_cases h1 : VerifyPatchThreads.loop w.self p.target_ p.orig_.length w.threads = true
      · simp only [h1, if_true]; exact hnil
      · simp only [h1, if_false, Bool.false_eq_true]
        cases ht : p.trampoline_ with
        | none => exact hnil
        | some tr =>
          simp only
          by_cases h2 : VerifyPatchThreads.loop w.self tr.base tr.size w.threads = true
          · simp only [h2, if_true]; exact hnil
          · simp only [h2, if_false, Bool.false_eq_true]
            by_cases h3 : w.canWriteRange env p.target_ p.orig_.length = true
            · simp only [h3, if_true]
              refine World.Balanced.of_events w pid
                ([Event.write p.target_ p.orig_, Event.release tr] ++
                  p.trampolines_.map Event.release) _ ?_ ?_ ?_
              · simp [Res.state, World.resume, World.releaseAll_depth, World.release,
                  World.suspend]
              · simp [Res.state, World.resume, World.releaseAll_trace, World.release,
                  World.suspend]
              · intro e he q
                simp only [List.cons_append, List.nil_append, List.mem_cons, List.mem_map] at he
                rcases he with rfl | rfl | ⟨b, -, rfl⟩ <;>
                  exact ⟨(fun hc => nomatch hc), (fun hc => nomatch hc)⟩
            · simp only [h3, if_false, Bool.false_eq_true]; exact hnil
  · simp only [ha, if_false, Bool.false_eq_true]; exact World.Balanced.refl w

theorem PatchDetour.Apply_balanced_detour (env : Env) (w : World) (p : PatchDetour) :
    w.Balanced (PatchDetour.Apply env (w, p)).state.1 := by
  by_cases ha : p.applied_ = true
  · rw [PatchDetour.Apply_applied_detour env w p ha]; exact World.Balanced.refl w
  · have hna : p.applied_ = false := by simpa using ha
    cases hp : p.process_ with
    | none =>
      rw [PatchDetour.Apply_run_detour]
      simp only [hna, Bool.false_eq_true, if_false, hp]
      exact World.Balanced.refl w
    | some pid =>
      have h := @PatchDetour.Apply_events env w p pid hna hp (fun _ => False)
        (Room.of_empty 143) (fun _ hf => hf.elim) (fun _ _ _ _ hf => hf)
      unfold Exec.Ensures at h
      cases hr : PatchDetour.Apply env (w, p) with
      | ok u s1 =>
        rw [hr] at h
        obtain ⟨hd, evsB, evsI, tr, n, ht, hB, -, hI, -, -⟩ := h
        refine World.Balanced.of_events w pid (evsB ++ evsI ++ [Event.flush p.target_ n]) _
          hd ?_ ?_
        · show s1.1.trace = _
          rw [ht]; simp
        · intro e he
          rcases List.mem_append.1 he with he | he
          · rcases List.mem_append.1 he with he | he
            · exact (hB e he).not_suspension
            · exact (hI e he).not_suspension
          · rw [List.mem_singleton.1 he]
            intro q
            exact ⟨(fun hc => nomatch hc), (fun hc => nomatch hc)⟩
      | fail e s1 =>
        rw [hr] at h
        obtain ⟨hd, evs, ht, hq⟩ := h
        exact World.Balanced.of_events w pid evs _ hd ht (fun e he => (hq e he).not_suspension)

/-- A quiet event with nothing exempt writes to no address on a page of `Q`. -/
theorem Event.Quiet.not_writesTo {env : Env} {Q X : Nat → Prop} {e : Event}
    (h : Event.Quiet env Q (fun _ => False) e) (hX : ∀ a, X a → Q (pageOf env a)) :
    ¬ e.WritesTo X := by
  cases e with
  | write a bs =>
    rintro ⟨i, hi, hx⟩
    rcases h i hi with h1 | h1
    · exact h1 (hX _ hx)
    · exact h1
  | suspend _ => exact fun hc => hc
  | resume _ => exact fun hc => hc
  | flush _ _ => exact fun hc => hc
  | alloc _ => exact fun hc => hc
  | release _ => exact fun hc => hc

/-- An element with a property none of the first part of a list has lies behind
that part. -/
theorem List.split_behind {α : Type} {P : α → Prop} {l1 l2 pre post : List α} {x : α}
    (h : l1 ++ l2 = pre ++ x :: post) (h1 : ∀ y ∈ l1, ¬ P y) (hx : P x) :
    ∃ mid, pre = l1 ++ mid := by
  rcases List.append_eq_append_iff.1 h with ⟨a, ha, -⟩ | ⟨c, hc, hc2⟩
  · exact ⟨a, ha⟩
  · cases c with
    | nil => exact ⟨[], by simpa using hc.symm⟩
    | cons y c =>
      exfalso
      simp only [List.cons_append, List.cons.injEq] at hc2
      apply h1 x _ hx
      rw [hc, hc2.1]
      simp

/-! ## `Section` -/

theorem Section.GetName.loop_length_le (l : List Nat) :
    (Section.GetName.loop l).length ≤ l.length := by
  induction l with
  | nil => simp [Section.GetName.loop]
  | cons c rest ih =>
    unfold Section.GetName.loop
    split_ifs <;> simp; omega

theorem Section.GetName.loop_getD (l : List Nat) :
    ∀ i, i < (Section.GetName.loop l).length →
      (Section.GetName.loop l).getD i 0 = l.getD i 0 := by
  induction l with
  | nil => intro i hi; simp [Section.GetName.loop] at hi
  | cons c rest ih =>
    intro i hi
    unfold Section.GetName.loop at hi ⊢
    by_cases hc : c ≠ 0
    · rw [if_pos hc] at hi ⊢
      cases i with
      | zero => rfl
      | succ i =>
        simp only [List.length_cons, Nat.add_lt_add_iff_right] at hi
        simpa using ih i hi
    · rw [if_neg hc] at hi
      simp at hi

theorem Section.GetName.loop_stop (l : List Nat) :
    (Section.GetName.loop l).length < l.length →
      l.getD (Section.GetName.loop l).length 0 = 0 := by
  induction l with
  | nil => intro h; simp [Section.GetName.loop] at h
  | cons c rest ih =>
    intro h
    unfold Section.GetName.loop at h ⊢
    by_cases hc : c ≠ 0
    · rw [if_pos hc] at h ⊢
      simp only [List.length_cons, Nat.add_lt_add_iff_right] at h
      simpa using ih h
    · rw [if_neg hc]
      simpa using hc

theorem List.getD_ofFn_fin8 (f : Fin 8 → Nat) (i : Fin 8) :
    (List.ofFn f).getD i.val 0 = f i := by
  rw [List.getD_eq_getElem?_getD,
    List.getElem?_eq_getElem (by rw [List.length_ofFn]; exact i.isLt)]
  simp only [Option.getD_some, List.getElem_ofFn]

/-- `SetName(GetName())` leaves the section as it was. -/
theorem Section.SetName_GetName (s : Section) : s.SetName s.GetName = .ok s := by
  have hle : s.GetName.length ≤ 8 := by
    have := Section.GetName.loop_length_le (List.ofFn s.data_.Name)
    simpa [Section.GetName] using this
  unfold Section.SetName
  rw [if_neg (by omega)]
  have hcopied : (fun i : Fin 8 =>
      if i.val < s.GetName.length then s.GetName.getD i.val 0 else s.data_.Name i) =
      s.data_.Name := by
    funext i
    split_ifs with h
    · rw [Section.GetName, Section.GetName.loop_getD _ _ h, List.getD_ofFn_fin8]
    · rfl
  have hname : (if s.GetName.length ≠ 8 then
      fun i : Fin 8 => if i.val = s.GetName.length then 0
        else (fun i : Fin 8 =>
          if i.val < s.GetName.length then s.GetName.getD i.val 0 else s.data_.Name i) i
      else (fun i : Fin 8 =>
          if i.val < s.GetName.length then s.GetName.getD i.val 0 else s.data_.Name i)) =
      s.data_.Name := by
    rw [hcopied]
    split_ifs with h8
    · funext i
      split_ifs with hi
      · have hstop := Section.GetName.loop_stop (List.ofFn s.data_.Name) (by
          have : (Section.GetName.loop (List.ofFn s.data_.Name)).length = s.GetName.length := rfl
          simp only [List.length_ofFn]
          omega)
        have h2 := List.getD_ofFn_fin8 s.data_.Name i
        rw [hi] at h2
        rw [← h2]
        exact hstop.symm
      · rfl
    · rfl
  simp only [hname]

/-- Every setter called with the value of its getter leaves the section as it was. -/
theorem Section.setEachFromGetter_eq (s : Section) : s.setEachFromGetter = .ok s := by
  unfold Section.setEachFromGetter
  rw [Section.SetName_GetName]
  simp only [bind, Except.bind, pure, Except.pure]
  cases s with
  | mk _ _ _ d _ => cases d; rfl

theorem leBytes_leValue (bs : List Nat) (h : ∀ b ∈ bs, b < 256) :
    leBytes bs.length (leValue bs) = bs := by
  induction bs with
  | nil => rfl
  | cons b rest ih =>
    have hb : b < 256 := h b (List.mem_cons_self _ _)
    have hrest := ih (fun x hx => h x (List.mem_cons_of_mem _ hx))
    simp only [List.length_cons, leBytes, leValue]
    have h1 : (b % 256 + 256 * leValue rest) % 256 = b := by omega
    have h2 : (b % 256 + 256 * leValue rest) / 256 = leValue rest := by omega
    rw [h1, h2, hrest]

theorem List.take_join (l : List Nat) (a b c : Nat) (h : a + b = c) :
    l.take a ++ (l.drop a).take b = l.take c := by
  subst h
  exact (List.take_add l a b).symm

theorem leBytes_field (bs : List Nat) (h : ∀ b ∈ bs, b < 256) (a n : Nat)
    (hlen : a + n ≤ bs.length) :
    leBytes n (leValue ((bs.drop a).take n)) = (bs.drop a).take n := by
  have hl : ((bs.drop a).take n).length = n := by
    simp only [List.length_take, List.length_drop]
    omega
  have := leBytes_leValue ((bs.drop a).take n)
    (fun b hb => h b (List.mem_of_mem_drop (List.mem_of_mem_take hb)))
  rwa [hl] at this

/-- The bytes of the header that 40 bytes of memory hold are those bytes. -/
theorem IMAGE_SECTION_HEADER.toBytes_ofBytes (bs : List Nat) (hlen : bs.length = 40)
    (h : ∀ b ∈ bs, b < 256) : (IMAGE_SECTION_HEADER.ofBytes bs).toBytes = bs := by
  have hname : List.ofFn (fun i : Fin 8 => bs.getD i.val 0) = bs.take 8 := by
    apply List.ext_getElem
    · simp only [List.length_ofFn, List.length_take]; omega
    · intro i h1 h2
      have h8 : i < 8 := by simpa using h1
      simp only [List.getElem_ofFn, List.getElem_take]
      rw [List.getD_eq_getElem?_getD, List.getElem?_eq_getElem (by omega)]
      rfl
  unfold IMAGE_SECTION_HEADER.toBytes IMAGE_SECTION_HEADER.ofBytes
  simp only
  rw [hname, leBytes_field bs h 8 4 (by omega), leBytes_field bs h 12 4 (by omega),
    leBytes_field bs h 16 4 (by omega), leBytes_field bs h 20 4 (by omega),
    leBytes_field bs h 24 4 (by omega), leBytes_field bs h 28 4 (by omega),
    leBytes_field bs h 32 2 (by omega), leBytes_field bs h 34 2 (by omega),
    leBytes_field bs h 36 4 (by omega),
    List.take_join bs 8 4 12 rfl, List.take_join bs 12 4 16 rfl, List.take_join bs 16 4 20 rfl,
    List.take_join bs 20 4 24 rfl, List.take_join bs 24 4 28 rfl, List.take_join bs 28 4 32 rfl,
    List.take_join bs 32 2 34 rfl, List.take_join bs 34 2 36 rfl, List.take_join bs 36 4 40 rfl,
    List.take_of_length_le (by omega)]

theorem Section.UpdateRead_run (env : Env) (w : World) (s : Section) :
    Section.UpdateRead env (w, s) =
      if w.canReadRange env s.base_ 40 then
        .ok () (w, { s with data_ := IMAGE_SECTION_HEADER.ofBytes (w.bytesAt s.base_ 40) })
      else .fail .readFailure (w, s) := by
  unfold Section.UpdateRead IMAGE_SIZEOF_SECTION_HEADER
  simp only [Exec.bind_run, Exec.get_run, ReadVector_run]
  split_ifs <;> simp [Exec.modify_run]

theorem Section.UpdateWrite_run (env : Env) (w : World) (s : Section) :
    Section.UpdateWrite env (w, s) =
      if w.canWriteRange env s.base_ s.data_.toBytes.length then
        .ok () ({ w with mem := w.store s.base_ s.data_.toBytes,
                         trace := w.trace ++ [Event.write s.base_ s.data_.toBytes] }, s)
      else .fail .writeFailure (w, s) := by
  unfold Section.UpdateWrite
  simp only [Exec.bind_run, Exec.get_run, WriteVector_run]

/-! ## `AllocatePageNear` and the far detour -/

theorem PatchDetour.allocate_tramp_none (env : Env) (addr size : Nat)
    (s : World × PatchDetour) :
    (PatchDetour.allocate_tramp env addr size).Ensures s (PatchDetour.NoneKeeps s)
      (fun _ _ => False) := by
  unfold Exec.Ensures PatchDetour.allocate_tramp Exec.tryCatch
  by_cases hc : 0 < pagesFor env size ∧
      s.1.pagesFree (pageOf env addr) (pagesFor env size) = true
  · have hr : allocateAt env size addr s =
        .ok { base := pageOf env addr * env.pageSize, size := size }
          (s.1.commit env (pageOf env addr) size, s.2) := by
      simp only [allocateAt, if_pos hc]
    simp only [Exec.bind_run, hr, Exec.pure_run]
    refine ⟨(fun h => by cases h), fun hfull => ?_⟩
    exfalso
    have := (World.pagesFree_iff s.1 _ _).1 hc.2 0 hc.1
    exact hfull _ this
  · have hr : allocateAt env size addr s = .fail .allocFailure s := by
      simp only [allocateAt, if_neg hc]
    simp only [Exec.bind_run, hr]
    exact ⟨fun _ => rfl, fun _ => rfl⟩

/-- With enough fuel the search of `AllocatePageNear` returns; the state is unchanged
when it finds no block, and it finds none when no page is free. -/
theorem PatchDetour.AllocatePageNear.search_total (env : Env)
    (base search_beg search_end : Int)
    (hbeg : base - 0x7FFFFF00 ≤ search_beg) (hend : search_end ≤ base + 0x7FFFFF00)
    (fuel : Nat) :
    ∀ (index : Int) (s : World × PatchDetour), 1 ≤ fuel →
      0x7FFFFF00 + (env.pageSize : Int) ≤ index + (fuel : Int) * (env.pageSize : Int) →
      (PatchDetour.AllocatePageNear.search env base search_beg search_end fuel index).Ensures s
        (PatchDetour.NoneKeeps s) (fun _ _ => False) := by
  induction fuel with
  | zero => intro index s h; omega
  | succ fuel ih =>
    intro index s _ hfuel
    unfold PatchDetour.AllocatePageNear.search
    apply Exec.Ensures.ite
    · intro hcond
      have hidx : index < 0x7FFFFF00 := by omega
      have hf1 : 1 ≤ fuel := by
        by_contra h0
        have : fuel = 0 := by omega
        subst this
        simp at hfuel
        omega
      apply Exec.Ensures.bind
      have hup : (if base + index < search_end then
            PatchDetour.allocate_tramp env (wrap 64 (base + index)) env.pageSize
          else (Pure.pure none : Exec (World × PatchDetour) (Option Block))).Ensures s
          (PatchDetour.NoneKeeps s) (fun _ _ => False) := by
        apply Exec.Ensures.ite
        · intro _; exact PatchDetour.allocate_tramp_none _ _ _ s
        · intro _; exact Exec.Ensures.pure ⟨fun _ => rfl, fun _ => rfl⟩
      apply hup.mono
      · intro up s1 hs1
        cases up with
        | some b =>
          exact Exec.Ensures.pure ⟨(fun h => by cases h), hs1.2⟩
        | none =>
          obtain rfl := hs1.1 rfl
          simp only
          apply Exec.Ensures.bind
          have hdown : (if base - index > search_beg then
                PatchDetour.allocate_tramp env (wrap 64 (base - index)) env.pageSize
              else (Pure.pure none : Exec (World × PatchDetour) (Option Block))).Ensures s1
              (PatchDetour.NoneKeeps s1) (fun _ _ => False) := by
            apply Exec.Ensures.ite
            · intro _; exact PatchDetour.allocate_tramp_none _ _ _ s1
            · intro _; exact Exec.Ensures.pure ⟨fun _ => rfl, fun _ => rfl⟩
          apply hdown.mono
          · intro down s2 hs2
            cases down with
            | some b => exact Exec.Ensures.pure ⟨(fun h => by cases h), hs2.2⟩
            | none =>
              obtain rfl := hs2.1 rfl
              exact ih _ s2 hf1 (by push_cast at hfuel ⊢; linarith)
          · intro e s2 hf; exact hf.elim
      · intro e s1 hf; exact hf.elim
    · intro _
      exact Exec.Ensures.pure ⟨fun _ => rfl, fun _ => rfl⟩

/-- On 64-bit, with a page size that is not zero, `AllocatePageNear` returns a block
or fails with the error for no block in range, the state unchanged; it fails when no
page is free. -/
theorem PatchDetour.AllocatePageNear_total (env : Env) (h64 : env.arch = Arch.x64)
    (hps : 0 < env.pageSize) (address : Nat) (s : World × PatchDetour) :
    (PatchDetour.AllocatePageNear env address).Ensures s
      (fun _ _ => ¬ ∀ k, s.1.prot k ≠ Prot.free)
      (fun e s1 => e = Error.noTrampolineBlock ∧ s1 = s) := by
  unfold PatchDetour.AllocatePageNear
  rw [h64]
  simp only
  apply Exec.Ensures.bind
  apply (PatchDetour.AllocatePageNear.search_total env _ _ _ (le_max_left _ _)
    (min_le_left _ _) _ 0 s (Nat.le_add_left 1 _) ?_).mono
  · intro ob s1 hs1
    cases ob with
    | none =>
      obtain rfl := hs1.1 rfl
      exact Exec.Ensures.throw ⟨rfl, rfl⟩
    | some b =>
      apply Exec.Ensures.pure
      intro hfull
      have := hs1.2 hfull
      cases this
  · intro e s1 hf; exact hf.elim
  · have h1 := Nat.div_add_mod 0x7FFFFF00 env.pageSize
    have h2 := Nat.mod_lt 0x7FFFFF00 hps
    push_cast
    have h3 : (env.pageSize : Int) * ((0x7FFFFF00 / env.pageSize : Nat) : Int) +
        ((0x7FFFFF00 % env.pageSize : Nat) : Int) = 0x7FFFFF00 := by exact_mod_cast h1
    have h4 : ((0x7FFFFF00 % env.pageSize : Nat) : Int) < env.pageSize := by exact_mod_cast h2
    push_cast at h3 h4
    nlinarith

/-- On 64-bit, without the push/return fallback, `WriteJump` to a target that is not
near fails with the error for the disabled fallback when `AllocatePageNear` finds
no block, and leaves the state as it was. -/
theorem PatchDetour.WriteJump_far_fail (env : Env) (h64 : env.arch = Arch.x64)
    (hps : 0 < env.pageSize) (address target : Nat) (s : World × PatchDetour)
    (hfar : PatchDetour.IsNear env address target = false)
    (hnone : (PatchDetour.AllocatePageNear env address s).isOk = false) :
    PatchDetour.WriteJump env address target false s = .fail .fallbackDisabled s := by
  have ht := PatchDetour.AllocatePageNear_total env h64 hps address s
  unfold Exec.Ensures at ht
  cases hr : PatchDetour.AllocatePageNear env address s with
  | ok b s1 => rw [hr] at hnone; simp [Res.isOk] at hnone
  | fail e s1 =>
    rw [hr] at ht
    obtain ⟨rfl, rfl⟩ := ht
    unfold PatchDetour.WriteJump PatchDetour.WriteJump.plan
    rw [h64]
    simp only [hfar, Bool.false_eq_true, if_false, Exec.bind_run, Exec.tryCatch, hr,
      Error.isException, if_true, Exec.pure_run2, Bool.not_false, Exec.throw_run]
    rfl

/-- `Apply` of a far detour on 64-bit, when the building part returns, no thread is
in the target and `AllocatePageNear` finds no block near the target: the call fails
with the error for the disabled fallback. -/
theorem PatchDetour.Apply_far_fail (env : Env) (h64 : env.arch = Arch.x64)
    (hps : 143 ≤ env.pageSize) (w : World) (p : PatchDetour) (pid : Nat)
    (hna : p.applied_ = false) (hp : p.process_ = some pid)
    (hfar : PatchDetour.IsNear env p.target_ p.detour_ = false)
    (instr_size : Nat) (s1 : World × PatchDetour)
    (hb : PatchDetour.Apply.build env p (w.suspend pid, p) = .ok instr_size s1)
    (hth : ¬ w.threadIn p.target_ (PatchDetour.jumpSize env p))
    (hnone : (PatchDetour.AllocatePageNear env p.target_ s1).isOk = false) :
    PatchDetour.Apply env (w, p) = .fail .fallbackDisabled (s1.1.resume pid, s1.2) ∧
    PatchDetour.jumpSize env p = 6 ∧ s1.2.orig_.length = 6 ∧ s1.2.applied_ = false ∧
    (∀ a, PatchDetour.mapped env w p (pageOf env a) = true → s1.1.mem a = w.mem a) := by
  have hbf := PatchDetour.Apply.build_frame (Room.of_pageSize hps)
    (PatchDetour.Inv_start env w p pid) (PatchDetour.mapped_stale env w p)
  obtain ⟨tr, -, hI, -⟩ := hbf.of_ok hb
  have hjs : PatchDetour.jumpSize env p = 6 := by
    unfold PatchDetour.jumpSize
    rw [hfar, h64]
    rfl
  have hol : s1.2.orig_.length = PatchDetour.jumpSize env p := by
    rw [hI.orig]
    exact World.bytesAt_length _ _ _
  have hv : VerifyPatchThreads.loop s1.1.self p.target_ s1.2.orig_.length s1.1.threads
      = false := by
    rw [hI.threads, hI.self, hol]
    exact (VerifyPatchThreads.loop_eq_false_iff w p.target_ _).2 hth
  refine ⟨?_, hjs, hol.trans hjs, hI.applied.trans hna, fun a ha => hI.mem a ha (fun hf => hf)⟩
  rw [PatchDetour.Apply_run_detour]
  simp only [hna, Bool.false_eq_true, if_false, hp, hb]
  rw [PatchDetour.Apply.install_run]
  simp only [hv, Bool.false_eq_true, if_false]
  rw [PatchDetour.WriteJump_far_fail env h64 (by omega) p.target_ p.detour_ s1 hfar hnone]

/-- `AllocatePageNear` fails when no page is free. -/
theorem PatchDetour.AllocatePageNear_full (env : Env) (h64 : env.arch = Arch.x64)
    (hps : 0 < env.pageSize) (address : Nat) (s : World × PatchDetour)
    (hfull : ∀ k, s.1.prot k ≠ Prot.free) :
    (PatchDetour.AllocatePageNear env address s).isOk = false := by
  have ht := PatchDetour.AllocatePageNear_total env h64 hps address s
  unfold Exec.Ensures at ht
  cases hr : PatchDetour.AllocatePageNear env address s with
  | ok b s1 => rw [hr] at ht; exact (ht hfull).elim
  | fail e s1 => rfl

/-- The building part of `Apply` returns for the far detour in the full process. -/
theorem exWorldFull_build :
    PatchDetour.Apply.build exEnv exDetourFar (exWorldFull.suspend 77, exDetourFar) =
      .ok 6 (PatchDetour.Apply.build exEnv exDetourFar
        (exWorldFull.suspend 77, exDetourFar)).state := by
  rfl

/-- After the building part of `Apply` no page of the full process is free. -/
theorem exWorldFull_no_free_page :
    ∀ k, (PatchDetour.Apply.build exEnv exDetourFar
      (exWorldFull.suspend 77, exDetourFar)).state.1.prot k ≠ Prot.free := by
  have hbf := @PatchDetour.Apply.build_frame exEnv (fun k => k ≠ 8) (fun _ => False)
    (exWorldFull.suspend 77) exDetourFar (Room.of_pageSize (by decide))
    (exWorldFull.suspend 77, exDetourFar)
    ⟨fun _ _ _ => rfl, fun k hk => by
        show (if k = 8 then Prot.free else Prot.readWrite) ≠ Prot.free
        rw [if_neg hk]; decide,
      rfl, rfl, rfl, rfl, rfl, rfl, rfl, rfl, rfl, [], (List.append_nil _).symm,
      fun _ h => nomatch h⟩
    (fun b hb => by cases hb)
  obtain ⟨tr, -, hI, -⟩ := hbf.of_ok exWorldFull_build
  intro k
  by_cases hk : k = 8
  · rw [hk]; decide
  · exact hI.prot k hk

/-! ## Failures of `WriteJump` -/

theorem Exec.Ensures.and {σ α : Type} {m : Exec σ α} {s : σ} {Q1 Q2 : α → σ → Prop}
    {E1 E2 : Error → σ → Prop} (h1 : m.Ensures s Q1 E1) (h2 : m.Ensures s Q2 E2) :
    m.Ensures s (fun a s1 => Q1 a s1 ∧ Q2 a s1) (fun e s1 => E1 e s1 ∧ E2 e s1) := by
  unfold Exec.Ensures at h1 h2 ⊢
  cases hm : m s with
  | ok a s1 => rw [hm] at h1 h2; exact ⟨h1, h2⟩
  | fail e s1 => rw [hm] at h1 h2; exact ⟨h1, h2⟩

theorem WriteVector_errors {π : Type} (env : Env) (a : Nat) (bs : List Nat) (s : World × π) :
    (WriteVector env a bs).Ensures s (fun _ _ => True) (fun e _ => e = Error.writeFailure) := by
  unfold Exec.Ensures
  rw [WriteVector_run]
  split_ifs <;> trivial

/-- The planning part of `WriteJump` fails only by a failed write of the address
cell, when the fallback is allowed or the target is near. -/
theorem PatchDetour.WriteJump.plan_errors (env : Env) (hps : 0 < env.pageSize)
    (address target : Nat) (fb : Bool) (s : World × PatchDetour)
    (hfb : fb = true ∨ PatchDetour.IsNear env address target = true) :
    (PatchDetour.WriteJump.plan env address target fb).Ensures s (fun _ _ => True)
      (fun e _ => e = Error.writeFailure) := by
  unfold PatchDetour.WriteJump.plan
  cases harch : env.arch with
  | x86 => exact Exec.Ensures.pure trivial
  | x64 =>
    simp only
    apply Exec.Ensures.ite
    · intro _; exact Exec.Ensures.pure trivial
    · intro hnear
      have hfb1 : fb = true := by
        rcases hfb with h | h
        · exact h
        · exact (hnear h).elim
      apply Exec.Ensures.bind
      have htc : (Exec.tryCatch (PatchDetour.AllocatePageNear env address >>=
            fun b => Pure.pure (some b))
          (fun _ => (Pure.pure none : Exec (World × PatchDetour) (Option Block)))).Ensures s
          (fun _ _ => True) (fun _ _ => False) := by
        apply Exec.Ensures.tryCatch
        apply Exec.Ensures.bind
        apply (PatchDetour.AllocatePageNear_total env harch hps address s).mono
        · intro b s1 _; exact Exec.Ensures.pure trivial
        · rintro e s1 ⟨rfl, rfl⟩
          exact ⟨fun _ => Exec.Ensures.pure trivial, fun h => by cases h⟩
      apply htc.mono
      · intro ob s1 _
        cases ob with
        | some tr =>
          simp only
          apply Exec.Ensures.bind
          have hw : (PatchDetour.releasingOnFailure env tr (WritePtr env tr.base target)).Ensures
              s1 (fun _ _ => True) (fun e _ => e = Error.writeFailure) := by
            have h0 := WriteVector_errors env tr.base
              (leBytes (env.arch.bits / 8) (target % 2 ^ env.arch.bits)) s1
            unfold Exec.Ensures at h0 ⊢
            unfold PatchDetour.releasingOnFailure WritePtr
            cases hr : WriteVector env tr.base
                (leBytes (env.arch.bits / 8) (target % 2 ^ env.arch.bits)) s1 with
            | ok a s2 => trivial
            | fail e s2 => rw [hr] at h0; exact h0
          apply hw.mono
          · intro _ s2 _
            apply Exec.Ensures.bind
            apply Exec.Ensures.modify
            exact Exec.Ensures.pure trivial
          · intro e s2 h; exact h
        | none =>
          simp only [hfb1, Bool.not_true, Bool.false_eq_true, if_false]
          split_ifs <;> exact Exec.Ensures.pure trivial
      · intro e s1 hf; exact hf.elim

/-- `WriteJump` fails only by a failed write or a stub of unexpected size, when the
fallback is allowed or the target is near. -/
theorem PatchDetour.WriteJump_errors (env : Env) (hps : 0 < env.pageSize)
    (address target : Nat) (fb : Bool) (s : World × PatchDetour)
    (hfb : fb = true ∨ PatchDetour.IsNear env address target = true) :
    (PatchDetour.WriteJump env address target fb).Ensures s (fun _ _ => True)
      (fun e _ => PatchDetour.ServiceError e) := by
  unfold PatchDetour.WriteJump
  apply Exec.Ensures.bind
  apply (PatchDetour.WriteJump.plan_errors env hps address target fb s hfb).mono
  · rintro ⟨stub, expected, asmjit⟩ s1 -
    simp only
    apply Exec.Ensures.ite
    · intro _; exact Exec.Ensures.throw (Or.inr (Or.inr (Or.inr (Or.inr (Or.inl rfl)))))
    · intro _
      apply Exec.Ensures.ite
      · intro _
        apply Exec.Ensures.ite
        · intro _
          exact Exec.Ensures.throw (Or.inr (Or.inr (Or.inr (Or.inr (Or.inr rfl)))))
        · intro _
          apply Exec.Ensures.bind
          apply (WriteVector_errors env address _ s1).mono
          · intro _ _ _; exact Exec.Ensures.pure trivial
          · rintro e _ rfl; exact Or.inr (Or.inr (Or.inl rfl))
      · intro _
        apply Exec.Ensures.bind
        apply (WriteVector_errors env address _ s1).mono
        · intro _ _ _; exact Exec.Ensures.pure trivial
        · rintro e _ rfl; exact Or.inr (Or.inr (Or.inl rfl))
  · rintro e _ rfl; exact Or.inr (Or.inr (Or.inl rfl))

/-! ## `Apply` over straight-line code -/

/-- Over an instruction that is no relative jump or call, a pass of the decode loop
copies the bytes of the instruction to `tramp_cur`. -/
theorem PatchDetour.Apply.step_copy (env : Env) (target instr_size tramp_cur : Nat)
    (rest : List Nat) (insn : Insn) (hlen : insn.len ≠ 0) (hin : insn.len ≤ rest.length)
    (hrel : PatchDetour.Apply.isRelative insn = false) :
    PatchDetour.Apply.step env target instr_size tramp_cur rest insn =
      (WriteVector env tramp_cur (rest.take insn.len) >>= fun _ =>
        pure (tramp_cur + insn.len)) := by
  unfold PatchDetour.Apply.step
  rw [if_neg hlen]
  cases hop : insn.opr0 with
  | none => simp only [if_pos hin]
  | some op =>
    have hc : ¬ ((insn.mnemonic = ud_mnemonic_code.UD_Ijmp ∨
        insn.mnemonic = ud_mnemonic_code.UD_Icall) ∧
        (PatchDetour.is_jimm (some op) = true ∨ PatchDetour.is_jmem (some op) = true)) := by
      intro h
      have : PatchDetour.Apply.isRelative insn = true := by
        simp only [PatchDetour.Apply.isRelative, hop, Bool.and_eq_true, Bool.or_eq_true,
          decide_eq_true_eq]
        exact h
      rw [hrel] at this
      cases this
    simp only [if_neg hc, if_pos hin]

theorem List.getD_take_drop (l : List Nat) (a n j : Nat) (hj : j < n) :
    ((l.drop a).take n).getD j 0 = l.getD (a + j) 0 := by
  simp [List.getD_eq_getElem?_getD, List.getElem?_take, hj, List.getElem?_drop]

/-- The decode loop over straight-line code copies the bytes decoded, in order, to
the trampoline, and fails only by a failed write. -/
theorem PatchDetour.Apply.decodeLoop_straight (env : Env) (target js : Nat)
    (buffer : List Nat) (base n : Nat) :
    ∀ (fuel : Nat) (rest : List Nat) (tc is : Nat) (s : World × PatchDetour),
      PatchDetour.Apply.straight env js fuel rest is = some n →
      rest = buffer.drop is → tc = base + is → is ≤ buffer.length →
      (∀ i, i < is → s.1.mem (base + i) = buffer.getD i 0 ∧
        s.1.prot (pageOf env (base + i)) ≠ Prot.free) →
      (PatchDetour.Apply.decodeLoop env target js fuel rest tc is).Ensures s
        (fun r s1 => r = (base + n, n) ∧ js ≤ n ∧ n ≤ buffer.length ∧ 0 < n ∧
          s1.2 = s.2 ∧
          ∀ i, i < n → s1.1.mem (base + i) = buffer.getD i 0 ∧
            s1.1.prot (pageOf env (base + i)) ≠ Prot.free)
        (fun e _ => e = Error.writeFailure) := by
  intro fuel
  induction fuel with
  | zero => intro rest tc is s h; simp [PatchDetour.Apply.straight] at h
  | succ fuel ih =>
    intro rest tc is s hst hrest htc hle hinv
    unfold PatchDetour.Apply.straight at hst
    by_cases hbad : (env.decode rest).len = 0 ∨ rest.length < (env.decode rest).len ∨
        PatchDetour.Apply.isRelative (env.decode rest) = true
    · rw [if_pos hbad] at hst; cases hst
    · rw [if_neg hbad] at hst
      simp only [not_or, not_lt, Bool.not_eq_true] at hbad
      obtain ⟨hlen, hin, hrel⟩ := hbad
      have hrl : rest.length = buffer.length - is := by rw [hrest, List.length_drop]
      unfold PatchDetour.Apply.decodeLoop
      simp only
      rw [PatchDetour.Apply.step_copy env target is tc rest _ hlen hin hrel]
      unfold Exec.Ensures
      simp only [Exec.bind_run, WriteVector_run]
      by_cases hw : s.1.canWriteRange env tc (rest.take (env.decode rest).len).length = true
      · simp only [hw, if_true, Exec.pure_run]
        have htl : (rest.take (env.decode rest).len).length = (env.decode rest).len := by
          rw [List.length_take]; omega
        have hinv2 : ∀ i, i < is + (env.decode rest).len →
            (s.1.store tc (rest.take (env.decode rest).len)) (base + i) = buffer.getD i 0 ∧
            s.1.prot (pageOf env (base + i)) ≠ Prot.free := by
          intro i hi
          by_cases hlt : i < is
          · refine ⟨?_, (hinv i hlt).2⟩
            rw [World.store_outside _ _ _ _ (by omega)]
            exact (hinv i hlt).1
          · have hj : i - is < (env.decode rest).len := by omega
            have hbi : base + i = tc + (i - is) := by omega
            constructor
            · rw [hbi, World.store_inside _ _ _ _ (by rw [htl]; exact hj)]
              have ht : rest.take (env.decode rest).len =
                  (buffer.drop is).take (env.decode rest).len := by rw [← hrest]
              rw [ht, List.getD_take_drop _ _ _ _ hj]
              congr 1
              omega
            · rw [htl] at hw
              simp only [World.canWriteRange, List.all_eq_true, List.mem_range] at hw
              have := hw (i - is) hj
              rw [hbi]
              intro hfree
              rw [hfree] at this
              cases this
        by_cases hlt : is + (env.decode rest).len < js
        · rw [if_pos hlt] at hst
          simp only [hlt, if_true]
          have := ih (rest.drop (env.decode rest).len) (tc + (env.decode rest).len)
            (is + (env.decode rest).len)
            ({ s.1 with mem := s.1.store tc (rest.take (env.decode rest).len),
                        trace := s.1.trace ++
                          [Event.write tc (rest.take (env.decode rest).len)] }, s.2)
            hst (by rw [hrest, List.drop_drop]) (by omega) (by omega) hinv2
          unfold Exec.Ensures at this
          exact this
        · rw [if_neg hlt] at hst
          simp only [Option.some.injEq] at hst
          simp only [hlt, if_false, Exec.pure_run]
          subst hst
          exact ⟨by rw [htc, Nat.add_assoc], by omega, by omega, by omega, trivial, hinv2⟩
      · simp only [hw, if_false, Bool.false_eq_true]

theorem Exec.Ensures.of_eq {σ α : Type} {m : Exec σ α} {s : σ} {Q : α → σ → Prop}
    {E : Error → σ → Prop} (hok : ∀ a s1, m s = .ok a s1 → Q a s1)
    (hfail : ∀ e s1, m s = .fail e s1 → E e s1) : m.Ensures s Q E := by
  unfold Exec.Ensures
  cases h : m s with
  | ok a s1 => exact hok a s1 h
  | fail e s1 => exact hfail e s1 h

theorem World.releaseOpt_mem (env : Env) (w : World) (t : Option Block) :
    (w.releaseOpt env t).mem = w.mem := by
  cases t <;> rfl

/-- Allocating the trampoline leaves the contents of memory as they are, and fails
only by a failed allocation. -/
theorem PatchDetour.Apply.newTrampoline_mem (env : Env) (s : World × PatchDetour) :
    (PatchDetour.Apply.newTrampoline env).Ensures s (fun _ s1 => s1.1.mem = s.1.mem)
      (fun e _ => e = Error.allocFailure) := by
  unfold PatchDetour.Apply.newTrampoline
  apply Exec.Ensures.bind
  apply Exec.Ensures.of_eq
  · intro tr s1 h
    apply Exec.Ensures.bind
    apply Exec.Ensures.modify
    apply Exec.Ensures.pure
    show (s1.1.releaseOpt env s1.2.trampoline_).mem = s.1.mem
    rw [World.releaseOpt_mem]
    unfold allocate at h
    split at h
    · cases h
    · cases h
    · split at h
      · simp only [Res.ok.injEq] at h
        rw [← h.2]
        rfl
      · cases h
  · intro e s1 h
    unfold allocate at h
    split at h
    · simp only [Res.fail.injEq] at h; exact h.1.symm
    · simp only [Res.fail.injEq] at h; exact h.1.symm
    · split at h
      · cases h
      · simp only [Res.fail.injEq] at h; exact h.1.symm

/-- The building part of `Apply` over straight-line code: it fails only by a failure
of a service; when it returns, `instr_size` is the sum of the lengths decoded, the
trampoline starts with that many bytes of the target, in order, and goes on with
the bytes `WriteJump(trampoline + instr_size, target + instr_size, true)` has
written. -/
theorem PatchDetour.Apply.build_straight (env : Env) (hps : 143 ≤ env.pageSize) (w : World)
    (p : PatchDetour) (pid n : Nat)
    (hst : PatchDetour.Apply.straight env (PatchDetour.jumpSize env p)
      (PatchDetour.jumpSize env p) (w.bytesAt p.target_ PatchDetour.kTrampSize) 0 = some n) :
    (PatchDetour.Apply.build env p).Ensures (w.suspend pid, p)
      (fun instr_size s1 => ∃ tr, Fresh env (fun k => PatchDetour.mapped env w p k = true) tr ∧
        s1.2.trampoline_ = some tr ∧ instr_size = n ∧ PatchDetour.jumpSize env p ≤ n ∧
        n ≤ 45 ∧ s1.1.prot (pageOf env tr.base) ≠ Prot.free ∧
        (∀ i, i < n → s1.1.mem (tr.base + i) = w.mem (p.target_ + i)) ∧
        ∃ s3 s4 k, PatchDetour.WriteJump env (tr.base + n) (p.target_ + n) true s3 = .ok k s4 ∧
          k ≤ 14 ∧ ∀ j, j < k → s1.1.mem (tr.base + n + j) = s4.1.mem (tr.base + n + j))
      (fun e _ => PatchDetour.ServiceError e) := by
  unfold PatchDetour.Apply.build
  apply Exec.Ensures.bind
  apply ((PatchDetour.Apply.newTrampoline_frame (PatchDetour.Inv_start env w p pid)
    (PatchDetour.mapped_stale env w p)).and
    (PatchDetour.Apply.newTrampoline_mem env (w.suspend pid, p))).mono
  · rintro tr sA ⟨⟨hIA, hfresh⟩, hmemA⟩
    apply Exec.Ensures.bind
    apply (ReadVector_frame p.target_ PatchDetour.kTrampSize sA).mono
    · rintro buffer s2 ⟨rfl, hbuf⟩
      have hbuf2 : buffer = w.bytesAt p.target_ PatchDetour.kTrampSize := by
        rw [hbuf]
        simp only [World.bytesAt, hmemA]
        rfl
      have hblen : buffer.length = 45 := by
        rw [hbuf2, World.bytesAt_length]; rfl
      simp only
      apply Exec.Ensures.bind
      apply (PatchDetour.Apply.decodeLoop_straight env p.target_ (PatchDetour.jumpSize env p)
        buffer tr.base n (PatchDetour.jumpSize env p) buffer tr.base 0 s2 (by rw [hbuf2]; exact hst)
        (List.drop_zero _).symm rfl (Nat.zero_le _)
        (fun i hi => absurd hi (Nat.not_lt_zero _))).mono
      · rintro ⟨tc, is⟩ s3 ⟨hr, hjs, hn45, hnpos, hpatch, hcontent⟩
        cases hr
        simp only
        apply Exec.Ensures.bind
        apply Exec.Ensures.of_eq
        · intro k s4 hwj
          have hI3 : Inv env (fun q => s3.1.prot q ≠ Prot.free) (fun _ => False) s3.1 s3.2 s3 :=
            ⟨fun _ _ _ => rfl, fun _ h => h, rfl, rfl, rfl, rfl, rfl, rfl, rfl, rfl, rfl,
              [], (List.append_nil _).symm, fun _ h => nomatch h⟩
          obtain ⟨hI4, hk14, -⟩ := (PatchDetour.WriteJump_frame2
            (X := fun a => tr.base + n ≤ a ∧ a < tr.base + n + 14)
            (Room.of_pageSize (by omega)) (tr.base + n) (p.target_ + n) true hI3
            (fun _ hf => hf.elim)
            (fun i hi => Or.inr ⟨Nat.le_add_right _ _, by
              simp only [if_true] at hi; omega⟩)).of_ok hwj
          apply Exec.Ensures.bind
          apply Exec.Ensures.modify
          apply Exec.Ensures.bind
          apply (ReadVector_frame p.target_ (PatchDetour.jumpSize env p) _).mono
          · rintro orig s6 ⟨rfl, horig⟩
            apply Exec.Ensures.bind
            apply Exec.Ensures.modify
            apply Exec.Ensures.pure
            refine ⟨tr, hfresh, ?_, rfl, hjs, by omega, ?_, ?_, s3, s4, k, hwj, hk14,
              fun j hj => rfl⟩
            · show s4.2.trampoline_ = some tr
              rw [hI4.trampoline, hpatch]
              exact hIA.trampoline
            · show s4.1.prot (pageOf env tr.base) ≠ Prot.free
              apply hI4.prot
              have := (hcontent 0 hnpos).2
              simpa using this
            · intro i hi
              show s4.1.mem (tr.base + i) = w.mem (p.target_ + i)
              rw [hI4.mem (tr.base + i) (hcontent i hi).2 (by intro hx; omega),
                (hcontent i hi).1, hbuf2]
              exact World.bytesAt_getD w p.target_ _ i (by
                show i < 45
                omega)
          · rintro e s6 ⟨-, rfl⟩
            exact Or.inr (Or.inl rfl)
        · intro e s4 hwj
          exact (PatchDetour.WriteJump_errors env (by omega) _ _ true s3 (Or.inl rfl)).of_fail hwj
      · rintro e s3 rfl
        exact Or.inr (Or.inr (Or.inl rfl))
    · rintro e s2 ⟨-, rfl⟩
      exact Or.inr (Or.inl rfl)
  · rintro e sA ⟨-, rfl⟩
    exact Or.inl rfl

/-- `Apply` over straight-line code at the target, with a near detour: it fails only
by a failure of a service; when it returns, the trampoline starts with the first
`n` bytes of the target, in order, and goes on with the bytes
`WriteJump(trampoline + n, target + n, true)` has written. -/
theorem PatchDetour.Apply_straight (env : Env) (hps : 143 ≤ env.pageSize) (w : World)
    (p : PatchDetour) (pid : Nat) (hna : p.applied_ = false) (hp : p.process_ = some pid)
    (hT : ∀ a, PatchDetour.inTarget env p a →
      PatchDetour.mapped env w p (pageOf env a) = true)
    (hnear : PatchDetour.IsNear env p.target_ p.detour_ = true) (n : Nat)
    (hst : PatchDetour.Apply.straight env (PatchDetour.jumpSize env p)
      (PatchDetour.jumpSize env p) (w.bytesAt p.target_ PatchDetour.kTrampSize) 0 = some n) :
    (PatchDetour.Apply env).Ensures (w, p)
      (fun _ s1 => ∃ tr, s1.2.trampoline_ = some tr ∧ PatchDetour.jumpSize env p ≤ n ∧
        s1.1.bytesAt tr.base n = w.bytesAt p.target_ n ∧
        ∃ s3 s4 k, PatchDetour.WriteJump env (tr.base + n) (p.target_ + n) true s3 = .ok k s4 ∧
          s1.1.bytesAt (tr.base + n) k = s4.1.bytesAt (tr.base + n) k)
      (fun e _ => PatchDetour.ServiceError e) := by
  unfold Exec.Ensures
  rw [PatchDetour.Apply_run_detour]
  simp only [hna, Bool.false_eq_true, if_false, hp]
  have hb := PatchDetour.Apply.build_straight env hps w p pid n hst
  cases hbr : PatchDetour.Apply.build env p (w.suspend pid, p) with
  | fail e s1 => exact hb.of_fail hbr
  | ok instr_size s1 =>
    obtain ⟨tr, hfresh, htr, -, hjs, hn45, hprot, hcontent, s3, s4, k, hwj, hk14, hstub⟩ :=
      hb.of_ok hbr
    simp only
    rw [PatchDetour.Apply.install_run]
    by_cases hv : VerifyPatchThreads.loop s1.1.self p.target_ s1.2.orig_.length
        s1.1.threads = true
    · simp only [hv, if_true]
      exact Or.inr (Or.inr (Or.inr (Or.inl rfl)))
    · simp only [hv, if_false, Bool.false_eq_true]
      have hI1 : Inv env (fun q => s1.1.prot q ≠ Prot.free) (fun _ => False) s1.1 s1.2 s1 :=
        ⟨fun _ _ _ => rfl, fun _ h => h, rfl, rfl, rfl, rfl, rfl, rfl, rfl, rfl, rfl,
          [], (List.append_nil _).symm, fun _ h => nomatch h⟩
      have hw := PatchDetour.WriteJump_frame2 (X := PatchDetour.inTarget env p)
        (Room.of_pageSize (by omega)) p.target_ p.detour_ false hI1 (fun _ hf => hf.elim)
        (fun i hi => Or.inr ⟨Nat.le_add_right _ _, Nat.add_lt_add_left hi _⟩)
      cases hwr : PatchDetour.WriteJump env p.target_ p.detour_ false s1 with
      | fail e s2 =>
        exact (PatchDetour.WriteJump_errors env (by omega) _ _ false s1 (Or.inr hnear)).of_fail hwr
      | ok m s2 =>
        obtain ⟨hI2, -, -⟩ := hw.of_ok hwr
        have hpage : ∀ i, i < env.pageSize →
            pageOf env (tr.base + i) = pageOf env tr.base := by
          intro i hi
          have := @pageOf_mul_add env (pageOf env tr.base) i hi
          rwa [← hfresh.2.1] at this
        have hkeep : ∀ i, i < 59 → s2.1.mem (tr.base + i) = s1.1.mem (tr.base + i) := by
          intro i hi
          apply hI2.mem
          · show s1.1.prot (pageOf env (tr.base + i)) ≠ Prot.free
            rw [hpage i (by omega)]
            exact hprot
          · intro hin
            have hm := hT _ hin
            rw [hpage i (by omega)] at hm
            exact hfresh.2.2 0 hfresh.1 (by simpa using hm)
        refine ⟨tr, ?_, hjs, ?_, s3, s4, k, hwj, ?_⟩
        · show s2.2.trampoline_ = some tr
          rw [hI2.trampoline]
          exact htr
        · apply List.ext_getD_zero (by rw [World.bytesAt_length, World.bytesAt_length])
          intro i hi
          rw [World.bytesAt_length] at hi
          rw [World.bytesAt_getD _ _ _ _ hi, World.bytesAt_getD _ _ _ _ hi]
          show s2.1.mem (tr.base + i) = _
          rw [hkeep i (by omega), hcontent i hi]
        · apply List.ext_getD_zero (by rw [World.bytesAt_length, World.bytesAt_length])
          intro j hj
          rw [World.bytesAt_length] at hj
          rw [World.bytesAt_getD _ _ _ _ hj, World.bytesAt_getD _ _ _ _ hj]
          show s2.1.mem (tr.base + n + j) = _
          rw [Nat.add_assoc, hkeep (n + j) (by omega), ← Nat.add_assoc, hstub j hj]

/-! ## The claims C11 to C20 (C13 follows the lemmas on the push/return stub) -/

/-- C11. An invalid opcode that the decoder reports with a non-zero length does not
make `Apply()` fail (only a length of zero is answered with the disassembly error):
in the example process the byte `0x06` at the target is decoded as `UD_Iinvalid` of
length one, and `Apply()` returns, has copied that byte to the start of the
trampoline, has written the jump at the target, and the patch is applied. -/
theorem C11_invalid_opcode_is_copied :
    (exEnvInvalid.decode (exWorldInvalid.bytesAt 0x10000 PatchDetour.kTrampSize)).mnemonic =
      ud_mnemonic_code.UD_Iinvalid ∧
    (PatchDetour.Apply exEnvInvalid (exWorldInvalid, exDetour)).isOk = true ∧
    (PatchDetour.Apply exEnvInvalid (exWorldInvalid, exDetour)).state.2.applied_ = true ∧
    (PatchDetour.Apply exEnvInvalid (exWorldInvalid, exDetour)).state.1.trace =
      [Event.suspend 77, Event.alloc { base := 0x8000, size := 45 },
       Event.write 0x8000 [0x06], Event.write 0x8001 [0x90, 0x90],
       Event.write 0x8003 [0x90, 0x90], Event.write 0x8005 [0xE9, 0xFB, 0x7F, 0, 0],
       Event.flush 0x8000 45, Event.write 0x10000 [0xE9, 0xFB, 0x07, 0, 0],
       Event.flush 0x10000 5, Event.resume 77] := by
  decide

/-- C12. When the decode loop of `Apply()` comes to a `jmp` or `call` whose first
operand is a relative immediate or a RIP-relative 64-bit memory operand and whose
operand width (offset width for the memory form) is none of 8, 16, 32 and 64,
`Apply()` fails with the error for an unknown instruction size, the memory the
process had, the target included, is unchanged, and the patch is not applied. -/
theorem C12_unsupported_operand_width (env : Env) (hps : 143 ≤ env.pageSize) (w : World)
    (p : PatchDetour) (pid : Nat) (hna : p.applied_ = false) (hp : p.process_ = some pid)
    (tr : Block) (sA : World × PatchDetour)
    (hnew : PatchDetour.Apply.newTrampoline env (w.suspend pid, p) = .ok tr sA)
    (hread : sA.1.canReadRange env p.target_ PatchDetour.kTrampSize = true)
    (rest : List Nat) (tramp_cur instr_size : Nat) (s : World × PatchDetour)
    (hr : PatchDetour.Apply.Reaches env p.target_ (PatchDetour.jumpSize env p)
      (sA.1.bytesAt p.target_ PatchDetour.kTrampSize) tr.base 0 sA
      rest tramp_cur instr_size s)
    (op : ud_operand) (hlen : (env.decode rest).len ≠ 0)
    (hop : (env.decode rest).opr0 = some op)
    (hmn : (env.decode rest).mnemonic = ud_mnemonic_code.UD_Ijmp ∨
      (env.decode rest).mnemonic = ud_mnemonic_code.UD_Icall)
    (hrel : PatchDetour.is_jimm (env.decode rest).opr0 = true ∨
      PatchDetour.is_jmem (env.decode rest).opr0 = true)
    (size : Nat)
    (hsize : size =
      if PatchDetour.is_jimm (env.decode rest).opr0 = true then op.size else op.offset)
    (hwidth : ¬ (size = 8 ∨ size = 16 ∨ size = 32 ∨ size = 64)) :
    ∃ w1 p1, PatchDetour.Apply env (w, p) = .fail .unknownInstructionSize (w1, p1) ∧
      (∀ a, PatchDetour.mapped env w p (pageOf env a) = true → w1.mem a = w.mem a) ∧
      p1.applied_ = false := by
  have hf := PatchDetour.Apply.step_bad_width env p.target_ instr_size tramp_cur rest
    (env.decode rest) op hlen hop hmn hrel size hsize hwidth s
  have hA := PatchDetour.Apply_fail_of_reaches hna hp hnew hread hr hf
  have hS := PatchDetour.Apply_spec env hps w p hna
  unfold Exec.Ensures at hS
  rw [hA] at hS
  exact ⟨_, _, hA, hS.1, hS.2.1⟩

/-- C12, at the example: the first instruction at `0x10000` is decoded as a `jmp` with a
relative immediate operand of 48 bits. -/
theorem C12_unsupported_operand_width_witness :
    ∃ w1 p1, PatchDetour.Apply exEnvOdd (exWorld, exDetour) =
        .fail .unknownInstructionSize (w1, p1) ∧
      (∀ a, PatchDetour.mapped exEnvOdd exWorld exDetour (pageOf exEnvOdd a) = true →
        w1.mem a = exWorld.mem a) ∧
      p1.applied_ = false :=
  C12_unsupported_operand_width exEnvOdd (by decide) exWorld exDetour 77 rfl rfl
    { base := 0x8000, size := 45 }
    (PatchDetour.Apply.newTrampoline exEnvOdd (exWorld.suspend 77, exDetour)).state
    rfl (by decide) _ _ _ _ (PatchDetour.Apply.Reaches.here _ _ _ _)
    { type := ud_type.UD_OP_JIMM, base := ud_type.UD_NONE, index := ud_type.UD_NONE,
      scale := 0, size := 48, offset := 0, lval := 0 }
    (by decide) (by decide) (Or.inl (by decide)) (Or.inl (by decide)) 48 (by decide) (by decide)

/-- C14. For a decoded `jmp` or `call` whose first operand is a relative immediate
or a RIP-relative 64-bit memory operand, at the original address
`target + instr_size`, of length `len` and with displacement `lval` read as a signed
value of 8, 16, 32 or 64 bits: the pass of the decode loop is the call
`WriteJump(tramp_cur, dest, true)` (`WriteCall(tramp_cur, dest)` for a call) with
`dest = target + instr_size + len + displacement` cut to the pointer width, a
value in which `tramp_cur` does not occur; for the memory form the destination is
the pointer read from that address. -/
theorem C14_relative_branch_destination (env : Env) (target instr_size tramp_cur : Nat)
    (rest : List Nat) (insn : Insn) (op : ud_operand)
    (hlen : insn.len ≠ 0) (hop : insn.opr0 = some op)
    (hmn : insn.mnemonic = ud_mnemonic_code.UD_Ijmp ∨ insn.mnemonic = ud_mnemonic_code.UD_Icall)
    (hrel : PatchDetour.is_jimm insn.opr0 = true ∨ PatchDetour.is_jmem insn.opr0 = true)
    (size : Nat) (hsize : size = if PatchDetour.is_jimm insn.opr0 = true then op.size else op.offset)
    (hwidth : size = 8 ∨ size = 16 ∨ size = 32 ∨ size = 64)
    (dest : Nat)
    (hdest : dest = wrap env.arch.bits
      (((target + instr_size : Nat) : Int) + (insn.len : Int) + sext size op.lval)) :
    (PatchDetour.is_jimm insn.opr0 = true →
      PatchDetour.Apply.step env target instr_size tramp_cur rest insn =
        if insn.mnemonic = ud_mnemonic_code.UD_Ijmp then
          PatchDetour.WriteJump env tramp_cur dest true >>= fun n => pure (tramp_cur + n)
        else PatchDetour.WriteCall env tramp_cur dest >>= fun n => pure (tramp_cur + n)) ∧
    (PatchDetour.is_jimm insn.opr0 = false →
      PatchDetour.Apply.step env target instr_size tramp_cur rest insn =
        ReadPtr env dest >>= fun jump_target =>
          if insn.mnemonic = ud_mnemonic_code.UD_Ijmp then
            PatchDetour.WriteJump env tramp_cur jump_target true >>= fun n => pure (tramp_cur + n)
          else PatchDetour.WriteCall env tramp_cur jump_target >>= fun n => pure (tramp_cur + n)) := by
  have hd : PatchDetour.resolve_rel env ((target + instr_size) % 2 ^ 64) (sext size op.lval) insn.len
      = dest := by
    rw [hdest]
    unfold PatchDetour.resolve_rel
    rw [add_assoc, wrap_base, add_assoc, add_comm (sext size op.lval)]
  have hc : (insn.mnemonic = ud_mnemonic_code.UD_Ijmp ∨
      insn.mnemonic = ud_mnemonic_code.UD_Icall) ∧
      (PatchDetour.is_jimm insn.opr0 = true ∨ PatchDetour.is_jmem insn.opr0 = true) := ⟨hmn, hrel⟩
  constructor
  · intro hj
    funext s
    unfold PatchDetour.Apply.step
    rw [if_neg hlen]
    simp only [hop] at hc hj hsize ⊢
    rw [if_pos hc]
    simp only [hj, if_true] at hsize
    simp only [hj, if_true, ← hsize, Exec.bind_run, PatchDetour.insnTarget_run size op.lval hwidth, hd,
      Exec.pure_run]
  · intro hj
    funext s
    unfold PatchDetour.Apply.step
    rw [if_neg hlen]
    simp only [hop] at hc hj hsize ⊢
    rw [if_pos hc]
    simp only [hj, Bool.false_eq_true, if_false] at hsize
    simp only [hj, Bool.false_eq_true, if_false, ← hsize, Exec.bind_run,
      PatchDetour.insnTarget_run size op.lval hwidth, hd]

/-- C14, at the example: `jmp rel32` with displacement `0x10` at `0x10000`; the
destination is `0x10015`. -/
theorem C14_relative_branch_destination_witness :
    (exJmpRel32.len ≠ 0 ∧ PatchDetour.is_jimm exJmpRel32.opr0 = true) ∧
    PatchDetour.Apply.step exEnv 0x10000 0 0x8000 [] exJmpRel32 =
      (PatchDetour.WriteJump exEnv 0x8000 0x10015 true >>= fun n => pure (0x8000 + n)) :=
  ⟨by decide,
   by
    have h := (C14_relative_branch_destination exEnv 0x10000 0 0x8000 [] exJmpRel32
      { type := ud_type.UD_OP_JIMM, base := ud_type.UD_NONE, index := ud_type.UD_NONE,
        scale := 0, size := 32, offset := 0, lval := 0x10 }
      (by decide) rfl (Or.inl rfl) (Or.inl rfl) 32 rfl (by decide) 0x10015 (by decide)).1 rfl
    simpa [exJmpRel32] using h⟩

/-- C15 (as the claim states it). A far detour in a process with no free page near the
target: `Apply()` does not install a push/return stub, it fails with the error for
the disabled fallback. -/
theorem C15_no_fallback_at_the_target :
    PatchDetour.IsNear exEnv exDetourFar.target_ exDetourFar.detour_ = false ∧
    (∀ k, (PatchDetour.Apply exEnv (exWorldFull, exDetourFar)).state.1.prot k ≠ Prot.free) ∧
    (PatchDetour.Apply exEnv (exWorldFull, exDetourFar)).error? =
      some Error.fallbackDisabled := by
  have h := PatchDetour.Apply_far_fail exEnv rfl (by decide) exWorldFull exDetourFar 77 rfl rfl
    (by decide) 6 _ exWorldFull_build (by decide)
    (PatchDetour.AllocatePageNear_full exEnv rfl (by decide) _ _ exWorldFull_no_free_page)
  refine ⟨by decide, ?_, ?_⟩
  · rw [h.1]
    exact exWorldFull_no_free_page
  · rw [h.1]
    rfl

/-- C15 (amended). On 64-bit, when the replacement is not near the target, the building
part of `Apply()` has returned, no thread is in the target and `AllocatePageNear`
finds no block near the target, `Apply()` fails with the error for the disabled
push/return fallback: `WriteJump(target_, detour_)` is called without the fallback.
The decode threshold and the snapshot have the 6 bytes of the indirect jump, the
patch stays not applied and the memory the process had is unchanged. -/
theorem C15_far_detour_fails (env : Env) (h64 : env.arch = Arch.x64)
    (hps : 143 ≤ env.pageSize) (w : World) (p : PatchDetour) (pid : Nat)
    (hna : p.applied_ = false) (hp : p.process_ = some pid)
    (hfar : PatchDetour.IsNear env p.target_ p.detour_ = false)
    (instr_size : Nat) (s1 : World × PatchDetour)
    (hb : PatchDetour.Apply.build env p (w.suspend pid, p) = .ok instr_size s1)
    (hth : ¬ w.threadIn p.target_ (PatchDetour.jumpSize env p))
    (hnone : (PatchDetour.AllocatePageNear env p.target_ s1).isOk = false) :
    PatchDetour.Apply env (w, p) = .fail .fallbackDisabled (s1.1.resume pid, s1.2) ∧
    PatchDetour.jumpSize env p = 6 ∧ s1.2.orig_.length = 6 ∧ s1.2.applied_ = false ∧
    (∀ a, PatchDetour.mapped env w p (pageOf env a) = true → s1.1.mem a = w.mem a) :=
  PatchDetour.Apply_far_fail env h64 hps w p pid hna hp hfar instr_size s1 hb hth hnone

/-- C15, at the example: the far detour in the process with no free page left. -/
theorem C15_far_detour_fails_witness :
    (PatchDetour.Apply exEnv (exWorldFull, exDetourFar)).error? =
      some Error.fallbackDisabled ∧
    PatchDetour.jumpSize exEnv exDetourFar = 6 := by
  have h := C15_far_detour_fails exEnv rfl (by decide) exWorldFull exDetourFar 77 rfl rfl
    (by decide) 6 _ exWorldFull_build (by decide)
    (PatchDetour.AllocatePageNear_full exEnv rfl (by decide) _ _ exWorldFull_no_free_page)
  exact ⟨by rw [h.1]; rfl, h.2.1⟩

/-- C16. `Apply()` and `Remove()` of `PatchRaw` and of `PatchDetour` resume what they
suspend, whether they return or fail: in the final state the suspension depth is
what it was before the call, and the events the call has added to the trace are
either none or the suspension of the process, events that are neither a suspension
nor a resumption, and the resumption of the process as the last event. -/
theorem C16_resume_on_every_exit (env : Env) (w : World) (pr : PatchRaw) (pd : PatchDetour) :
    w.Balanced (PatchRaw.Apply env (w, pr)).state.1 ∧
    w.Balanced (PatchRaw.Remove env (w, pr)).state.1 ∧
    w.Balanced (PatchDetour.Apply env (w, pd)).state.1 ∧
    w.Balanced (PatchDetour.Remove env (w, pd)).state.1 :=
  ⟨PatchRaw.Apply_balanced_raw env w pr, PatchRaw.Remove_balanced_raw env w pr,
    PatchDetour.Apply_balanced_detour env w pd, PatchDetour.Remove_balanced_detour env w pd⟩

/-- C17. A successful `PatchDetour::Remove()` does not flush the instruction cache:
in the example process the events it adds are the suspension, the write of the
snapshot at the target, the release of the trampoline and the resumption, while
`PatchRaw::Remove()` on the same bytes adds a flush of the restored range after
its write. -/
theorem C17_Remove_no_flush :
    (PatchDetour.Remove exEnv (exWorldDetoured, exDetourApplied)).isOk = true ∧
    (PatchDetour.Remove exEnv (exWorldDetoured, exDetourApplied)).state.1.trace =
      exWorldDetoured.trace ++
        [Event.suspend 77, Event.write 0x10000 [3, 4, 5, 6, 7],
         Event.release { base := 0x8000, size := 45 }, Event.resume 77] ∧
    (PatchRaw.Remove exEnv ((PatchRaw.Apply exEnv (exWorld, exRaw)).state.1,
        exRawApplied)).state.1.trace =
      (PatchRaw.Apply exEnv (exWorld, exRaw)).state.1.trace ++
        [Event.suspend 77, Event.write 0x10000 [3, 4, 5, 6, 7],
         Event.flush 0x10000 5, Event.resume 77] := by
  decide

/-- C18. In every execution of `PatchDetour::Apply()` whose target bytes lie in memory
the process had: an event of the trace that writes a byte of the target region
comes after the flush of the trampoline, no thread was found in the target region,
and the call returns; and when `Apply()` fails, the bytes of the target region are
what they were. -/
theorem C18_target_written_last (env : Env) (hps : 143 ≤ env.pageSize) (w : World)
    (p : PatchDetour)
    (hT : ∀ a, PatchDetour.inTarget env p a →
      PatchDetour.mapped env w p (pageOf env a) = true) :
    ∃ evs, (PatchDetour.Apply env (w, p)).state.1.trace = w.trace ++ evs ∧
      (∀ pre e post, evs = pre ++ e :: post → e.WritesTo (PatchDetour.inTarget env p) →
        (∃ tr, (PatchDetour.Apply env (w, p)).state.2.trampoline_ = some tr ∧
          Event.flush tr.base tr.size ∈ pre) ∧
        ¬ w.threadIn p.target_ (PatchDetour.jumpSize env p) ∧
        (PatchDetour.Apply env (w, p)).isOk = true) ∧
      ((PatchDetour.Apply env (w, p)).isOk = false →
        ∀ a, PatchDetour.inTarget env p a →
          (PatchDetour.Apply env (w, p)).state.1.mem a = w.mem a) := by
  by_cases ha : p.applied_ = true
  · rw [PatchDetour.Apply_applied_detour env w p ha]
    refine ⟨[], by simp [Res.state], ?_, ?_⟩
    · intro pre e post h; simp at h
    · intro h; simp [Res.isOk] at h
  · have hna : p.applied_ = false := by simpa using ha
    have hmem : (PatchDetour.Apply env (w, p)).isOk = false →
        ∀ a, PatchDetour.inTarget env p a →
          (PatchDetour.Apply env (w, p)).state.1.mem a = w.mem a := by
      intro hf a hTa
      have hS := PatchDetour.Apply_spec env hps w p hna
      unfold Exec.Ensures at hS
      cases hr : PatchDetour.Apply env (w, p) with
      | ok u s1 => rw [hr] at hf; simp [Res.isOk] at hf
      | fail e s1 =>
        rw [hr] at hS
        exact hS.1 a (hT a hTa)
    cases hp : p.process_ with
    | none =>
      have hr : PatchDetour.Apply env (w, p) = .fail .undefinedBehaviour (w, p) := by
        rw [PatchDetour.Apply_run_detour]
        simp only [hna, Bool.false_eq_true, if_false, hp]
      refine ⟨[], by rw [hr]; simp [Res.state], ?_, hmem⟩
      intro pre e post h; simp at h
    | some pid =>
      have h := @PatchDetour.Apply_events env w p pid hna hp
        (fun k => PatchDetour.mapped env w p k = true)
        (Room.of_pageSize hps)
        (fun k hk => by
          simp only [PatchDetour.mapped, Bool.and_eq_true, decide_eq_true_eq] at hk
          exact hk.1)
        (PatchDetour.mapped_stale env w p)
      unfold Exec.Ensures at h
      cases hr : PatchDetour.Apply env (w, p) with
      | ok u s1 =>
        rw [hr] at h hmem
        obtain ⟨-, evsB, evsI, tr, n, ht, hB, hfl, -, htr, hnt⟩ := h
        refine ⟨_, ht, ?_, hmem⟩
        intro pre e post hsplit hw
        refine ⟨⟨tr, htr, ?_⟩, hnt, rfl⟩
        have hsplit2 : (Event.suspend pid :: evsB) ++
            (evsI ++ [Event.flush p.target_ n, Event.resume pid]) = pre ++ e :: post := by
          rw [← hsplit]; simp
        obtain ⟨mid, hmid⟩ := List.split_behind
          (P := fun e => e.WritesTo (PatchDetour.inTarget env p)) hsplit2 (by
            intro y hy
            rcases List.mem_cons.1 hy with rfl | hy
            · exact fun hc => hc
            · exact (hB y hy).not_writesTo hT) hw
        rw [hmid]
        simp [hfl]
      | fail e s1 =>
        rw [hr] at h hmem
        obtain ⟨-, evs, ht, hq⟩ := h
        refine ⟨_, ht, ?_, hmem⟩
        intro pre e post hsplit hw
        exfalso
        have hmemb : e ∈ Event.suspend pid :: (evs ++ [Event.resume pid]) := by
          rw [hsplit]; simp
        rcases List.mem_cons.1 hmemb with rfl | hmemb
        · exact hw
        · rcases List.mem_append.1 hmemb with hmemb | hmemb
          · exact (hq e hmemb).not_writesTo hT hw
          · rw [List.mem_singleton.1 hmemb] at hw
            exact hw

/-- C18, at the example: the detour of the function at `0x10000`. -/
theorem C18_target_written_last_witness :
    ∃ evs, (PatchDetour.Apply exEnv (exWorld, exDetour)).state.1.trace = exWorld.trace ++ evs ∧
      (∀ pre e post, evs = pre ++ e :: post → e.WritesTo (PatchDetour.inTarget exEnv exDetour) →
        (∃ tr, (PatchDetour.Apply exEnv (exWorld, exDetour)).state.2.trampoline_ = some tr ∧
          Event.flush tr.base tr.size ∈ pre) ∧
        ¬ exWorld.threadIn exDetour.target_ (PatchDetour.jumpSize exEnv exDetour) ∧
        (PatchDetour.Apply exEnv (exWorld, exDetour)).isOk = true) ∧
      ((PatchDetour.Apply exEnv (exWorld, exDetour)).isOk = false →
        ∀ a, PatchDetour.inTarget exEnv exDetour a →
          (PatchDetour.Apply exEnv (exWorld, exDetour)).state.1.mem a = exWorld.mem a) :=
  C18_target_written_last exEnv (by decide) exWorld exDetour (by
    intro a ha
    have h1 : 65536 ≤ a ∧ a < 65541 := ha
    have h2 : pageOf exEnv a = 16 := by
      show a / 4096 = 16
      omega
    rw [h2]
    decide)

/-- C19. Calling every setter of `Section` with the value of its getter leaves the
section, its header data included, as it was, for every header: whatever the 8
bytes of `Name` are, with or without a zero byte and whatever follows the first
zero.  And for a section whose header data `UpdateRead()` has read from 40 bytes of
memory, the bytes `UpdateWrite()` then stores are those 40 bytes, so that memory is
what it was. -/
theorem C19_section_round_trip (env : Env) (w : World) (s : Section)
    (hbytes : ∀ i, i < 40 → w.mem (s.base_ + i) < 256) :
    s.setEachFromGetter = .ok s ∧
    ∀ w1 s1, Section.UpdateRead env (w, s) = .ok () (w1, s1) →
      s1.setEachFromGetter = .ok s1 ∧
      s1.data_.toBytes = w.bytesAt s.base_ 40 ∧
      ∀ w2 s2, Section.UpdateWrite env (w1, s1) = .ok () (w2, s2) →
        s2 = s1 ∧ ∀ a, w2.mem a = w.mem a := by
  refine ⟨s.setEachFromGetter_eq, ?_⟩
  intro w1 s1 hR
  rw [Section.UpdateRead_run] at hR
  split_ifs at hR with hc
  simp only [Res.ok.injEq, Prod.mk.injEq, true_and] at hR
  obtain ⟨rfl, rfl⟩ := hR
  have hb : (IMAGE_SECTION_HEADER.ofBytes (w.bytesAt s.base_ 40)).toBytes =
      w.bytesAt s.base_ 40 := by
    apply IMAGE_SECTION_HEADER.toBytes_ofBytes _ (World.bytesAt_length _ _ _)
    intro b hb
    simp only [World.bytesAt, List.mem_map, List.mem_range] at hb
    obtain ⟨i, hi, rfl⟩ := hb
    exact hbytes i hi
  refine ⟨Section.setEachFromGetter_eq _, hb, ?_⟩
  intro w2 s2 hW
  rw [Section.UpdateWrite_run] at hW
  split_ifs at hW with hc2
  simp only [Res.ok.injEq, Prod.mk.injEq, true_and] at hW
  obtain ⟨rfl, rfl⟩ := hW
  refine ⟨rfl, ?_⟩
  intro a
  show w.store s.base_ (IMAGE_SECTION_HEADER.ofBytes (w.bytesAt s.base_ 40)).toBytes a = w.mem a
  rw [hb]
  by_cases ha : s.base_ ≤ a ∧ a < s.base_ + (w.bytesAt s.base_ 40).length
  · have hlt : a - s.base_ < 40 := by
      rw [World.bytesAt_length] at ha; omega
    have := World.store_inside w s.base_ (w.bytesAt s.base_ 40) (a - s.base_)
      (by rw [World.bytesAt_length]; exact hlt)
    rw [Nat.add_sub_cancel' ha.1] at this
    rw [this, World.bytesAt_getD _ _ _ _ hlt, Nat.add_sub_cancel' ha.1]
  · exact World.store_outside w _ _ a ha

/-- C19, at the example: a section header at `0x10000` of the example process. -/
theorem C19_section_round_trip_witness :
    exSection.setEachFromGetter = .ok exSection ∧
    ∀ w1 s1, Section.UpdateRead exEnv (exWorld, exSection) = .ok () (w1, s1) →
      s1.setEachFromGetter = .ok s1 ∧
      s1.data_.toBytes = exWorld.bytesAt exSection.base_ 40 ∧
      ∀ w2 s2, Section.UpdateWrite exEnv (w1, s1) = .ok () (w2, s2) →
        s2 = s1 ∧ ∀ a, w2.mem a = exWorld.mem a :=
  C19_section_round_trip exEnv exWorld exSection (by
    intro i _
    show (0x10000 + i) % 7 + 1 < 256
    omega)

/-- C20. On 64-bit `IsNear(address, target)` does not test whether
`target - address - 5` fits a signed 32-bit offset: it compares the displacement
with the limits of the unsigned 32-bit type.  A target 261 bytes below the address
(displacement `-261`) and a target 5 bytes above it (displacement `0`) are not
near, though both displacements fit; a target `0x90000010` seen from `0x10000`
(displacement above `2^31 - 1`) is near, though the displacement does not fit.  On
32-bit every pair is near. -/
theorem C20_IsNear_range :
    (PatchDetour.IsNear exEnv 0x10100 0x10000 = false ∧
      PatchDetour.IsNear_spec Arch.x64 0x10100 0x10000 = true) ∧
    (PatchDetour.IsNear exEnv 0x10000 0x10005 = false ∧
      PatchDetour.IsNear_spec Arch.x64 0x10000 0x10005 = true) ∧
    (PatchDetour.IsNear exEnv 0x10000 0x90000010 = true ∧
      PatchDetour.IsNear_spec Arch.x64 0x10000 0x90000010 = false) ∧
    (∀ (env : Env) (address target : Nat),
      PatchDetour.IsNear { env with arch := Arch.x86 } address target = true) := by
  refine ⟨by decide, by decide, by decide, ?_⟩
  intro env address target
  exact PatchDetour.IsNear_x86 _ rfl address target

/-! ## `WriteJump` and `WriteCall`: what they store -/

theorem WriteVector_run2 {π : Type} (env : Env) (a : Nat) (bs : List Nat) (s : World × π) :
    WriteVector env a bs s =
      if s.1.canWriteRange env a bs.length then .ok () (s.1.written a bs, s.2)
      else .fail .writeFailure s := rfl

/-- `WriteJump` fails with the stub-size error, in the state the planning part has
left, when the measured code size is not the planned one. -/
theorem PatchDetour.WriteJump_size_mismatch (env : Env) (address target : Nat) (fb : Bool)
    (s s1 : World × PatchDetour) (r : Stub × Nat × Bool)
    (hplan : PatchDetour.WriteJump.plan env address target fb s = .ok r s1)
    (hne : env.getCodeSize r.1 ≠ r.2.1) :
    PatchDetour.WriteJump env address target fb s = .fail .unexpectedStubSize s1 := by
  unfold PatchDetour.WriteJump
  simp only [Exec.bind_run, hplan]
  rw [Exec.ite_run, if_pos hne]
  rfl

/-- `WriteJump` fails with the real-stub-size error, in the state the planning part
has left, when the assembler's own trampoline is to be dropped and the relocated
size is not 5. -/
theorem PatchDetour.WriteJump_real_size_mismatch (env : Env) (address target : Nat) (fb : Bool)
    (s s1 : World × PatchDetour) (r : Stub × Nat × Bool)
    (hplan : PatchDetour.WriteJump.plan env address target fb s = .ok r s1)
    (heq : env.getCodeSize r.1 = r.2.1) (hasm : r.2.2 = true)
    (hne : (env.relocCode r.1 address).2 ≠ PatchDetour.kJumpSize32) :
    PatchDetour.WriteJump env address target fb s = .fail .unexpectedRealStubSize s1 := by
  unfold PatchDetour.WriteJump
  simp only [Exec.bind_run, hplan]
  rw [Exec.ite_run, if_neg (by simpa using heq), Exec.ite_run, if_pos hasm, Exec.ite_run,
    if_pos hne]
  rfl

/-- A `WriteJump` that returns has planned a stub of the measured size and has stored
`jump_buf` at `address` as its last action; the value returned is the length of
`jump_buf`. -/
theorem PatchDetour.WriteJump_ok_inv (env : Env) (address target : Nat) (fb : Bool)
    (s s2 : World × PatchDetour) (n : Nat)
    (h : PatchDetour.WriteJump env address target fb s = .ok n s2) :
    ∃ r s1, PatchDetour.WriteJump.plan env address target fb s = .ok r s1 ∧
      env.getCodeSize r.1 = r.2.1 ∧
      (r.2.2 = true → (env.relocCode r.1 address).2 = PatchDetour.kJumpSize32) ∧
      n = (PatchDetour.WriteJump.buf env r address).length ∧
      s1.1.canWriteRange env address n = true ∧
      s2 = (s1.1.written address (PatchDetour.WriteJump.buf env r address), s1.2) := by
  unfold PatchDetour.WriteJump at h
  rw [Exec.bind_run] at h
  cases hplan : PatchDetour.WriteJump.plan env address target fb s with
  | fail e s1 => rw [hplan] at h; cases h
  | ok r s1 =>
    rw [hplan] at h
    simp only at h
    refine ⟨r, s1, rfl, ?_⟩
    by_cases hne : env.getCodeSize r.1 ≠ r.2.1
    · rw [Exec.ite_run, if_pos hne] at h; cases h
    · rw [Exec.ite_run, if_neg hne] at h
      have heq : env.getCodeSize r.1 = r.2.1 := by simpa using hne
      refine ⟨heq, ?_⟩
      by_cases hasm : r.2.2 = true
      · rw [Exec.ite_run, if_pos hasm] at h
        by_cases hr : (env.relocCode r.1 address).2 ≠ PatchDetour.kJumpSize32
        · rw [Exec.ite_run, if_pos hr] at h; cases h
        · rw [Exec.ite_run, if_neg hr] at h
          simp only [Exec.bind_run, WriteVector_run2] at h
          have hbuf : PatchDetour.WriteJump.buf env r address =
              (fitBuf (env.getCodeSize r.1) (env.relocCode r.1 address).1).take
                (env.relocCode r.1 address).2 := by
            simp only [PatchDetour.WriteJump.buf, hasm, if_true]
          rw [hbuf]
          split_ifs at h with hc
          simp only [Exec.pure_run, Res.ok.injEq] at h
          obtain ⟨rfl, rfl⟩ := h
          exact ⟨fun _ => by simpa using hr, rfl, hc, rfl⟩
      · rw [Exec.ite_run, if_neg hasm] at h
        simp only [Exec.bind_run, WriteVector_run2] at h
        have hbuf : PatchDetour.WriteJump.buf env r address =
            fitBuf (env.getCodeSize r.1) (env.relocCode r.1 address).1 := by
          simp only [PatchDetour.WriteJump.buf, hasm, if_false, Bool.false_eq_true]
        rw [hbuf]
        split_ifs at h with hc
        simp only [Exec.pure_run, Res.ok.injEq] at h
        obtain ⟨rfl, rfl⟩ := h
        exact ⟨fun hx => (hasm hx).elim, rfl, hc, rfl⟩

/-- The planning part of `WriteCall` keeps the invariant. -/
theorem PatchDetour.WriteCall.plan_frame_call {env : Env} {Q X : Nat → Prop} {w0 : World}
    {p0 : PatchDetour} (hps : Room env Q X 8) (address target : Nat)
    {s : World × PatchDetour} (h : Inv env Q X w0 p0 s) :
    (PatchDetour.WriteCall.plan env address target).Ensures s
      (fun _ s1 => Inv env Q X w0 p0 s1) (fun _ s1 => Inv env Q X w0 p0 s1) := by
  unfold PatchDetour.WriteCall.plan
  cases harch : env.arch with
  | x86 =>
    simp only
    exact Exec.Ensures.pure h
  | x64 =>
    simp only
    apply Exec.Ensures.bind
    apply (PatchDetour.AllocatePageNear_frame address h).mono
    · intro b s1 hs1
      apply Exec.Ensures.bind
      apply (PatchDetour.cell_frame hps target hs1.1 hs1.2).mono
      · intro _ s2 hs2
        apply Exec.Ensures.bind
        apply Exec.Ensures.modify
        apply Exec.Ensures.pure
        exact hs2.pushTrampoline b
      · intro _ _ hh; exact hh
    · intro _ _ hh; exact hh

/-- `WriteCall` fails with the stub-size error, in the state the planning part has
left, when the measured code size is not the planned one. -/
theorem PatchDetour.WriteCall_size_mismatch (env : Env) (address target : Nat)
    (s s1 : World × PatchDetour) (r : Stub × Nat)
    (hplan : PatchDetour.WriteCall.plan env address target s = .ok r s1)
    (hne : env.getCodeSize r.1 ≠ r.2) :
    PatchDetour.WriteCall env address target s = .fail .unexpectedStubSize s1 := by
  unfold PatchDetour.WriteCall
  simp only [Exec.bind_run, hplan]
  rw [Exec.ite_run, if_pos hne]
  rfl

/-- A `WriteCall` that returns has planned a stub of the measured size and has stored
the relocated code at `address` as its last action; the value returned is the
number of bytes stored. -/
theorem PatchDetour.WriteCall_ok_inv (env : Env) (address target : Nat)
    (s s2 : World × PatchDetour) (n : Nat)
    (h : PatchDetour.WriteCall env address target s = .ok n s2) :
    ∃ r s1, PatchDetour.WriteCall.plan env address target s = .ok r s1 ∧
      env.getCodeSize r.1 = r.2 ∧
      n = (fitBuf (env.getCodeSize r.1) (env.relocCode r.1 address).1).length ∧
      s1.1.canWriteRange env address n = true ∧
      s2 = (s1.1.written address
        (fitBuf (env.getCodeSize r.1) (env.relocCode r.1 address).1), s1.2) := by
  unfold PatchDetour.WriteCall at h
  rw [Exec.bind_run] at h
  cases hplan : PatchDetour.WriteCall.plan env address target s with
  | fail e s1 => rw [hplan] at h; cases h
  | ok r s1 =>
    rw [hplan] at h
    simp only at h
    refine ⟨r, s1, rfl, ?_⟩
    by_cases hne : env.getCodeSize r.1 ≠ r.2
    · rw [Exec.ite_run, if_pos hne] at h; cases h
    · rw [Exec.ite_run, if_neg hne] at h
      have heq : env.getCodeSize r.1 = r.2 := by simpa using hne
      simp only [Exec.bind_run, WriteVector_run2] at h
      split_ifs at h with hc
      simp only [Exec.pure_run, Res.ok.injEq] at h
      obtain ⟨rfl, rfl⟩ := h
      rw [fitBuf_length] at hc ⊢
      exact ⟨heq, rfl, hc, rfl⟩

/-- The planning part of `WriteJump` asks for the assembler's own trampoline to be
dropped exactly for the near jump of the 64-bit configuration. -/
theorem PatchDetour.WriteJump.plan_asmjit (env : Env) (address target : Nat) (fb : Bool)
    (s : World × PatchDetour) :
    (PatchDetour.WriteJump.plan env address target fb).Ensures s
      (fun r _ => r.2.2 = true ↔
        (env.arch = Arch.x64 ∧ PatchDetour.IsNear env address target = true))
      (fun _ _ => True) := by
  unfold PatchDetour.WriteJump.plan
  cases harch : env.arch with
  | x86 => exact Exec.Ensures.pure (by simp)
  | x64 =>
    simp only
    apply Exec.Ensures.ite
    · intro hn; exact Exec.Ensures.pure (by simp [hn])
    · intro hn
      apply Exec.Ensures.bind
      apply Exec.Ensures.of_eq
      · intro ob s1 _
        cases ob with
        | some tr =>
          simp only
          apply Exec.Ensures.bind
          apply Exec.Ensures.of_eq
          · intro _ s2 _
            apply Exec.Ensures.bind
            apply Exec.Ensures.modify
            exact Exec.Ensures.pure (by simp [hn])
          · intro _ _ _; trivial
        | none =>
          simp only
          apply Exec.Ensures.ite
          · intro _; exact Exec.Ensures.throw trivial
          · intro _
            apply Exec.Ensures.ite
            · intro _; exact Exec.Ensures.pure (by simp [hn])
            · intro _; exact Exec.Ensures.pure (by simp [hn])
      · intro _ _ _; trivial

/-- On 64-bit, with the push/return fallback, the planning part of `WriteJump` to a
target that is not near plans the push/return stub when `AllocatePageNear` finds no
block: the big one when the upper half of the target is not zero, the small one
otherwise; the state is unchanged. -/
theorem PatchDetour.WriteJump.plan_fallback (env : Env) (h64 : env.arch = Arch.x64)
    (hps : 0 < env.pageSize) (address target : Nat) (s : World × PatchDetour)
    (hfar : PatchDetour.IsNear env address target = false)
    (hnone : (PatchDetour.AllocatePageNear env address s).isOk = false) :
    PatchDetour.WriteJump.plan env address target true s =
      .ok (if (target % 2 ^ 64 / 2 ^ 32) % 2 ^ 32 ≠ 0 then
          (Stub.pushMovRet (target % 2 ^ 64 % 2 ^ 32) ((target % 2 ^ 64 / 2 ^ 32) % 2 ^ 32),
            PatchDetour.kPushRetSizeBig64, false)
        else (Stub.pushRet (target % 2 ^ 64 % 2 ^ 32), PatchDetour.kPushRetSizeSmall64, false))
        s := by
  have ht := PatchDetour.AllocatePageNear_total env h64 hps address s
  unfold Exec.Ensures at ht
  cases hr : PatchDetour.AllocatePageNear env address s with
  | ok b s1 => rw [hr] at hnone; simp [Res.isOk] at hnone
  | fail e s1 =>
    rw [hr] at ht
    obtain ⟨rfl, rfl⟩ := ht
    unfold PatchDetour.WriteJump.plan
    rw [h64]
    simp only [hfar, Bool.false_eq_true, if_false, Exec.bind_run, Exec.tryCatch, hr,
      Error.isException, if_true, Exec.pure_run2, Bool.not_true, Exec.pure_run]
    split_ifs <;> rfl

/-- When the decode loop returns, `instr_size` has grown by the sum of the lengths
of the instructions decoded one after the other, none of them zero; it has reached
`jump_size`, and had not before the last instruction. -/
theorem PatchDetour.Apply.decodeLoop_sum (env : Env) (target js : Nat) :
    ∀ (fuel : Nat) (rest : List Nat) (tc is : Nat) (s : World × PatchDetour)
      (r : Nat × Nat) (s1 : World × PatchDetour),
      is < js →
      PatchDetour.Apply.decodeLoop env target js fuel rest tc is s = .ok r s1 →
      ∃ k, 0 < k ∧ k ≤ fuel ∧
        r.2 = is + (PatchDetour.Apply.decodedLens env k rest).sum ∧
        (∀ l ∈ PatchDetour.Apply.decodedLens env k rest, 0 < l) ∧
        js ≤ r.2 ∧ is + (PatchDetour.Apply.decodedLens env (k - 1) rest).sum < js := by
  intro fuel
  induction fuel with
  | zero => intro rest tc is s r s1 _ h; cases h
  | succ fuel ih =>
    intro rest tc is s r s1 hlt h
    unfold PatchDetour.Apply.decodeLoop at h
    simp only [Exec.bind_run] at h
    cases hstep : PatchDetour.Apply.step env target is tc rest (env.decode rest) s with
    | fail e s2 => rw [hstep] at h; cases h
    | ok tc1 s2 =>
      rw [hstep] at h
      simp only at h
      have hlen := PatchDetour.Apply.step_ok_len hstep
      by_cases hc : is + (env.decode rest).len < js
      · rw [Exec.ite_run, if_pos hc] at h
        obtain ⟨k, hk0, hkf, hsum, hpos, hge, hmin⟩ := ih _ _ _ _ _ _ hc h
        refine ⟨k + 1, by omega, by omega, ?_, ?_, hge, ?_⟩
        · rw [hsum]
          simp only [PatchDetour.Apply.decodedLens, List.sum_cons]
          omega
        · intro l hl
          simp only [PatchDetour.Apply.decodedLens, List.mem_cons] at hl
          rcases hl with rfl | hl
          · omega
          · exact hpos l hl
        · obtain ⟨j, rfl⟩ : ∃ j, k = j + 1 := ⟨k - 1, by omega⟩
          simp only [Nat.add_sub_cancel, PatchDetour.Apply.decodedLens, List.sum_cons] at hmin ⊢
          omega
      · rw [Exec.ite_run, if_neg hc] at h
        simp only [Exec.pure_run, Res.ok.injEq] at h
        obtain ⟨rfl, rfl⟩ := h
        refine ⟨1, by omega, by omega, ?_, ?_, by simpa using hc, ?_⟩
        · simp [PatchDetour.Apply.decodedLens]
        · intro l hl
          simp only [PatchDetour.Apply.decodedLens, List.mem_cons, List.mem_singleton,
            List.not_mem_nil, or_false] at hl
          omega
        · simpa [PatchDetour.Apply.decodedLens] using hlt

/-- The value of `jump_size` is positive. -/
theorem PatchDetour.jumpSize_pos (env : Env) (p : PatchDetour) :
    0 < PatchDetour.jumpSize env p := by
  unfold PatchDetour.jumpSize PatchDetour.kJumpSize32 PatchDetour.kJumpSize64
  split_ifs
  · omega
  · cases env.arch <;> simp [PatchDetour.kJumpSize32]

/-- The value of `jump_size`: 5 for a near replacement, 6 otherwise. -/
theorem PatchDetour.jumpSize_eq (env : Env) (p : PatchDetour) :
    PatchDetour.jumpSize env p =
      if PatchDetour.IsNear env p.target_ p.detour_ = true then 5 else 6 := by
  unfold PatchDetour.jumpSize
  by_cases h : PatchDetour.IsNear env p.target_ p.detour_ = true
  · simp [h, PatchDetour.kJumpSize32]
  · simp only [h, if_false, Bool.false_eq_true]
    cases harch : env.arch with
    | x64 => rfl
    | x86 => exact (h (PatchDetour.IsNear_x86 env harch _ _)).elim

/-- Without the fallback, a `WriteJump` that returns has stored a near or far jump:
the value it returns is 5 for a near target and `kJumpSize64` otherwise. -/
theorem PatchDetour.WriteJump_ok_len (env : Env) (address target : Nat)
    (s s2 : World × PatchDetour) (n : Nat)
    (h : PatchDetour.WriteJump env address target false s = .ok n s2) :
    n = PatchDetour.jumpLen env address target := by
  have hI : Inv env (fun _ => False) (fun _ => False) s.1 s.2 s :=
    ⟨fun _ _ _ => rfl, fun _ h => h.elim, rfl, rfl, rfl, rfl, rfl, rfl, rfl, rfl, rfl,
      [], (List.append_nil _).symm, fun _ h => nomatch h⟩
  have hw := PatchDetour.WriteJump_frame2 (X := fun _ => False) (Room.of_empty 8)
    address target false hI (fun _ hf => hf) (fun _ _ => Or.inl (fun hf => hf))
  exact (hw.of_ok h).2.2 rfl

/-- A pointer-sized read fails only by a failed read. -/
theorem ReadPtr_errors {π : Type} (env : Env) (a : Nat) (s : World × π) :
    (ReadPtr env a).Ensures s (fun _ _ => True) (fun e _ => e = Error.readFailure) := by
  unfold Exec.Ensures ReadPtr
  rw [ReadVector_run]
  split_ifs <;> trivial

/-- `WriteCall` fails only by a C++ exception, given a page size that is not zero. -/
theorem PatchDetour.WriteCall_exception (env : Env) (hps : 0 < env.pageSize)
    (address target : Nat) (s : World × PatchDetour) :
    (PatchDetour.WriteCall env address target).Ensures s (fun _ _ => True)
      (fun e _ => e.isException = true) := by
  have hplan : (PatchDetour.WriteCall.plan env address target).Ensures s (fun _ _ => True)
      (fun e _ => e.isException = true) := by
    unfold PatchDetour.WriteCall.plan
    cases harch : env.arch with
    | x86 => exact Exec.Ensures.pure trivial
    | x64 =>
      simp only
      apply Exec.Ensures.bind
      apply (PatchDetour.AllocatePageNear_total env harch hps address s).mono
      · intro tr s1 _
        apply Exec.Ensures.bind
        have hr : (PatchDetour.releasingOnFailure env tr (WritePtr env tr.base target)).Ensures s1
            (fun _ _ => True) (fun e _ => e.isException = true) := by
          have hw := WriteVector_errors env tr.base
            (leBytes (env.arch.bits / 8) (target % 2 ^ env.arch.bits)) s1
          unfold Exec.Ensures at hw ⊢
          unfold PatchDetour.releasingOnFailure WritePtr
          cases hm : WriteVector env tr.base
              (leBytes (env.arch.bits / 8) (target % 2 ^ env.arch.bits)) s1 with
          | ok a s2 => trivial
          | fail e s2 => rw [hm] at hw; simp only at hw ⊢; rw [hw]; rfl
        apply hr.mono
        · intro _ s2 _
          apply Exec.Ensures.bind
          exact Exec.Ensures.modify (Exec.Ensures.pure trivial)
        · intro e _ h; exact h
      · rintro e _ ⟨rfl, -⟩; rfl
  unfold PatchDetour.WriteCall
  apply Exec.Ensures.bind
  apply hplan.mono
  · rintro ⟨stub, expected⟩ s1 -
    simp only
    apply Exec.Ensures.ite
    · intro _; exact Exec.Ensures.throw rfl
    · intro _
      apply Exec.Ensures.bind
      apply (WriteVector_errors env address _ s1).mono
      · intro _ _ _; exact Exec.Ensures.pure trivial
      · rintro e _ rfl; rfl
  · intro e _ h; exact h

/-- Every failure of a service is a C++ exception. -/
theorem PatchDetour.ServiceError.isException {e : Error} (h : PatchDetour.ServiceError e) :
    e.isException = true := by
  rcases h with rfl | rfl | rfl | rfl | rfl | rfl <;> rfl

/-- A pass of the decode loop over an instruction that lies inside the decoder input
fails only by a C++ exception. -/
theorem PatchDetour.Apply.step_exception (env : Env) (hps : 0 < env.pageSize)
    (target instr_size tramp_cur : Nat) (rest : List Nat) (insn : Insn)
    (hin : insn.len ≤ rest.length) (s : World × PatchDetour) :
    (PatchDetour.Apply.step env target instr_size tramp_cur rest insn).Ensures s
      (fun _ _ => True) (fun e _ => e.isException = true) := by
  have hcopy : (WriteVector env tramp_cur (rest.take insn.len) >>= fun _ =>
      (Pure.pure (tramp_cur + insn.len) : Exec (World × PatchDetour) Nat)).Ensures s
      (fun _ _ => True) (fun e _ => e.isException = true) := by
    apply Exec.Ensures.bind
    apply (WriteVector_errors env tramp_cur _ s).mono
    · intro _ _ _; exact Exec.Ensures.pure trivial
    · rintro e _ rfl; rfl
  unfold PatchDetour.Apply.step
  apply Exec.Ensures.ite
  · intro _; exact Exec.Ensures.throw rfl
  · intro _
    cases hop : insn.opr0 with
    | none =>
      simp only
      rw [if_pos hin]
      exact hcopy
    | some op =>
      simp only
      apply Exec.Ensures.ite
      · intro _
        apply Exec.Ensures.bind
        have hit : (PatchDetour.insnTarget
            (if PatchDetour.is_jimm (some op) = true then op.size else op.offset) op.lval).Ensures
            s (fun _ _ => True) (fun e _ => e.isException = true) := by
          unfold PatchDetour.insnTarget
          repeat (first | exact Exec.Ensures.pure trivial | exact Exec.Ensures.throw rfl |
            (apply Exec.Ensures.ite <;> intro _))
        apply hit.mono
        · intro it s0 _
          apply Exec.Ensures.bind
          have hjt : (if PatchDetour.is_jimm (some op) = true then
                (Pure.pure (PatchDetour.resolve_rel env ((target + instr_size) % 2 ^ 64) it
                  insn.len) : Exec (World × PatchDetour) Nat)
              else ReadPtr env (PatchDetour.resolve_rel env ((target + instr_size) % 2 ^ 64) it
                  insn.len)).Ensures s0 (fun _ _ => True) (fun e _ => e.isException = true) := by
            apply Exec.Ensures.ite
            · intro _; exact Exec.Ensures.pure trivial
            · intro _
              apply (ReadPtr_errors env _ s0).mono
              · intro _ _ h; exact h
              · rintro e _ rfl; rfl
          apply hjt.mono
          · intro jt s1 _
            apply Exec.Ensures.ite
            · intro _
              apply Exec.Ensures.bind
              apply (PatchDetour.WriteJump_errors env hps tramp_cur jt true s1 (Or.inl rfl)).mono
              · intro _ _ _; exact Exec.Ensures.pure trivial
              · intro e _ h; exact h.isException
            · intro _
              apply Exec.Ensures.bind
              apply (PatchDetour.WriteCall_exception env hps tramp_cur jt s1).mono
              · intro _ _ _; exact Exec.Ensures.pure trivial
              · intro e _ h; exact h
          · intro e _ h; exact h
        · intro e _ h; exact h
      · intro _
        rw [if_pos hin]
        exact hcopy

/-- With decoded lengths of at most 15 and enough input behind the current position,
the decode loop returns within `fuel` passes when `fuel` covers the distance to
`jump_size`: it returns an `instr_size` of at least `jump_size` and at most
`jump_size - 1 + 15`, or fails by a C++ exception. -/
theorem PatchDetour.Apply.decodeLoop_bounded (env : Env) (hps : 0 < env.pageSize)
    (hlen : ∀ rest, (env.decode rest).len ≤ 15) (target js : Nat) :
    ∀ (fuel : Nat) (rest : List Nat) (tc is : Nat) (s : World × PatchDetour),
      is < js → js ≤ is + fuel → js + 14 ≤ is + rest.length →
      (PatchDetour.Apply.decodeLoop env target js fuel rest tc is).Ensures s
        (fun r _ => js ≤ r.2 ∧ r.2 ≤ js - 1 + 15 ∧ r.2 ≤ is + rest.length)
        (fun e _ => e.isException = true) := by
  intro fuel
  induction fuel with
  | zero => intro rest tc is s h1 h2 _; omega
  | succ fuel ih =>
    intro rest tc is s h1 h2 h3
    have hl := hlen rest
    unfold PatchDetour.Apply.decodeLoop
    apply Exec.Ensures.bind
    have hst := PatchDetour.Apply.step_exception env hps target is tc rest (env.decode rest)
      (by omega) s
    unfold Exec.Ensures at hst ⊢
    cases hstep : PatchDetour.Apply.step env target is tc rest (env.decode rest) s with
    | fail e s2 => rw [hstep] at hst; exact hst
    | ok tc1 s2 =>
      simp only
      have hne := PatchDetour.Apply.step_ok_len hstep
      apply Exec.Ensures.ite
      · intro hc
        apply (ih (rest.drop (env.decode rest).len) tc1 (is + (env.decode rest).len) s2 hc
          (by omega) (by rw [List.length_drop]; omega)).mono
        · intro r _ h
          rw [List.length_drop] at h
          exact ⟨h.1, h.2.1, by omega⟩
        · intro e _ h; exact h
      · intro hc
        apply Exec.Ensures.pure
        simp only
        omega

/-- Every length in `decodedLens` is one the decoder returned. -/
theorem PatchDetour.Apply.decodedLens_le (env : Env) (b : Nat)
    (hlen : ∀ rest, (env.decode rest).len ≤ b) :
    ∀ (k : Nat) (rest : List Nat), ∀ l ∈ PatchDetour.Apply.decodedLens env k rest, l ≤ b := by
  intro k
  induction k with
  | zero => intro rest l hl; simp [PatchDetour.Apply.decodedLens] at hl
  | succ k ih =>
    intro rest l hl
    simp only [PatchDetour.Apply.decodedLens, List.mem_cons] at hl
    rcases hl with rfl | hl
    · exact hlen _
    · exact ih _ l hl

/-- When the building part of `Apply` returns, the decode loop has returned the
value of `instr_size`, run over the 45 bytes read at the target. -/
theorem PatchDetour.Apply.build_ok_inv (env : Env) (p : PatchDetour)
    (s sB : World × PatchDetour) (instr_size : Nat)
    (h : PatchDetour.Apply.build env p s = .ok instr_size sB) :
    ∃ tr sA r sL, PatchDetour.Apply.newTrampoline env s = .ok tr sA ∧
      PatchDetour.Apply.decodeLoop env p.target_ (PatchDetour.jumpSize env p)
        (PatchDetour.jumpSize env p) (sA.1.bytesAt p.target_ PatchDetour.kTrampSize)
        tr.base 0 sA = .ok r sL ∧ r.2 = instr_size := by
  unfold PatchDetour.Apply.build at h
  rw [Exec.bind_run] at h
  cases hn : PatchDetour.Apply.newTrampoline env s with
  | fail e s1 => rw [hn] at h; cases h
  | ok tr sA =>
    rw [hn] at h
    simp only [Exec.bind_run, ReadVector_run] at h
    by_cases hc : sA.1.canReadRange env p.target_ PatchDetour.kTrampSize = true
    · simp only [hc, if_true] at h
      cases hl : PatchDetour.Apply.decodeLoop env p.target_ (PatchDetour.jumpSize env p)
          (PatchDetour.jumpSize env p) (sA.1.bytesAt p.target_ PatchDetour.kTrampSize)
          tr.base 0 sA with
      | fail e s1 => rw [hl] at h; cases h
      | ok r sL =>
        rw [hl] at h
        refine ⟨tr, sA, r, sL, rfl, hl, ?_⟩
        simp only at h
        cases hw : PatchDetour.WriteJump env r.1 (p.target_ + r.2) true sL with
        | fail e s1 => rw [hw] at h; cases h
        | ok n s2 =>
          rw [hw] at h
          simp only [FlushInstructionCache_run] at h
          split at h
          · simp only [Exec.modify_run, Exec.pure_run, Res.ok.injEq] at h
            exact h.1
          · cases h
    · simp only [hc, if_false, Bool.false_eq_true] at h
      cases h

/-- What a successful `PatchDetour::Apply` on a patch that is not applied has done,
when the bytes of the target lie in memory the process had.  It has taken the
snapshot `orig_` of `jump_size` bytes from the target as it was before the call,
found no thread in that range, and then, with no earlier write into the target, has
stored a stub of `jump_size` bytes at the target and flushed `instr_size` bytes
there, where `instr_size` is what the building part returned and is at least
`jump_size`. -/
theorem PatchDetour.Apply_ok_trace (env : Env) (hps : 143 ≤ env.pageSize) (w : World)
    (p : PatchDetour) (pid : Nat) (hna : p.applied_ = false) (hp : p.process_ = some pid)
    (hT : ∀ a, PatchDetour.inTarget env p a →
      PatchDetour.mapped env w p (pageOf env a) = true)
    (s1 : World × PatchDetour) (h : PatchDetour.Apply env (w, p) = .ok () s1) :
    ∃ evs buf instr_size sB,
      PatchDetour.Apply.build env p (w.suspend pid, p) = .ok instr_size sB ∧
      s1.1.trace = w.trace ++ Event.suspend pid :: (evs ++
        [Event.write p.target_ buf, Event.flush p.target_ instr_size, Event.resume pid]) ∧
      (∀ e ∈ evs, ¬ e.WritesTo (PatchDetour.inTarget env p)) ∧
      buf.length = PatchDetour.jumpSize env p ∧
      s1.2.orig_ = w.bytesAt p.target_ (PatchDetour.jumpSize env p) ∧
      PatchDetour.jumpSize env p ≤ instr_size ∧
      ¬ w.threadIn p.target_ s1.2.orig_.length ∧
      s1.1.bytesAt p.target_ (PatchDetour.jumpSize env p) = buf ∧
      s1.2.target_ = p.target_ ∧ s1.2.applied_ = true := by
  rw [PatchDetour.Apply_run_detour] at h
  simp only [hna, Bool.false_eq_true, if_false, hp] at h
  have hQ : ∀ k, PatchDetour.mapped env w p k = true → w.prot k ≠ Prot.free := by
    intro k hk
    simp only [PatchDetour.mapped, Bool.and_eq_true, decide_eq_true_eq] at hk
    exact hk.1
  have hroom : Room env (fun k => PatchDetour.mapped env w p k = true) (fun _ => False) 143 :=
    Room.of_pageSize hps
  have h0 : Inv env (fun k => PatchDetour.mapped env w p k = true) (fun _ => False)
      (w.suspend pid) p (w.suspend pid, p) :=
    ⟨fun _ _ _ => rfl, hQ, rfl, rfl, rfl, rfl, rfl, rfl, rfl, rfl, rfl,
      [], (List.append_nil _).symm, fun _ h => nomatch h⟩
  have hb := PatchDetour.Apply.build_frame hroom h0 (PatchDetour.mapped_stale env w p)
  cases hbr : PatchDetour.Apply.build env p (w.suspend pid, p) with
  | fail e sB => rw [hbr] at h; cases h
  | ok instr_size sB =>
    rw [hbr] at h
    simp only at h
    obtain ⟨tr, -, hI, -⟩ := hb.of_ok hbr
    obtain ⟨evsB, he1, he2⟩ := hI.trace
    obtain ⟨tr2, sA, r, sL, -, hloop, hr2⟩ :=
      PatchDetour.Apply.build_ok_inv env p _ _ _ hbr
    obtain ⟨-, -, -, -, -, hge, -⟩ := PatchDetour.Apply.decodeLoop_sum env p.target_
      (PatchDetour.jumpSize env p) _ _ _ 0 sA r sL (PatchDetour.jumpSize_pos env p) hloop
    rw [hr2] at hge
    rw [PatchDetour.Apply.install_run] at h
    by_cases hv : VerifyPatchThreads.loop sB.1.self p.target_ sB.2.orig_.length
        sB.1.threads = true
    · simp only [hv, if_true] at h; cases h
    · simp only [hv, if_false, Bool.false_eq_true] at h
      have hv2 : VerifyPatchThreads.loop sB.1.self p.target_ sB.2.orig_.length
          sB.1.threads = false := by simpa using hv
      have horigB : sB.2.orig_ = w.bytesAt p.target_ (PatchDetour.jumpSize env p) := by
        rw [hI.orig]
        show sB.1.bytesAt p.target_ (PatchDetour.jumpSize env p) = _
        unfold World.bytesAt
        apply List.map_congr_left
        intro i hi
        exact hI.mem _ (hT _ ⟨Nat.le_add_right _ _,
          Nat.add_lt_add_left (List.mem_range.1 hi) _⟩) (fun hf => hf)
      cases hwr : PatchDetour.WriteJump env p.target_ p.detour_ false sB with
      | fail e s2 => rw [hwr] at h; cases h
      | ok n s2 =>
        rw [hwr] at h
        simp only [Res.ok.injEq, true_and] at h
        have hn := PatchDetour.WriteJump_ok_len env _ _ _ _ _ hwr
        obtain ⟨r2, sP, hplan, -, -, hnb, -, hs2⟩ :=
          PatchDetour.WriteJump_ok_inv env _ _ _ _ _ _ hwr
        have hI1 : Inv env (fun k => PatchDetour.mapped env w p k = true) (fun _ => False)
            sB.1 sB.2 sB := hI.restart
        obtain ⟨hIP, -, -⟩ := (PatchDetour.WriteJump.plan_frame (hroom.shrink (by omega))
          p.target_ p.detour_ false hI1).of_ok hplan
        obtain ⟨evsP, hp1, hp2⟩ := hIP.trace
        have hlen : (PatchDetour.WriteJump.buf env r2 p.target_).length =
            PatchDetour.jumpSize env p := by rw [← hnb, hn]; rfl
        refine ⟨evsB ++ evsP, PatchDetour.WriteJump.buf env r2 p.target_, instr_size, sB, rfl,
          ?_, ?_, hlen, ?_, hge, ?_, ?_, ?_, ?_⟩
        · rw [← h, hs2]
          show ((sP.1.trace ++ [Event.write p.target_ _]) ++ [Event.flush p.target_ instr_size])
            ++ [Event.resume pid] = _
          rw [hp1, he1]
          show (((((w.trace ++ [Event.suspend pid]) ++ evsB) ++ evsP) ++ _) ++ _) ++ _ = _
          simp
        · intro e he
          rcases List.mem_append.1 he with he | he
          · exact (he2 e he).not_writesTo hT
          · exact (hp2 e he).not_writesTo hT
        · rw [← h, hs2]
          show sP.2.orig_ = _
          rw [hIP.orig, horigB]
        · rw [← h, hs2]
          show ¬ w.threadIn p.target_ sP.2.orig_.length
          rw [hIP.orig]
          rw [hI.threads, hI.self] at hv2
          exact (VerifyPatchThreads.loop_eq_false_iff w p.target_ _).1 hv2
        · rw [← h, hs2]
          apply List.ext_getD_zero
          · rw [World.bytesAt_length, hlen]
          · intro i hi
            rw [World.bytesAt_length] at hi
            rw [World.bytesAt_getD _ _ _ _ hi]
            show sP.1.store p.target_ _ (p.target_ + i) = _
            exact World.store_inside _ _ _ _ (by rw [hlen]; exact hi)
        · rw [← h, hs2]
          show sP.2.target_ = _
          rw [hIP.target, hI.target]
        · rw [← h, hs2]

/-- A successful `PatchDetour::Remove` of an applied patch has found no thread in the
`orig_.size()` bytes at the target. -/
theorem PatchDetour.Remove_ok_check (env : Env) (w w1 : World) (p p1 : PatchDetour)
    (ha : p.applied_ = true) (hR : PatchDetour.Remove env (w, p) = .ok () (w1, p1)) :
    ¬ w.threadIn p.target_ p.orig_.length := by
  rw [PatchDetour.Remove_run_detour] at hR
  simp only [ha, if_true] at hR
  cases hp : p.process_ with
  | none => simp [hp] at hR
  | some pid =>
    simp only [hp] at hR
    by_cases h1 : VerifyPatchThreads.loop w.self p.target_ p.orig_.length w.threads = true
    · simp [h1] at hR
    · exact (VerifyPatchThreads.loop_eq_false_iff w p.target_ _).1 (by simpa using h1)

/-- A successful `PatchDetour::Apply` on a patch that is not applied had `process_`
set. -/
theorem PatchDetour.Apply_ok_process (env : Env) (w : World) (p : PatchDetour)
    (hna : p.applied_ = false) (s1 : World × PatchDetour)
    (h : PatchDetour.Apply env (w, p) = .ok () s1) : ∃ pid, p.process_ = some pid := by
  cases hp : p.process_ with
  | some pid => exact ⟨pid, rfl⟩
  | none =>
    rw [PatchDetour.Apply_run_detour] at h
    simp only [hna, Bool.false_eq_true, if_false, hp] at h
    cases h

/-- A `WriteJump` whose plan keeps the assembler's code, with the measured size as
planned and a writable destination, stores the stub and returns its size. -/
theorem PatchDetour.WriteJump_plan_run (env : Env) (address target : Nat) (fb : Bool)
    (s s1 : World × PatchDetour) (stub : Stub) (size : Nat)
    (hp : PatchDetour.WriteJump.plan env address target fb s = .ok (stub, size, false) s1)
    (heq : env.getCodeSize stub = size)
    (hc : s1.1.canWriteRange env address size = true) :
    PatchDetour.WriteJump env address target fb s =
      .ok size (s1.1.written address (fitBuf size (env.relocCode stub address).1), s1.2) := by
  unfold PatchDetour.WriteJump
  simp only [Exec.bind_run, hp]
  rw [Exec.ite_run, if_neg (by simpa using heq), Exec.ite_run, if_neg (by simp)]
  simp only [Exec.bind_run, WriteVector_run2, fitBuf_length, heq, hc, if_true]
  rfl

/-- The value of two byte strings in a row. -/
theorem leValue_append (a b : List Nat) :
    leValue (a ++ b) = leValue a + 256 ^ a.length * leValue b := by
  induction a with
  | nil => simp [leValue]
  | cons x a ih =>
    rw [List.cons_append]
    simp only [leValue, List.length_cons, pow_succ]
    rw [ih]
    ring

/-- Decoding the `n` bytes of `v` gives `v` cut to `n` bytes. -/
theorem leValue_leBytes (n v : Nat) : leValue (leBytes n v) = v % 256 ^ n := by
  induction n generalizing v with
  | zero => simp [leBytes, leValue, Nat.mod_one]
  | succ n ih =>
    simp only [leBytes, leValue, ih, Nat.mod_mod, pow_succ]
    rw [Nat.mul_comm (256 ^ n) 256, Nat.mod_mul]

/-- The encoding in `m + n` bytes is that of the low `m` bytes followed by the rest. -/
theorem leBytes_add (m n v : Nat) :
    leBytes (m + n) v = leBytes m v ++ leBytes n (v / 256 ^ m) := by
  induction m generalizing v with
  | zero => simp [leBytes]
  | succ m ih =>
    rw [Nat.succ_add]
    simp only [leBytes, ih, List.cons_append, pow_succ, Nat.div_div_eq_div_mul]
    rw [Nat.mul_comm 256 (256 ^ m)]

/-- The value `PUSH imm32` stores: the immediate below `2^31`, and the immediate with
the upper 32 bits set from `2^31` on. -/
theorem Cpu.push_value (low : Nat) :
    wrap 64 (sext 32 low) =
      if low % 2 ^ 32 < 2 ^ 31 then low % 2 ^ 32 else low % 2 ^ 32 + 0xFFFFFFFF00000000 := by
  unfold sext wrap
  have h : low % 2 ^ 32 < 2 ^ 32 := Nat.mod_lt _ (by norm_num)
  norm_num at h ⊢
  split_ifs with h1 <;> omega

/-- The small push/return stub goes to the immediate sign-extended to 64 bits. -/
theorem Stub.destination_pushRet (low : Nat) :
    (Stub.pushRet low).destination =
      some (if low % 2 ^ 32 < 2 ^ 31 then low % 2 ^ 32
        else low % 2 ^ 32 + 0xFFFFFFFF00000000) := by
  have h : low % 2 ^ 32 < 2 ^ 32 := Nat.mod_lt _ (by norm_num)
  simp only [Stub.destination, Cpu.ret, Cpu.push]
  rw [List.take_of_length_le (by rw [leBytes_length]), leValue_leBytes, Cpu.push_value]
  congr 1
  norm_num at h ⊢
  split_ifs <;> omega

/-- The big push/return stub goes to the address made of its two halves. -/
theorem Stub.destination_pushMovRet (low high : Nat) :
    (Stub.pushMovRet low high).destination =
      some (low % 2 ^ 32 + 2 ^ 32 * (high % 2 ^ 32)) := by
  have h : low % 2 ^ 32 < 2 ^ 32 := Nat.mod_lt _ (by norm_num)
  have hh : high % 2 ^ 32 < 2 ^ 32 := Nat.mod_lt _ (by norm_num)
  simp only [Stub.destination, Cpu.ret, Cpu.push, Cpu.movDwordAtRsp4]
  rw [show (8 : Nat) = 4 + 4 from rfl, leBytes_add,
    List.take_left' (leBytes_length _ _),
    List.drop_of_length_le (by simp [leBytes_length]), List.append_nil,
    List.take_of_length_le (by simp [leBytes_length]), leValue_append, leValue_leBytes,
    leValue_leBytes, leBytes_length, Cpu.push_value]
  congr 1
  norm_num at h hh ⊢
  split_ifs <;> omega

/-- The call `rfind` finds nothing exactly in a string without the character. -/
theorem rfind_eq_none_iff (s : List Char) (c : Char) : rfind s c = none ↔ c ∉ s := by
  induction s with
  | nil => simp [rfind]
  | cons x xs ih =>
    unfold rfind
    cases hr : rfind xs c with
    | some i =>
      have : c ∈ xs := by
        by_contra hc
        rw [ih.2 hc] at hr
        cases hr
      simp [this]
    | none =>
      have hc := ih.1 hr
      by_cases hx : x = c
      · simp [hx]
      · simp only [hx, if_false, List.mem_cons, hc, or_false, true_iff]
        exact fun h => hx h.symm

/-- The index `rfind` returns splits the string at the last occurrence of the
character. -/
theorem rfind_eq_some (s : List Char) (c : Char) (i : Nat) (h : rfind s c = some i) :
    s.take i ++ c :: s.drop (i + 1) = s ∧ c ∉ s.drop (i + 1) := by
  induction s generalizing i with
  | nil => cases h
  | cons x xs ih =>
    unfold rfind at h
    cases hr : rfind xs c with
    | some j =>
      rw [hr] at h
      simp only [Option.some.injEq] at h
      subst h
      obtain ⟨h1, h2⟩ := ih j hr
      refine ⟨?_, by simpa using h2⟩
      simp only [List.take_succ_cons, List.drop_succ_cons, List.cons_append, h1]
    | none =>
      rw [hr] at h
      simp only at h
      by_cases hx : x = c
      · simp only [hx, if_true, Option.some.injEq] at h
        subst h
        subst hx
        exact ⟨by simp, by simpa using (rfind_eq_none_iff xs x).1 hr⟩
      · simp [hx] at h

/-- One pass of the decode loop, and what follows it. -/
theorem PatchDetour.Apply.decodeLoop_succ (env : Env) (target js fuel : Nat) (rest : List Nat)
    (tc is : Nat) (s : World × PatchDetour) :
    PatchDetour.Apply.decodeLoop env target js (fuel + 1) rest tc is s =
      match PatchDetour.Apply.step env target is tc rest (env.decode rest) s with
      | .ok tc1 s1 =>
        if is + (env.decode rest).len < js then
          PatchDetour.Apply.decodeLoop env target js fuel
            (rest.drop (env.decode rest).len) tc1 (is + (env.decode rest).len) s1
        else .ok (tc1, is + (env.decode rest).len) s1
      | .fail e s1 => .fail e s1 := by
  rw [PatchDetour.Apply.decodeLoop]
  simp only [Exec.bind_run]
  cases PatchDetour.Apply.step env target is tc rest (env.decode rest) s with
  | fail e s1 => rfl
  | ok tc1 s1 =>
    simp only [Exec.ite_run]
    split_ifs <;> rfl

/-- Over a `jmp` with a relative immediate operand of a known width, a pass of the
decode loop is the call of `WriteJump` with the fallback, to the destination of the
jump. -/
theorem PatchDetour.Apply.step_jmp_jimm (env : Env) (target instr_size tramp_cur : Nat)
    (rest : List Nat) (insn : Insn) (op : ud_operand)
    (hlen : insn.len ≠ 0) (hop : insn.opr0 = some op)
    (hmn : insn.mnemonic = ud_mnemonic_code.UD_Ijmp)
    (hj : PatchDetour.is_jimm (some op) = true)
    (hwidth : op.size = 8 ∨ op.size = 16 ∨ op.size = 32 ∨ op.size = 64)
    (s : World × PatchDetour) :
    PatchDetour.Apply.step env target instr_size tramp_cur rest insn s =
      match PatchDetour.WriteJump env tramp_cur
        (PatchDetour.resolve_rel env ((target + instr_size) % 2 ^ 64)
          (sext op.size op.lval) insn.len) true s with
      | .ok n s1 => .ok (tramp_cur + n) s1
      | .fail e s1 => .fail e s1 := by
  unfold PatchDetour.Apply.step
  rw [if_neg hlen]
  simp only [hop]
  rw [if_pos ⟨Or.inl hmn, Or.inl hj⟩]
  simp only [hj, if_true, Exec.bind_run, PatchDetour.insnTarget_run op.size op.lval hwidth,
    Exec.pure_run, hmn]
  cases PatchDetour.WriteJump env tramp_cur
      (PatchDetour.resolve_rel env ((target + instr_size) % 2 ^ 64)
        (sext op.size op.lval) insn.len) true s <;> rfl

/-- On 64-bit, in a process without a free page, `WriteJump` with the fallback to a
target that is not near and lies above 4 GiB stores the big push/return stub, when
the assembler measures it as 14 bytes and the destination is writable. -/
theorem PatchDetour.WriteJump_pushMovRet (env : Env) (h64 : env.arch = Arch.x64)
    (hps : 0 < env.pageSize) (address target : Nat) (s : World × PatchDetour)
    (hfar : PatchDetour.IsNear env address target = false)
    (hfull : ∀ k, s.1.prot k ≠ Prot.free)
    (hhigh : (target % 2 ^ 64 / 2 ^ 32) % 2 ^ 32 ≠ 0)
    (hsize : env.getCodeSize (Stub.pushMovRet (target % 2 ^ 64 % 2 ^ 32)
      ((target % 2 ^ 64 / 2 ^ 32) % 2 ^ 32)) = 14)
    (hc : s.1.canWriteRange env address 14 = true) :
    PatchDetour.WriteJump env address target true s =
      .ok 14 (s.1.written address (fitBuf 14 (env.relocCode
        (Stub.pushMovRet (target % 2 ^ 64 % 2 ^ 32) ((target % 2 ^ 64 / 2 ^ 32) % 2 ^ 32))
        address).1), s.2) := by
  have hplan := PatchDetour.WriteJump.plan_fallback env h64 hps address target s hfar
    (PatchDetour.AllocatePageNear_full env h64 hps address s hfull)
  rw [if_pos hhigh] at hplan
  exact PatchDetour.WriteJump_plan_run env address target true s s _ 14 hplan hsize hc

/-- The building part of `Apply` in terms of its steps, when each of them returns. -/
theorem PatchDetour.Apply.build_run_ok (env : Env) (p : PatchDetour)
    (s sA sL sJ : World × PatchDetour) (tr : Block) (r : Nat × Nat) (m : Nat)
    (h1 : PatchDetour.Apply.newTrampoline env s = .ok tr sA)
    (h2 : sA.1.canReadRange env p.target_ PatchDetour.kTrampSize = true)
    (h3 : PatchDetour.Apply.decodeLoop env p.target_ (PatchDetour.jumpSize env p)
      (PatchDetour.jumpSize env p) (sA.1.bytesAt p.target_ PatchDetour.kTrampSize)
      tr.base 0 sA = .ok r sL)
    (h4 : PatchDetour.WriteJump env r.1 (p.target_ + r.2) true sL = .ok m sJ)
    (h5 : sJ.1.canReadRange env p.target_ (PatchDetour.jumpSize env p) = true) :
    PatchDetour.Apply.build env p s =
      .ok r.2 (sJ.1.log (Event.flush tr.base tr.size),
        { sJ.2 with orig_ := sJ.1.bytesAt p.target_ (PatchDetour.jumpSize env p) }) := by
  unfold PatchDetour.Apply.build
  simp only [Exec.bind_run, h1, ReadVector_run, h2, if_true, h3, h4,
    FlushInstructionCache_run]
  have h5b : (sJ.1.log (Event.flush tr.base tr.size)).canReadRange env p.target_
      (PatchDetour.jumpSize env p) = true := h5
  simp only [h5b, if_true, Exec.modify_run, Exec.pure_run]
  rfl

/-- A successful `PatchDetour::Apply` in terms of its two parts. -/
theorem PatchDetour.Apply_run_ok (env : Env) (w : World) (p : PatchDetour) (pid : Nat)
    (hna : p.applied_ = false) (hp : p.process_ = some pid) (instr_size : Nat)
    (sB sI : World × PatchDetour)
    (hb : PatchDetour.Apply.build env p (w.suspend pid, p) = .ok instr_size sB)
    (hi : PatchDetour.Apply.install env pid p instr_size sB = .ok () sI) :
    PatchDetour.Apply env (w, p) = .ok () (sI.1.resume pid, sI.2) := by
  rw [PatchDetour.Apply_run_detour]
  simp only [hna, Bool.false_eq_true, if_false, hp, hb, hi]

/-- The example process with the jumps, after `Apply` has allocated its trampoline:
no page is free. -/
theorem exWorldJumps_no_free_page : ∀ k, exJumps0.1.prot k ≠ Prot.free := by
  intro k
  show (if 8 ≤ k ∧ k < 8 + 1 then Prot.readWrite
    else if k = 8 then Prot.free else Prot.readWrite) ≠ Prot.free
  split_ifs with h1 h2
  · decide
  · omega
  · decide

/-- The building part of `Apply` for the example with the jumps: each of the three
`jmp rel8` at the target and the jump back is rebuilt as a push/return stub of 14
bytes, the last of them at offset 42 of the trampoline. -/
theorem exWorldJumps_build :
    PatchDetour.Apply.build exEnvJumps exDetourHigh (exWorldJumps.suspend 77, exDetourHigh) =
      .ok 6 exJumps5 := by
  have hW : ∀ (a t : Nat) (s : World × PatchDetour),
      PatchDetour.IsNear exEnvJumps a t = false →
      (∀ k, s.1.prot k ≠ Prot.free) →
      (t % 2 ^ 64 / 2 ^ 32) % 2 ^ 32 ≠ 0 →
      s.1.canWriteRange exEnvJumps a 14 = true →
      PatchDetour.WriteJump exEnvJumps a t true s =
        .ok 14 (s.1.written a (fitBuf 14 (exEnvJumps.relocCode
          (Stub.pushMovRet (t % 2 ^ 64 % 2 ^ 32) ((t % 2 ^ 64 / 2 ^ 32) % 2 ^ 32)) a).1),
          s.2) := fun a t s h1 h2 h3 h4 =>
    PatchDetour.WriteJump_pushMovRet exEnvJumps rfl (by decide) a t s h1 h2 h3 rfl h4
  have hS : ∀ (is tc : Nat) (rest : List Nat) (d : Nat) (tl : List Nat)
      (s : World × PatchDetour), rest = 0xEB :: d :: tl →
      PatchDetour.Apply.step exEnvJumps 0x300000000 is tc rest (exEnvJumps.decode rest) s =
        match PatchDetour.WriteJump exEnvJumps tc
          (PatchDetour.resolve_rel exEnvJumps ((0x300000000 + is) % 2 ^ 64) (sext 8 d) 2)
          true s with
        | .ok n s1 => .ok (tc + n) s1
        | .fail e s1 => .fail e s1 := by
    intro is tc rest d tl s hrest
    subst hrest
    exact PatchDetour.Apply.step_jmp_jimm exEnvJumps 0x300000000 is tc _ _
      { type := ud_type.UD_OP_JIMM, base := ud_type.UD_NONE, index := ud_type.UD_NONE,
        scale := 0, size := 8, offset := 0, lval := d }
      (Nat.succ_ne_zero 1) rfl rfl rfl (Or.inl rfl) s
  have h0 : PatchDetour.Apply.newTrampoline exEnvJumps (exWorldJumps.suspend 77, exDetourHigh) =
      .ok { base := 0x8000, size := 45 } exJumps0 := rfl
  have hf0 : ∀ k, exJumps0.1.prot k ≠ Prot.free := exWorldJumps_no_free_page
  have hf1 : ∀ k, exJumps1.1.prot k ≠ Prot.free := exWorldJumps_no_free_page
  have hf2 : ∀ k, exJumps2.1.prot k ≠ Prot.free := exWorldJumps_no_free_page
  have hf3 : ∀ k, exJumps3.1.prot k ≠ Prot.free := exWorldJumps_no_free_page
  have e1 : PatchDetour.Apply.step exEnvJumps 0x300000000 0 0x8000
      (exJumps0.1.bytesAt 0x300000000 45)
      (exEnvJumps.decode (exJumps0.1.bytesAt 0x300000000 45)) exJumps0 =
      .ok 0x800E exJumps1 := by
    rw [hS 0 0x8000 _ 0x10 ((exJumps0.1.bytesAt 0x300000000 45).drop 2) exJumps0 (by decide),
      hW 0x8000 (PatchDetour.resolve_rel exEnvJumps ((0x300000000 + 0) % 2 ^ 64)
        (sext 8 0x10) 2) exJumps0 (by decide) hf0 (by decide) (by decide)]
    rfl
  have e2 : PatchDetour.Apply.step exEnvJumps 0x300000000 2 0x800E
      ((exJumps0.1.bytesAt 0x300000000 45).drop 2)
      (exEnvJumps.decode ((exJumps0.1.bytesAt 0x300000000 45).drop 2)) exJumps1 =
      .ok 0x801C exJumps2 := by
    rw [hS 2 0x800E _ 0x10 ((exJumps0.1.bytesAt 0x300000000 45).drop 4) exJumps1 (by decide),
      hW 0x800E (PatchDetour.resolve_rel exEnvJumps ((0x300000000 + 2) % 2 ^ 64)
        (sext 8 0x10) 2) exJumps1 (by decide) hf1 (by decide) (by decide)]
    rfl
  have e3 : PatchDetour.Apply.step exEnvJumps 0x300000000 4 0x801C
      ((exJumps0.1.bytesAt 0x300000000 45).drop 4)
      (exEnvJumps.decode ((exJumps0.1.bytesAt 0x300000000 45).drop 4)) exJumps2 =
      .ok 0x802A exJumps3 := by
    rw [hS 4 0x801C _ 0x10 ((exJumps0.1.bytesAt 0x300000000 45).drop 6) exJumps2 (by decide),
      hW 0x801C (PatchDetour.resolve_rel exEnvJumps ((0x300000000 + 4) % 2 ^ 64)
        (sext 8 0x10) 2) exJumps2 (by decide) hf2 (by decide) (by decide)]
    rfl
  have hl3 : PatchDetour.Apply.decodeLoop exEnvJumps 0x300000000 5 3
      ((exJumps0.1.bytesAt 0x300000000 45).drop 4) 0x801C 4 exJumps2 =
      .ok (0x802A, 6) exJumps3 := by
    refine (PatchDetour.Apply.decodeLoop_succ exEnvJumps 0x300000000 5 2 _ 0x801C 4
      exJumps2).trans ?_
    rw [e3]
    simp only
    rw [if_neg (by decide)]
    rfl
  have hl2 : PatchDetour.Apply.decodeLoop exEnvJumps 0x300000000 5 4
      ((exJumps0.1.bytesAt 0x300000000 45).drop 2) 0x800E 2 exJumps1 =
      .ok (0x802A, 6) exJumps3 := by
    refine (PatchDetour.Apply.decodeLoop_succ exEnvJumps 0x300000000 5 3 _ 0x800E 2
      exJumps1).trans ?_
    rw [e2]
    simp only
    rw [if_pos (by decide)]
    exact hl3
  have hl1 : PatchDetour.Apply.decodeLoop exEnvJumps 0x300000000 5 5
      (exJumps0.1.bytesAt 0x300000000 45) 0x8000 0 exJumps0 =
      .ok (0x802A, 6) exJumps3 := by
    refine (PatchDetour.Apply.decodeLoop_succ exEnvJumps 0x300000000 5 4 _ 0x8000 0
      exJumps0).trans ?_
    rw [e1]
    simp only
    rw [if_pos (by decide)]
    exact hl2
  have hj : PatchDetour.WriteJump exEnvJumps 0x802A (0x300000000 + 6) true exJumps3 =
      .ok 14 exJumps4 := by
    rw [hW 0x802A (0x300000000 + 6) exJumps3 (by decide) hf3 (by decide) (by decide)]
    rfl
  have hb := PatchDetour.Apply.build_run_ok exEnvJumps exDetourHigh
    (exWorldJumps.suspend 77, exDetourHigh) exJumps0 exJumps3 exJumps4
    { base := 0x8000, size := 45 } (0x802A, 6) 14 h0 (by decide) hl1 hj (by decide)
  exact hb

/-! ## `VerifyPatchThreads` on pointers -/

/-- On 64-bit, in a process without a free page, `WriteJump` with the fallback to a
target that is not near and lies below 4 GiB stores the small push/return stub, when
the assembler measures it as 6 bytes and the destination is writable. -/
theorem PatchDetour.WriteJump_pushRet (env : Env) (h64 : env.arch = Arch.x64)
    (hps : 0 < env.pageSize) (address target : Nat) (s : World × PatchDetour)
    (hfar : PatchDetour.IsNear env address target = false)
    (hfull : ∀ k, s.1.prot k ≠ Prot.free)
    (hhigh : (target % 2 ^ 64 / 2 ^ 32) % 2 ^ 32 = 0)
    (hsize : env.getCodeSize (Stub.pushRet (target % 2 ^ 64 % 2 ^ 32)) = 6)
    (hc : s.1.canWriteRange env address 6 = true) :
    PatchDetour.WriteJump.plan env address target true s =
      .ok (Stub.pushRet (target % 2 ^ 64 % 2 ^ 32), 6, false) s ∧
    PatchDetour.WriteJump env address target true s =
      .ok 6 (s.1.written address (fitBuf 6 (env.relocCode
        (Stub.pushRet (target % 2 ^ 64 % 2 ^ 32)) address).1), s.2) := by
  have hplan := PatchDetour.WriteJump.plan_fallback env h64 hps address target s hfar
    (PatchDetour.AllocatePageNear_full env h64 hps address s hfull)
  rw [if_neg (by simpa using hhigh)] at hplan
  exact ⟨hplan, PatchDetour.WriteJump_plan_run env address target true s s _ 6 hplan hsize hc⟩

/-- The example at 2 GiB, after `Apply` has allocated its trampoline and copied the
instructions: no page is free. -/
theorem exWorldTop_no_free_page : ∀ k, exTop1.1.prot k ≠ Prot.free := by
  intro k
  show (if 0x200000 ≤ k ∧ k < 0x200000 + 1 then Prot.readWrite
    else if k = 0x200000 then Prot.free else Prot.readWrite) ≠ Prot.free
  split_ifs with h1 h2
  · decide
  · omega
  · decide

/-- The jump back of the example at 2 GiB: the small push/return stub. -/
theorem exWorldTop_jump_back :
    PatchDetour.WriteJump.plan exEnv 0x200000006 (0x80000000 + 6) true exTop1 =
      .ok (Stub.pushRet 0x80000006, 6, false) exTop1 ∧
    PatchDetour.WriteJump exEnv 0x200000006 (0x80000000 + 6) true exTop1 = .ok 6 exTop2 :=
  PatchDetour.WriteJump_pushRet exEnv rfl (by decide) 0x200000006 (0x80000000 + 6) exTop1
    (by decide) exWorldTop_no_free_page (by decide) rfl (by decide)

/-- The building part of `Apply` for the example at 2 GiB: three two-byte
instructions are copied and the jump back is the small push/return stub. -/
theorem exWorldTop_build :
    PatchDetour.Apply.build exEnv exDetourTop (exWorldTop.suspend 77, exDetourTop) =
      .ok 6 exTop3 :=
  PatchDetour.Apply.build_run_ok exEnv exDetourTop (exWorldTop.suspend 77, exDetourTop)
    exTop0 exTop1 exTop2 { base := 0x200000000, size := 45 } (0x200000006, 6) 6 rfl
    (by decide) rfl exWorldTop_jump_back.2 (by decide)

/-! ## The claim C13: the jump back of a straight-line trampoline -/

/-- C13. The jump back of a straight-line trampoline can miss `target + instr_size`:
in the 64-bit example process whose only free page, at `0x200000000`, becomes the
trampoline, for the function at `0x80000000` that begins with three two-byte
instructions, none a jump or call, and is detoured to a near routine, `Apply()`
returns and the trampoline starts with the first `instr_size = 6` bytes of the
target, in order.  Behind them `WriteJump(trampoline + 6, target + 6, true)` has
stored the small push/return stub `PUSH 0x80000006; RET`, since the target is not
near the trampoline, no page near it is free and the upper 32 bits of the
destination are zero; the processor sign-extends the immediate, so the stub goes to
`0xFFFFFFFF80000006`, not to `target + instr_size = 0x80000006`. -/
theorem C13_jump_back_misses_the_target :
    PatchDetour.IsNear exEnv exDetourTop.target_ exDetourTop.detour_ = true ∧
    PatchDetour.Apply.straight exEnv (PatchDetour.jumpSize exEnv exDetourTop)
      (PatchDetour.jumpSize exEnv exDetourTop)
      (exWorldTop.bytesAt exDetourTop.target_ PatchDetour.kTrampSize) 0 = some 6 ∧
    (∃ sB, PatchDetour.Apply.build exEnv exDetourTop (exWorldTop.suspend 77, exDetourTop) =
      .ok 6 sB) ∧
    (PatchDetour.Apply exEnv (exWorldTop, exDetourTop)).isOk = true ∧
    (PatchDetour.Apply exEnv (exWorldTop, exDetourTop)).state.2.trampoline_ =
      some { base := 0x200000000, size := 45 } ∧
    (PatchDetour.Apply exEnv (exWorldTop, exDetourTop)).state.1.trace =
      [Event.suspend 77, Event.alloc { base := 0x200000000, size := 45 },
        Event.write 0x200000000 [3, 4], Event.write 0x200000002 [5, 6],
        Event.write 0x200000004 [7, 1],
        Event.write 0x200000006 [0x68, 0x06, 0, 0, 0x80, 0xC3],
        Event.flush 0x200000000 45,
        Event.write 0x80000000 [0xE9, 0xFB, 0x07, 0, 0], Event.flush 0x80000000 6,
        Event.resume 77] ∧
    (PatchDetour.Apply exEnv (exWorldTop, exDetourTop)).state.1.bytesAt 0x200000000 6 =
      exWorldTop.bytesAt 0x80000000 6 ∧
    (PatchDetour.Apply exEnv (exWorldTop, exDetourTop)).state.1.bytesAt 0x200000006 6 =
      (exEnv.relocCode (Stub.pushRet 0x80000006) 0x200000006).1 ∧
    PatchDetour.WriteJump.plan exEnv 0x200000006 (0x80000000 + 6) true exTop1 =
      .ok (Stub.pushRet 0x80000006, 6, false) exTop1 ∧
    (Stub.pushRet 0x80000006).destination = some 0xFFFFFFFF80000006 ∧
    (Stub.pushRet 0x80000006).destination ≠ some (0x80000000 + 6) := by
  have hA := PatchDetour.Apply_run_ok exEnv exWorldTop exDetourTop 77 rfl rfl 6
    exTop3 (PatchDetour.Apply.install exEnv 77 exDetourTop 6 exTop3).state
    exWorldTop_build rfl
  rw [hA]
  exact ⟨by decide, by decide, ⟨_, exWorldTop_build⟩, rfl, rfl, by decide, by decide,
    by decide, exWorldTop_jump_back.1, by decide, by decide⟩

/-! ## The claims C21 to C30 -/

/-- C21. Whenever the decode loop of `Apply()` returns, `instr_size` is the sum of the
lengths of whole instructions decoded one after the other from the bytes read at the
target, none of length zero, and the sum of all but the last is still below
`jump_size`; `instr_size` is at least `jump_size`, which is 5 for a near replacement
and 6 otherwise; and the stub that `WriteJump(target_, detour_)` stores at the target
has `jump_size` bytes, so it ends at or before the instruction boundary
`target + instr_size`. -/
theorem C21_decode_threshold (env : Env) (p : PatchDetour) (fuel : Nat) (rest : List Nat)
    (tramp_cur : Nat) (s s1 : World × PatchDetour) (r : Nat × Nat)
    (h : PatchDetour.Apply.decodeLoop env p.target_ (PatchDetour.jumpSize env p) fuel rest
      tramp_cur 0 s = .ok r s1) :
    (∃ k, 0 < k ∧ r.2 = (PatchDetour.Apply.decodedLens env k rest).sum ∧
      (∀ l ∈ PatchDetour.Apply.decodedLens env k rest, 0 < l) ∧
      (PatchDetour.Apply.decodedLens env (k - 1) rest).sum < PatchDetour.jumpSize env p) ∧
    PatchDetour.jumpSize env p ≤ r.2 ∧
    (PatchDetour.jumpSize env p =
      if PatchDetour.IsNear env p.target_ p.detour_ = true then 5 else 6) ∧
    (∀ s2 n s3, PatchDetour.WriteJump env p.target_ p.detour_ false s2 = .ok n s3 →
      n = PatchDetour.jumpSize env p ∧ p.target_ + n ≤ p.target_ + r.2) := by
  obtain ⟨k, hk0, -, hsum, hpos, hge, hmin⟩ := PatchDetour.Apply.decodeLoop_sum env p.target_
    (PatchDetour.jumpSize env p) fuel rest tramp_cur 0 s r s1 (PatchDetour.jumpSize_pos env p) h
  refine ⟨⟨k, hk0, by simpa using hsum, hpos, by simpa using hmin⟩, hge,
    PatchDetour.jumpSize_eq env p, ?_⟩
  intro s2 n s3 hw
  have hn : n = PatchDetour.jumpSize env p :=
    PatchDetour.WriteJump_ok_len env p.target_ p.detour_ s2 s3 n hw
  exact ⟨hn, by omega⟩

/-- C21, at the example: a near detour at `0x10000` over two-byte instructions; the
loop returns after three instructions with `instr_size = 6`, and `jump_size` is 5. -/
theorem C21_decode_threshold_witness :
    PatchDetour.Apply.decodeLoop exEnv exDetour.target_ (PatchDetour.jumpSize exEnv exDetour) 5
        (exWorld.bytesAt 0x10000 45) 0x8000 0
        (PatchDetour.Apply.newTrampoline exEnv (exWorld.suspend 77, exDetour)).state =
      .ok (0x8006, 6) (PatchDetour.Apply.decodeLoop exEnv exDetour.target_
        (PatchDetour.jumpSize exEnv exDetour) 5 (exWorld.bytesAt 0x10000 45) 0x8000 0
        (PatchDetour.Apply.newTrampoline exEnv (exWorld.suspend 77, exDetour)).state).state ∧
    PatchDetour.jumpSize exEnv exDetour = 5 ∧
    PatchDetour.Apply.decodedLens exEnv 3 (exWorld.bytesAt 0x10000 45) = [2, 2, 2] ∧
    PatchDetour.jumpSize exEnv exDetour ≤ 6 :=
  ⟨by rfl, by decide, by decide,
   (C21_decode_threshold exEnv exDetour 5 (exWorld.bytesAt 0x10000 45) 0x8000
      (PatchDetour.Apply.newTrampoline exEnv (exWorld.suspend 77, exDetour)).state _
      (0x8006, 6) (by rfl)).2.1⟩

/-- C22. After a successful `PatchDetour::Apply()` on a patch that was not applied and
whose target bytes lie in memory the process had: the trace holds one write into the
target region, the stub written at the target, and `orig_` has exactly as many bytes
as that write stored; `orig_` holds the bytes the target had before the call, and so
before any write to the target region; the check of the threads was made with that
same length; and a later `Remove()` that returns has checked the threads with that
length and stored exactly `orig_` at the target. -/
theorem C22_snapshot_length (env : Env) (hps : 143 ≤ env.pageSize) (w : World)
    (p : PatchDetour) (hna : p.applied_ = false)
    (hT : ∀ a, PatchDetour.inTarget env p a →
      PatchDetour.mapped env w p (pageOf env a) = true)
    (s1 : World × PatchDetour) (h : PatchDetour.Apply env (w, p) = .ok () s1) :
    (∃ pre buf post, s1.1.trace = w.trace ++ pre ++ Event.write p.target_ buf :: post ∧
      (∀ e ∈ pre, ¬ e.WritesTo (PatchDetour.inTarget env p)) ∧
      (∀ e ∈ post, ¬ e.WritesTo (PatchDetour.inTarget env p)) ∧
      s1.2.orig_.length = buf.length ∧
      s1.2.orig_ = w.bytesAt p.target_ buf.length) ∧
    ¬ w.threadIn p.target_ s1.2.orig_.length ∧
    ∀ w2 w3 p3, PatchDetour.Remove env (w2, s1.2) = .ok () (w3, p3) →
      ¬ w2.threadIn p.target_ s1.2.orig_.length ∧
      w3.mem = w2.store p.target_ s1.2.orig_ ∧
      Event.write p.target_ s1.2.orig_ ∈ w3.trace := by
  obtain ⟨pid, hp⟩ := PatchDetour.Apply_ok_process env w p hna s1 h
  obtain ⟨evs, buf, instr_size, sB, -, htr, hpre, hlen, horig, -, hnt, -, htg, hap⟩ :=
    PatchDetour.Apply_ok_trace env hps w p pid hna hp hT s1 h
  refine ⟨⟨Event.suspend pid :: evs, buf,
    [Event.flush p.target_ instr_size, Event.resume pid], ?_, ?_, ?_, ?_, ?_⟩, hnt, ?_⟩
  · rw [htr]; simp
  · intro e he
    rcases List.mem_cons.1 he with rfl | he
    · exact fun hc => hc
    · exact hpre e he
  · intro e he
    simp only [List.mem_cons, List.mem_singleton, List.not_mem_nil, or_false] at he
    rcases he with rfl | rfl <;> exact fun hc => hc
  · rw [horig, World.bytesAt_length, hlen]
  · rw [hlen]; exact horig
  · intro w2 w3 p3 hR
    have h1 := PatchDetour.Remove_ok_check env w2 w3 s1.2 p3 hap hR
    have h2 := PatchDetour.Remove_ok_mem env w2 w3 s1.2 p3 hap hR
    obtain ⟨pid2, tr, -, -, h3⟩ := PatchDetour.Remove_trace env w2 w3 s1.2 p3 hap hR
    rw [htg] at h1 h2 h3
    refine ⟨h1, h2, ?_⟩
    rw [h3]
    simp

/-- C22, at the example: the detour of the function at `0x10000`, where the snapshot
is the five bytes the target had. -/
theorem C22_snapshot_length_witness :
    PatchDetour.Apply exEnv (exWorld, exDetour) = .ok () (exWorldDetoured, exDetourApplied) ∧
    exDetourApplied.orig_ = [3, 4, 5, 6, 7] ∧
    ¬ exWorld.threadIn exDetour.target_ exDetourApplied.orig_.length :=
  ⟨by rfl, by decide,
   (C22_snapshot_length exEnv (by decide) exWorld exDetour rfl (by
      intro a ha
      have h1 : 65536 ≤ a ∧ a < 65541 := ha
      have h2 : pageOf exEnv a = 16 := by
        show a / 4096 = 16
        omega
      rw [h2]
      decide) (exWorldDetoured, exDetourApplied) (by rfl)).2.1⟩

/-- C23, counterexample: the detour of the function at `0x10000` in the example
process, whose instructions are two bytes long.  `Apply()` returns; the building part
returned `instr_size = 6`; the only write at the target stores the five bytes of the
near jump, the sixth byte of the range keeps its value, and the flush covers six
bytes. -/
theorem C23_stub_shorter_than_flushed_range :
    PatchDetour.Apply exEnv (exWorld, exDetour) = .ok () (exWorldDetoured, exDetourApplied) ∧
    (∃ sB, PatchDetour.Apply.build exEnv exDetour (exWorld.suspend 77, exDetour) = .ok 6 sB) ∧
    exWorldDetoured.trace =
      [Event.suspend 77, Event.alloc { base := 0x8000, size := 45 },
       Event.write 0x8000 [3, 4], Event.write 0x8002 [5, 6], Event.write 0x8004 [7, 1],
       Event.write 0x8006 [233, 251, 127, 0, 0], Event.flush 0x8000 45,
       Event.write 0x10000 [233, 251, 7, 0, 0], Event.flush 0x10000 6, Event.resume 77] ∧
    exWorld.bytesAt 0x10000 6 = [3, 4, 5, 6, 7, 1] ∧
    exWorldDetoured.bytesAt 0x10000 6 = [233, 251, 7, 0, 0, 1] :=
  ⟨by rfl, ⟨_, rfl⟩, by decide, by decide, by decide⟩

/-- C23. A successful `PatchDetour::Apply()` on a patch that was not applied and whose
target bytes lie in memory the process had: its last three events are the write of a
stub of `jump_size` bytes at the target, the flush of `instr_size` bytes at the
target, and the resumption, where `instr_size` is the value the building part
returned and is at least `jump_size`; no earlier event writes into the target; the
`jump_size` bytes at the target are those of the stub, and every other byte of the
memory the process had, the bytes from `target + jump_size` to `target + instr_size`
included, is what it was. -/
theorem C23_target_frame (env : Env) (hps : 143 ≤ env.pageSize) (w : World)
    (p : PatchDetour) (hna : p.applied_ = false)
    (hT : ∀ a, PatchDetour.inTarget env p a →
      PatchDetour.mapped env w p (pageOf env a) = true)
    (s1 : World × PatchDetour) (h : PatchDetour.Apply env (w, p) = .ok () s1) :
    ∃ pid pre buf instr_size sB,
      PatchDetour.Apply.build env p (w.suspend pid, p) = .ok instr_size sB ∧
      s1.1.trace = w.trace ++ pre ++
        [Event.write p.target_ buf, Event.flush p.target_ instr_size, Event.resume pid] ∧
      (∀ e ∈ pre, ¬ e.WritesTo (PatchDetour.inTarget env p)) ∧
      buf.length = PatchDetour.jumpSize env p ∧
      PatchDetour.jumpSize env p ≤ instr_size ∧
      s1.1.bytesAt p.target_ (PatchDetour.jumpSize env p) = buf ∧
      ∀ a, PatchDetour.mapped env w p (pageOf env a) = true →
        ¬ (p.target_ ≤ a ∧ a < p.target_ + PatchDetour.jumpSize env p) →
        s1.1.mem a = w.mem a := by
  obtain ⟨pid, hp⟩ := PatchDetour.Apply_ok_process env w p hna s1 h
  obtain ⟨evs, buf, instr_size, sB, hb, htr, hpre, hlen, -, hge, -, hbytes, -, -⟩ :=
    PatchDetour.Apply_ok_trace env hps w p pid hna hp hT s1 h
  refine ⟨pid, Event.suspend pid :: evs, buf, instr_size, sB, hb, ?_, ?_, hlen, hge, hbytes, ?_⟩
  · rw [htr]; simp
  · intro e he
    rcases List.mem_cons.1 he with rfl | he
    · exact fun hc => hc
    · exact hpre e he
  · have hS := (PatchDetour.Apply_spec env hps w p hna).of_ok h
    exact hS.1

/-- C23, at the example: the detour of the function at `0x10000`. -/
theorem C23_target_frame_witness :
    ∃ pid pre buf instr_size sB,
      PatchDetour.Apply.build exEnv exDetour (exWorld.suspend pid, exDetour) =
        .ok instr_size sB ∧
      exWorldDetoured.trace = exWorld.trace ++ pre ++
        [Event.write exDetour.target_ buf, Event.flush exDetour.target_ instr_size,
         Event.resume pid] ∧
      (∀ e ∈ pre, ¬ e.WritesTo (PatchDetour.inTarget exEnv exDetour)) ∧
      buf.length = PatchDetour.jumpSize exEnv exDetour ∧
      PatchDetour.jumpSize exEnv exDetour ≤ instr_size ∧
      exWorldDetoured.bytesAt exDetour.target_ (PatchDetour.jumpSize exEnv exDetour) = buf ∧
      ∀ a, PatchDetour.mapped exEnv exWorld exDetour (pageOf exEnv a) = true →
        ¬ (exDetour.target_ ≤ a ∧
          a < exDetour.target_ + PatchDetour.jumpSize exEnv exDetour) →
        exWorldDetoured.mem a = exWorld.mem a :=
  C23_target_frame exEnv (by decide) exWorld exDetour rfl (by
    intro a ha
    have h1 : 65536 ≤ a ∧ a < 65541 := ha
    have h2 : pageOf exEnv a = 16 := by
      show a / 4096 = 16
      omega
    rw [h2]
    decide) (exWorldDetoured, exDetourApplied) (by rfl)

/-- C24. Stub-size cross-check (pages of at least 8 bytes).  `WriteJump` fails with
the stub-size error when the measured code size differs from the planned one, and
with the real-stub-size error when, for the near jump of the 64-bit configuration,
the relocated size differs from 5; `WriteCall` fails with the stub-size error on a
difference.  In each case the state is the one its planning part has left, in which
no byte on a page that held memory has changed.  When they return, the value
returned is the number of bytes stored at `address` by their last action. -/
theorem C24_stub_size_cross_check (env : Env) (hps : 8 ≤ env.pageSize)
    (address target : Nat) (fb : Bool) (s : World × PatchDetour) :
    (∀ r s1, PatchDetour.WriteJump.plan env address target fb s = .ok r s1 →
      (env.getCodeSize r.1 ≠ r.2.1 →
        PatchDetour.WriteJump env address target fb s = .fail .unexpectedStubSize s1) ∧
      (env.getCodeSize r.1 = r.2.1 → r.2.2 = true →
        (env.relocCode r.1 address).2 ≠ 5 →
        PatchDetour.WriteJump env address target fb s = .fail .unexpectedRealStubSize s1) ∧
      (r.2.2 = true ↔
        (env.arch = Arch.x64 ∧ PatchDetour.IsNear env address target = true)) ∧
      (∀ a, s.1.prot (pageOf env a) ≠ Prot.free → s1.1.mem a = s.1.mem a)) ∧
    (∀ r s1, PatchDetour.WriteCall.plan env address target s = .ok r s1 →
      (env.getCodeSize r.1 ≠ r.2 →
        PatchDetour.WriteCall env address target s = .fail .unexpectedStubSize s1) ∧
      (∀ a, s.1.prot (pageOf env a) ≠ Prot.free → s1.1.mem a = s.1.mem a)) ∧
    (∀ n s2, PatchDetour.WriteJump env address target fb s = .ok n s2 →
      ∃ (s1 : World × PatchDetour) (buf : List Nat), buf.length = n ∧ s2 = (s1.1.written address buf, s1.2) ∧
        ∀ a, s.1.prot (pageOf env a) ≠ Prot.free → s1.1.mem a = s.1.mem a) ∧
    (∀ n s2, PatchDetour.WriteCall env address target s = .ok n s2 →
      ∃ (s1 : World × PatchDetour) (buf : List Nat), buf.length = n ∧ s2 = (s1.1.written address buf, s1.2) ∧
        ∀ a, s.1.prot (pageOf env a) ≠ Prot.free → s1.1.mem a = s.1.mem a) := by
  have hI : Inv env (fun q => s.1.prot q ≠ Prot.free) (fun _ => False) s.1 s.2 s :=
    ⟨fun _ _ _ => rfl, fun _ h => h, rfl, rfl, rfl, rfl, rfl, rfl, rfl, rfl, rfl,
      [], (List.append_nil _).symm, fun _ h => nomatch h⟩
  have hroom : Room env (fun q => s.1.prot q ≠ Prot.free) (fun _ => False) 8 :=
    Room.of_pageSize hps
  have hj := PatchDetour.WriteJump.plan_frame hroom address target fb hI
  have hc := PatchDetour.WriteCall.plan_frame_call hroom address target hI
  refine ⟨?_, ?_, ?_, ?_⟩
  · intro r s1 hplan
    refine ⟨PatchDetour.WriteJump_size_mismatch env address target fb s s1 r hplan,
      PatchDetour.WriteJump_real_size_mismatch env address target fb s s1 r hplan,
      (PatchDetour.WriteJump.plan_asmjit env address target fb s).of_ok hplan, ?_⟩
    intro a ha
    exact (hj.of_ok hplan).1.mem a ha (fun hf => hf)
  · intro r s1 hplan
    refine ⟨PatchDetour.WriteCall_size_mismatch env address target s s1 r hplan, ?_⟩
    intro a ha
    exact (hc.of_ok hplan).mem a ha (fun hf => hf)
  · intro n s2 h
    obtain ⟨r, s1, hplan, -, -, hn, -, hs2⟩ :=
      PatchDetour.WriteJump_ok_inv env address target fb s s2 n h
    exact ⟨s1, _, hn.symm, hs2, fun a ha => (hj.of_ok hplan).1.mem a ha (fun hf => hf)⟩
  · intro n s2 h
    obtain ⟨r, s1, hplan, -, hn, -, hs2⟩ :=
      PatchDetour.WriteCall_ok_inv env address target s s2 n h
    exact ⟨s1, _, hn.symm, hs2, fun a ha => (hc.of_ok hplan).mem a ha (fun hf => hf)⟩

/-- C24, at the example: the near jump at `0x10000` is five bytes long, and with an
assembler that measures 7 bytes `WriteJump` fails and leaves the state as it was. -/
theorem C24_stub_size_cross_check_witness :
    (∃ (s1 : World × PatchDetour) (buf : List Nat), buf.length = 5 ∧
      (PatchDetour.WriteJump exEnv 0x10000 0x10800 false (exWorld, exDetour)).state =
        (s1.1.written 0x10000 buf, s1.2) ∧
      ∀ a, exWorld.prot (pageOf exEnv a) ≠ Prot.free → s1.1.mem a = exWorld.mem a) ∧
    PatchDetour.WriteJump exEnvMismatch 0x10000 0x10800 false (exWorld, exDetour) =
      .fail .unexpectedStubSize (exWorld, exDetour) :=
  ⟨(C24_stub_size_cross_check exEnv (by decide) 0x10000 0x10800 false
      (exWorld, exDetour)).2.2.1 5 _ rfl,
   ((C24_stub_size_cross_check exEnvMismatch (by decide) 0x10000 0x10800 false
      (exWorld, exDetour)).1 (Stub.jmp 0x10800, 0x13, true) (exWorld, exDetour) rfl).1
      (by decide)⟩

/-- C26. Fallback gating in `WriteJump` on the 64-bit configuration, when the target is
not near and `AllocatePageNear` finds no block: the call fails with the error for
the disabled fallback exactly when `push_ret_fallback` is false.  When it is true
the planning part returns the push/return stub, of planned size 6 when the upper 32
bits of the target are zero and 14 otherwise, and the call goes on as for any stub:
it fails on a measured size that differs or on a refused write, and otherwise stores
the stub and returns its size. -/
theorem C26_fallback_gating (env : Env) (h64 : env.arch = Arch.x64) (hps : 0 < env.pageSize)
    (address target : Nat) (s : World × PatchDetour)
    (hfar : PatchDetour.IsNear env address target = false)
    (hnone : (PatchDetour.AllocatePageNear env address s).isOk = false) :
    (∀ fb, (PatchDetour.WriteJump env address target fb s).error? =
        some Error.fallbackDisabled ↔ fb = false) ∧
    PatchDetour.WriteJump env address target false s = .fail .fallbackDisabled s ∧
    (∃ stub size, PatchDetour.WriteJump.plan env address target true s =
        .ok (stub, size, false) s ∧
      ((target % 2 ^ 64 / 2 ^ 32) % 2 ^ 32 = 0 →
        stub = Stub.pushRet (target % 2 ^ 64 % 2 ^ 32) ∧ size = 6) ∧
      ((target % 2 ^ 64 / 2 ^ 32) % 2 ^ 32 ≠ 0 →
        stub = Stub.pushMovRet (target % 2 ^ 64 % 2 ^ 32)
          ((target % 2 ^ 64 / 2 ^ 32) % 2 ^ 32) ∧ size = 14) ∧
      (env.getCodeSize stub ≠ size →
        PatchDetour.WriteJump env address target true s = .fail .unexpectedStubSize s) ∧
      (env.getCodeSize stub = size → s.1.canWriteRange env address size = false →
        PatchDetour.WriteJump env address target true s = .fail .writeFailure s) ∧
      (env.getCodeSize stub = size → s.1.canWriteRange env address size = true →
        PatchDetour.WriteJump env address target true s =
          .ok size (s.1.written address (fitBuf size (env.relocCode stub address).1), s.2))) := by
  have hfalse := PatchDetour.WriteJump_far_fail env h64 hps address target s hfar hnone
  have hplan := PatchDetour.WriteJump.plan_fallback env h64 hps address target s hfar hnone
  have hmain : ∃ stub size, PatchDetour.WriteJump.plan env address target true s =
        .ok (stub, size, false) s ∧
      ((target % 2 ^ 64 / 2 ^ 32) % 2 ^ 32 = 0 →
        stub = Stub.pushRet (target % 2 ^ 64 % 2 ^ 32) ∧ size = 6) ∧
      ((target % 2 ^ 64 / 2 ^ 32) % 2 ^ 32 ≠ 0 →
        stub = Stub.pushMovRet (target % 2 ^ 64 % 2 ^ 32)
          ((target % 2 ^ 64 / 2 ^ 32) % 2 ^ 32) ∧ size = 14) ∧
      (env.getCodeSize stub ≠ size →
        PatchDetour.WriteJump env address target true s = .fail .unexpectedStubSize s) ∧
      (env.getCodeSize stub = size → s.1.canWriteRange env address size = false →
        PatchDetour.WriteJump env address target true s = .fail .writeFailure s) ∧
      (env.getCodeSize stub = size → s.1.canWriteRange env address size = true →
        PatchDetour.WriteJump env address target true s =
          .ok size (s.1.written address (fitBuf size (env.relocCode stub address).1), s.2)) := by
    have hrun : ∀ stub size, PatchDetour.WriteJump.plan env address target true s =
          .ok (stub, size, false) s →
        (env.getCodeSize stub ≠ size →
          PatchDetour.WriteJump env address target true s = .fail .unexpectedStubSize s) ∧
        (env.getCodeSize stub = size → s.1.canWriteRange env address size = false →
          PatchDetour.WriteJump env address target true s = .fail .writeFailure s) ∧
        (env.getCodeSize stub = size → s.1.canWriteRange env address size = true →
          PatchDetour.WriteJump env address target true s =
            .ok size (s.1.written address (fitBuf size (env.relocCode stub address).1),
              s.2)) := by
      intro stub size hp
      refine ⟨PatchDetour.WriteJump_size_mismatch env address target true s s _ hp, ?_, ?_⟩
      · intro heq hc
        unfold PatchDetour.WriteJump
        simp only [Exec.bind_run, hp]
        rw [Exec.ite_run, if_neg (by simpa using heq), Exec.ite_run,
          if_neg (by simp)]
        simp only [Exec.bind_run, WriteVector_run2, fitBuf_length, heq, hc,
          Bool.false_eq_true, if_false]
      · intro heq hc
        unfold PatchDetour.WriteJump
        simp only [Exec.bind_run, hp]
        rw [Exec.ite_run, if_neg (by simpa using heq), Exec.ite_run,
          if_neg (by simp)]
        simp only [Exec.bind_run, WriteVector_run2, fitBuf_length, heq, hc, if_true,
          Exec.pure_run]
    by_cases hh : (target % 2 ^ 64 / 2 ^ 32) % 2 ^ 32 ≠ 0
    · rw [if_pos hh] at hplan
      exact ⟨_, _, hplan, fun h0 => (hh h0).elim, fun _ => ⟨rfl, rfl⟩, hrun _ _ hplan⟩
    · rw [if_neg hh] at hplan
      exact ⟨_, _, hplan, fun _ => ⟨rfl, rfl⟩, fun h0 => (hh h0).elim, hrun _ _ hplan⟩
  refine ⟨?_, hfalse, hmain⟩
  intro fb
  cases fb with
  | false => rw [hfalse]; simp [Res.error?]
  | true =>
    obtain ⟨stub, size, -, -, -, h1, h2, h3⟩ := hmain
    by_cases heq : env.getCodeSize stub = size
    · cases hc : s.1.canWriteRange env address size with
      | false => rw [h2 heq hc]; simp [Res.error?]
      | true => rw [h3 heq hc]; simp [Res.error?]
    · rw [h1 heq]; simp [Res.error?]

/-- C26, at the example: in the process without a free page the jump at `0x10000` to
a routine 8 GiB away fails without the fallback and is the 14-byte push/return stub
with it. -/
theorem C26_fallback_gating_witness :
    PatchDetour.WriteJump exEnv 0x10000 0x200000000 false (exWorldNoFree, exDetourFar) =
      .fail .fallbackDisabled (exWorldNoFree, exDetourFar) ∧
    ∃ stub, PatchDetour.WriteJump.plan exEnv 0x10000 0x200000000 true
      (exWorldNoFree, exDetourFar) = .ok (stub, 14, false) (exWorldNoFree, exDetourFar) := by
  have h := C26_fallback_gating exEnv rfl (by decide) 0x10000 0x200000000
    (exWorldNoFree, exDetourFar) (by decide)
    (PatchDetour.AllocatePageNear_full exEnv rfl (by decide) _ _ (fun k => by
      show Prot.readWrite ≠ Prot.free
      decide))
  obtain ⟨-, h1, stub, size, hp, -, hbig, -⟩ := h
  obtain ⟨-, rfl⟩ := hbig (by decide)
  exact ⟨h1, stub, hp⟩

/-- C27. The push/return stub does not reach every target: for the jump from
`0x200000000` to `0x80000000` in the example process without a free page, where the
target is not near, `WriteJump` with the fallback plans and stores the small stub
`PUSH 0x80000000; RET`, because the upper 32 bits of the target are zero; the
processor sign-extends the immediate, so the stub goes to `0xFFFFFFFF80000000`.  In
general the small stub goes to the low half sign-extended to 64 bits, which is the
low half only below `2^31`, and the big stub to the address made of the two halves. -/
theorem C27_push_ret_sign_extension :
    PatchDetour.IsNear exEnv 0x200000000 0x80000000 = false ∧
    PatchDetour.WriteJump.plan exEnv 0x200000000 0x80000000 true (exWorldNoFree, exDetourFar) =
      .ok (Stub.pushRet 0x80000000, 6, false) (exWorldNoFree, exDetourFar) ∧
    PatchDetour.WriteJump exEnv 0x200000000 0x80000000 true (exWorldNoFree, exDetourFar) =
      .ok 6 (exWorldNoFree.written 0x200000000 [0x68, 0, 0, 0, 0x80, 0xC3], exDetourFar) ∧
    (Stub.pushRet 0x80000000).destination = some 0xFFFFFFFF80000000 ∧
    (∀ low, (Stub.pushRet low).destination =
      some (if low % 2 ^ 32 < 2 ^ 31 then low % 2 ^ 32
        else low % 2 ^ 32 + 0xFFFFFFFF00000000)) ∧
    (∀ low high, (Stub.pushMovRet low high).destination =
      some (low % 2 ^ 32 + 2 ^ 32 * (high % 2 ^ 32))) := by
  have hplan : PatchDetour.WriteJump.plan exEnv 0x200000000 0x80000000 true
      (exWorldNoFree, exDetourFar) =
      .ok (Stub.pushRet 0x80000000, 6, false) (exWorldNoFree, exDetourFar) :=
    PatchDetour.WriteJump.plan_fallback exEnv rfl (by decide) 0x200000000 0x80000000
      (exWorldNoFree, exDetourFar) (by decide)
      (PatchDetour.AllocatePageNear_full exEnv rfl (by decide) _ _ (fun k => by
        show Prot.readWrite ≠ Prot.free
        decide))
  refine ⟨by decide, hplan, ?_, by decide, Stub.destination_pushRet,
    Stub.destination_pushMovRet⟩
  exact PatchDetour.WriteJump_plan_run exEnv _ _ true _ _ _ 6 hplan rfl (by decide)

/-- C28. The trampoline can outgrow its block: in the 64-bit example process whose only
free page becomes the trampoline, for the function at `0x300000000` that begins with
three `jmp rel8` and is detoured to a routine 2 KiB behind it, `Apply()` returns, and
it has rebuilt each of the three jumps and the jump back as a push/return stub of 14
bytes, since no jump target is near the trampoline and no page near it is free.  The
four writes store 56 bytes from the base `0x8000` of the block of `kTrampSize = 45`
bytes on; the last one covers `0x802A` to `0x8037`, and the flush of the trampoline
covers 45 bytes. -/
theorem C28_trampoline_overrun :
    (PatchDetour.Apply exEnvJumps (exWorldJumps, exDetourHigh)).isOk = true ∧
    (PatchDetour.Apply exEnvJumps (exWorldJumps, exDetourHigh)).state.1.trace =
      [Event.suspend 77, Event.alloc { base := 0x8000, size := 45 },
        Event.write 0x8000 [0x68, 0x12, 0, 0, 0, 0xC7, 0x44, 0x24, 4, 3, 0, 0, 0, 0xC3],
        Event.write 0x800E [0x68, 0x14, 0, 0, 0, 0xC7, 0x44, 0x24, 4, 3, 0, 0, 0, 0xC3],
        Event.write 0x801C [0x68, 0x16, 0, 0, 0, 0xC7, 0x44, 0x24, 4, 3, 0, 0, 0, 0xC3],
        Event.write 0x802A [0x68, 0x06, 0, 0, 0, 0xC7, 0x44, 0x24, 4, 3, 0, 0, 0, 0xC3],
        Event.flush 0x8000 45,
        Event.write 0x300000000 [0xE9, 0xFB, 0x07, 0, 0], Event.flush 0x300000000 6,
        Event.resume 77] ∧
    (PatchDetour.Apply exEnvJumps (exWorldJumps, exDetourHigh)).state.2.trampoline_ =
      some { base := 0x8000, size := PatchDetour.kTrampSize } ∧
    PatchDetour.kTrampSize = 45 ∧ 0x8000 + PatchDetour.kTrampSize < 0x802A + 14 := by
  have hA := PatchDetour.Apply_run_ok exEnvJumps exWorldJumps exDetourHigh 77 rfl rfl 6
    exJumps5 (PatchDetour.Apply.install exEnvJumps 77 exDetourHigh 6 exJumps5).state
    exWorldJumps_build rfl
  rw [hA]
  exact ⟨rfl, by decide, rfl, rfl, by decide⟩

/-- C29. Assuming the decoder returns lengths of at most 15 (and a page size that is
not zero), the decode loop of `Apply()`, run over the 45 bytes read at the target with
`jump_size` passes at its disposal, never runs out of passes and never takes an
instruction from behind the end of the buffer: it fails only by a C++ exception, or
returns after at most `jump_size` passes with `instr_size` the sum of the lengths
decoded, at most `jump_size - 1 + 15`, which is at most 20 and so within the 45 bytes
of the buffer. -/
theorem C29_decode_loop_bounded (env : Env) (p : PatchDetour) (hps : 0 < env.pageSize)
    (hlen : ∀ rest, (env.decode rest).len ≤ 15) (buffer : List Nat)
    (hbuf : buffer.length = PatchDetour.kTrampSize) (tramp_cur : Nat)
    (s : World × PatchDetour) :
    (PatchDetour.Apply.decodeLoop env p.target_ (PatchDetour.jumpSize env p)
        (PatchDetour.jumpSize env p) buffer tramp_cur 0).Ensures s
      (fun r _ => ∃ k, 0 < k ∧ k ≤ PatchDetour.jumpSize env p ∧
        r.2 = (PatchDetour.Apply.decodedLens env k buffer).sum ∧
        (∀ l ∈ PatchDetour.Apply.decodedLens env k buffer, 0 < l ∧ l ≤ 15) ∧
        r.2 ≤ PatchDetour.jumpSize env p - 1 + 15 ∧ r.2 ≤ buffer.length)
      (fun e _ => e ≠ Error.diverge ∧ e ≠ Error.undefinedBehaviour) ∧
    PatchDetour.jumpSize env p - 1 + 15 ≤ 20 ∧ 20 ≤ PatchDetour.kTrampSize := by
  have hjs := PatchDetour.jumpSize_le env p
  have hpos := PatchDetour.jumpSize_pos env p
  have hk : PatchDetour.kTrampSize = 45 := rfl
  refine ⟨?_, by omega, by decide⟩
  have hb := PatchDetour.Apply.decodeLoop_bounded env hps hlen p.target_
    (PatchDetour.jumpSize env p) (PatchDetour.jumpSize env p) buffer tramp_cur 0 s hpos
    (by omega) (by omega)
  unfold Exec.Ensures at hb ⊢
  cases hr : PatchDetour.Apply.decodeLoop env p.target_ (PatchDetour.jumpSize env p)
      (PatchDetour.jumpSize env p) buffer tramp_cur 0 s with
  | fail e s1 =>
    rw [hr] at hb
    simp only at hb ⊢
    constructor <;> rintro rfl <;> cases hb
  | ok r s1 =>
    rw [hr] at hb
    simp only at hb ⊢
    obtain ⟨k, hk0, hkf, hsum, hlpos, -, -⟩ := PatchDetour.Apply.decodeLoop_sum env p.target_
      (PatchDetour.jumpSize env p) (PatchDetour.jumpSize env p) buffer tramp_cur 0 s r s1 hpos hr
    refine ⟨k, hk0, hkf, by simpa using hsum, ?_, hb.2.1, by simpa using hb.2.2⟩
    intro l hl
    refine ⟨hlpos l hl, ?_⟩
    exact PatchDetour.Apply.decodedLens_le env 15 hlen k buffer l hl

/-- C29, at the example: two-byte instructions at `0x10000`, `jump_size = 5`; the loop
returns after three passes with `instr_size = 6`. -/
theorem C29_decode_loop_bounded_witness :
    (PatchDetour.Apply.decodeLoop exEnv exDetour.target_ (PatchDetour.jumpSize exEnv exDetour)
        (PatchDetour.jumpSize exEnv exDetour) (exWorld.bytesAt 0x10000 45) 0x8000 0
        (PatchDetour.Apply.newTrampoline exEnv (exWorld.suspend 77, exDetour)).state).isOk
      = true ∧
    (PatchDetour.Apply.decodeLoop exEnv exDetour.target_ (PatchDetour.jumpSize exEnv exDetour)
        (PatchDetour.jumpSize exEnv exDetour) (exWorld.bytesAt 0x10000 45) 0x8000 0).Ensures
      (PatchDetour.Apply.newTrampoline exEnv (exWorld.suspend 77, exDetour)).state
      (fun r _ => ∃ k, 0 < k ∧ k ≤ PatchDetour.jumpSize exEnv exDetour ∧
        r.2 = (PatchDetour.Apply.decodedLens exEnv k (exWorld.bytesAt 0x10000 45)).sum ∧
        (∀ l ∈ PatchDetour.Apply.decodedLens exEnv k (exWorld.bytesAt 0x10000 45),
          0 < l ∧ l ≤ 15) ∧
        r.2 ≤ PatchDetour.jumpSize exEnv exDetour - 1 + 15 ∧
        r.2 ≤ (exWorld.bytesAt 0x10000 45).length)
      (fun e _ => e ≠ Error.diverge ∧ e ≠ Error.undefinedBehaviour) :=
  ⟨by rfl,
   (C29_decode_loop_bounded exEnv exDetour (by decide)
      (by intro rest; cases rest <;> simp [exEnv, exDecode]) (exWorld.bytesAt 0x10000 45) (by rfl) 0x8000
      (PatchDetour.Apply.newTrampoline exEnv (exWorld.suspend 77, exDetour)).state).1⟩

/-- C30. For the part of the `Export` constructor that classifies the function RVA,
with all values taken as `DWORD`s and the end of the export directory computed as
`(start + size) mod 2^32`: an `Export` that was constructed is forwarded exactly when
`start < func_rva < end`; for a forwarded export the forwarder is the string read at
the RVA, `GetForwarderModule() + "." + GetForwarderFunction()` is `GetForwarder()` and
the function part holds no `.`; and the construction fails with "Invalid forwarder
string format." exactly when the RVA lies in that range and the string read there
holds no `.`. -/
theorem C30_forwarder_split (func_rva export_dir_start export_dir_size : Nat)
    (readString : Nat → Option (List Char)) (rvaToVa : Nat → Option (Nat × Bool)) :
    (∀ e, Export.new func_rva export_dir_start export_dir_size readString rvaToVa = .ok e →
      (e.IsForwarded = true ↔
        export_dir_start % 2 ^ 32 < func_rva % 2 ^ 32 ∧
        func_rva % 2 ^ 32 <
          (export_dir_start % 2 ^ 32 + export_dir_size % 2 ^ 32) % 2 ^ 32) ∧
      (e.IsForwarded = true →
        readString (func_rva % 2 ^ 32) = some e.GetForwarder ∧
        e.GetForwarderModule ++ '.' :: e.GetForwarderFunction = e.GetForwarder ∧
        '.' ∉ e.GetForwarderFunction)) ∧
    (Export.new func_rva export_dir_start export_dir_size readString rvaToVa =
        .error .invalidForwarderStringFormat ↔
      (export_dir_start % 2 ^ 32 < func_rva % 2 ^ 32 ∧
        func_rva % 2 ^ 32 <
          (export_dir_start % 2 ^ 32 + export_dir_size % 2 ^ 32) % 2 ^ 32) ∧
      ∃ forwarder, readString (func_rva % 2 ^ 32) = some forwarder ∧ '.' ∉ forwarder) := by
  unfold Export.new
  simp only [gt_iff_lt]
  by_cases hin : export_dir_start % 2 ^ 32 < func_rva % 2 ^ 32 ∧
      func_rva % 2 ^ 32 < (export_dir_start % 2 ^ 32 + export_dir_size % 2 ^ 32) % 2 ^ 32
  · rw [if_pos hin]
    cases hs : readString (func_rva % 2 ^ 32) with
    | none =>
      simp only
      refine ⟨(fun e he => by cases he), ?_⟩
      constructor
      · intro h; cases h
      · rintro ⟨-, fwd, hf, -⟩; cases hf
    | some fwd =>
      simp only
      cases hr : rfind fwd '.' with
      | none =>
        simp only
        refine ⟨(fun e he => by cases he), ?_⟩
        constructor
        · intro _
          exact ⟨hin, fwd, rfl, (rfind_eq_none_iff fwd '.').1 hr⟩
        · intro _; trivial
      | some i =>
        simp only
        obtain ⟨h1, h2⟩ := rfind_eq_some fwd '.' i hr
        refine ⟨?_, ?_⟩
        · intro e he
          simp only [Except.ok.injEq] at he
          subst he
          exact ⟨⟨fun _ => hin, fun _ => rfl⟩, fun _ => ⟨rfl, h1, h2⟩⟩
        · constructor
          · intro h; cases h
          · rintro ⟨-, fwd2, hf, hno⟩
            simp only [Option.some.injEq] at hf
            subst hf
            have := (rfind_eq_none_iff fwd '.').2 hno
            rw [hr] at this
            cases this
  · rw [if_neg hin]
    cases hv : rvaToVa (func_rva % 2 ^ 32) with
    | none =>
      simp only
      refine ⟨(fun e he => by cases he), ?_⟩
      constructor
      · intro h; cases h
      · rintro ⟨h, -⟩; exact (hin h).elim
    | some r =>
      obtain ⟨va, virt⟩ := r
      simp only
      refine ⟨?_, ?_⟩
      · intro e he
        simp only [Except.ok.injEq] at he
        subst he
        refine ⟨⟨(fun h => by cases h), fun h => (hin h).elim⟩, (fun h => by cases h)⟩
      · constructor
        · intro h; cases h
        · rintro ⟨h, -⟩; exact (hin h).elim

/-- C30, at the examples: an export directory at RVA `0x1000` of size `0x200`.  The
forwarder with two dots is split at the last one; the string without a dot is
refused; an RVA at the start of the directory or outside it is no forwarder. -/
theorem C30_forwarder_split_witness :
    (∃ e, Export.new 0x1120 0x1000 0x200 exStrings exRvaToVa = .ok e ∧
      e.IsForwarded = true ∧ e.GetForwarderModule = "api-ms-win.core".toList ∧
      e.GetForwarderFunction = "HeapAlloc".toList) ∧
    Export.new 0x1140 0x1000 0x200 exStrings exRvaToVa =
      .error .invalidForwarderStringFormat ∧
    (∃ e, Export.new 0x1000 0x1000 0x200 exStrings exRvaToVa = .ok e ∧
      e.IsForwarded = false) ∧
    ((Export.new 0x1140 0x1000 0x200 exStrings exRvaToVa =
        .error .invalidForwarderStringFormat) ↔
      (0x1000 % 2 ^ 32 < 0x1140 % 2 ^ 32 ∧
        0x1140 % 2 ^ 32 < (0x1000 % 2 ^ 32 + 0x200 % 2 ^ 32) % 2 ^ 32) ∧
      ∃ forwarder, exStrings (0x1140 % 2 ^ 32) = some forwarder ∧ '.' ∉ forwarder) :=
  ⟨⟨_, rfl, rfl, rfl, rfl⟩, rfl, ⟨_, rfl, rfl⟩,
   (C30_forwarder_split 0x1140 0x1000 0x200 exStrings exRvaToVa).2⟩
end hadesmem
